import Mathlib

/-!
# F17FS: a shallow embedding of `src/src/F17FS.c`

The file system keeps three stores (`struct F17FS`): the whole-block store of
65,536 blocks of 512 bytes, the inode store of 256 inodes and the in-memory
store of 256 file descriptors.  Each store is a bitmap together with its
payload.  Machine integers are natural numbers; the places where the C code
narrows a value to `uint8_t` or `uint16_t` carry an explicit `%`.

The block-store and bitmap libraries (`block_store.h`, `bitmap.h`) are not part
of the sources; the few primitives used by `F17FS.c` are modelled from the
specification, each one marked as such.

Two places where the model is narrower than the source.  `fs_format` and
`fs_mount` lay the inode bitmap and the inode table over blocks 0 and 1..32 of
the whole-block store (lines 113 and 164); the model keeps the inodes in a
store of their own, so a data write that lands in one of these blocks changes
inodes in the source and none in the model.  And a C object has an end: the
model follows a `strcpy` past the end of a 512-byte block only as bytes at
offsets from 512 on, which nothing reads.  Statements over all reachable states
are therefore statements about the model; the developments on the stale index
block and on the overrun of `fs_move` evaluate the calls that leave it.
-/

namespace F17

/-! ## Constants of `F17FS.c` -/

def BLOCK_STORE_NUM_BLOCKS : Nat := 65536
def BLOCK_SIZE_BYTES : Nat := 512
def DIRECT_BLOCKS : Nat := 6
def INDIRECT_BLOCKS : Nat := 256
def MAX_FILE_SIZE : Nat := 33688576

/-! ## Data model -/

/-- The `struct inode` of the source.  The `owner` field is never read or
written by `F17FS.c` and is left out.  `fileType` is the character code
(`'r'` is 114, `'d'` is 100). -/
structure inode where
  vacantFile : Nat
  fileType : Nat
  inodeNumber : Nat
  fileSize : Nat
  linkCount : Nat
  directPointer : Nat → Nat
  indirectPointer : Nat
  doubleIndirectPointer : Nat

/-- The `struct fileDescriptor` of the source. -/
structure fileDescriptor where
  inodeNum : Nat
  usage : Nat
  locate_order : Nat
  locate_offset : Nat
deriving DecidableEq, Repr

/-- A store: the free-block bitmap and the payload of every slot. -/
structure block_store (α : Type) where
  fbm : Nat → Bool
  data : Nat → α

/-- A block of the whole store: the byte at each offset `0..511`. -/
abbrev Block : Type := Nat → Nat

/-- The `struct F17FS` of the source: the three stores.  In the source the
inode store lies inside the block store, its bitmap in block 0 and its 256
inodes of 64 bytes in blocks 1..32 (lines 113 and 164); here it is a store of
its own, and byte `64 * k + j` of the inode region is byte `j` of inode `k`
only in the source. -/
structure F17FS where
  BlockStore_whole : block_store Block
  BlockStore_inode : block_store inode
  BlockStore_fd : block_store fileDescriptor

/-- Pointwise update of a store payload or bitmap. -/
def upd {α : Type} (f : Nat → α) (i : Nat) (v : α) : Nat → α :=
  fun j => if j = i then v else f j

/-- The character code of `'r'`. -/
def CH_r : Nat := 114
/-- The character code of `'d'`. -/
def CH_d : Nat := 100
/-- The character code of `'/'`. -/
def CH_slash : Nat := 47

/-- Modelled from the spec: the `seek_t` enumeration of the missing header
`F17FS.h`; `other` stands for any value that is none of the three. -/
inductive seek_t where
  | FS_SEEK_SET
  | FS_SEEK_CUR
  | FS_SEEK_END
  | other (v : Nat)
deriving DecidableEq, Repr

/-- Modelled from the spec: the `file_t` enumeration of the missing header
`F17FS.h`; `other` stands for any value that is neither of the two. -/
inductive file_t where
  | FS_REGULAR
  | FS_DIRECTORY
  | other (v : Nat)
deriving DecidableEq, Repr

/-! ## The collaborator stores, modelled from the specification -/

/-- Modelled from the spec: `bitmap_ffz` restricted to the first `n` bits,
searching upwards from bit `i`: the lowest clear bit, if there is one. -/
def ffzFrom (bm : Nat → Bool) : Nat → Nat → Option Nat
  | 0, _ => none
  | n + 1, i => if bm i then ffzFrom bm n (i + 1) else some i

/-- Modelled from the spec: `bitmap_ffz` over a bitmap of `n` bits. -/
def bitmap_ffz (bm : Nat → Bool) (n : Nat) : Option Nat := ffzFrom bm n 0

/-- Modelled from the spec: the number of clear bits among `i, i+1, .., i+n-1`. -/
def countFreeFrom (bm : Nat → Bool) : Nat → Nat → Nat
  | 0, _ => 0
  | n + 1, i => (if bm i then 0 else 1) + countFreeFrom bm n (i + 1)

/-- Modelled from the spec: `block_store_sub_test` of the inode and descriptor
stores (256 slots): the slot exists and its bit is set. -/
def block_store_sub_test {α : Type} (bs : block_store α) (id : Nat) : Bool :=
  decide (id < 256) && bs.fbm id

/-- Modelled from the spec: `block_store_sub_allocate`, the first free slot of a
256-slot store, marked used; `none` is the `SIZE_MAX` of the source. -/
def block_store_sub_allocate {α : Type} (bs : block_store α) :
    Option (Nat × block_store α) :=
  match bitmap_ffz bs.fbm 256 with
  | none => none
  | some i => some (i, { bs with fbm := upd bs.fbm i true })

/-- Modelled from the spec: `block_store_sub_release`, clearing the bit. -/
def block_store_sub_release {α : Type} (bs : block_store α) (id : Nat) :
    block_store α :=
  if id < 256 then { bs with fbm := upd bs.fbm id false } else bs

/-- Modelled from the spec: `block_store_get_used_blocks` of a 256-slot store,
the number of set bits. -/
def block_store_sub_used {α : Type} (bs : block_store α) : Nat :=
  256 - countFreeFrom bs.fbm 256 0

/-- Modelled from the spec: `block_store_inode_read` and `block_store_fd_read`;
`none` is the result `0` of the source (no such slot). -/
def block_store_sub_read {α : Type} (bs : block_store α) (id : Nat) : Option α :=
  if id < 256 then some (bs.data id) else none

/-- Modelled from the spec: `block_store_inode_write` and `block_store_fd_write`;
`none` is the result `0` of the source (no such slot). -/
def block_store_sub_write {α : Type} (bs : block_store α) (id : Nat) (v : α) :
    Option (block_store α) :=
  if id < 256 then some { bs with data := upd bs.data id v } else none

/-- Modelled from the spec: `block_store_test` of the whole store. -/
def block_store_test (bs : block_store Block) (id : Nat) : Bool :=
  decide (id < BLOCK_STORE_NUM_BLOCKS) && bs.fbm id

/-- Modelled from the spec: `block_store_get_free_blocks` of the whole store,
the number of clear bits of its bitmap. -/
def block_store_get_free_blocks (bs : block_store Block) : Nat :=
  countFreeFrom bs.fbm BLOCK_STORE_NUM_BLOCKS 0

/-- Modelled from the spec: `block_store_allocate`, first-free from the bitmap;
`none` is the `SIZE_MAX` of the source. -/
def block_store_allocate (bs : block_store Block) :
    Option (Nat × block_store Block) :=
  match bitmap_ffz bs.fbm BLOCK_STORE_NUM_BLOCKS with
  | none => none
  | some i => some (i, { bs with fbm := upd bs.fbm i true })

/-- Modelled from the spec: `block_store_release` of the whole store. -/
def block_store_release (bs : block_store Block) (id : Nat) : block_store Block :=
  if id < BLOCK_STORE_NUM_BLOCKS then { bs with fbm := upd bs.fbm id false } else bs

/-- Modelled from the spec: `block_store_read`, a full-block transfer; `none`
is the result `0` of the source. -/
def block_store_read (bs : block_store Block) (id : Nat) : Option Block :=
  if id < BLOCK_STORE_NUM_BLOCKS then some (bs.data id) else none

/-- Modelled from the spec: `block_store_write`, a full-block transfer; `none`
is the result `0` of the source. -/
def block_store_write (bs : block_store Block) (id : Nat) (b : Block) :
    Option (block_store Block) :=
  if id < BLOCK_STORE_NUM_BLOCKS then some { bs with data := upd bs.data id b } else none

/-- Modelled from the spec: `block_store_n_read`, the `n` bytes of block `id`
from `offset` on, with `offset + n ≤ 512`; `none` is the result `0` of the
source, which a transfer of no byte also yields. -/
def block_store_n_read (bs : block_store Block) (id offset n : Nat) :
    Option (List Nat) :=
  if id < BLOCK_STORE_NUM_BLOCKS ∧ offset + n ≤ BLOCK_SIZE_BYTES ∧ 0 < n then
    some ((List.range n).map (fun k => bs.data id (offset + k)))
  else none

/-- Modelled from the spec: `block_store_n_write`, storing the first `n` bytes
of `src` in block `id` from `offset` on, with `offset + n ≤ 512`; `none` is
the result `0` of the source, which a transfer of no byte also yields. -/
def block_store_n_write (bs : block_store Block) (id offset : Nat)
    (src : List Nat) (n : Nat) : Option (block_store Block) :=
  if id < BLOCK_STORE_NUM_BLOCKS ∧ offset + n ≤ BLOCK_SIZE_BYTES ∧ 0 < n then
    some { bs with data := upd bs.data id (fun j =>
      if offset ≤ j ∧ j < offset + n then src.getD (j - offset) 0 else bs.data id j) }
  else none

/-! ## Cursor arithmetic and `fs_seek` -/

/-- The `getFileSize` of the source: the byte position a descriptor denotes. -/
def getFileSize (fd_t : fileDescriptor) : Nat :=
  if fd_t.usage = 1 then 512 * fd_t.locate_order + fd_t.locate_offset
  else if fd_t.usage = 2 then 512 * (6 + fd_t.locate_order) + fd_t.locate_offset
  else 512 * (6 + 256 + fd_t.locate_order) + fd_t.locate_offset

/-- The conversion of a `size_t` to `ssize_t` (two's complement, 64 bits). -/
def toSsize (n : Nat) : Int :=
  if n % 2 ^ 64 < 2 ^ 63 then ((n % 2 ^ 64 : Nat) : Int)
  else ((n % 2 ^ 64 : Nat) : Int) - 2 ^ 64

/-- The narrowing of a signed value to `uint16_t`. -/
def toU16 (z : Int) : Nat := (z % 65536).toNat

/-- The value of a sum of two 64-bit signed integers (`ssize_t`, `off_t`) as the
two's-complement addition leaves it.  C leaves the overflow of a signed sum
undefined; the model takes the wrapped value. -/
def wrapS64 (z : Int) : Int := (z + 2 ^ 63) % 2 ^ 64 - 2 ^ 63

/-- The standardised offset of `fs_seek` (lines 965-991): the position from BOF
for a known `whence`, `none` for an unknown one.  The sums of lines 974-979 and
984-987 are sums of 64-bit signed values (`wrapS64`). -/
def seekStdOffset (currentOffset fileSize offset : Int) : seek_t → Option Int
  | .FS_SEEK_SET =>
      some (if offset < 0 then 0 else if offset > fileSize then fileSize else offset)
  | .FS_SEEK_CUR =>
      some (if 0 > wrapS64 (currentOffset + offset) then 0
            else if fileSize < wrapS64 (currentOffset + offset) then fileSize
            else wrapS64 (currentOffset + offset))
  | .FS_SEEK_END =>
      some (if offset > 0 then fileSize
            else if wrapS64 (offset + fileSize) < 0 then 0
            else wrapS64 (offset + fileSize))
  | .other _ => none

/-- The decomposition of a standardised offset into usage, order and offset
(lines 993-1005).  `ceil(1.0*stdOffset/512)` is `(stdOffset + 511) / 512` for
the non-negative offsets that reach this point. -/
def seekLocate (fd_t : fileDescriptor) (stdOffset : Int) : fileDescriptor :=
  if stdOffset / 512 ≥ 6 + 256 then
    { fd_t with usage := 4, locate_offset := toU16 (stdOffset % 512),
                locate_order := toU16 (stdOffset / 512 - (6 + 256)) }
  else if (stdOffset + 511) / 512 ≥ 6 then
    { fd_t with usage := 2, locate_offset := toU16 (stdOffset % 512),
                locate_order := toU16 (stdOffset / 512 - 6) }
  else
    { fd_t with usage := 1, locate_offset := toU16 (stdOffset % 512),
                locate_order := toU16 (stdOffset / 512) }

/-- The `fs_seek` of the source: the result and the file system afterwards. -/
def fs_seek (fs : F17FS) (fd : Int) (offset : Int) (whence : seek_t) : Int × F17FS :=
  if fd ≥ 0 ∧ block_store_sub_test fs.BlockStore_fd fd.toNat = true then
    match block_store_sub_read fs.BlockStore_fd fd.toNat with
    | none => (-2, fs)
    | some fd_t =>
      match block_store_sub_read fs.BlockStore_inode fd_t.inodeNum with
      | none => (-2, fs)
      | some fileInode =>
        let currentOffset : Int := toSsize (getFileSize fd_t)
        let fileSize : Int := toSsize fileInode.fileSize
        match seekStdOffset currentOffset fileSize offset whence with
        | none => (-4, fs)
        | some stdOffset =>
          match block_store_sub_write fs.BlockStore_fd fd.toNat (seekLocate fd_t stdOffset) with
          | some fdStore => (stdOffset, { fs with BlockStore_fd := fdStore })
          | none => (-3, fs)
  else (-1, fs)

/-! ## The block map: `get_data_block_id` -/

/-- An index table (`uint16_t table[256]`) read out of a block: entry `j` is the
little-endian 16-bit word at bytes `2j`, `2j+1`. -/
def tableOfBlock (b : Block) : Nat → Nat :=
  fun j => b (2 * j) % 256 + 256 * (b (2 * j + 1) % 256)

/-- The block image of an index table of 256 16-bit entries. -/
def blockOfTable (t : Nat → Nat) : Block :=
  fun o => if o < 512 then (if o % 2 = 0 then t (o / 2) % 256 else t (o / 2) / 256 % 256) else 0

/-- The table after `memset(table, 0x0000, 2*256)`. -/
def zeroTable : Nat → Nat := fun _ => 0

/-- The value a `uint16_t` slot receives from `block_store_allocate`, and the
store afterwards (`SIZE_MAX` narrows to 65535). -/
def alloc16 (bs : block_store Block) : Nat × block_store Block :=
  match block_store_allocate bs with
  | some (i, bs1) => (i % 65536, bs1)
  | none => (65535, bs)

/-- The direct tier of `get_data_block_id` (lines 555-569). -/
def gdb_direct (fs : F17FS) (inodeNum : Nat) (ino : inode) (order : Nat) : Nat × F17FS :=
  if ino.directPointer order = 0 then
    if 1 ≤ block_store_get_free_blocks fs.BlockStore_whole then
      let a := alloc16 fs.BlockStore_whole
      let ino1 := { ino with directPointer := upd ino.directPointer order a.1 }
      let fs1 := { fs with BlockStore_whole := a.2 }
      match block_store_sub_write fs1.BlockStore_inode inodeNum ino1 with
      | some st => (a.1, { fs1 with BlockStore_inode := st })
      | none => (0, fs1)
    else (0, fs)
  else if block_store_test fs.BlockStore_whole (ino.directPointer order) = true then
    (ino.directPointer order, fs)
  else (0, fs)

/-- The indirect tier of `get_data_block_id` (lines 570-600). -/
def gdb_indirect (fs : F17FS) (inodeNum : Nat) (ino : inode) (order : Nat) : Nat × F17FS :=
  if order = 0 ∧ ino.indirectPointer = 0 then
    if 2 ≤ block_store_get_free_blocks fs.BlockStore_whole then
      let a := alloc16 fs.BlockStore_whole
      let b := alloc16 a.2
      let ino1 := { ino with indirectPointer := a.1 }
      let table := upd zeroTable 0 b.1
      match block_store_write b.2 a.1 (blockOfTable table) with
      | none => (0, { fs with BlockStore_whole := b.2 })
      | some w =>
        match block_store_sub_write fs.BlockStore_inode inodeNum ino1 with
        | some st => (table 0, { fs with BlockStore_whole := w, BlockStore_inode := st })
        | none => (0, { fs with BlockStore_whole := w })
    else (0, fs)
  else if ino.indirectPointer ≠ 0 ∧
      block_store_test fs.BlockStore_whole ino.indirectPointer = true then
    match block_store_read fs.BlockStore_whole ino.indirectPointer with
    | none => (0, fs)
    | some blk =>
      let table := tableOfBlock blk
      if table order = 0 then
        if 1 ≤ block_store_get_free_blocks fs.BlockStore_whole then
          let a := alloc16 fs.BlockStore_whole
          let table1 := upd table order a.1
          match block_store_write a.2 ino.indirectPointer (blockOfTable table1) with
          | some w => (table1 order, { fs with BlockStore_whole := w })
          | none => (0, { fs with BlockStore_whole := a.2 })
        else (0, fs)
      else if block_store_test fs.BlockStore_whole (table order) = true then
        (table order, fs)
      else (0, fs)
  else (0, fs)

/-- The double-indirect tier of `get_data_block_id` (lines 601-658). -/
def gdb_double (fs : F17FS) (inodeNum : Nat) (ino : inode) (order : Nat) : Nat × F17FS :=
  if ino.doubleIndirectPointer = 0 then
    if 3 ≤ block_store_get_free_blocks fs.BlockStore_whole then
      let a := alloc16 fs.BlockStore_whole
      let b := alloc16 a.2
      let c := alloc16 b.2
      let ino1 := { ino with doubleIndirectPointer := a.1 }
      let outer := upd zeroTable 0 b.1
      let inner := upd zeroTable 0 c.1
      match block_store_write c.2 a.1 (blockOfTable outer) with
      | none => (0, { fs with BlockStore_whole := c.2 })
      | some w1 =>
        match block_store_write w1 (outer 0) (blockOfTable inner) with
        | none => (0, { fs with BlockStore_whole := w1 })
        | some w2 =>
          match block_store_sub_write fs.BlockStore_inode inodeNum ino1 with
          | some st => (inner 0, { fs with BlockStore_whole := w2, BlockStore_inode := st })
          | none => (0, { fs with BlockStore_whole := w2 })
    else (0, fs)
  else if block_store_test fs.BlockStore_whole ino.doubleIndirectPointer = true then
    match block_store_read fs.BlockStore_whole ino.doubleIndirectPointer with
    | none => (0, fs)
    | some oblk =>
      let outer := tableOfBlock oblk
      if outer (order / 256) = 0 then
        if 2 ≤ block_store_get_free_blocks fs.BlockStore_whole then
          let a := alloc16 fs.BlockStore_whole
          let b := alloc16 a.2
          let outer1 := upd outer (order / 256) a.1
          let inner := upd zeroTable (order % 256) b.1
          match block_store_write b.2 ino.doubleIndirectPointer (blockOfTable outer1) with
          | none => (0, { fs with BlockStore_whole := b.2 })
          | some w1 =>
            match block_store_write w1 (outer1 (order / 256)) (blockOfTable inner) with
            | some w2 => (inner (order % 256), { fs with BlockStore_whole := w2 })
            | none => (0, { fs with BlockStore_whole := w1 })
        else (0, fs)
      else if block_store_test fs.BlockStore_whole (outer (order / 256)) = true then
        match block_store_read fs.BlockStore_whole (outer (order / 256)) with
        | none => (0, fs)
        | some iblk =>
          let inner := tableOfBlock iblk
          if inner (order % 256) = 0 then
            if 1 ≤ block_store_get_free_blocks fs.BlockStore_whole then
              let a := alloc16 fs.BlockStore_whole
              let inner1 := upd inner (order % 256) a.1
              match block_store_write a.2 (outer (order / 256)) (blockOfTable inner1) with
              | some w => (inner1 (order % 256), { fs with BlockStore_whole := w })
              | none => (0, { fs with BlockStore_whole := a.2 })
            else (0, fs)
          else if block_store_test fs.BlockStore_whole (inner (order % 256)) = true then
            (inner (order % 256), fs)
          else (0, fs)
      else (0, fs)
  else (0, fs)

/-- The `get_data_block_id` of the source: the block holding the descriptor's
current logical block, allocated on demand; `0` on error. -/
def get_data_block_id (fs : F17FS) (fd_t : fileDescriptor) : Nat × F17FS :=
  match block_store_sub_read fs.BlockStore_inode fd_t.inodeNum with
  | none => (0, fs)
  | some ino =>
    if fd_t.usage = 1 then gdb_direct fs fd_t.inodeNum ino fd_t.locate_order
    else if fd_t.usage = 2 then gdb_indirect fs fd_t.inodeNum ino fd_t.locate_order
    else gdb_double fs fd_t.inodeNum ino fd_t.locate_order

/-! ## `fs_write` and `fs_read` -/

/-- The cursor after a block has been filled or read to its end (lines 725-737
and 1059-1070): offset 0 and the next order, with the promotion of `usage`. -/
def advanceCursor (fd_t : fileDescriptor) : fileDescriptor :=
  if fd_t.usage = 1 ∧ fd_t.locate_order = DIRECT_BLOCKS - 1 then
    { fd_t with locate_offset := 0, locate_order := 0, usage := 2 }
  else if fd_t.usage = 2 ∧ fd_t.locate_order = INDIRECT_BLOCKS - 1 then
    { fd_t with locate_offset := 0, locate_order := 0, usage := 4 }
  else
    { fd_t with locate_offset := 0, locate_order := (fd_t.locate_order + 1) % 65536 }

/-- The state of the transfer loops when they stop: an early `return` code if
there was one, the file system, the local descriptor `fd_t`, the byte count
(`writtenBytes`, `readBytes`) and the last value of the local `blockID` (`none`
when the loop body never ran). -/
structure LoopResult where
  err : Option Int
  fs : F17FS
  fd_t : fileDescriptor
  count : Nat
  blockID : Option Nat

/-- The `while` loop of `fs_write` (lines 709-753).  The first argument bounds
the number of iterations; `none` means that the bound was too small. -/
def writeLoop : Nat → F17FS → fileDescriptor → List Nat → Nat → Option Nat →
    Option LoopResult
  | fuel, fs, fd_t, src, writtenBytes, last =>
    if src.length - writtenBytes > 0 then
      match fuel with
      | 0 => none
      | fuel + 1 =>
        let g := get_data_block_id fs fd_t
        if 0 < g.1 then
          if fd_t.locate_offset + src.length - writtenBytes < BLOCK_SIZE_BYTES then
            match block_store_n_write g.2.BlockStore_whole g.1 fd_t.locate_offset
                (src.drop writtenBytes) (src.length - writtenBytes) with
            | some w =>
              some ⟨none, { g.2 with BlockStore_whole := w },
                { fd_t with locate_offset :=
                    (fd_t.locate_offset + (src.length - writtenBytes)) % 65536 },
                src.length, some g.1⟩
            | none => some ⟨some (-5), g.2, fd_t, writtenBytes, some g.1⟩
          else
            match block_store_n_write g.2.BlockStore_whole g.1 fd_t.locate_offset
                (src.drop writtenBytes) (BLOCK_SIZE_BYTES - fd_t.locate_offset) with
            | some w =>
              writeLoop fuel { g.2 with BlockStore_whole := w } (advanceCursor fd_t) src
                (writtenBytes + (BLOCK_SIZE_BYTES - fd_t.locate_offset)) (some g.1)
            | none => some ⟨some (-6), g.2, fd_t, writtenBytes, some g.1⟩
        else some ⟨none, g.2, fd_t, writtenBytes, some g.1⟩
    else some ⟨none, fs, fd_t, writtenBytes, last⟩

/-- The `fs_write` of the source, for a non-null buffer `src` of `nbyte =
src.length` bytes: the result and the file system afterwards.  The loop is given
`nbyte` iterations, which `writeLoop_total` shows to be enough. -/
def fs_write (fs : F17FS) (fd : Int) (src : List Nat) : Option (Int × F17FS) :=
  if fd < 0 ∨ block_store_sub_test fs.BlockStore_fd fd.toNat = false then some (-1, fs)
  else if src.length = 0 then some (0, fs)
  else
    match block_store_sub_read fs.BlockStore_fd fd.toNat with
    | none => some (-2, fs)
    | some fd_t =>
      let locSize := getFileSize fd_t
      match writeLoop src.length fs fd_t src 0 none with
      | none => none
      | some r =>
        match r.err with
        | some e => some (e, r.fs)
        | none =>
          let fileInode := r.fs.BlockStore_inode.data r.fd_t.inodeNum
          let fileInode1 :=
            if fileInode.fileSize < locSize + r.count then
              { fileInode with fileSize := locSize + r.count }
            else fileInode
          match block_store_sub_write r.fs.BlockStore_fd fd.toNat r.fd_t with
          | none => some (-8, r.fs)
          | some fdStore =>
            match block_store_sub_write r.fs.BlockStore_inode r.fd_t.inodeNum fileInode1 with
            | none => some (-8, { r.fs with BlockStore_fd := fdStore })
            | some inoStore =>
              some ((r.count : Int), { r.fs with BlockStore_fd := fdStore, BlockStore_inode := inoStore })

/-- The `while` loop of `fs_read` (lines 1044-1077); `count` of the result is
`readBytes` and `dst` collects the bytes stored in the caller's buffer. -/
def readLoop : Nat → F17FS → fileDescriptor → Nat → Nat → List Nat → Option Nat →
    Option (LoopResult × List Nat)
  | fuel, fs, fd_t, nbyte, readBytes, dst, last =>
    if nbyte - readBytes > 0 then
      match fuel with
      | 0 => none
      | fuel + 1 =>
        let g := get_data_block_id fs fd_t
        if g.1 > 0 then
          if fd_t.locate_offset + nbyte - readBytes < BLOCK_SIZE_BYTES then
            match block_store_n_read g.2.BlockStore_whole g.1 fd_t.locate_offset
                (nbyte - readBytes) with
            | some bytes =>
              readLoop fuel g.2
                { fd_t with locate_offset :=
                    (fd_t.locate_offset + nbyte - readBytes) % 65536 }
                nbyte nbyte (dst ++ bytes) (some g.1)
            | none => some (⟨some (-4), g.2, fd_t, readBytes, some g.1⟩, dst)
          else
            match block_store_n_read g.2.BlockStore_whole g.1 fd_t.locate_offset
                (BLOCK_SIZE_BYTES - fd_t.locate_offset) with
            | some bytes =>
              readLoop fuel g.2 (advanceCursor fd_t) nbyte
                (readBytes + (BLOCK_SIZE_BYTES - fd_t.locate_offset)) (dst ++ bytes) (some g.1)
            | none => some (⟨some (-5), g.2, fd_t, readBytes, some g.1⟩, dst)
        else some (⟨some (-3), g.2, fd_t, readBytes, some g.1⟩, dst)
    else some (⟨none, fs, fd_t, readBytes, last⟩, dst)

/-- The `fs_read` of the source, for a non-null buffer: the result, the bytes
stored at the start of `dst`, and the file system afterwards. -/
def fs_read (fs : F17FS) (fd : Int) (nbyte : Nat) : Option (Int × List Nat × F17FS) :=
  if fd ≥ 0 ∧ block_store_sub_test fs.BlockStore_fd fd.toNat = true then
    if nbyte ≠ 0 then
      match block_store_sub_read fs.BlockStore_fd fd.toNat with
      | none => some (-2, [], fs)
      | some fd_t =>
        match block_store_sub_read fs.BlockStore_inode fd_t.inodeNum with
        | none => some (-2, [], fs)
        | some fileInode =>
          let fileSize := fileInode.fileSize
          let currentOffset := getFileSize fd_t
          let leftBytes := (fileSize + 2 ^ 64 - currentOffset) % 2 ^ 64
          let nbyte1 := if nbyte > leftBytes then leftBytes else nbyte
          match readLoop nbyte1 fs fd_t nbyte1 0 [] none with
          | none => none
          | some (r, dst) =>
            match r.err with
            | some e => some (e, dst, r.fs)
            | none =>
              match block_store_sub_write r.fs.BlockStore_fd fd.toNat r.fd_t with
              | some fdStore => some ((r.count : Int), dst, { r.fs with BlockStore_fd := fdStore })
              | none => some (-6, dst, r.fs)
    else some (0, [], fs)
  else some (-1, [], fs)

/-! ## Paths and directories -/

/-- The tokens `strtok(path, "/")` yields one after the other: the maximal runs
of characters other than `'/'`.  The second argument is the run being read. -/
def strtokAll : List Nat → List Nat → List (List Nat)
  | [], cur => if cur = [] then [] else [cur]
  | c :: cs, cur =>
    if c = CH_slash then (if cur = [] then strtokAll cs [] else cur :: strtokAll cs [])
    else strtokAll cs (cur ++ [c])

/-- The tokens of `dirname(path)`: for a path that does not end in `'/'` these
are all tokens of the path but the last. -/
def dirTokens (path : List Nat) : List (List Nat) := (strtokAll path []).dropLast

/-- The string `basename(path)` for a path that does not end in `'/'`: its last
token. -/
def baseName (path : List Nat) : List Nat := ((strtokAll path []).getLast?).getD []

/-- The bytes of a C string: its characters, then zeros. -/
def cstr (s : List Nat) : Nat → Nat := fun i => s.getD i 0

/-- The result `strncmp(a + i, b + i, n) == 0`: the strings agree up to the first
NUL or for `n` characters. -/
def strncmpEq (a b : Nat → Nat) : Nat → Nat → Bool
  | 0, _ => true
  | n + 1, i => if a i ≠ b i then false else if a i = 0 then true else strncmpEq a b n (i + 1)

/-- The filename bytes of entry `k` of a directory block (`dentries[k].filename`). -/
def dentryName (blk : Block) (k : Nat) : Nat → Nat := fun i => blk (65 * k + i)

/-- The inode number of entry `k` of a directory block (a `uint8_t`). -/
def dentryInode (blk : Block) (k : Nat) : Nat := blk (65 * k + 64) % 256

/-- The directory block with entry `k` replaced by the 64 filename bytes `name`
and the inode number `ino` (narrowed to `uint8_t`). -/
def setDentry (blk : Block) (k : Nat) (name : Nat → Nat) (ino : Nat) : Block :=
  fun o =>
    if 65 * k ≤ o ∧ o < 65 * k + 64 then name (o - 65 * k)
    else if o = 65 * k + 64 then ino % 256
    else blk o

/-- The block `init_dirBlock` builds: seven zeroed entries and zero padding. -/
def init_dirBlock : Block := fun _ => 0

/-- Modelled from the spec: `bitmap_test` on the 8-bit overlay of `vacantFile`. -/
def bitmap_test (v : Nat) (j : Nat) : Bool := v.testBit j

/-- Modelled from the spec: `bitmap_set` on the 8-bit overlay of `vacantFile`. -/
def bitmap_set (v : Nat) (j : Nat) : Nat := v ||| (1 <<< j)

/-- Modelled from the spec: `bitmap_reset` on the 8-bit overlay of `vacantFile`. -/
def bitmap_reset (v : Nat) (j : Nat) : Nat := if v.testBit j then v - (1 <<< j) else v

/-- One step of `searchPath` (lines 210-240): from directory `iNum` to the
directory named `fn` in it; `none` is `SIZE_MAX`.  The scan of the seven
entries does not stop at a match: the last matching directory is taken. -/
def searchStep (fs : F17FS) (iNum : Nat) (fn : List Nat) : Option Nat :=
  match block_store_sub_read fs.BlockStore_inode iNum with
  | none => none
  | some dirInode =>
    if dirInode.fileType ≠ CH_d then none
    else
      match block_store_read fs.BlockStore_whole (dirInode.directPointer 0) with
      | none => none
      | some dirBlock =>
        (List.range 7).foldl (fun (acc : Option Nat) j =>
          if bitmap_test dirInode.vacantFile j = true ∧
              strncmpEq (dentryName dirBlock j) (cstr fn) fn.length 0 = true then
            match block_store_sub_read fs.BlockStore_inode (dentryInode dirBlock j) with
            | some nextInode =>
              if nextInode.fileType = CH_d then some nextInode.inodeNumber else acc
            | none => acc
          else acc) none

/-- The walk of `searchPath` over the tokens that remain, from directory `iNum`. -/
def searchFrom (fs : F17FS) : Nat → List (List Nat) → Option Nat
  | iNum, [] => some iNum
  | iNum, fn :: rest =>
    match searchStep fs iNum fn with
    | none => none
    | some next => searchFrom fs next rest

/-- The `searchPath` of the source, on the tokens of the directory path: the
inode number of the directory, `none` for `SIZE_MAX`. -/
def searchPath (fs : F17FS) (dirPath : List (List Nat)) : Option Nat :=
  searchFrom fs 0 dirPath

/-- The scan of `getFileInodeID` (lines 261-274) from entry `k` on, `n` entries
remaining: the inode number of the first live entry whose name matches. -/
def scanEntries (vacantFile : Nat) (blk : Block) (filename : List Nat) : Nat → Nat → Nat
  | 0, _ => 0
  | n + 1, k =>
    if bitmap_test vacantFile k = true ∧
        strncmpEq (dentryName blk k) (cstr filename) filename.length 0 = true then
      dentryInode blk k
    else scanEntries vacantFile blk filename n (k + 1)

/-- The `getFileInodeID` of the source: the inode number of `filename` in
directory `dirInodeID`, or `0`. -/
def getFileInodeID (fs : F17FS) (dirInodeID : Nat) (filename : List Nat) : Nat :=
  match block_store_sub_read fs.BlockStore_inode dirInodeID with
  | none => 0
  | some parentInode =>
    match block_store_read fs.BlockStore_whole (parentInode.directPointer 0) with
    | none => 0
    | some parentDir => scanEntries parentInode.vacantFile parentDir filename 7 0

/-- The bytes `strcpy(df.filename, baseFileName)` leaves in the uninitialised
`df.filename`: the name, a NUL, and whatever `junk` was there before. -/
def strcpyInto (junk : Nat → Nat) (s : List Nat) : Nat → Nat :=
  fun i => if i < s.length then s.getD i 0 else if i = s.length then 0 else junk i

/-- The second half of `fs_create` (lines 324-391), once the parent directory
`iNum` is known and the name is new. -/
def fs_create_at (fs : F17FS) (iNum : Nat) (baseFileName : List Nat) (fileType : Nat)
    (junk : inode) (junkName : Nat → Nat) : Int × F17FS :=
  match block_store_sub_read fs.BlockStore_inode iNum with
  | none => (-8, fs)
  | some parentInode =>
    match block_store_read fs.BlockStore_whole (parentInode.directPointer 0) with
    | none => (-8, fs)
    | some parentDir =>
      match bitmap_ffz (bitmap_test parentInode.vacantFile) 8 with
      | none => (-9, fs)
      | some available =>
        if available = 7 then (-9, fs)
        else
          let parentInode1 :=
            { parentInode with vacantFile := bitmap_set parentInode.vacantFile available }
          let al : Nat × block_store inode :=
            match block_store_sub_allocate fs.BlockStore_inode with
            | some r => r
            | none => (2 ^ 64 - 1, fs.BlockStore_inode)
          let newInodeID := al.1
          let fs1 := { fs with BlockStore_inode := al.2 }
          let made : Option (inode × block_store Block) :=
            if fileType = CH_d then
              match block_store_allocate fs1.BlockStore_whole with
              | none => none
              | some (directoryBlockPointer, w) =>
                let ptr := directoryBlockPointer % 65536
                some ({ junk with fileType := fileType, vacantFile := 0,
                                  directPointer := upd junk.directPointer 0 ptr,
                                  fileSize := BLOCK_SIZE_BYTES },
                      (block_store_write w ptr init_dirBlock).getD w)
            else
              some ({ junk with fileType := fileType, fileSize := 0,
                                directPointer := fun i => if i < 6 then 0 else junk.directPointer i,
                                indirectPointer := 0, doubleIndirectPointer := 0 },
                    fs1.BlockStore_whole)
          match made with
          | none => (-12, fs1)
          | some (newInode0, w) =>
            let newInode := { newInode0 with inodeNumber := newInodeID, linkCount := 1 }
            let st1 := (block_store_sub_write fs1.BlockStore_inode newInodeID newInode).getD
              fs1.BlockStore_inode
            let fs2 := { fs1 with BlockStore_whole := w, BlockStore_inode := st1 }
            match block_store_sub_write fs2.BlockStore_inode parentInode1.inodeNumber
                parentInode1 with
            | none => (-10, fs2)
            | some st2 =>
              let fs3 := { fs2 with BlockStore_inode := st2 }
              let parentDir1 :=
                setDentry parentDir available (strcpyInto junkName baseFileName) newInodeID
              match block_store_write fs3.BlockStore_whole (parentInode1.directPointer 0)
                  parentDir1 with
              | none => (-11, fs3)
              | some w2 => (0, { fs3 with BlockStore_whole := w2 })

/-- The `fs_create` of the source, for a non-null path: the result and the file
system afterwards.  `junk` and `junkName` are the indeterminate initial contents
of the locals `newInode` and `df.filename`, which the source does not
initialise. -/
def fs_create (fs : F17FS) (path : List Nat) (type : file_t)
    (junk : inode) (junkName : Nat → Nat) : Int × F17FS :=
  if (type ≠ file_t.FS_REGULAR ∧ type ≠ file_t.FS_DIRECTORY) ∨ path.length ≤ 1 then (-1, fs)
  else if block_store_sub_used fs.BlockStore_inode ≥ 256 then (-2, fs)
  else if path.head? ≠ some CH_slash then (-3, fs)
  else if path.getLast? = some CH_slash then (-4, fs)
  else if (baseName path).length ≥ 64 then (-5, fs)
  else
    let fileType := if type = file_t.FS_DIRECTORY then CH_d else CH_r
    match searchPath fs (dirTokens path) with
    | none => (-6, fs)
    | some iNum =>
      if getFileInodeID fs iNum (baseName path) ≠ 0 then (-7, fs)
      else fs_create_at fs iNum (baseName path) fileType junk junkName

end F17


/-! ## `fs_open` and `fs_close` -/

namespace F17

/-- The `fs_open` of the source, for a non-null path: the result (the index of
the descriptor, or a negative code) and the file system afterwards.  When the
descriptor store has no free slot `block_store_sub_allocate` yields `SIZE_MAX`,
and the write of the descriptor fails. -/
def fs_open (fs : F17FS) (path : List Nat) : Int × F17FS :=
  if path.length ≤ 1 then (-1, fs)
  else if path.head? ≠ some CH_slash then (-2, fs)
  else if path.getLast? = some CH_slash then (-3, fs)
  else if (baseName path).length ≥ 64 then (-4, fs)
  else
    match searchPath fs (dirTokens path) with
    | none => (-5, fs)
    | some dirInodeID =>
      let fileInodeID := getFileInodeID fs dirInodeID (baseName path)
      if fileInodeID = 0 then (-6, fs)
      else
        match block_store_sub_read fs.BlockStore_inode fileInodeID with
        | none => (-7, fs)
        | some fileInode =>
          if fileInode.fileType = CH_d then (-8, fs)
          else
            let al : Nat × block_store fileDescriptor :=
              match block_store_sub_allocate fs.BlockStore_fd with
              | some r => r
              | none => (2 ^ 64 - 1, fs.BlockStore_fd)
            let fd_t : fileDescriptor :=
              { inodeNum := fileInodeID % 256, usage := 1, locate_order := 0, locate_offset := 0 }
            match block_store_sub_write al.2 al.1 fd_t with
            | none => (-9, { fs with BlockStore_fd := al.2 })
            | some st => ((al.1 : Int), { fs with BlockStore_fd := st })

/-- The `fs_close` of the source: the result and the file system afterwards. -/
def fs_close (fs : F17FS) (fd : Int) : Int × F17FS :=
  if fd < 0 then (-1, fs)
  else if block_store_sub_test fs.BlockStore_fd fd.toNat = false then (-2, fs)
  else (0, { fs with BlockStore_fd := block_store_sub_release fs.BlockStore_fd fd.toNat })

/-! ## `fs_remove` -/

/-- Modelled from the spec: the constant `FS_FNAME_MAX` of the missing header
`F17FS.h`, the 64 bytes of a filename. -/
def FS_FNAME_MAX : Nat := 64

/-- Modelled from the spec: `basename` of `libgen.h` for a path that starts with
`'/'`: its last token, or `"/"` when the path has no token.  (`dirname` of such
a path has the tokens `dirTokens`: all but the last.) -/
def basename (path : List Nat) : List Nat :=
  match (strtokAll path []).getLast? with
  | some t => t
  | none => [CH_slash]

/-- The loop of `fs_remove` over the parent's entries when a directory is removed
(lines 818-827), from entry `m` on, `n` entries remaining: the first live entry
whose 64 name bytes compare equal to `baseFileName` has its name and inode
number zeroed and its bit reset. -/
def clearDirEntry (baseFileName : List Nat) : Nat → Nat → Nat → Block → Nat × Block
  | 0, _, v, blk => (v, blk)
  | n + 1, m, v, blk =>
    if bitmap_test v m = true ∧
        strncmpEq (dentryName blk m) (cstr baseFileName) FS_FNAME_MAX 0 = true then
      (bitmap_reset v m,
        fun o => if 65 * m ≤ o ∧ o < 65 * m + FS_FNAME_MAX then 0
                 else if o = 65 * m + 64 then 0 else blk o)
    else clearDirEntry baseFileName n (m + 1) v blk

/-- The loop of `fs_remove` over the parent's entries when a regular file is
removed (lines 922-931): the first live entry whose 64 name bytes compare equal
to `baseFileName` has its bit reset and its inode number zeroed.  The name
stays: line 926 calls `strncmp`, which writes nothing. -/
def clearFileEntry (baseFileName : List Nat) : Nat → Nat → Nat → Block → Nat × Block
  | 0, _, v, blk => (v, blk)
  | n + 1, m, v, blk =>
    if bitmap_test v m = true ∧
        strncmpEq (dentryName blk m) (cstr baseFileName) FS_FNAME_MAX 0 = true then
      (bitmap_reset v m, fun o => if o = 65 * m + 64 then 0 else blk o)
    else clearFileEntry baseFileName n (m + 1) v blk

/-- The test and release of one pointer (lines 859-861, 868-870, 886-888): a
non-zero pointer whose block is marked is released. -/
def releaseIf (bs : block_store Block) (p : Nat) : block_store Block :=
  if p ≠ 0 ∧ block_store_test bs p = true then block_store_release bs p else bs

/-- A loop of `fs_remove` over the entries `j, j+1, ..` of a pointer table, `n`
entries remaining (lines 857-862, 867-871, 885-889). -/
def releaseEntries (table : Nat → Nat) : Nat → Nat → block_store Block → block_store Block
  | 0, _, bs => bs
  | n + 1, j, bs => releaseEntries table n (j + 1) (releaseIf bs (table j))

/-- The loop of `fs_remove` over the outer index table (lines 881-894), from
entry `j` on: for every marked inner index block its entries are released, then
the block itself.  The flag is `false` when a read failed (`return -10`); the
store is the one reached then. -/
def releaseOuter (outer : Nat → Nat) : Nat → Nat → block_store Block →
    Bool × block_store Block
  | 0, _, bs => (true, bs)
  | n + 1, j, bs =>
    if outer j ≠ 0 ∧ block_store_test bs (outer j) = true then
      match block_store_read bs (outer j) with
      | some innerBlk =>
        releaseOuter outer n (j + 1)
          (block_store_release (releaseEntries (tableOfBlock innerBlk) 256 0 bs) (outer j))
      | none => (false, bs)
    else releaseOuter outer n (j + 1) bs

/-- The lowest set bit among `i, i+1, .., i+n-1` of a bitmap: the first
descriptor the loop of lines 899-909 finds allocated. -/
def firstSetFrom (bm : Nat → Bool) : Nat → Nat → Option Nat
  | 0, _ => none
  | n + 1, i => if bm i then some i else firstSetFrom bm n (i + 1)

/-- The end of `fs_remove` for a regular file (lines 913-938): the entry is
taken out of the parent directory, and the block and the inode of the parent
are written back.  `junk` and `junkBlk` are the indeterminate contents of the
locals `dirInode` and `db_t`, which stay when the unchecked reads fail. -/
def fs_remove_tail (fs : F17FS) (dirInodeID : Nat) (baseFileName : List Nat)
    (junk : inode) (junkBlk : Block) : Int × F17FS :=
  let dirInode := (block_store_sub_read fs.BlockStore_inode dirInodeID).getD junk
  let db_t := (block_store_read fs.BlockStore_whole (dirInode.directPointer 0)).getD junkBlk
  let c := clearFileEntry baseFileName 7 0 dirInode.vacantFile db_t
  match block_store_write fs.BlockStore_whole (dirInode.directPointer 0) c.2 with
  | none => (-12, fs)
  | some w =>
    match block_store_sub_write fs.BlockStore_inode dirInodeID
        { dirInode with vacantFile := c.1 } with
    | none => (-12, { fs with BlockStore_whole := w })
    | some st => (0, { fs with BlockStore_whole := w, BlockStore_inode := st })

/-- The removal of a directory by `fs_remove` (lines 805-847). -/
def fs_remove_dir (fs : F17FS) (dirInodeID fileInodeID : Nat) (fileInode : inode)
    (baseFileName : List Nat) (junk : inode) (junkBlk : Block) : Int × F17FS :=
  if fileInode.vacantFile = 0 ∨ fileInode.linkCount > 1 then
    let dirInode := (block_store_sub_read fs.BlockStore_inode dirInodeID).getD junk
    let db_t := (block_store_read fs.BlockStore_whole (dirInode.directPointer 0)).getD junkBlk
    let c := clearDirEntry baseFileName 7 0 dirInode.vacantFile db_t
    let st1 := (block_store_sub_write fs.BlockStore_inode dirInodeID
      { dirInode with vacantFile := c.1 }).getD fs.BlockStore_inode
    let w1 := (block_store_write fs.BlockStore_whole (dirInode.directPointer 0) c.2).getD
      fs.BlockStore_whole
    if fileInode.linkCount ≤ 1 then
      (0, { fs with BlockStore_whole := block_store_release w1 (fileInode.directPointer 0),
                    BlockStore_inode := block_store_sub_release st1 fileInodeID })
    else
      match block_store_sub_write st1 fileInodeID
          { fileInode with linkCount := fileInode.linkCount - 1 } with
      | some st2 => (0, { fs with BlockStore_whole := w1, BlockStore_inode := st2 })
      | none => (-8, { fs with BlockStore_whole := w1, BlockStore_inode := st1 })
  else (-5, fs)

/-- The release of the blocks of a regular file by `fs_remove` (lines 856-897):
the direct pointers, the indirect index with its entries, the double-indirect
index with its inner indices and their entries.  A failed read ends the call
with its code and the store reached then. -/
def fs_remove_blocks (bs : block_store Block) (fileInode : inode) :
    Except (Int × block_store Block) (block_store Block) :=
  let w1 := releaseEntries fileInode.directPointer 6 0 bs
  let r2 : Except (Int × block_store Block) (block_store Block) :=
    if fileInode.indirectPointer ≠ 0 ∧
        block_store_test w1 fileInode.indirectPointer = true then
      match block_store_read w1 fileInode.indirectPointer with
      | some indexBlk =>
        .ok (block_store_release (releaseEntries (tableOfBlock indexBlk) 256 0 w1)
          fileInode.indirectPointer)
      | none => .error (-11, w1)
    else .ok w1
  match r2 with
  | .error e => .error e
  | .ok w2 =>
    if fileInode.doubleIndirectPointer ≠ 0 ∧
        block_store_test w2 fileInode.doubleIndirectPointer = true then
      match block_store_read w2 fileInode.doubleIndirectPointer with
      | some outerBlk =>
        let r := releaseOuter (tableOfBlock outerBlk) 256 0 w2
        if r.1 = true then .ok (block_store_release r.2 fileInode.doubleIndirectPointer)
        else .error (-10, r.2)
      | none => .error (-9, w2)
    else .ok w2

/-- The removal of a regular file by `fs_remove` (lines 848-939).  With more
than one link only the link count drops.  Otherwise the blocks are released;
then the loop over the descriptors returns `-7` at the first allocated
descriptor it meets, after closing it when it is on the file (lines 899-909);
only when no descriptor is allocated is the inode released and the entry taken
out of the parent directory. -/
def fs_remove_file (fs : F17FS) (dirInodeID fileInodeID : Nat) (fileInode : inode)
    (baseFileName : List Nat) (junk : inode) (junkBlk : Block) : Int × F17FS :=
  if fileInode.linkCount > 1 then
    match block_store_sub_write fs.BlockStore_inode fileInodeID
        { fileInode with linkCount := fileInode.linkCount - 1 } with
    | none => (-11, fs)
    | some st =>
      fs_remove_tail { fs with BlockStore_inode := st } dirInodeID baseFileName junk junkBlk
  else
    match fs_remove_blocks fs.BlockStore_whole fileInode with
    | .error e => (e.1, { fs with BlockStore_whole := e.2 })
    | .ok w =>
      let fs1 := { fs with BlockStore_whole := w }
      match firstSetFrom fs1.BlockStore_fd.fbm 256 0 with
      | some fd_count =>
        let fd_t := fs1.BlockStore_fd.data fd_count
        if fd_t.inodeNum = fileInodeID then (-7, (fs_close fs1 fd_count).2)
        else (-7, fs1)
      | none =>
        fs_remove_tail
          { fs1 with BlockStore_inode :=
              block_store_sub_release fs1.BlockStore_inode fileInodeID }
          dirInodeID baseFileName junk junkBlk

/-- The `fs_remove` of the source, for a non-null path: the result and the file
system afterwards.  `junk` and `junkBlk` are the indeterminate contents of the
locals that the source fills by reads whose result it does not check. -/
def fs_remove (fs : F17FS) (path : List Nat) (junk : inode) (junkBlk : Block) :
    Int × F17FS :=
  if path.length = 0 then (-1, fs)
  else if path.head? ≠ some CH_slash then (-2, fs)
  else
    match searchPath fs (dirTokens path) with
    | none => (-3, fs)
    | some dirInodeID =>
      if basename path = [CH_slash] ∧ dirTokens path = [] then (-4, fs)
      else
        let fileInodeID := getFileInodeID fs dirInodeID (basename path)
        if fileInodeID = 0 then (-4, fs)
        else
          let fileInode :=
            (block_store_sub_read fs.BlockStore_inode fileInodeID).getD junk
          if fileInode.fileType = CH_d then
            fs_remove_dir fs dirInodeID fileInodeID fileInode (basename path) junk junkBlk
          else if fileInode.fileType = CH_r then
            fs_remove_file fs dirInodeID fileInodeID fileInode (basename path) junk junkBlk
          else (-6, fs)

/-! ## `fs_move` and `fs_link` -/

/-- The result `strcmp(a, s) == 0` for the string `s`: the bytes of `a` are those
of `s` and end where `s` ends. -/
def strcmpEq (a : Nat → Nat) (s : List Nat) : Bool := strncmpEq a (cstr s) (s.length + 1) 0

/-- The bytes `strcpy(dentries[i].filename, s)` stores, from the address of the
local copy of the directory block: the characters of `s` and a NUL from the
start of entry `i` on.  A name of 64 or more characters runs over the inode
number of the entry and the entries behind it.  A name with
`65 * i + len(s) >= 512` does not fit into the rest of the block: the offsets
512 and up of the result are the bytes stored past the end of the local
variable, where C leaves the behaviour undefined.  The model records them and
goes on as if the variables behind the block were untouched; it reads no
offset above 511 of a block, so what it says of a call with such a name is the
return value and the bytes stored, not what the source does afterwards. -/
def strcpyEntry (blk : Block) (i : Nat) (s : List Nat) : Block :=
  fun o =>
    if 65 * i ≤ o ∧ o < 65 * i + s.length then s.getD (o - 65 * i) 0
    else if o = 65 * i + s.length then 0
    else blk o

/-- The block after `dentries[i].inodeNumber = ino` (a `uint8_t`). -/
def setDentryInode (blk : Block) (i : Nat) (ino : Nat) : Block :=
  fun o => if o = 65 * i + 64 then ino % 256 else blk o

/-- The block after `memset(dentries[j].filename, 0, FS_FNAME_MAX)` and
`dentries[j].inodeNumber = 0`. -/
def zeroDentry (blk : Block) (j : Nat) : Block :=
  fun o => if 65 * j ≤ o ∧ o < 65 * j + FS_FNAME_MAX then 0
           else if o = 65 * j + 64 then 0 else blk o

/-- The loop of `fs_move` for a rename inside one directory (lines 1138-1147),
from entry `i` on: the first entry with the inode number and the name of the
source gets the new name, and the block is written; `none` is `return -6`.  The
loop does not look at the occupancy bits. -/
def renameLoop (bs : block_store Block) (blkId src_inodeID : Nat)
    (src_base dst_base : List Nat) : Nat → Nat → Block → Option (block_store Block)
  | 0, _, _ => none
  | n + 1, i, blk =>
    if dentryInode blk i = src_inodeID ∧ strcmpEq (dentryName blk i) src_base = true then
      match block_store_write bs blkId (strcpyEntry blk i dst_base) with
      | some w => some w
      | none => renameLoop bs blkId src_inodeID src_base dst_base n (i + 1)
          (strcpyEntry blk i dst_base)
    else renameLoop bs blkId src_inodeID src_base dst_base n (i + 1) blk

/-- The first entry from `j` on whose inode number is `ino` (the inner loop of
lines 1173-1175, which looks neither at the name nor at the occupancy bit). -/
def firstEntryOf (blk : Block) (ino : Nat) : Nat → Nat → Option Nat
  | 0, _ => none
  | n + 1, j => if dentryInode blk j = ino then some j else firstEntryOf blk ino n (j + 1)

/-- The loop of `fs_move` between two directories (lines 1166-1198), from slot
`i` of the destination on.  At the first free slot the new entry is set, the
first entry of the source directory with the inode number of the source is
cleared, and both blocks and both inodes are written.  When the source block
has no such entry the loop goes on with the slot taken in the local copies. -/
def moveLoop (fs : F17FS) (src_parentDirInodeID dst_parentDirInodeID src_inodeID : Nat)
    (dst_base : List Nat) (src_parentDirInode : inode) (src_parentDirBlock : Block) :
    Nat → Nat → inode → Block → Int × F17FS
  | 0, _, _, _ => (-9, fs)
  | n + 1, i, dst_parentDirInode, dst_parentDirBlock =>
    if bitmap_test dst_parentDirInode.vacantFile i = false then
      let dstInode1 :=
        { dst_parentDirInode with vacantFile := bitmap_set dst_parentDirInode.vacantFile i }
      let dstBlock1 := setDentryInode (strcpyEntry dst_parentDirBlock i dst_base) i src_inodeID
      match firstEntryOf src_parentDirBlock src_inodeID 7 0 with
      | some j =>
        let srcInode1 :=
          { src_parentDirInode with vacantFile := bitmap_reset src_parentDirInode.vacantFile j }
        let srcBlock1 := zeroDentry src_parentDirBlock j
        match block_store_write fs.BlockStore_whole (dstInode1.directPointer 0) dstBlock1 with
        | none => (-10, fs)
        | some w1 =>
          match block_store_write w1 (srcInode1.directPointer 0) srcBlock1 with
          | none => (-10, { fs with BlockStore_whole := w1 })
          | some w2 =>
            match block_store_sub_write fs.BlockStore_inode dst_parentDirInodeID dstInode1 with
            | none => (-10, { fs with BlockStore_whole := w2 })
            | some st1 =>
              match block_store_sub_write st1 src_parentDirInodeID srcInode1 with
              | none => (-10, { fs with BlockStore_whole := w2, BlockStore_inode := st1 })
              | some st2 => (0, { fs with BlockStore_whole := w2, BlockStore_inode := st2 })
      | none =>
        moveLoop fs src_parentDirInodeID dst_parentDirInodeID src_inodeID dst_base
          src_parentDirInode src_parentDirBlock n (i + 1) dstInode1 dstBlock1
    else
      moveLoop fs src_parentDirInodeID dst_parentDirInodeID src_inodeID dst_base
        src_parentDirInode src_parentDirBlock n (i + 1) dst_parentDirInode dst_parentDirBlock

/-- The `fs_move` of the source, for non-null paths: the result and the file
system afterwards. -/
def fs_move (fs : F17FS) (src dst : List Nat) : Int × F17FS :=
  if src ≠ [CH_slash] ∧ dst ≠ [CH_slash] ∧ src.head? = some CH_slash ∧
      dst.head? = some CH_slash then
    match searchPath fs (dirTokens src), searchPath fs (dirTokens dst) with
    | some src_parentDirInodeID, some dst_parentDirInodeID =>
      if src.length < dst.length ∧ src <+: dst then (-3, fs)
      else
        let src_inodeID := getFileInodeID fs src_parentDirInodeID (basename src)
        let dst_inodeID := getFileInodeID fs dst_parentDirInodeID (basename dst)
        if src_inodeID ≠ 0 ∧ dst_inodeID = 0 then
          if src_parentDirInodeID = dst_parentDirInodeID then
            match block_store_sub_read fs.BlockStore_inode src_parentDirInodeID with
            | none => (-5, fs)
            | some src_parentDirInode =>
              match block_store_read fs.BlockStore_whole
                  (src_parentDirInode.directPointer 0) with
              | none => (-5, fs)
              | some src_parentDirBlock =>
                match renameLoop fs.BlockStore_whole (src_parentDirInode.directPointer 0)
                    src_inodeID (basename src) (basename dst) 7 0 src_parentDirBlock with
                | some w => (0, { fs with BlockStore_whole := w })
                | none => (-6, fs)
          else
            match block_store_sub_read fs.BlockStore_inode dst_parentDirInodeID with
            | none => (-7, fs)
            | some dst_parentDirInode =>
              match block_store_read fs.BlockStore_whole
                  (dst_parentDirInode.directPointer 0) with
              | none => (-7, fs)
              | some dst_parentDirBlock =>
                match block_store_sub_read fs.BlockStore_inode src_parentDirInodeID with
                | none => (-7, fs)
                | some src_parentDirInode =>
                  match block_store_read fs.BlockStore_whole
                      (src_parentDirInode.directPointer 0) with
                  | none => (-7, fs)
                  | some src_parentDirBlock =>
                    moveLoop fs src_parentDirInodeID dst_parentDirInodeID src_inodeID
                      (basename dst) src_parentDirInode src_parentDirBlock 7 0
                      dst_parentDirInode dst_parentDirBlock
        else (-4, fs)
    | _, _ => (-3, fs)
  else (-2, fs)

/-- The block after `strncpy(dentries[i].filename, s, FS_FNAME_MAX)`: the first
64 characters of `s`, padded with NUL. -/
def strncpyEntry (blk : Block) (i : Nat) (s : List Nat) : Block :=
  fun o => if 65 * i ≤ o ∧ o < 65 * i + FS_FNAME_MAX then s.getD (o - 65 * i) 0 else blk o

/-- The loop of `fs_link` over the slots of the destination directory (lines
1259-1284), from slot `i` on: at the first free slot the entry is set, the link
count of the source goes up by one (also in the copy of the destination
directory when that is the source itself), and the source inode, the directory
inode and the directory block are written, in this order. -/
def linkLoop (fs : F17FS) (src_inodeID dst_parentDirInodeID : Nat) (dst_base : List Nat)
    (src_inode dst_parentDirInode : inode) (dst_parentDirBlock : Block) :
    Nat → Nat → Int × F17FS
  | 0, _ => (-7, fs)
  | n + 1, i =>
    if bitmap_test dst_parentDirInode.vacantFile i = false then
      let blk1 := setDentryInode (strncpyEntry dst_parentDirBlock i dst_base) i src_inodeID
      let srcInode1 := { src_inode with linkCount := src_inode.linkCount + 1 }
      let dstInode0 :=
        if src_inodeID = dst_parentDirInodeID then
          { dst_parentDirInode with linkCount := dst_parentDirInode.linkCount + 1 }
        else dst_parentDirInode
      let dstInode1 := { dstInode0 with vacantFile := bitmap_set dstInode0.vacantFile i }
      match block_store_sub_write fs.BlockStore_inode src_inodeID srcInode1 with
      | none => (-9, fs)
      | some st1 =>
        match block_store_sub_write st1 dst_parentDirInodeID dstInode1 with
        | none => (-9, { fs with BlockStore_inode := st1 })
        | some st2 =>
          match block_store_write fs.BlockStore_whole (dstInode1.directPointer 0) blk1 with
          | none => (-9, { fs with BlockStore_inode := st2 })
          | some w => (0, { fs with BlockStore_whole := w, BlockStore_inode := st2 })
    else
      linkLoop fs src_inodeID dst_parentDirInodeID dst_base src_inode dst_parentDirInode
        dst_parentDirBlock n (i + 1)

/-- The `fs_link` of the source, for non-null paths: the result and the file
system afterwards. -/
def fs_link (fs : F17FS) (src dst : List Nat) : Int × F17FS :=
  if dst ≠ [CH_slash] ∧ src.head? = some CH_slash ∧ dst.head? = some CH_slash then
    match searchPath fs (dirTokens src), searchPath fs (dirTokens dst) with
    | some src_parentDirInodeID, some dst_parentDirInodeID =>
      let src_inodeID := getFileInodeID fs src_parentDirInodeID (basename src)
      let dst_inodeID := getFileInodeID fs dst_parentDirInodeID (basename dst)
      if src_inodeID ≠ 0 ∧ dst_inodeID = 0 then
        match block_store_sub_read fs.BlockStore_inode dst_parentDirInodeID with
        | none => (-5, fs)
        | some dst_parentDirInode =>
          match block_store_sub_read fs.BlockStore_inode src_inodeID with
          | none => (-5, fs)
          | some src_inode =>
            match block_store_read fs.BlockStore_whole
                (dst_parentDirInode.directPointer 0) with
            | none => (-5, fs)
            | some dst_parentDirBlock =>
              if src_inode.linkCount < 255 then
                linkLoop fs src_inodeID dst_parentDirInodeID (basename dst) src_inode
                  dst_parentDirInode dst_parentDirBlock 7 0
              else (-5, fs)
      else (-4, fs)
    | _, _ => (-3, fs)
  else (-2, fs)

/-! ## `fs_format`, `fs_mount` and the states the public operations reach -/

/-- The `size_t` an unchecked `block_store_allocate` hands back, and the store
afterwards; `SIZE_MAX` when no block is free. -/
def allocSz (bs : block_store Block) : Nat × block_store Block :=
  match block_store_allocate bs with
  | some r => r
  | none => (2 ^ 64 - 1, bs)

/-- The loop of `fs_format` that takes blocks without looking at their numbers
(lines 103-106). -/
def allocTimes : Nat → block_store Block → block_store Block
  | 0, bs => bs
  | n + 1, bs => allocTimes n (allocSz bs).2

/-- Modelled from the spec: `block_store_inode_create` and
`block_store_fd_create`, a sub-store of 256 free slots over zeroed memory. -/
def block_store_sub_create {α : Type} (zero : α) : block_store α :=
  { fbm := fun _ => false, data := fun _ => zero }

/-- The inode of zero bytes (`calloc`). -/
def zeroInode : inode :=
  { vacantFile := 0, fileType := 0, inodeNumber := 0, fileSize := 0, linkCount := 0,
    directPointer := fun _ => 0, indirectPointer := 0, doubleIndirectPointer := 0 }

/-- The descriptor of zero bytes. -/
def zeroFd : fileDescriptor :=
  { inodeNum := 0, usage := 0, locate_order := 0, locate_offset := 0 }

/-- The `fs_format` of the source (lines 92-135): the file system it returns
for a non-empty path, `none` for `NULL`.  `created` is the store that
`block_store_create`, which is not part of the sources, returns.  In this
model the inode store is a store of its own; the source lays it over the blocks
`bitmap_ID` and `inode_start_block` of the whole store. -/
def fs_format (created : block_store Block) (path : List Nat) : Option F17FS :=
  if path.length ≠ 0 then
    let bitmap_ID := allocSz created
    let inode_start_block := allocSz bitmap_ID.2
    let w31 := allocTimes 31 inode_start_block.2
    let root_data_ID := allocSz w31
    let ino0 : block_store inode := block_store_sub_create zeroInode
    let ino1 :=
      match block_store_sub_allocate ino0 with
      | some r => r.2
      | none => ino0
    let root_inode : inode :=
      { zeroInode with vacantFile := 0, fileType := CH_d, fileSize := BLOCK_SIZE_BYTES,
                       inodeNumber := 0, linkCount := 1,
                       directPointer := upd zeroInode.directPointer 0 (root_data_ID.1 % 65536) }
    let ino2 := (block_store_sub_write ino1 0 root_inode).getD ino1
    let w := (block_store_write root_data_ID.2 root_data_ID.1 init_dirBlock).getD root_data_ID.2
    some { BlockStore_whole := w, BlockStore_inode := ino2,
           BlockStore_fd := block_store_sub_create zeroFd }
  else none

/-- Modelled from the spec: `fs_unmount` followed by `fs_mount` of the same
image (lines 150-169, whose `block_store_open` is not part of the sources): the
blocks and the inodes are those of the image, the descriptor store is new. -/
def fs_mount (fs : F17FS) : F17FS :=
  { fs with BlockStore_fd := block_store_sub_create zeroFd }

/-- The states of the file system that the public operations reach from
`fs_format`, whatever they return and whatever their arguments are. -/
inductive Reachable : F17FS → Prop
  | format (created : block_store Block) (path : List Nat) (fs : F17FS) :
      fs_format created path = some fs → Reachable fs
  | mount (fs : F17FS) : Reachable fs → Reachable (fs_mount fs)
  | create (fs : F17FS) (path : List Nat) (type : file_t) (junk : inode)
      (junkName : Nat → Nat) :
      Reachable fs → Reachable (fs_create fs path type junk junkName).2
  | opened (fs : F17FS) (path : List Nat) : Reachable fs → Reachable (fs_open fs path).2
  | close (fs : F17FS) (fd : Int) : Reachable fs → Reachable (fs_close fs fd).2
  | read (fs : F17FS) (fd : Int) (nbyte : Nat) (r : Int) (dst : List Nat) (fs1 : F17FS) :
      Reachable fs → fs_read fs fd nbyte = some (r, dst, fs1) → Reachable fs1
  | write (fs : F17FS) (fd : Int) (src : List Nat) (r : Int) (fs1 : F17FS) :
      Reachable fs → fs_write fs fd src = some (r, fs1) → Reachable fs1
  | seek (fs : F17FS) (fd : Int) (offset : Int) (whence : seek_t) :
      Reachable fs → Reachable (fs_seek fs fd offset whence).2
  | remove (fs : F17FS) (path : List Nat) (junk : inode) (junkBlk : Block) :
      Reachable fs → Reachable (fs_remove fs path junk junkBlk).2
  | move (fs : F17FS) (src dst : List Nat) : Reachable fs → Reachable (fs_move fs src dst).2
  | link (fs : F17FS) (src dst : List Nat) : Reachable fs → Reachable (fs_link fs src dst).2

end F17


/-! ## Notions used to state the properties -/

namespace F17

/-- The value `x` clamped into `[lo, hi]`. -/
def clamp (x lo hi : Int) : Int := max lo (min x hi)

/-- The fields of a descriptor fit their C types (`uint8_t`, `uint16_t`). -/
def fdValid (d : fileDescriptor) : Prop :=
  d.inodeNum < 256 ∧ d.usage < 256 ∧ d.locate_order < 65536 ∧ d.locate_offset < 65536

instance (d : fileDescriptor) : Decidable (fdValid d) := by
  unfold fdValid; exact inferInstance

/-- The cursor of a descriptor is in range: an offset inside the block, and an
order that exists in the tier `usage` names. -/
def cursorOK (d : fileDescriptor) : Prop :=
  d.locate_offset < 512 ∧
  ((d.usage = 1 ∧ d.locate_order < 6) ∨ (d.usage = 2 ∧ d.locate_order < 256) ∨
   (d.usage = 4 ∧ d.locate_order < 65536))

instance (d : fileDescriptor) : Decidable (cursorOK d) := by
  unfold cursorOK; exact inferInstance

/-- The logical block index a cursor stands in: 0..5 direct, 6..261 indirect,
262.. double-indirect. -/
def logicalBlock (d : fileDescriptor) : Nat :=
  if d.usage = 1 then d.locate_order
  else if d.usage = 2 then 6 + d.locate_order
  else 6 + 256 + d.locate_order

/-! ### Example states -/

/-- The root directory inode of the example image: one live entry, data block 33. -/
def exRoot : inode :=
  { vacantFile := 1, fileType := CH_d, inodeNumber := 0, fileSize := 512, linkCount := 1,
    directPointer := fun k => if k = 0 then 33 else 0,
    indirectPointer := 0, doubleIndirectPointer := 0 }

/-- The inode of the regular file `/a` of the example image: 3000 bytes in the
direct blocks 34..39. -/
def exFile : inode :=
  { vacantFile := 0, fileType := CH_r, inodeNumber := 1, fileSize := 3000, linkCount := 1,
    directPointer := fun k => if k < 6 then 34 + k else 0,
    indirectPointer := 0, doubleIndirectPointer := 0 }

/-- The root directory block of the example image: entry 0 is `{"a", 1}`. -/
def exRootBlock : Block := setDentry init_dirBlock 0 (cstr [97]) 1

/-- An image as `fs_format`, `fs_create("/a")`, `fs_open("/a")` and a write of
3000 bytes followed by a seek to 0 leave it: blocks 0..39 in use, inodes 0 and
1 in use, descriptor 0 open on inode 1 at position 0. -/
def exFs : F17FS :=
  { BlockStore_whole :=
      { fbm := fun b => decide (b < 40),
        data := fun b => if b = 33 then exRootBlock else fun _ => 0 },
    BlockStore_inode :=
      { fbm := fun i => decide (i < 2),
        data := fun i => if i = 0 then exRoot else exFile },
    BlockStore_fd :=
      { fbm := fun i => decide (i < 1),
        data := fun _ => { inodeNum := 1, usage := 1, locate_order := 0, locate_offset := 0 } } }

end F17

namespace F17

/-- Two inodes agree on every field but the block pointers. -/
def sameMeta (a b : inode) : Prop :=
  a.vacantFile = b.vacantFile ∧ a.fileType = b.fileType ∧ a.inodeNumber = b.inodeNumber ∧
  a.fileSize = b.fileSize ∧ a.linkCount = b.linkCount

/-- What the block-map allocator never touches: the descriptor store, the inode
bitmap, and every inode field other than the block pointers. -/
def metaFrame (fs fs1 : F17FS) : Prop :=
  fs1.BlockStore_fd = fs.BlockStore_fd ∧
  fs1.BlockStore_inode.fbm = fs.BlockStore_inode.fbm ∧
  ∀ j, sameMeta (fs1.BlockStore_inode.data j) (fs.BlockStore_inode.data j)

end F17

namespace F17

/-- The example image after `fs_seek(fd 0, 2561, FS_SEEK_SET)`: descriptor 0
holds `{usage = 2, order = 65535, offset = 1}`. -/
def exFsSeek : F17FS := (fs_seek exFs 0 2561 .FS_SEEK_SET).2

/-- The inode of a regular file whose last addressable block (logical block
65797, double-indirect order 65535) is mapped: outer index block 40, its entry
255 the inner index block 41, its entry 255 the data block 42. -/
def exEndFile : inode :=
  { vacantFile := 0, fileType := CH_r, inodeNumber := 1, fileSize := 33688576, linkCount := 1,
    directPointer := fun _ => 0, indirectPointer := 0, doubleIndirectPointer := 40 }

/-- An image holding `exEndFile` as inode 1, with descriptor 0 open on it at
the start of the last addressable block: `{usage = 4, order = 65535, offset = 0}`,
position 33,688,064. -/
def exFsEnd : F17FS :=
  { BlockStore_whole :=
      { fbm := fun b => decide (b < 43),
        data := fun b =>
          if b = 33 then exRootBlock
          else if b = 40 then blockOfTable (upd zeroTable 255 41)
          else if b = 41 then blockOfTable (upd zeroTable 255 42)
          else fun _ => 0 },
    BlockStore_inode :=
      { fbm := fun i => decide (i < 2),
        data := fun i => if i = 0 then exRoot else exEndFile },
    BlockStore_fd :=
      { fbm := fun i => decide (i < 1),
        data := fun _ => { inodeNum := 1, usage := 4, locate_order := 65535, locate_offset := 0 } } }

/-- What a caller observes of `fs_write`: the result and the descriptor stored
in slot `fd` afterwards. -/
def writeView (r : Option (Int × F17FS)) (fd : Nat) : Option (Int × fileDescriptor) :=
  r.map (fun p => (p.1, p.2.BlockStore_fd.data fd))

/-- What a caller observes of `fs_read`: the result, the bytes delivered and
the descriptor stored in slot `fd` afterwards. -/
def readView (r : Option (Int × List Nat × F17FS)) (fd : Nat) :
    Option (Int × List Nat × fileDescriptor) :=
  r.map (fun p => (p.1, p.2.1, p.2.2.BlockStore_fd.data fd))

end F17

namespace F17

/-- The example image after `fs_write(fd 0, {1, 2, 3}, 3)`. -/
def exFsWritten : F17FS := ((fs_write exFs 0 [1, 2, 3]).getD (0, exFs)).2

end F17

namespace F17

/-! ### The contents of a file -/

/-- The index table held in block `b`. -/
def tableAt (fs : F17FS) (b : Nat) : Nat → Nat := tableOfBlock (fs.BlockStore_whole.data b)

/-- The block that holds logical block `L` of a file, read off the block map
without allocating; `0` when the map has no block there. -/
def blockOf (fs : F17FS) (ino : inode) (L : Nat) : Nat :=
  if L < 6 then ino.directPointer L
  else if L < 262 then
    (if ino.indirectPointer = 0 then 0 else tableAt fs ino.indirectPointer (L - 6))
  else if ino.doubleIndirectPointer = 0 then 0
  else if tableAt fs ino.doubleIndirectPointer ((L - 262) / 256) = 0 then 0
  else tableAt fs (tableAt fs ino.doubleIndirectPointer ((L - 262) / 256)) ((L - 262) % 256)

/-- The byte at offset `x` of the file with inode number `i`. -/
def fileByte (fs : F17FS) (i : Nat) (x : Nat) : Nat :=
  fs.BlockStore_whole.data (blockOf fs (fs.BlockStore_inode.data i) (x / 512)) (x % 512)

/-- The `n` bytes of file `i` from offset `S` on. -/
def fileBytes (fs : F17FS) (i : Nat) (S n : Nat) : List Nat :=
  (List.range n).map (fun k => fileByte fs i (S + k))

/-- Logical block `L` is mapped: every pointer on the way to it is non-zero and
names a block that is marked allocated. -/
def blockMapped (fs : F17FS) (ino : inode) (L : Nat) : Prop :=
  if L < 6 then
    ino.directPointer L ≠ 0 ∧ block_store_test fs.BlockStore_whole (ino.directPointer L) = true
  else if L < 262 then
    ino.indirectPointer ≠ 0 ∧
    block_store_test fs.BlockStore_whole ino.indirectPointer = true ∧
    tableAt fs ino.indirectPointer (L - 6) ≠ 0 ∧
    block_store_test fs.BlockStore_whole (tableAt fs ino.indirectPointer (L - 6)) = true
  else
    ino.doubleIndirectPointer ≠ 0 ∧
    block_store_test fs.BlockStore_whole ino.doubleIndirectPointer = true ∧
    tableAt fs ino.doubleIndirectPointer ((L - 262) / 256) ≠ 0 ∧
    block_store_test fs.BlockStore_whole
      (tableAt fs ino.doubleIndirectPointer ((L - 262) / 256)) = true ∧
    tableAt fs (tableAt fs ino.doubleIndirectPointer ((L - 262) / 256)) ((L - 262) % 256) ≠ 0 ∧
    block_store_test fs.BlockStore_whole
      (tableAt fs (tableAt fs ino.doubleIndirectPointer ((L - 262) / 256))
        ((L - 262) % 256)) = true

instance (fs : F17FS) (ino : inode) (L : Nat) : Decidable (blockMapped fs ino L) := by
  unfold blockMapped; exact inferInstance

/-- The places of a block map that hold a block number: the data block of a
logical block, the indirect index, the outer double-indirect index, and the
inner index number `h`. -/
inductive Slot where
  | data (L : Nat)
  | ind
  | dbl
  | inner (h : Nat)
deriving DecidableEq

/-- The slots in use by a file of `M` logical blocks laid out without holes. -/
def slotLive (M : Nat) : Slot → Prop
  | .data L => L < M
  | .ind => 6 < M
  | .dbl => 262 < M
  | .inner h => 262 + 256 * h < M

instance (M : Nat) (s : Slot) : Decidable (slotLive M s) := by
  cases s <;> (unfold slotLive; exact inferInstance)

/-- The block number a slot holds. -/
def slotBlock (fs : F17FS) (ino : inode) : Slot → Nat
  | .data L => blockOf fs ino L
  | .ind => ino.indirectPointer
  | .dbl => ino.doubleIndirectPointer
  | .inner h => tableAt fs ino.doubleIndirectPointer h

/-- The block map of `ino` is that of a file of `M` logical blocks without
holes: the slots in use hold non-zero numbers of allocated blocks, no block is
used twice, and every pointer beyond the `M` blocks is zero. -/
structure FileWF (fs : F17FS) (ino : inode) (M : Nat) : Prop where
  live : ∀ s, slotLive M s →
    slotBlock fs ino s ≠ 0 ∧ block_store_test fs.BlockStore_whole (slotBlock fs ino s) = true
  inj : ∀ s t, slotLive M s → slotLive M t → slotBlock fs ino s = slotBlock fs ino t → s = t
  dzero : ∀ k, M ≤ k → k < 6 → ino.directPointer k = 0
  izero : M ≤ 6 → ino.indirectPointer = 0
  tzero : 6 < M → ∀ k, M ≤ 6 + k → k < 256 → tableAt fs ino.indirectPointer k = 0
  bzero : M ≤ 262 → ino.doubleIndirectPointer = 0
  ozero : 262 < M → ∀ h, M ≤ 262 + 256 * h → h < 256 →
    tableAt fs ino.doubleIndirectPointer h = 0
  nzero : ∀ h l, 262 + 256 * h < M → M ≤ 262 + 256 * h + l → l < 256 →
    tableAt fs (tableAt fs ino.doubleIndirectPointer h) l = 0

/-- Block `y` belongs to the block map of a file of `M` logical blocks. -/
def Owned (fs : F17FS) (ino : inode) (M : Nat) (y : Nat) : Prop :=
  ∃ s, slotLive M s ∧ slotBlock fs ino s = y

/-- The blocks read on the way to logical block `L`: the index blocks and the
data block. -/
def pathBlocks (fs : F17FS) (ino : inode) (L : Nat) : List Nat :=
  if L < 6 then [ino.directPointer L]
  else if L < 262 then [ino.indirectPointer, tableAt fs ino.indirectPointer (L - 6)]
  else [ino.doubleIndirectPointer, tableAt fs ino.doubleIndirectPointer ((L - 262) / 256),
        tableAt fs (tableAt fs ino.doubleIndirectPointer ((L - 262) / 256)) ((L - 262) % 256)]

end F17

namespace F17

/-- The example image with all 256 inodes in use. -/
def exFsFull : F17FS :=
  { exFs with BlockStore_inode := { exFs.BlockStore_inode with fbm := fun _ => true } }

/-- Some contents for the locals `fs_create` does not initialise. -/
def exJunk : inode :=
  { vacantFile := 9, fileType := 9, inodeNumber := 9, fileSize := 9, linkCount := 9,
    directPointer := fun _ => 9, indirectPointer := 9, doubleIndirectPointer := 9 }

/-- The six arguments of `fs_create` that the source rejects before it looks at
the parent directory or after it has found the name there. -/
def createArgsOK (path : List Nat) (type : file_t) : Prop :=
  (type = file_t.FS_REGULAR ∨ type = file_t.FS_DIRECTORY) ∧ 2 ≤ path.length ∧
  path.head? = some CH_slash ∧ path.getLast? ≠ some CH_slash ∧ (baseName path).length < 64

instance (path : List Nat) (type : file_t) : Decidable (createArgsOK path type) := by
  unfold createArgsOK; exact inferInstance

end F17

namespace F17

/-- Block `y` is an index block of the block map of a file of `M` logical
blocks. -/
def IndexOwned (fs : F17FS) (ino : inode) (M : Nat) (y : Nat) : Prop :=
  ∃ s, slotLive M s ∧ (∀ L, s ≠ Slot.data L) ∧ slotBlock fs ino s = y

/-- The file of inode `i` has grown from `M` to `M1` logical blocks between `fs`
and `fs1`: the block map is well formed, the slots that were in use hold the
same blocks, the new slots hold blocks that were free, no block was released,
nothing but index blocks of the file changed among the allocated blocks, and
no other inode changed. -/
structure Grows (fs fs1 : F17FS) (i M M1 : Nat) : Prop where
  wf : FileWF fs1 (fs1.BlockStore_inode.data i) M1
  keep : ∀ s, slotLive M s →
    slotBlock fs1 (fs1.BlockStore_inode.data i) s = slotBlock fs (fs.BlockStore_inode.data i) s
  fresh : ∀ s, slotLive M1 s → ¬ slotLive M s →
    fs.BlockStore_whole.fbm (slotBlock fs1 (fs1.BlockStore_inode.data i) s) = false
  mono : ∀ y, fs.BlockStore_whole.fbm y = true → fs1.BlockStore_whole.fbm y = true
  frame : ∀ y, fs.BlockStore_whole.fbm y = true →
    ¬ IndexOwned fs (fs.BlockStore_inode.data i) M y →
    fs1.BlockStore_whole.data y = fs.BlockStore_whole.data y
  others : ∀ j, j ≠ i → fs1.BlockStore_inode.data j = fs.BlockStore_inode.data j

end F17

namespace F17

/-- The invariant of the loop of `fs_write` on the file of inode `i`, relative to
the state `fs0` at loop entry, where the file had `M0` logical blocks and the
cursor stood at position `S`: after `w` bytes of `src` the file has `M` logical
blocks, its old slots hold the same blocks, its new blocks were free, the
bytes `[S, S + w)` are those of `src`, the other old bytes are as before, no
block of another owner and no other inode changed, and the cursor denotes
`S + w`. -/
structure WriteInv (fs0 : F17FS) (i M0 S : Nat) (src : List Nat) (fs : F17FS)
    (d : fileDescriptor) (w M : Nat) : Prop where
  wf : FileWF fs (fs.BlockStore_inode.data i) M
  z : fs.BlockStore_whole.fbm 0 = true
  le : M0 ≤ M
  keep : ∀ s, slotLive M0 s →
    slotBlock fs (fs.BlockStore_inode.data i) s = slotBlock fs0 (fs0.BlockStore_inode.data i) s
  fresh : ∀ s, slotLive M s → ¬ slotLive M0 s →
    fs0.BlockStore_whole.fbm (slotBlock fs (fs.BlockStore_inode.data i) s) = false
  mono : ∀ y, fs0.BlockStore_whole.fbm y = true → fs.BlockStore_whole.fbm y = true
  frame : ∀ y, fs0.BlockStore_whole.fbm y = true →
    ¬ Owned fs0 (fs0.BlockStore_inode.data i) M0 y →
    fs.BlockStore_whole.data y = fs0.BlockStore_whole.data y
  others : ∀ j, j ≠ i → fs.BlockStore_inode.data j = fs0.BlockStore_inode.data j
  written : ∀ x, S ≤ x → x < S + w →
    x / 512 < M ∧ fileByte fs i x = src.getD (x - S) 0
  old : ∀ x, x / 512 < M0 → ¬ (S ≤ x ∧ x < S + w) → fileByte fs i x = fileByte fs0 i x
  cur : cursorOK d ∧ d.inodeNum = i ∧ getFileSize d = S + w ∧ w ≤ src.length ∧
    logicalBlock d ≤ M

end F17

namespace F17

/-- Two inodes hold the same block pointers. -/
def samePtrs (a b : inode) : Prop :=
  a.directPointer = b.directPointer ∧ a.indirectPointer = b.indirectPointer ∧
  a.doubleIndirectPointer = b.doubleIndirectPointer

end F17

namespace F17

/-- The inode of a regular file as `fs_create` leaves it: no byte, no block. -/
def exFreshFile : inode :=
  { vacantFile := 0, fileType := CH_r, inodeNumber := 1, fileSize := 0, linkCount := 1,
    directPointer := fun _ => 0, indirectPointer := 0, doubleIndirectPointer := 0 }

/-- An image as `fs_format`, `fs_create("/a")` and `fs_open("/a")` leave it:
blocks 0..33 in use, inodes 0 and 1 in use, descriptor 0 open on the empty file
of inode 1 at position 0. -/
def exFresh : F17FS :=
  { BlockStore_whole :=
      { fbm := fun b => decide (b < 34),
        data := fun b => if b = 33 then exRootBlock else fun _ => 0 },
    BlockStore_inode :=
      { fbm := fun i => decide (i < 2),
        data := fun i => if i = 0 then exRoot else exFreshFile },
    BlockStore_fd :=
      { fbm := fun i => decide (i < 1),
        data := fun _ => { inodeNum := 1, usage := 1, locate_order := 0, locate_offset := 0 } } }

/-- The example image `exFs` on a disk without a free block, with descriptor 0
at the start of the last direct block of the file (position 2560). -/
def exFsShort : F17FS :=
  { BlockStore_whole := { exFs.BlockStore_whole with fbm := fun _ => true },
    BlockStore_inode := exFs.BlockStore_inode,
    BlockStore_fd :=
      { fbm := fun i => decide (i < 1),
        data := fun _ => { inodeNum := 1, usage := 1, locate_order := 5, locate_offset := 0 } } }

/-- The image `exFsShort` after the last direct block (block 39) has been filled
with 512 bytes of value 7. -/
def exFsShortAfter : F17FS :=
  { exFsShort with BlockStore_whole := (block_store_n_write exFsShort.BlockStore_whole 39 0
      (List.replicate 600 7) 512).getD exFsShort.BlockStore_whole }

end F17


/-! ## Definitions for the claims on the namespace operations -/

namespace F17

/-- The arguments `fs_open` accepts (lines 403-423): a path of two characters
or more that starts with `'/'`, does not end with `'/'` and has a last token of
fewer than 64 characters. -/
def openArgsOK (path : List Nat) : Prop :=
  2 ≤ path.length ∧ path.head? = some CH_slash ∧ path.getLast? ≠ some CH_slash ∧
  (baseName path).length < 64

instance (path : List Nat) : Decidable (openArgsOK path) := by
  unfold openArgsOK; exact inferInstance

/-- The example image `exFs` with all 256 descriptors in use. -/
def exFsFdFull : F17FS :=
  { exFs with BlockStore_fd := { exFs.BlockStore_fd with fbm := fun _ => true } }

/-- A new image file as `block_store_create` is taken to return it in the
examples: no block in use, every byte zero. -/
def exCreated : block_store Block :=
  { fbm := fun _ => false, data := fun _ => fun _ => 0 }

/-- The image `fs_format("i")` returns on `exCreated`. -/
def exFormat : F17FS := (fs_format exCreated [105]).getD exFs

/-- The image after `fs_format` and `fs_create("/ab", FS_REGULAR)`. -/
def exAb : F17FS := (fs_create exFormat [47, 97, 98] file_t.FS_REGULAR exJunk (fun _ => 0)).2

/-- The image after `fs_format` and `fs_create("/a", FS_REGULAR)`. -/
def exA : F17FS := (fs_create exFormat [47, 97] file_t.FS_REGULAR exJunk (fun _ => 0)).2

/-- The image `exA` after `fs_open("/a")`, which hands out descriptor 0. -/
def exAOpen : F17FS := (fs_open exA [47, 97]).2

/-- The image after `fs_format`, `fs_create("/a", FS_REGULAR)`,
`fs_create("/b", FS_REGULAR)` and `fs_open("/b")`. -/
def exABOpen : F17FS :=
  (fs_open (fs_create exA [47, 98] file_t.FS_REGULAR exJunk (fun _ => 0)).2 [47, 98]).2

/-- The image after `fs_format`, `fs_create("/x", FS_DIRECTORY)`,
`fs_create("/a", FS_DIRECTORY)`, `fs_create("/a/e", FS_REGULAR)`,
`fs_remove("/x")` and `fs_create("/ab", FS_DIRECTORY)`: the root directory holds
`"ab"` (inode 1, empty) in slot 0 and `"a"` (inode 2, one entry) in slot 1. -/
def exDirs : F17FS :=
  (fs_create
    (fs_remove
      (fs_create
        (fs_create
          (fs_create exFormat [47, 120] file_t.FS_DIRECTORY exJunk (fun _ => 0)).2
          [47, 97] file_t.FS_DIRECTORY exJunk (fun _ => 0)).2
        [47, 97, 47, 101] file_t.FS_REGULAR exJunk (fun _ => 0)).2
      [47, 120] exJunk (fun _ => 0)).2
    [47, 97, 98] file_t.FS_DIRECTORY exJunk (fun _ => 0)).2

/-- The arguments of one call of `fs_create`, with the contents of its
uninitialised locals. -/
structure createCall where
  path : List Nat
  type : file_t
  junk : inode
  junkName : Nat → Nat

/-- The file system after the calls of `fs_create` in the list, one after the
other. -/
def createAll (fs : F17FS) : List createCall → F17FS
  | [] => fs
  | c :: cs => createAll (fs_create fs c.path c.type c.junk c.junkName).2 cs

/-- Every call of the list, made one after the other from `fs`, has a parent
path that resolves to directory `p` and returns 0. -/
def createAllIn (fs : F17FS) (p : Nat) : List createCall → Bool
  | [] => true
  | c :: cs =>
    decide (searchPath fs (dirTokens c.path) = some p) &&
    decide ((fs_create fs c.path c.type c.junk c.junkName).1 = 0) &&
    createAllIn (fs_create fs c.path c.type c.junk c.junkName).2 p cs

/-- Seven calls that create the regular files `"/a"` to `"/g"`. -/
def exSevenCalls : List createCall :=
  [97, 98, 99, 100, 101, 102, 103].map
    (fun c => { path := [47, c], type := file_t.FS_REGULAR, junk := exJunk,
                junkName := fun _ => 0 })

/-- The image after `fs_format` and the seven creates of `exSevenCalls`: the
root directory has seven live entries. -/
def exSeven : F17FS := createAll exFormat exSevenCalls

/-- The image `exSeven` with all 256 inodes in use. -/
def exSevenFull : F17FS :=
  { exSeven with BlockStore_inode := { exSeven.BlockStore_inode with fbm := fun _ => true } }

/-- The non-zero entries of the index table in block `b`, in the order of the
table. -/
def tableRefs (fs : F17FS) (b : Nat) : List Nat :=
  ((List.range' 0 256).map (tableAt fs b)).filter (fun x => decide (x ≠ 0))

/-- The non-zero direct pointers of an inode. -/
def directRefs (ino : inode) : List Nat :=
  ((List.range' 0 6).map ino.directPointer).filter (fun x => decide (x ≠ 0))

/-- The blocks the indirect pointer leads to: the non-zero entries of the index
block and the index block itself; nothing when the pointer is 0. -/
def indirectRefs (fs : F17FS) (ino : inode) : List Nat :=
  if ino.indirectPointer ≠ 0 then tableRefs fs ino.indirectPointer ++ [ino.indirectPointer]
  else []

/-- The blocks entry `h` of the outer index in block `o` leads to: the leaves of
the inner index and the inner index itself; nothing when the entry is 0. -/
def innerRefs (fs : F17FS) (o : Nat) (h : Nat) : List Nat :=
  if tableAt fs o h ≠ 0 then tableRefs fs (tableAt fs o h) ++ [tableAt fs o h] else []

/-- The blocks the double-indirect pointer leads to: for each inner index its
leaves and itself, and the outer index; nothing when the pointer is 0. -/
def doubleRefs (fs : F17FS) (ino : inode) : List Nat :=
  if ino.doubleIndirectPointer ≠ 0 then
    (List.range' 0 256).flatMap (innerRefs fs ino.doubleIndirectPointer) ++
      [ino.doubleIndirectPointer]
  else []

/-- The blocks referenced by the block map of an inode: each non-zero direct
pointer, the indirect index block and each of its non-zero entries, the outer
index, each inner index and each leaf. -/
def mapRefs (fs : F17FS) (ino : inode) : List Nat :=
  directRefs ino ++ indirectRefs fs ino ++ doubleRefs fs ino

/-- Store `bs` is store `bs0` with the blocks of `S` released: the same data,
and the bits of `S` cleared. -/
def ClearedTo (bs0 bs : block_store Block) (S : List Nat) : Prop :=
  bs.data = bs0.data ∧ ∀ y, bs.fbm y = (bs0.fbm y && !decide (y ∈ S))

/-- The block of an index table with the entries 51 and 52. -/
def exIndexBlock : Block := fun o => if o = 0 then 51 else if o = 2 then 52 else 0

/-- An image with the regular file `"/a"` (inode 1, link count 1) that holds the
direct blocks 34..39, the indirect index block 50 and, through it, the blocks 51
and 52; no descriptor is open. -/
def exBlocks : F17FS :=
  { BlockStore_whole :=
      { fbm := fun b => decide (b < 40 ∨ (50 ≤ b ∧ b < 53)),
        data := fun b => if b = 33 then exRootBlock else if b = 50 then exIndexBlock
                         else fun _ => 0 },
    BlockStore_inode :=
      { fbm := fun i => decide (i < 2),
        data := fun i => if i = 0 then exRoot else { exFile with indirectPointer := 50 } },
    BlockStore_fd := block_store_sub_create zeroFd }

/-- The slot at which a scan of a directory stops: the first live entry among
`m, m+1, ..` (`n` entries) whose name compares equal to `name` over `len` bytes
(`strncmp`).  With `len = strlen(name)` this is the scan of `getFileInodeID`
(line 266), with `len = FS_FNAME_MAX` that of `fs_remove` (lines 820, 924). -/
def firstMatch (v : Nat) (blk : Block) (name : List Nat) (len : Nat) : Nat → Nat → Option Nat
  | 0, _ => none
  | n + 1, m =>
    if bitmap_test v m = true ∧ strncmpEq (dentryName blk m) (cstr name) len 0 = true then
      some m
    else firstMatch v blk name len n (m + 1)

/-- The directories from which the walk of `searchPath` takes a step, from
directory `q` on: `q` and those the tokens lead through, without the directory
the walk ends in. -/
def searchTrace (fs : F17FS) : Nat → List (List Nat) → List Nat
  | _, [] => []
  | q, fn :: rest =>
    q :: (match searchStep fs q fn with
          | none => []
          | some next => searchTrace fs next rest)

/-- The image after `fs_format` and `fs_create("/d", FS_DIRECTORY)`. -/
def exD : F17FS := (fs_create exFormat [47, 100] file_t.FS_DIRECTORY exJunk (fun _ => 0)).2

/-- The root invariant: inode 0 is allocated and is a directory, and every
directory inode carries its own number. -/
def RootInv (fs : F17FS) : Prop :=
  fs.BlockStore_inode.fbm 0 = true ∧ (fs.BlockStore_inode.data 0).fileType = CH_d ∧
  ∀ x, (fs.BlockStore_inode.data x).fileType = CH_d → (fs.BlockStore_inode.data x).inodeNumber = x

/-- What an operation does to the inode store `s`, as far as the root invariant
goes: bit 0 stays set, and every inode keeps its type and number or is another
inode than 0 that carries its own number. -/
def NodesKept (s s1 : block_store inode) : Prop :=
  (s.fbm 0 = true → s1.fbm 0 = true) ∧
  ∀ x, ((s1.data x).fileType = (s.data x).fileType ∧
        (s1.data x).inodeNumber = (s.data x).inodeNumber) ∨
       (x ≠ 0 ∧ (s1.data x).inodeNumber = x)

/-- The image with the regular file `"/a"` after `fs_link("/a", "/b")`. -/
def exLinked : F17FS := (fs_link exA [47, 97] [47, 98]).2

/-- The path `"/"` followed by 65 letters `b`: a basename one character longer
than the 64 bytes of a filename. -/
def exLongPath : List Nat := 47 :: List.replicate 65 98

/-- The image with the regular file `"/a"` after `fs_link("/a", exLongPath)`. -/
def exLinkedLong : F17FS := (fs_link exA [47, 97] exLongPath).2

/-- State `fs` is reached from `fs0` by public operations, with any arguments
and results, none of which is an `fs_open` that returns the descriptor `k`. -/
inductive ReachedWithoutOpen (k : Nat) (fs0 : F17FS) : F17FS → Prop
  | start : ReachedWithoutOpen k fs0 fs0
  | mount (fs : F17FS) : ReachedWithoutOpen k fs0 fs → ReachedWithoutOpen k fs0 (fs_mount fs)
  | create (fs : F17FS) (path : List Nat) (type : file_t) (junk : inode)
      (junkName : Nat → Nat) :
      ReachedWithoutOpen k fs0 fs →
      ReachedWithoutOpen k fs0 (fs_create fs path type junk junkName).2
  | opened (fs : F17FS) (path : List Nat) :
      ReachedWithoutOpen k fs0 fs → (fs_open fs path).1 ≠ (k : Int) →
      ReachedWithoutOpen k fs0 (fs_open fs path).2
  | close (fs : F17FS) (fd : Int) :
      ReachedWithoutOpen k fs0 fs → ReachedWithoutOpen k fs0 (fs_close fs fd).2
  | read (fs : F17FS) (fd : Int) (nbyte : Nat) (r : Int) (dst : List Nat) (fs1 : F17FS) :
      ReachedWithoutOpen k fs0 fs → fs_read fs fd nbyte = some (r, dst, fs1) →
      ReachedWithoutOpen k fs0 fs1
  | write (fs : F17FS) (fd : Int) (src : List Nat) (r : Int) (fs1 : F17FS) :
      ReachedWithoutOpen k fs0 fs → fs_write fs fd src = some (r, fs1) →
      ReachedWithoutOpen k fs0 fs1
  | seek (fs : F17FS) (fd : Int) (offset : Int) (whence : seek_t) :
      ReachedWithoutOpen k fs0 fs → ReachedWithoutOpen k fs0 (fs_seek fs fd offset whence).2
  | remove (fs : F17FS) (path : List Nat) (junk : inode) (junkBlk : Block) :
      ReachedWithoutOpen k fs0 fs → ReachedWithoutOpen k fs0 (fs_remove fs path junk junkBlk).2
  | move (fs : F17FS) (src dst : List Nat) :
      ReachedWithoutOpen k fs0 fs → ReachedWithoutOpen k fs0 (fs_move fs src dst).2
  | link (fs : F17FS) (src dst : List Nat) :
      ReachedWithoutOpen k fs0 fs → ReachedWithoutOpen k fs0 (fs_link fs src dst).2

/-- The image `exFs` after the call `fs_remove("/a")` that returns -7 because
descriptor 0 is open: the blocks 34..39 of `"/a"` are free, the inode and the
entry of `"/a"` are still there, and no descriptor is open any more. -/
def exHalfRemoved : F17FS := (fs_remove exFs [47, 97] exJunk (fun _ => 0)).2

/-- The image `exBlocks` with the index block 50 also in the first direct
pointer of `"/a"`, and no other direct block. -/
def exAliased : F17FS :=
  { exBlocks with
    BlockStore_inode :=
      { exBlocks.BlockStore_inode with
        data := fun i => if i = 0 then exRoot else
          { exFile with directPointer := fun k => if k = 0 then 50 else 0,
                        indirectPointer := 50 } } }

end F17

namespace F17

/-! ## `fs_get_dir` -/

/-- Modelled from the spec: the `file_record_t` of the missing header
`F17FS.h`, a name of `FS_FNAME_MAX` bytes and a type. -/
structure file_record where
  name : List Nat
  type : file_t
deriving DecidableEq

/-- The bytes `strncpy(dst, src + i, n)` stores: the characters of `src` up to
its first NUL, then NUL up to byte `n`. -/
def strncpyFrom (src : Nat → Nat) : Nat → Nat → List Nat
  | 0, _ => []
  | n + 1, i => if src i = 0 then List.replicate (n + 1) 0 else src i :: strncpyFrom src n (i + 1)

/-- Modelled from the spec: `dyn_array_push_back` on the sequence that
`dyn_array_create(15, ..)` made, a container capped at 15 records; `none` is
the result `false`. -/
def dyn_array_push_back {α : Type} (list : List α) (x : α) : Option (List α) :=
  if list.length < 15 then some (list ++ [x]) else none

/-- The loop of `fs_get_dir` over the entries of the directory (lines 508-533),
from entry `k` on, `n` entries remaining: every entry whose bit is set gives a
record with its name and the type of its inode; `none` is `NULL`. -/
def getDirLoop (fs : F17FS) (vacantFile : Nat) (dirBlock : Block) :
    Nat → Nat → List file_record → Option (List file_record)
  | 0, _, list => some list
  | n + 1, k, list =>
    if bitmap_test vacantFile k = true then
      match block_store_sub_read fs.BlockStore_inode (dentryInode dirBlock k) with
      | none => none
      | some fileInode =>
        let record : file_record :=
          { name := strncpyFrom (dentryName dirBlock k) FS_FNAME_MAX 0,
            type := if fileInode.fileType = CH_r then file_t.FS_REGULAR
                    else file_t.FS_DIRECTORY }
        match dyn_array_push_back list record with
        | none => none
        | some list1 => getDirLoop fs vacantFile dirBlock n (k + 1) list1
    else getDirLoop fs vacantFile dirBlock n (k + 1) list

/-- The second half of `fs_get_dir` (lines 494-535), once the inode number of
the directory is known: the inode and its data block are read, the inode must
be a directory, and the loop makes the records. -/
def getDirAt (fs : F17FS) (dirInodeID : Nat) : Option (List file_record) :=
  match block_store_sub_read fs.BlockStore_inode dirInodeID with
  | none => none
  | some dirInode =>
    match block_store_read fs.BlockStore_whole (dirInode.directPointer 0) with
    | none => none
    | some dirBlock =>
      if dirInode.fileType ≠ CH_d then none
      else getDirLoop fs dirInode.vacantFile dirBlock 7 0 []

/-- The `fs_get_dir` of the source, for a non-null path: the records of the
directory, `none` for `NULL`.  `dyn_array_create` is taken to succeed. -/
def fs_get_dir (fs : F17FS) (path : List Nat) : Option (List file_record) :=
  if path.length < 1 then none
  else if path.head? ≠ some CH_slash then none
  else if path.length = 1 ∧ path.head? = some CH_slash then getDirAt fs 0
  else
    match searchPath fs (dirTokens path) with
    | none => none
    | some parentInodeID =>
      let dirInodeID := getFileInodeID fs parentInodeID (basename path)
      if dirInodeID = 0 then none else getDirAt fs dirInodeID

/-! ## Definitions for the claims on move, link, listing and the invariants -/

/-- The record `fs_get_dir` makes of slot `k` of a directory block. -/
def recordOf (fs : F17FS) (blk : Block) (k : Nat) : file_record :=
  { name := strncpyFrom (dentryName blk k) FS_FNAME_MAX 0,
    type := if (fs.BlockStore_inode.data (dentryInode blk k)).fileType = CH_r then
              file_t.FS_REGULAR else file_t.FS_DIRECTORY }

/-- The slots among 0..6 whose bit is set in `vacantFile`, in increasing order. -/
def liveSlots (vacantFile : Nat) : List Nat :=
  (List.range 7).filter (fun k => bitmap_test vacantFile k)

/-- What the refusals of `fs_link` and the bounds of `fs_create` and `fs_move`
keep true of an inode: a link count of at most 255 and, in a directory, bit 7
of `vacantFile` clear. -/
def InodeOK (ino : inode) : Prop :=
  ino.linkCount ≤ 255 ∧ (ino.fileType = CH_d → bitmap_test ino.vacantFile 7 = false)

/-- Every inode of the table satisfies `InodeOK`. -/
def InodesOK (s : block_store inode) : Prop := ∀ x, InodeOK (s.data x)

/-- The number of set bits among the 8 bits of `vacantFile`. -/
def liveCount (vacantFile : Nat) : Nat :=
  ((List.range 8).filter (fun k => bitmap_test vacantFile k)).length

/-- The inode a path names for `fs_get_dir` (lines 484-493): inode 0 for `"/"`;
for any other path that starts with `'/'` the inode number, other than 0, that
the lookup of the last token finds in the directory the tokens before it lead
to. -/
def resolvesTo (fs : F17FS) (path : List Nat) (d : Nat) : Prop :=
  path.head? = some CH_slash ∧
  ((path = [CH_slash] ∧ d = 0) ∨
   (path ≠ [CH_slash] ∧ d ≠ 0 ∧
     ∃ p, searchPath fs (dirTokens path) = some p ∧ getFileInodeID fs p (basename path) = d))

/-- The store `bs` with the blocks below `m` marked allocated as well. -/
def markedTo (bs : block_store Block) (m : Nat) : block_store Block :=
  { bs with fbm := fun b => bs.fbm b || decide (b < m) }

/-- A new image file whose last 16 blocks are taken by the bitmap of the block
store, as line 10 of the source describes it (`BLOCK_STORE_AVAIL_BLOCKS`). -/
def exCreatedFbm : block_store Block :=
  { fbm := fun b => decide (65520 ≤ b), data := fun _ => fun _ => 0 }

/-- The image after `fs_format`, `fs_create("/d", FS_DIRECTORY)` and
`fs_create("/d/e", FS_REGULAR)`. -/
def exDE : F17FS :=
  (fs_create exD [47, 100, 47, 101] file_t.FS_REGULAR exJunk (fun _ => 0)).2

/-- Two inodes agree on every field but `vacantFile`. -/
def sameButVacant (a b : inode) : Prop :=
  a.fileType = b.fileType ∧ a.inodeNumber = b.inodeNumber ∧ a.fileSize = b.fileSize ∧
  a.linkCount = b.linkCount ∧ a.directPointer = b.directPointer ∧
  a.indirectPointer = b.indirectPointer ∧ a.doubleIndirectPointer = b.doubleIndirectPointer

/-- What `fs_move` leaves alone between `fs` and `fs1`, when `B1` and `B2` are
the data blocks of the two parent directories: the descriptor store, both
bitmaps, every field of every inode but `vacantFile`, and every block other
than `B1` and `B2`. -/
def MoveFrame (fs fs1 : F17FS) (B1 B2 : Nat) : Prop :=
  fs1.BlockStore_fd = fs.BlockStore_fd ∧
  fs1.BlockStore_whole.fbm = fs.BlockStore_whole.fbm ∧
  fs1.BlockStore_inode.fbm = fs.BlockStore_inode.fbm ∧
  (∀ x, sameButVacant (fs1.BlockStore_inode.data x) (fs.BlockStore_inode.data x)) ∧
  (∀ b, b ≠ B1 → b ≠ B2 → fs1.BlockStore_whole.data b = fs.BlockStore_whole.data b)

/-- The path `"/"` followed by 64 letters `b`: a basename as long as the 64
bytes of a filename, one more than `fs_create` accepts. -/
def exPath64 : List Nat := 47 :: List.replicate 64 98

/-- The image after `fs_format`, `fs_create("/d", FS_DIRECTORY)`,
`fs_create("/a", FS_REGULAR)` and `fs_link("/a", "/b")`: the root directory
holds `"d"` (inode 1) in slot 0, and `"a"` and `"b"` (both inode 2) in the slots
1 and 2. -/
def exHardLinks : F17FS :=
  (fs_link (fs_create exD [47, 97] file_t.FS_REGULAR exJunk (fun _ => 0)).2
    [47, 97] [47, 98]).2

/-- The image `exAOpen` (descriptor 0 open on the empty file `"/a"`, inode 1)
after `get_data_block_id` has taken block 34 for the first block of the file. -/
def exAGrown : F17FS :=
  { exAOpen with
    BlockStore_whole := (alloc16 exAOpen.BlockStore_whole).2,
    BlockStore_inode :=
      { exAOpen.BlockStore_inode with
        data := upd exAOpen.BlockStore_inode.data 1
          { exAOpen.BlockStore_inode.data 1 with
            directPointer := upd (exAOpen.BlockStore_inode.data 1).directPointer 0 34 } } }

/-- The image `exAGrown` with the byte 7 stored at the start of block 34. -/
def exAStored : F17FS :=
  { exAGrown with
    BlockStore_whole :=
      (block_store_n_write exAGrown.BlockStore_whole 34 0 [7] 1).getD exAGrown.BlockStore_whole }

/-- The image `exAOpen` after `fs_write` of the one byte 7 through descriptor
0: block 34 holds the byte, the file of inode 1 has one byte, and the cursor of
the descriptor stands at 1. -/
def exAWritten : F17FS :=
  { exAStored with
    BlockStore_fd :=
      { exAStored.BlockStore_fd with
        data := upd exAStored.BlockStore_fd.data 0
          { exAOpen.BlockStore_fd.data 0 with locate_offset := 1 } },
    BlockStore_inode :=
      { exAStored.BlockStore_inode with
        data := upd exAStored.BlockStore_inode.data 1
          { exAStored.BlockStore_inode.data 1 with fileSize := 1 } } }

/-- The number of live entries (occupancy bit set, slots 0..6) of a directory
block that carry the inode number `x`. -/
def entryRefs (vacantFile : Nat) (blk : Block) (x : Nat) : Nat :=
  ((List.range 7).filter
    (fun k => bitmap_test vacantFile k && decide (dentryInode blk k = x))).length

/-- The number of live directory entries whose inode number is `x`, over the
data blocks of all allocated directory inodes. -/
def refCount (fs : F17FS) (x : Nat) : Nat :=
  ((List.range 256).map (fun d =>
    if block_store_sub_test fs.BlockStore_inode d = true ∧
        (fs.BlockStore_inode.data d).fileType = CH_d then
      entryRefs (fs.BlockStore_inode.data d).vacantFile
        (fs.BlockStore_whole.data ((fs.BlockStore_inode.data d).directPointer 0)) x
    else 0)).sum

end F17

namespace F17

/-! ## Series of writes and further example images -/

/-- Successive calls of `fs_write` on the descriptor `fd`, one for each buffer
of the list: the values the calls return, in order, and the file system after
the last one. -/
def writeAll (fs : F17FS) (fd : Int) : List (List Nat) → Option (List Int × F17FS)
  | [] => some ([], fs)
  | src :: rest =>
    match fs_write fs fd src with
    | none => none
    | some (c, fs1) =>
      match writeAll fs1 fd rest with
      | none => none
      | some (cs, fs2) => some (c :: cs, fs2)

/-- The descriptor `fd` stands at the end of the file of inode `i`, which it
has filled with the bytes `B`: the descriptor is open on `i` with its cursor in
range at position `|B|`, the size of the file is `|B|`, the block map of the
file is well formed and covers the bytes, and the bytes of the file are those
of `B`. -/
structure Filling (fs : F17FS) (fd i : Nat) (B : List Nat) : Prop where
  isOpen : block_store_sub_test fs.BlockStore_fd fd = true
  ino : (fs.BlockStore_fd.data fd).inodeNum = i
  cur : cursorOK (fs.BlockStore_fd.data fd)
  z : fs.BlockStore_whole.fbm 0 = true
  pos : getFileSize (fs.BlockStore_fd.data fd) = B.length
  size : (fs.BlockStore_inode.data i).fileSize = B.length
  wf : ∃ M, FileWF fs (fs.BlockStore_inode.data i) M ∧
    logicalBlock (fs.BlockStore_fd.data fd) ≤ M ∧ B.length ≤ 512 * M
  bytes : ∀ x, x < B.length → fileByte fs i x = B.getD x 0

/-- The image `exFormat` with every block of the store marked in use: a disk
without a free block. -/
def exNoBlock : F17FS :=
  { exFormat with BlockStore_whole := { exFormat.BlockStore_whole with fbm := fun _ => true } }

/-- The image after `fs_format`, `fs_create("/x", FS_REGULAR)`,
`fs_create("/a", FS_REGULAR)`, `fs_remove("/x")` and
`fs_create("/ab", FS_REGULAR)`: the root directory holds the regular files
`"ab"` (inode 1) in slot 0 and `"a"` (inode 2) in slot 1. -/
def exFiles : F17FS :=
  (fs_create
    (fs_remove
      (fs_create
        (fs_create exFormat [47, 120] file_t.FS_REGULAR exJunk (fun _ => 0)).2
        [47, 97] file_t.FS_REGULAR exJunk (fun _ => 0)).2
      [47, 120] exJunk (fun _ => 0)).2
    [47, 97, 98] file_t.FS_REGULAR exJunk (fun _ => 0)).2

/-- The image `exFiles` after `fs_remove("/a")` and `fs_open("/ab")`. -/
def exStale : F17FS :=
  (fs_open (fs_remove exFiles [47, 97] exJunk (fun _ => 0)).2 [47, 97, 98]).2

end F17

namespace F17

/-! ## Images reached by writes that take blocks

The states below are written out field by field; the theorems of the last
sections prove, step by step, that the calls of `fs_write` named in the
comments return them. -/

/-- Three blocks at the end of the store are free. -/
def spareFree (bs : block_store Block) : Bool :=
  !bs.fbm 65533 && !bs.fbm 65534 && !bs.fbm 65535

/-- The state after `get_data_block_id` has taken block `m` for the empty
direct slot `k` of inode `i` (lines 556-563). -/
def takeDirect (fs : F17FS) (i k m : Nat) : F17FS :=
  { fs with
    BlockStore_whole := { fs.BlockStore_whole with fbm := upd fs.BlockStore_whole.fbm m true },
    BlockStore_inode :=
      { fs.BlockStore_inode with
        data := upd fs.BlockStore_inode.data i
          { fs.BlockStore_inode.data i with
            directPointer := upd (fs.BlockStore_inode.data i).directPointer k m } } }

/-- The state after `get_data_block_id` has taken block `m` for the index
block of inode `i` and block `m1` for its entry 0 (lines 573-582). -/
def takeIndirect (fs : F17FS) (i m m1 : Nat) : F17FS :=
  { fs with
    BlockStore_whole :=
      { fbm := upd (upd fs.BlockStore_whole.fbm m true) m1 true,
        data := upd fs.BlockStore_whole.data m (blockOfTable (upd zeroTable 0 m1)) },
    BlockStore_inode :=
      { fs.BlockStore_inode with
        data := upd fs.BlockStore_inode.data i
          { fs.BlockStore_inode.data i with indirectPointer := m } } }

/-- The state `fs_write` leaves when its loop has stored the `n` bytes of `src`
in block `b` at the offset of the cursor `d` and has stopped with the cursor
`d1`: the bytes are in the block, the descriptor `fd` holds `d1`, and the size
of the file is at least `size`. -/
def storeBytes (fs : F17FS) (fd : Nat) (d d1 : fileDescriptor) (b : Nat) (src : List Nat)
    (n size : Nat) : F17FS :=
  { BlockStore_whole :=
      { fs.BlockStore_whole with
        data := upd fs.BlockStore_whole.data b (fun j =>
          if d.locate_offset ≤ j ∧ j < d.locate_offset + n then src.getD (j - d.locate_offset) 0
          else fs.BlockStore_whole.data b j) },
    BlockStore_fd := { fs.BlockStore_fd with data := upd fs.BlockStore_fd.data fd d1 },
    BlockStore_inode :=
      { fs.BlockStore_inode with
        data := upd fs.BlockStore_inode.data d1.inodeNum
          (if (fs.BlockStore_inode.data d1.inodeNum).fileSize < size then
            { fs.BlockStore_inode.data d1.inodeNum with fileSize := size }
           else fs.BlockStore_inode.data d1.inodeNum) } }

/-- A buffer of 512 bytes of value 7. -/
def exBlock7 : List Nat := List.replicate 512 7

/-- A buffer of 512 bytes that reads as an index table whose entries 0 and 1
are the block number 1. -/
def exTableBytes : List Nat := [1, 0, 1, 0] ++ List.replicate 508 0

/-- The cursor `{usage, order, offset = 0}` of a descriptor on inode `i`. -/
def curAt (i u o : Nat) : fileDescriptor :=
  { inodeNum := i, usage := u, locate_order := o, locate_offset := 0 }

/-- The image `exAOpen` after `fs_write` of the 512 bytes `exBlock7` through
descriptor 0: the file `"/a"` (inode 1) has taken block 34 for
`directPointer[0]` and has 512 bytes. -/
def exW1 : F17FS :=
  storeBytes (takeDirect exAOpen 1 0 34) 0 (curAt 1 1 0) (curAt 1 1 1) 34 exBlock7 512 512

/-- The image `exW1` after `fs_write` of the 512 bytes `exBlock7` through
descriptor 0: the file `"/a"` (inode 1) has taken block 35 for
`directPointer[1]` and has 1024 bytes. -/
def exW2 : F17FS :=
  storeBytes (takeDirect exW1 1 1 35) 0 (curAt 1 1 1) (curAt 1 1 2) 35 exBlock7 512 1024

/-- The image `exW2` after `fs_write` of the 512 bytes `exBlock7` through
descriptor 0: the file `"/a"` (inode 1) has taken block 36 for
`directPointer[2]` and has 1536 bytes. -/
def exW3 : F17FS :=
  storeBytes (takeDirect exW2 1 2 36) 0 (curAt 1 1 2) (curAt 1 1 3) 36 exBlock7 512 1536

/-- The image `exW3` after `fs_write` of the 512 bytes `exBlock7` through
descriptor 0: the file `"/a"` (inode 1) has taken block 37 for
`directPointer[3]` and has 2048 bytes. -/
def exW4 : F17FS :=
  storeBytes (takeDirect exW3 1 3 37) 0 (curAt 1 1 3) (curAt 1 1 4) 37 exBlock7 512 2048

/-- The image `exW4` after `fs_write` of the 512 bytes `exBlock7` through
descriptor 0: the file `"/a"` (inode 1) has taken block 38 for
`directPointer[4]` and has 2560 bytes. -/
def exW5 : F17FS :=
  storeBytes (takeDirect exW4 1 4 38) 0 (curAt 1 1 4) (curAt 1 1 5) 38 exBlock7 512 2560

/-- The image `exW5` after `fs_write` of the 512 bytes `exBlock7` through
descriptor 0: the file `"/a"` (inode 1) has taken block 39 for
`directPointer[5]` and has 3072 bytes. -/
def exW6 : F17FS :=
  storeBytes (takeDirect exW5 1 5 39) 0 (curAt 1 1 5) (curAt 1 2 0) 39 exBlock7 512 3072

/-- The image `exW6` after `fs_write` of the 512 bytes `exBlock7` through
descriptor 0: the file `"/a"` has taken block 40 for its index block and block
41 for the first entry of it, and has 3584 bytes. -/
def exW7 : F17FS :=
  storeBytes (takeIndirect exW6 1 40 41) 0 (curAt 1 2 0) (curAt 1 2 1) 41 exBlock7 512 3584

/-- The image `exW7` after `fs_remove("/a")`, which releases the blocks 34..41,
closes descriptor 0 and returns -7, then `fs_create("/d", FS_DIRECTORY)`
(inode 2, block 34), `fs_create("/b", FS_REGULAR)` (inode 3) and
`fs_open("/b")`, which returns descriptor 0. -/
def exSecondFile : F17FS :=
  (fs_open
    (fs_create
      (fs_create (fs_remove exW7 [47, 97] exJunk (fun _ => 0)).2
        [47, 100] file_t.FS_DIRECTORY exJunk (fun _ => 0)).2
      [47, 98] file_t.FS_REGULAR exJunk (fun _ => 0)).2
    [47, 98]).2

/-- The image `exSecondFile` after `fs_write` of the 512 bytes `exBlock7` through
descriptor 0: the file `"/b"` (inode 3) has taken block 35 for
`directPointer[0]` and has 512 bytes. -/
def exV1 : F17FS :=
  storeBytes (takeDirect exSecondFile 3 0 35) 0 (curAt 3 1 0) (curAt 3 1 1) 35 exBlock7 512 512

/-- The image `exV1` after `fs_write` of the 512 bytes `exBlock7` through
descriptor 0: the file `"/b"` (inode 3) has taken block 36 for
`directPointer[1]` and has 1024 bytes. -/
def exV2 : F17FS :=
  storeBytes (takeDirect exV1 3 1 36) 0 (curAt 3 1 1) (curAt 3 1 2) 36 exBlock7 512 1024

/-- The image `exV2` after `fs_write` of the 512 bytes `exBlock7` through
descriptor 0: the file `"/b"` (inode 3) has taken block 37 for
`directPointer[2]` and has 1536 bytes. -/
def exV3 : F17FS :=
  storeBytes (takeDirect exV2 3 2 37) 0 (curAt 3 1 2) (curAt 3 1 3) 37 exBlock7 512 1536

/-- The image `exV3` after `fs_write` of the 512 bytes `exBlock7` through
descriptor 0: the file `"/b"` (inode 3) has taken block 38 for
`directPointer[3]` and has 2048 bytes. -/
def exV4 : F17FS :=
  storeBytes (takeDirect exV3 3 3 38) 0 (curAt 3 1 3) (curAt 3 1 4) 38 exBlock7 512 2048

/-- The image `exV4` after `fs_write` of the 512 bytes `exBlock7` through
descriptor 0: the file `"/b"` (inode 3) has taken block 39 for
`directPointer[4]` and has 2560 bytes. -/
def exV5 : F17FS :=
  storeBytes (takeDirect exV4 3 4 39) 0 (curAt 3 1 4) (curAt 3 1 5) 39 exBlock7 512 2560

/-- The image `exV5` after `fs_write` of the 512 bytes `exTableBytes` through
descriptor 0: the file `"/b"` has taken block 40 for `directPointer[5]`, the
block the inode of `"/a"` still names as its index block, and the block holds
the bytes written. -/
def exV6 : F17FS :=
  storeBytes (takeDirect exV5 3 5 40) 0 (curAt 3 1 5) (curAt 3 2 0) 40 exTableBytes 512 3072

/-- The image `exV6` after `fs_open("/a")`, which returns descriptor 1, and
`fs_seek(1, 3072, FS_SEEK_SET)`: the cursor of descriptor 1 stands at entry 0
of the index block of `"/a"`. -/
def exStaleIndex : F17FS :=
  (fs_seek (fs_open exV6 [47, 97]).2 1 3072 .FS_SEEK_SET).2

/-- The image `exAWritten` (the file `"/a"` of one byte in block 34, open on
descriptor 0) after `fs_remove("/a")`, which releases block 34, closes the
descriptor and returns -7, then `fs_create("/b", FS_REGULAR)` and
`fs_open("/b")`, which returns descriptor 0. -/
def exFreed : F17FS :=
  (fs_open
    (fs_create (fs_remove exAWritten [47, 97] exJunk (fun _ => 0)).2
      [47, 98] file_t.FS_REGULAR exJunk (fun _ => 0)).2
    [47, 98]).2

/-- The image `exFreed` after `fs_write` of the byte 9 through descriptor 0:
the file `"/b"` (inode 2) has taken block 34, which the inode of `"/a"` still
names. -/
def exSharedBlock : F17FS :=
  storeBytes (takeDirect exFreed 2 0 34) 0 (curAt 2 1 0)
    { inodeNum := 2, usage := 1, locate_order := 0, locate_offset := 1 } 34 [9] 1 1

/-- The image `exSharedBlock` after `fs_open("/a")`, which returns descriptor
1, and `fs_seek(0, 0, FS_SEEK_SET)`: both descriptors stand at position 0. -/
def exShared : F17FS :=
  (fs_seek (fs_open exSharedBlock [47, 97]).2 0 0 .FS_SEEK_SET).2

/-- Twenty bytes that read, as the first bytes of a `struct inode`, as
`vacantFile = 0xFF`, an empty `owner` and `fileType = 'r'`. -/
def exInodeHead : List Nat := [255] ++ List.replicate 18 0 ++ [114]

/-- Forty-eight bytes that read, as the first bytes of a `struct inode`, as
`vacantFile = 7`, an empty `owner`, `fileType = 'd'`, `inodeNumber = 0`,
`fileSize = 512` and `linkCount = 256`. -/
def exInodeLinks : List Nat :=
  [7] ++ List.replicate 18 0 ++ [100] ++ List.replicate 12 0 ++ [0, 2, 0, 0, 0, 0, 0, 0] ++
    [0, 1, 0, 0, 0, 0, 0, 0]

/-- The image `exAWritten` (the file `"/a"` of one byte in block 34, open on
descriptor 0) after `fs_remove("/a")`, which releases block 34, closes the
descriptor and returns -7, then `fs_create("/d", FS_DIRECTORY)`, which takes
block 34 for the directory, `fs_create("/e", FS_REGULAR)` and `fs_open("/a")`,
which returns descriptor 0. -/
def exStaleDir : F17FS :=
  (fs_open
    (fs_create
      (fs_create (fs_remove exAWritten [47, 97] exJunk (fun _ => 0)).2
        [47, 100] file_t.FS_DIRECTORY exJunk (fun _ => 0)).2
      [47, 101] file_t.FS_REGULAR exJunk (fun _ => 0)).2
    [47, 97]).2

/-- The path `"/"` followed by 500 letters `b`. -/
def exPath500 : List Nat := 47 :: List.replicate 500 98

end F17


/-! ## Basic facts about the stores -/

namespace F17

@[simp] theorem upd_same {α : Type} (f : Nat → α) (i : Nat) (v : α) : upd f i v i = v := by
  simp [upd]

@[simp] theorem upd_other {α : Type} (f : Nat → α) (i j : Nat) (v : α) (h : j ≠ i) :
    upd f i v j = f j := by
  simp [upd, h]

theorem toSsize_small (n : Nat) (h : n < 2 ^ 63) : toSsize n = (n : Int) := by
  unfold toSsize
  have h1 : n % 2 ^ 64 = n := Nat.mod_eq_of_lt (by omega)
  rw [h1, if_pos h]

theorem getFileSize_lt (d : fileDescriptor) (h : fdValid d) : getFileSize d < 2 ^ 63 := by
  obtain ⟨_, _, h3, h4⟩ := h
  unfold getFileSize
  split
  · omega
  · split <;> omega

theorem sub_test_lt {α : Type} (bs : block_store α) (id : Nat)
    (h : block_store_sub_test bs id = true) : id < 256 := by
  unfold block_store_sub_test at h
  simp at h; exact h.1

end F17


/-! ## `fs_seek` -/

namespace F17

/-- A sum inside the 64-bit signed range is its own wrapped value. -/
theorem wrapS64_small (z : Int) (h1 : -2 ^ 63 ≤ z) (h2 : z < 2 ^ 63) : wrapS64 z = z := by
  unfold wrapS64
  rw [Int.emod_eq_of_lt (by omega) (by omega)]
  omega

/-- The clamp of `fs_seek` where its sums do not overflow: on an open
descriptor at position `c` of a file of size `fileSize`, `fs_seek` returns
`clamp(o, 0, fileSize)` for `FS_SEEK_SET`; `clamp(c + o, 0, fileSize)` for
`FS_SEEK_CUR` when `o` is an `off_t` and `c + o` is below 2^63;
`clamp(fileSize + o, 0, fileSize)` for `FS_SEEK_END` when `o` is an `off_t`;
any other `whence` gives a negative code and leaves the file system, the
descriptor included, unchanged. -/
theorem fs_seek_clamp (fs : F17FS) (fd : Nat) (o : Int)
    (hfd : block_store_sub_test fs.BlockStore_fd fd = true)
    (hv : fdValid (fs.BlockStore_fd.data fd))
    (hsz : (fs.BlockStore_inode.data (fs.BlockStore_fd.data fd).inodeNum).fileSize < 2 ^ 63) :
    (fs_seek fs fd o .FS_SEEK_SET).1 =
        clamp o 0 (fs.BlockStore_inode.data (fs.BlockStore_fd.data fd).inodeNum).fileSize ∧
    (-2 ^ 63 ≤ o → getFileSize (fs.BlockStore_fd.data fd) + o < 2 ^ 63 →
      (fs_seek fs fd o .FS_SEEK_CUR).1 =
        clamp (getFileSize (fs.BlockStore_fd.data fd) + o) 0
          (fs.BlockStore_inode.data (fs.BlockStore_fd.data fd).inodeNum).fileSize) ∧
    (-2 ^ 63 ≤ o →
      (fs_seek fs fd o .FS_SEEK_END).1 =
        clamp ((fs.BlockStore_inode.data (fs.BlockStore_fd.data fd).inodeNum).fileSize + o) 0
          (fs.BlockStore_inode.data (fs.BlockStore_fd.data fd).inodeNum).fileSize) ∧
    ∀ v, (fs_seek fs fd o (.other v)).1 < 0 ∧ (fs_seek fs fd o (.other v)).2 = fs := by
  have hfd' : fd < 256 := sub_test_lt _ _ hfd
  have hino := hv.1
  have hpos := getFileSize_lt _ hv
  refine ⟨?_, ?_, ?_, ?_⟩
  · simp only [fs_seek, Int.toNat_ofNat, hfd, block_store_sub_read, hfd', hino, if_true,
      seekStdOffset, block_store_sub_write, toSsize_small _ hsz, toSsize_small _ hpos, clamp]
    simp
    split_ifs <;> omega
  · intro h1 h2
    simp only [fs_seek, Int.toNat_ofNat, hfd, block_store_sub_read, hfd', hino, if_true,
      seekStdOffset, block_store_sub_write, toSsize_small _ hsz, toSsize_small _ hpos, clamp]
    rw [wrapS64_small _ (by omega) h2]
    simp
    split_ifs <;> omega
  · intro h1
    simp only [fs_seek, Int.toNat_ofNat, hfd, block_store_sub_read, hfd', hino, if_true,
      seekStdOffset, block_store_sub_write, toSsize_small _ hsz, toSsize_small _ hpos, clamp]
    by_cases hpos0 : o > 0
    · simp only [hpos0, if_true]
      simp
      omega
    · rw [wrapS64_small _ (by omega) (by omega)]
      simp
      split_ifs <;> omega
  · intro v
    simp only [fs_seek, Int.toNat_ofNat, hfd, block_store_sub_read, hfd', hino, if_true,
      seekStdOffset, block_store_sub_write]
    simp

/-- The clamp on the example image: descriptor 0, offset 2561. -/
theorem fs_seek_clamp_witness :
    (fs_seek exFs (0 : Nat) 2561 .FS_SEEK_SET).1 = clamp 2561 0 3000 ∧
    (fs_seek exFs (0 : Nat) 2561 .FS_SEEK_CUR).1 = clamp (0 + 2561) 0 3000 ∧
    (fs_seek exFs (0 : Nat) 2561 .FS_SEEK_END).1 = clamp (3000 + 2561) 0 3000 ∧
    ∀ v, (fs_seek exFs (0 : Nat) 2561 (.other v)).1 < 0 ∧
      (fs_seek exFs (0 : Nat) 2561 (.other v)).2 = exFs :=
  have h := fs_seek_clamp exFs 0 2561 (by decide) (by decide) (by decide)
  ⟨h.1, h.2.1 (by decide) (by decide), h.2.2.1 (by decide), h.2.2.2⟩

/-- C8. Seek and the cursor disagree: on the example image (a file of 3000
bytes) `fs_seek(fd, 2561, FS_SEEK_SET)` returns 2561, yet the descriptor it
stores is `{usage = 2, order = 65535, offset = 1}`, whose position under
`getFileSize` is 33,556,993. -/
theorem fs_seek_cursor_disagrees :
    (fs_seek exFs 0 2561 .FS_SEEK_SET).1 = 2561 ∧
    (fs_seek exFs 0 2561 .FS_SEEK_SET).2.BlockStore_fd.data 0 =
      { inodeNum := 1, usage := 2, locate_order := 65535, locate_offset := 1 } ∧
    getFileSize ((fs_seek exFs 0 2561 .FS_SEEK_SET).2.BlockStore_fd.data 0) = 33556993 := by
  decide

end F17


/-! ## The allocator's frame and the transfer loops -/

namespace F17

theorem sameMeta_refl (a : inode) : sameMeta a a := ⟨rfl, rfl, rfl, rfl, rfl⟩

theorem metaFrame_refl (fs : F17FS) : metaFrame fs fs := ⟨rfl, rfl, fun _ => sameMeta_refl _⟩

theorem metaFrame_trans {a b c : F17FS} (h1 : metaFrame a b) (h2 : metaFrame b c) :
    metaFrame a c := by
  obtain ⟨f1, i1, m1⟩ := h1
  obtain ⟨f2, i2, m2⟩ := h2
  refine ⟨f2.trans f1, i2.trans i1, fun j => ?_⟩
  obtain ⟨a1, a2, a3, a4, a5⟩ := m1 j
  obtain ⟨b1, b2, b3, b4, b5⟩ := m2 j
  exact ⟨b1.trans a1, b2.trans a2, b3.trans a3, b4.trans a4, b5.trans a5⟩

theorem metaFrame_whole (fs : F17FS) (w : block_store Block) :
    metaFrame fs { fs with BlockStore_whole := w } := ⟨rfl, rfl, fun _ => sameMeta_refl _⟩

theorem alloc16_lt (bs : block_store Block) : (alloc16 bs).1 < 65536 := by
  unfold alloc16
  split
  · exact Nat.mod_lt _ (by norm_num)
  · norm_num

theorem test_lt (bs : block_store Block) (id : Nat) (h : block_store_test bs id = true) :
    id < 65536 := by
  unfold block_store_test BLOCK_STORE_NUM_BLOCKS at h
  simp at h; exact h.1

/-- storing a pointer-modified copy of inode `i` keeps the frame -/
theorem metaFrame_inode (fs : F17FS) (w : block_store Block) (i : Nat) (ino1 : inode)
    (st : block_store inode)
    (h : block_store_sub_write fs.BlockStore_inode i ino1 = some st)
    (hm : sameMeta ino1 (fs.BlockStore_inode.data i)) :
    metaFrame fs { fs with BlockStore_whole := w, BlockStore_inode := st } := by
  unfold block_store_sub_write at h
  split at h
  · cases h
    refine ⟨rfl, rfl, fun j => ?_⟩
    by_cases hj : j = i
    · subst hj; simpa using hm
    · simp [hj, sameMeta_refl]
  · cases h

theorem gdb_direct_spec (fs : F17FS) (i : Nat) (order : Nat) :
    (gdb_direct fs i (fs.BlockStore_inode.data i) order).1 < 65536 ∧
    metaFrame fs (gdb_direct fs i (fs.BlockStore_inode.data i) order).2 := by
  unfold gdb_direct
  split_ifs with h1 h2 h3
  · simp only
    split
    · rename_i st hst
      refine ⟨alloc16_lt _, ?_⟩
      exact metaFrame_inode fs _ i _ st hst (sameMeta_refl _)
    · exact ⟨by norm_num, metaFrame_whole _ _⟩
  · exact ⟨by norm_num, metaFrame_refl _⟩
  · exact ⟨test_lt _ _ h3, metaFrame_refl _⟩
  · exact ⟨by norm_num, metaFrame_refl _⟩

theorem gdb_indirect_spec (fs : F17FS) (i : Nat) (order : Nat) :
    (gdb_indirect fs i (fs.BlockStore_inode.data i) order).1 < 65536 ∧
    metaFrame fs (gdb_indirect fs i (fs.BlockStore_inode.data i) order).2 := by
  unfold gdb_indirect
  simp only []
  repeat' split
  all_goals refine ⟨?_, ?_⟩
  all_goals first
    | exact metaFrame_refl _
    | exact metaFrame_whole _ _
    | (refine metaFrame_inode fs _ i _ _ (by assumption) ?_; exact ⟨rfl, rfl, rfl, rfl, rfl⟩)
    | exact test_lt _ _ (by assumption)
    | (simp only [upd_same]; first | exact alloc16_lt _ | norm_num)

theorem gdb_double_spec (fs : F17FS) (i : Nat) (order : Nat) :
    (gdb_double fs i (fs.BlockStore_inode.data i) order).1 < 65536 ∧
    metaFrame fs (gdb_double fs i (fs.BlockStore_inode.data i) order).2 := by
  unfold gdb_double
  simp only []
  repeat' split
  all_goals refine ⟨?_, ?_⟩
  all_goals first
    | exact metaFrame_refl _
    | exact metaFrame_whole _ _
    | (refine metaFrame_inode fs _ i _ _ (by assumption) ?_; exact ⟨rfl, rfl, rfl, rfl, rfl⟩)
    | exact test_lt _ _ (by assumption)
    | (simp only [upd_same]; first | exact alloc16_lt _ | norm_num)

theorem gdb_spec (fs : F17FS) (d : fileDescriptor) :
    (get_data_block_id fs d).1 < 65536 ∧ metaFrame fs (get_data_block_id fs d).2 := by
  unfold get_data_block_id block_store_sub_read
  by_cases h : d.inodeNum < 256
  · simp only [h, if_true]
    split_ifs
    · exact gdb_direct_spec fs _ _
    · exact gdb_indirect_spec fs _ _
    · exact gdb_double_spec fs _ _
  · simp only [h, if_false]
    exact ⟨by norm_num, metaFrame_refl _⟩

/-- The offset stays below a block, and the transfer is not empty, whenever
`block_store_n_write` succeeds. -/
theorem n_write_some (bs : block_store Block) (id off : Nat) (src : List Nat) (n : Nat)
    (w : block_store Block) (h : block_store_n_write bs id off src n = some w) :
    id < 65536 ∧ off + n ≤ 512 ∧ 0 < n ∧ w.fbm = bs.fbm ∧
    w.data = upd bs.data id (fun j =>
      if off ≤ j ∧ j < off + n then src.getD (j - off) 0 else bs.data id j) := by
  unfold block_store_n_write BLOCK_STORE_NUM_BLOCKS BLOCK_SIZE_BYTES at h
  split at h
  · rename_i hc
    cases h
    exact ⟨hc.1, hc.2.1, hc.2.2, rfl, rfl⟩
  · cases h

theorem writeLoop_total (fuel : Nat) : ∀ (fs : F17FS) (d : fileDescriptor) (src : List Nat)
    (written : Nat) (last : Option Nat), src.length - written ≤ fuel →
    ∃ r, writeLoop fuel fs d src written last = some r := by
  induction fuel with
  | zero =>
    intro fs d src written last h
    unfold writeLoop
    have : ¬ (src.length - written > 0) := by omega
    simp [this]
  | succ n ih =>
    intro fs d src written last h
    unfold writeLoop
    by_cases h0 : src.length - written > 0
    · rw [if_pos h0]
      simp only
      by_cases h1 : 0 < (get_data_block_id fs d).1
      · rw [if_pos h1]
        by_cases h2 : d.locate_offset + src.length - written < BLOCK_SIZE_BYTES
        · rw [if_pos h2]
          split <;> exact ⟨_, rfl⟩
        · rw [if_neg h2]
          split
          · rename_i w hw
            have hw2 := n_write_some _ _ _ _ _ _ hw
            apply ih
            unfold BLOCK_SIZE_BYTES at *
            omega
          · exact ⟨_, rfl⟩
      · rw [if_neg h1]
        exact ⟨_, rfl⟩
    · rw [if_neg h0]
      exact ⟨_, rfl⟩

/-- The proof rule of the loop of `fs_write`: an invariant `P` of the loop head
and a property `Q` of every way the loop stops. -/
theorem writeLoop_rule (src : List Nat) (P : F17FS → fileDescriptor → Nat → Prop)
    (Q : LoopResult → Prop)
    (hdone : ∀ fs d w last, P fs d w → ¬ (src.length - w > 0) → Q ⟨none, fs, d, w, last⟩)
    (hstarve : ∀ fs d w, P fs d w → src.length - w > 0 → ¬ 0 < (get_data_block_id fs d).1 →
      Q ⟨none, (get_data_block_id fs d).2, d, w, some (get_data_block_id fs d).1⟩)
    (hlast : ∀ fs d w, P fs d w → src.length - w > 0 → 0 < (get_data_block_id fs d).1 →
      d.locate_offset + src.length - w < BLOCK_SIZE_BYTES →
      (∀ wst, block_store_n_write (get_data_block_id fs d).2.BlockStore_whole
          (get_data_block_id fs d).1 d.locate_offset (src.drop w) (src.length - w) = some wst →
        Q ⟨none, { (get_data_block_id fs d).2 with BlockStore_whole := wst },
          { d with locate_offset := (d.locate_offset + (src.length - w)) % 65536 },
          src.length, some (get_data_block_id fs d).1⟩) ∧
      (block_store_n_write (get_data_block_id fs d).2.BlockStore_whole
          (get_data_block_id fs d).1 d.locate_offset (src.drop w) (src.length - w) = none →
        Q ⟨some (-5), (get_data_block_id fs d).2, d, w, some (get_data_block_id fs d).1⟩))
    (hfull : ∀ fs d w, P fs d w → src.length - w > 0 → 0 < (get_data_block_id fs d).1 →
      ¬ d.locate_offset + src.length - w < BLOCK_SIZE_BYTES →
      (∀ wst, block_store_n_write (get_data_block_id fs d).2.BlockStore_whole
          (get_data_block_id fs d).1 d.locate_offset (src.drop w)
          (BLOCK_SIZE_BYTES - d.locate_offset) = some wst →
        P { (get_data_block_id fs d).2 with BlockStore_whole := wst } (advanceCursor d)
          (w + (BLOCK_SIZE_BYTES - d.locate_offset))) ∧
      (block_store_n_write (get_data_block_id fs d).2.BlockStore_whole
          (get_data_block_id fs d).1 d.locate_offset (src.drop w)
          (BLOCK_SIZE_BYTES - d.locate_offset) = none →
        Q ⟨some (-6), (get_data_block_id fs d).2, d, w, some (get_data_block_id fs d).1⟩))
    (fuel : Nat) : ∀ (fs : F17FS) (d : fileDescriptor) (w : Nat) (last : Option Nat)
      (r : LoopResult), P fs d w → writeLoop fuel fs d src w last = some r → Q r := by
  induction fuel with
  | zero =>
    intro fs d w last r hP h
    unfold writeLoop at h
    by_cases h0 : src.length - w > 0
    · rw [if_pos h0] at h; cases h
    · rw [if_neg h0] at h; cases h
      exact hdone _ _ _ _ hP h0
  | succ n ih =>
    intro fs d w last r hP h
    unfold writeLoop at h
    by_cases h0 : src.length - w > 0
    · rw [if_pos h0] at h
      simp only at h
      by_cases h1 : 0 < (get_data_block_id fs d).1
      · rw [if_pos h1] at h
        by_cases h2 : d.locate_offset + src.length - w < BLOCK_SIZE_BYTES
        · rw [if_pos h2] at h
          have hl := hlast fs d w hP h0 h1 h2
          split at h
          · rename_i wst hw
            cases h
            exact hl.1 wst hw
          · rename_i hw
            cases h
            exact hl.2 hw
        · rw [if_neg h2] at h
          have hf := hfull fs d w hP h0 h1 h2
          split at h
          · rename_i wst hw
            exact ih _ _ _ _ _ (hf.1 wst hw) h
          · rename_i hw
            cases h
            exact hf.2 hw
      · rw [if_neg h1] at h
        cases h
        exact hstarve _ _ _ hP h0 h1
    · rw [if_neg h0] at h; cases h
      exact hdone _ _ _ _ hP h0

end F17


/-! ## The cursor through `fs_write` -/

namespace F17

@[simp] theorem advanceCursor_inodeNum (d : fileDescriptor) :
    (advanceCursor d).inodeNum = d.inodeNum := by
  unfold advanceCursor
  split_ifs <;> rfl

/-- The loop of `fs_write` keeps the frame of the allocator and the inode the
descriptor names. -/
theorem writeLoop_meta (src : List Nat) (fs0 : F17FS) (d0 : fileDescriptor) (fuel : Nat)
    (fs : F17FS) (d : fileDescriptor) (w : Nat) (last : Option Nat) (r : LoopResult)
    (hP : metaFrame fs0 fs ∧ d.inodeNum = d0.inodeNum)
    (h : writeLoop fuel fs d src w last = some r) :
    metaFrame fs0 r.fs ∧ r.fd_t.inodeNum = d0.inodeNum := by
  refine writeLoop_rule src (fun fs d _ => metaFrame fs0 fs ∧ d.inodeNum = d0.inodeNum)
    (fun r => metaFrame fs0 r.fs ∧ r.fd_t.inodeNum = d0.inodeNum)
    ?_ ?_ ?_ ?_ fuel fs d w last r hP h
  · intro fs d w last hP _; exact hP
  · intro fs d w hP _ _
    exact ⟨metaFrame_trans hP.1 (gdb_spec fs d).2, hP.2⟩
  · intro fs d w hP _ _ _
    refine ⟨fun wst _ => ?_, fun _ => ?_⟩
    · exact ⟨metaFrame_trans hP.1 (metaFrame_trans (gdb_spec fs d).2 (metaFrame_whole _ _)), hP.2⟩
    · exact ⟨metaFrame_trans hP.1 (gdb_spec fs d).2, hP.2⟩
  · intro fs d w hP _ _ _
    refine ⟨fun wst _ => ?_, fun _ => ?_⟩
    · exact ⟨metaFrame_trans hP.1 (metaFrame_trans (gdb_spec fs d).2 (metaFrame_whole _ _)),
        by simpa using hP.2⟩
    · exact ⟨metaFrame_trans hP.1 (gdb_spec fs d).2, hP.2⟩

theorem getFileSize_eq (d : fileDescriptor) (h : cursorOK d) :
    getFileSize d = 512 * logicalBlock d + d.locate_offset := by
  unfold getFileSize logicalBlock
  rcases h.2 with ⟨h1, _⟩ | ⟨h1, _⟩ | ⟨h1, _⟩ <;> simp [h1]

theorem logicalBlock_lt (d : fileDescriptor) (h : cursorOK d) : logicalBlock d < 65798 := by
  unfold logicalBlock
  rcases h.2 with ⟨h1, h2⟩ | ⟨h1, h2⟩ | ⟨h1, h2⟩ <;> simp [h1] <;> omega

/-- Advancing a cursor that is not in the last addressable block moves it to the
start of the next logical block. -/
theorem advanceCursor_spec (d : fileDescriptor) (h : cursorOK d)
    (hL : logicalBlock d + 1 < 65798) :
    cursorOK (advanceCursor d) ∧ logicalBlock (advanceCursor d) = logicalBlock d + 1 ∧
    (advanceCursor d).locate_offset = 0 := by
  unfold advanceCursor cursorOK logicalBlock DIRECT_BLOCKS INDIRECT_BLOCKS at *
  rcases h.2 with ⟨h1, h2⟩ | ⟨h1, h2⟩ | ⟨h1, h2⟩
  · by_cases h3 : d.locate_order = 5
    · simp [h1, h3]
    · have : (d.locate_order + 1) % 65536 = d.locate_order + 1 := Nat.mod_eq_of_lt (by omega)
      simp [h1, h3, this]; omega
  · by_cases h3 : d.locate_order = 255
    · simp [h1, h3]
    · have : (d.locate_order + 1) % 65536 = d.locate_order + 1 := Nat.mod_eq_of_lt (by omega)
      simp [h1, h3, this]; omega
  · simp [h1] at hL
    have : (d.locate_order + 1) % 65536 = d.locate_order + 1 := Nat.mod_eq_of_lt (by omega)
    simp [h1, this]; omega


theorem n_write_ok (bs : block_store Block) (id off : Nat) (src : List Nat) (n : Nat)
    (h1 : id < 65536) (h2 : off + n ≤ 512) (h3 : 0 < n) :
    block_store_n_write bs id off src n ≠ none := by
  unfold block_store_n_write BLOCK_STORE_NUM_BLOCKS BLOCK_SIZE_BYTES
  rw [if_pos ⟨h1, h2, h3⟩]
  simp

/-- The cursor through the loop of `fs_write`: as long as the write ends below
the last addressable byte, the loop stops without an error code, its cursor is
in range and denotes the start position plus the bytes written, and it stops
short only when `get_data_block_id` returned 0. -/
theorem writeLoop_cursor (src : List Nat) (S : Nat) (hmax : S + src.length < MAX_FILE_SIZE)
    (fuel : Nat) (fs : F17FS) (d : fileDescriptor) (w : Nat) (last : Option Nat)
    (r : LoopResult)
    (hP : cursorOK d ∧ getFileSize d = S + w ∧ w ≤ src.length)
    (h : writeLoop fuel fs d src w last = some r) :
    r.err = none ∧ cursorOK r.fd_t ∧ getFileSize r.fd_t = S + r.count ∧
    r.count ≤ src.length ∧ (r.blockID ≠ some 0 → r.count = src.length) := by
  refine writeLoop_rule src (fun _ d w => cursorOK d ∧ getFileSize d = S + w ∧ w ≤ src.length)
    (fun r => r.err = none ∧ cursorOK r.fd_t ∧ getFileSize r.fd_t = S + r.count ∧
      r.count ≤ src.length ∧ (r.blockID ≠ some 0 → r.count = src.length))
    ?_ ?_ ?_ ?_ fuel fs d w last r hP h
  · intro fs d w last hP h0
    exact ⟨rfl, hP.1, hP.2.1, hP.2.2, fun _ => by have := hP.2.2; simp only; omega⟩
  · intro fs d w hP _ h1
    refine ⟨rfl, hP.1, hP.2.1, hP.2.2, fun hb => ?_⟩
    exfalso; apply hb
    simp only [Option.some.injEq]; omega
  · intro fs d w hP h0 h1 h2
    unfold BLOCK_SIZE_BYTES at h2
    refine ⟨fun wst _ => ?_, fun hn => ?_⟩
    · have hmod : (d.locate_offset + (src.length - w)) % 65536 =
          d.locate_offset + (src.length - w) := Nat.mod_eq_of_lt (by omega)
      refine ⟨rfl, ?_, ?_, le_refl _, fun _ => rfl⟩
      · obtain ⟨hc1, hc2⟩ := hP.1
        exact ⟨by simp only [hmod]; omega, hc2⟩
      · have := hP.2.1
        simp only [hmod]
        unfold getFileSize at *
        simp only at *
        split_ifs at * <;> omega
    · exact absurd hn (n_write_ok _ _ _ _ _ (gdb_spec fs d).1 (by omega) (by omega))
  · intro fs d w hP h0 h1 h2
    unfold BLOCK_SIZE_BYTES at h2 ⊢
    have hoff := hP.1.1
    refine ⟨fun wst _ => ?_, fun hn => ?_⟩
    · have hS := getFileSize_eq d hP.1
      have hL : logicalBlock d + 1 < 65798 := by
        have := hP.2.1
        unfold MAX_FILE_SIZE at hmax
        omega
      obtain ⟨a1, a2, a3⟩ := advanceCursor_spec d hP.1 hL
      refine ⟨a1, ?_, by omega⟩
      rw [getFileSize_eq _ a1, a2, a3]
      have := hP.2.1
      omega
    · exact absurd hn (n_write_ok _ _ _ _ _ (gdb_spec fs d).1 (by omega) (by omega))


/-- The value of `fs_write` on an open descriptor and a non-empty buffer once
the loop has stopped without an error code. -/
theorem fs_write_eq (fs : F17FS) (fd : Nat) (src : List Nat) (r : LoopResult)
    (hfd : block_store_sub_test fs.BlockStore_fd fd = true) (hne : src ≠ [])
    (hr : writeLoop src.length fs (fs.BlockStore_fd.data fd) src 0 none = some r)
    (herr : r.err = none) (hino : r.fd_t.inodeNum < 256) :
    fs_write fs fd src = some ((r.count : Int),
      { r.fs with
        BlockStore_fd := { r.fs.BlockStore_fd with data := upd r.fs.BlockStore_fd.data fd r.fd_t },
        BlockStore_inode := { r.fs.BlockStore_inode with
          data := upd r.fs.BlockStore_inode.data r.fd_t.inodeNum
            (if (r.fs.BlockStore_inode.data r.fd_t.inodeNum).fileSize <
                getFileSize (fs.BlockStore_fd.data fd) + r.count then
              { r.fs.BlockStore_inode.data r.fd_t.inodeNum with
                fileSize := getFileSize (fs.BlockStore_fd.data fd) + r.count }
            else r.fs.BlockStore_inode.data r.fd_t.inodeNum) } }) := by
  have hfd' : fd < 256 := sub_test_lt _ _ hfd
  have hlen : src.length ≠ 0 := by
    intro h; exact hne (List.length_eq_zero.mp h)
  unfold fs_write
  simp only [Int.toNat_ofNat, hfd, block_store_sub_read, hfd', if_true, hlen, if_false, hr, herr,
    block_store_sub_write, hino]
  simp

end F17


/-! ## `fs_write`: cursor and file size -/

namespace F17

/-- Every early `return` code of the loop of `fs_write` is negative. -/
theorem writeLoop_err_neg (src : List Nat) (fuel : Nat) (fs : F17FS) (d : fileDescriptor)
    (w : Nat) (last : Option Nat) (r : LoopResult)
    (h : writeLoop fuel fs d src w last = some r) : ∀ e, r.err = some e → e < 0 := by
  refine writeLoop_rule src (fun _ _ _ => True) (fun r => ∀ e, r.err = some e → e < 0)
    ?_ ?_ ?_ ?_ fuel fs d w last r trivial h
  · intro _ _ _ _ _ _ e he; cases he
  · intro _ _ _ _ _ _ e he; cases he
  · intro _ _ _ _ _ _ _
    refine ⟨fun _ _ e he => (by cases he), fun _ e he => ?_⟩
    simp only [Option.some.injEq] at he; omega
  · intro _ _ _ _ _ _ _
    refine ⟨fun _ _ => trivial, fun _ e he => ?_⟩
    simp only [Option.some.injEq] at he; omega

/-- `fs_write` always returns: the iteration bound it gives its loop suffices. -/
theorem fs_write_total (fs : F17FS) (fd : Int) (src : List Nat) :
    ∃ r, fs_write fs fd src = some r := by
  unfold fs_write
  split_ifs
  · exact ⟨_, rfl⟩
  · exact ⟨_, rfl⟩
  · split
    · exact ⟨_, rfl⟩
    · rename_i d _
      obtain ⟨r, hr⟩ := writeLoop_total src.length fs d src 0 none (by omega)
      simp only [hr]
      split
      · exact ⟨_, rfl⟩
      · split
        · exact ⟨_, rfl⟩
        · split <;> exact ⟨_, rfl⟩

/-- C3, as amended. `fs_write` advances the cursor by the number of bytes it
reports: on an open descriptor with an in-range cursor at position `S`, a write
of `n > 0` bytes that ends below the last addressable byte (`S + n <
33,688,576`) returns some `k` with `0 ≤ k ≤ n`, the descriptor stored
afterwards is in range and denotes `S + k`, and `k = n` unless the last call
of `get_data_block_id` returned 0; a filled block resets the offset and
promotes `usage` 1 to 2 after order 5 and 2 to 4 after order 255. -/
theorem fs_write_cursor (fs : F17FS) (fd : Nat) (src : List Nat)
    (hfd : block_store_sub_test fs.BlockStore_fd fd = true)
    (hino : (fs.BlockStore_fd.data fd).inodeNum < 256)
    (hc : cursorOK (fs.BlockStore_fd.data fd)) (hne : src ≠ [])
    (hmax : getFileSize (fs.BlockStore_fd.data fd) + src.length < MAX_FILE_SIZE) :
    (∃ (k : Nat) (fs1 : F17FS) (r : LoopResult),
      writeLoop src.length fs (fs.BlockStore_fd.data fd) src 0 none = some r ∧
      fs_write fs fd src = some ((k : Int), fs1) ∧ k ≤ src.length ∧
      cursorOK (fs1.BlockStore_fd.data fd) ∧
      getFileSize (fs1.BlockStore_fd.data fd) = getFileSize (fs.BlockStore_fd.data fd) + k ∧
      (r.blockID ≠ some 0 → k = src.length)) ∧
    (∀ i o, advanceCursor ⟨i, 1, 5, o⟩ = ⟨i, 2, 0, 0⟩ ∧
      advanceCursor ⟨i, 2, 255, o⟩ = ⟨i, 4, 0, 0⟩) := by
  refine ⟨?_, fun i o => ⟨rfl, rfl⟩⟩
  obtain ⟨r, hr⟩ := writeLoop_total src.length fs (fs.BlockStore_fd.data fd) src 0 none
    (by omega)
  obtain ⟨hm, hi⟩ := writeLoop_meta src fs (fs.BlockStore_fd.data fd) _ _ _ _ _ r
    ⟨metaFrame_refl _, rfl⟩ hr
  obtain ⟨herr, hcur, hpos, hle, hshort⟩ :=
    writeLoop_cursor src (getFileSize (fs.BlockStore_fd.data fd)) hmax _ _ _ _ _ r
      ⟨hc, rfl, Nat.zero_le _⟩ hr
  refine ⟨r.count, _, r, hr, fs_write_eq fs fd src r hfd hne hr herr (by omega), hle, ?_, ?_,
    hshort⟩
  · simpa using hcur
  · simpa using hpos

/-- Witness of C3 on the example image: three bytes written at position 0. -/
theorem fs_write_cursor_witness :
    (∃ (k : Nat) (fs1 : F17FS) (r : LoopResult),
      writeLoop 3 exFs (exFs.BlockStore_fd.data 0) [1, 2, 3] 0 none = some r ∧
      fs_write exFs (0 : Nat) [1, 2, 3] = some ((k : Int), fs1) ∧ k ≤ 3 ∧
      cursorOK (fs1.BlockStore_fd.data 0) ∧
      getFileSize (fs1.BlockStore_fd.data 0) = getFileSize (exFs.BlockStore_fd.data 0) + k ∧
      (r.blockID ≠ some 0 → k = 3)) ∧
    (∀ i o, advanceCursor ⟨i, 1, 5, o⟩ = ⟨i, 2, 0, 0⟩ ∧
      advanceCursor ⟨i, 2, 255, o⟩ = ⟨i, 4, 0, 0⟩) :=
  fs_write_cursor exFs 0 [1, 2, 3] (by decide) (by decide) (by decide) (by decide) (by decide)

set_option maxRecDepth 100000 in
/-- C3 fails as stated: on `exFsEnd` the descriptor stands at the start of the
last addressable block (position 33,688,064); a write of 512 bytes returns 512,
and the descriptor stored afterwards is `{usage = 4, order = 0, offset = 0}`,
which denotes 134,144 and not 33,688,576: `locate_order + 1` wraps in 16 bits. -/
theorem fs_write_cursor_wraps :
    getFileSize (exFsEnd.BlockStore_fd.data 0) = 33688064 ∧
    writeView (fs_write exFsEnd 0 (List.replicate 512 7)) 0 =
      some (512, { inodeNum := 1, usage := 4, locate_order := 0, locate_offset := 0 }) ∧
    getFileSize { inodeNum := 1, usage := 4, locate_order := 0, locate_offset := 0 } = 134144 ∧
    134144 ≠ 33688064 + 512 := by
  decide

end F17


/-! ## The bitmap allocator and mapped blocks -/

namespace F17

theorem ffzFrom_some (bm : Nat → Bool) : ∀ (n i j : Nat), ffzFrom bm n i = some j →
    i ≤ j ∧ j < i + n ∧ bm j = false := by
  intro n
  induction n with
  | zero => intro i j h; simp [ffzFrom] at h
  | succ n ih =>
    intro i j h
    unfold ffzFrom at h
    split_ifs at h with hb
    · obtain ⟨h1, h2, h3⟩ := ih _ _ h
      exact ⟨by omega, by omega, h3⟩
    · cases h
      exact ⟨le_refl _, by omega, by simpa using hb⟩

theorem ffzFrom_of_count (bm : Nat → Bool) : ∀ (n i : Nat), 1 ≤ countFreeFrom bm n i →
    ∃ j, ffzFrom bm n i = some j := by
  intro n
  induction n with
  | zero => intro i h; simp [countFreeFrom] at h
  | succ n ih =>
    intro i h
    unfold countFreeFrom at h
    unfold ffzFrom
    by_cases hb : bm i = true
    · simp only [hb, if_true] at h ⊢
      exact ih _ (by omega)
    · simp only [hb]
      exact ⟨i, by simp⟩

theorem countFreeFrom_upd_out (bm : Nat → Bool) (j : Nat) (v : Bool) : ∀ (n i : Nat),
    (j < i ∨ i + n ≤ j) → countFreeFrom (upd bm j v) n i = countFreeFrom bm n i := by
  intro n
  induction n with
  | zero => intro i _; rfl
  | succ n ih =>
    intro i h
    unfold countFreeFrom
    have hne : i ≠ j := by omega
    rw [upd_other _ _ _ _ hne, ih (i + 1) (by omega)]

theorem countFreeFrom_set (bm : Nat → Bool) (j : Nat) (hj : bm j = false) : ∀ (n i : Nat),
    i ≤ j → j < i + n → countFreeFrom (upd bm j true) n i + 1 = countFreeFrom bm n i := by
  intro n
  induction n with
  | zero => intro i h1 h2; omega
  | succ n ih =>
    intro i h1 h2
    unfold countFreeFrom
    by_cases hij : i = j
    · subst hij
      rw [upd_same, countFreeFrom_upd_out _ _ _ _ _ (Or.inl (by omega))]
      simp [hj]; omega
    · rw [upd_other _ _ _ _ hij, ← ih (i + 1) (by omega) (by omega)]
      omega

/-- `block_store_allocate` on a store with a free block: the block handed out
was free, is below 65536, and the free count drops by one. -/
theorem alloc16_spec (bs : block_store Block) (h : 1 ≤ block_store_get_free_blocks bs) :
    (alloc16 bs).1 < 65536 ∧ bs.fbm (alloc16 bs).1 = false ∧
    (alloc16 bs).2 = { bs with fbm := upd bs.fbm (alloc16 bs).1 true } ∧
    block_store_get_free_blocks (alloc16 bs).2 + 1 = block_store_get_free_blocks bs := by
  unfold block_store_get_free_blocks BLOCK_STORE_NUM_BLOCKS at *
  obtain ⟨j, hj⟩ := ffzFrom_of_count bs.fbm 65536 0 h
  obtain ⟨h1, h2, h3⟩ := ffzFrom_some _ _ _ _ hj
  have hmod : j % 65536 = j := Nat.mod_eq_of_lt (by omega)
  have ha : alloc16 bs = (j, { bs with fbm := upd bs.fbm j true }) := by
    unfold alloc16 block_store_allocate bitmap_ffz BLOCK_STORE_NUM_BLOCKS
    simp only [hj, hmod]
  rw [ha]
  refine ⟨by omega, h3, rfl, ?_⟩
  exact countFreeFrom_set bs.fbm j h3 65536 0 h1 h2


theorem tableOfBlock_lt (b : Block) (j : Nat) : tableOfBlock b j < 65536 := by
  unfold tableOfBlock
  have h1 := Nat.mod_lt (b (2 * j)) (by norm_num : 256 > 0)
  have h2 := Nat.mod_lt (b (2 * j + 1)) (by norm_num : 256 > 0)
  omega

theorem tableOfBlock_blockOfTable (t : Nat → Nat) (j : Nat) (hj : j < 256) :
    tableOfBlock (blockOfTable t) j = t j % 65536 := by
  unfold tableOfBlock blockOfTable
  have h1 : 2 * j < 512 := by omega
  have h2 : 2 * j + 1 < 512 := by omega
  have h3 : 2 * j % 2 = 0 := by omega
  have h4 : (2 * j + 1) % 2 ≠ 0 := by omega
  have h5 : 2 * j / 2 = j := by omega
  have h6 : (2 * j + 1) / 2 = j := by omega
  simp only [h1, h2, h3, h4, h5, h6, if_true, if_false]
  omega

theorem block_store_write_spec (bs : block_store Block) (id : Nat) (b : Block)
    (h : id < 65536) :
    block_store_write bs id b = some { bs with data := upd bs.data id b } := by
  unfold block_store_write BLOCK_STORE_NUM_BLOCKS
  rw [if_pos h]

theorem block_store_read_spec (bs : block_store Block) (id : Nat) (h : id < 65536) :
    block_store_read bs id = some (bs.data id) := by
  unfold block_store_read BLOCK_STORE_NUM_BLOCKS
  rw [if_pos h]

theorem sub_write_spec {α : Type} (bs : block_store α) (id : Nat) (v : α) (h : id < 256) :
    block_store_sub_write bs id v = some { bs with data := upd bs.data id v } := by
  unfold block_store_sub_write
  rw [if_pos h]

theorem test_iff (bs : block_store Block) (id : Nat) :
    block_store_test bs id = true ↔ id < 65536 ∧ bs.fbm id = true := by
  unfold block_store_test BLOCK_STORE_NUM_BLOCKS
  simp

/-- On a mapped logical block `get_data_block_id` returns the block of the map
and changes nothing. -/
theorem gdb_mapped (fs : F17FS) (d : fileDescriptor) (hc : cursorOK d)
    (hi : d.inodeNum < 256)
    (hm : blockMapped fs (fs.BlockStore_inode.data d.inodeNum) (logicalBlock d)) :
    get_data_block_id fs d =
      (blockOf fs (fs.BlockStore_inode.data d.inodeNum) (logicalBlock d), fs) := by
  unfold get_data_block_id block_store_sub_read
  rw [if_pos hi]
  simp only
  unfold blockMapped at hm
  unfold blockOf logicalBlock at *
  rcases hc.2 with ⟨h1, h2⟩ | ⟨h1, h2⟩ | ⟨h1, h2⟩
  · simp only [h1, if_true, h2] at hm ⊢
    unfold gdb_direct
    simp [hm.1, hm.2]
  · have e1 : ¬ (6 + d.locate_order < 6) := by omega
    have e2 : 6 + d.locate_order < 262 := by omega
    have e3 : 6 + d.locate_order - 6 = d.locate_order := by omega
    simp only [h1, OfNat.ofNat_ne_one, if_false, if_true, e1, e2, e3] at hm ⊢
    obtain ⟨m1, m2, m3, m4⟩ := hm
    unfold gdb_indirect
    simp only [m1, and_false, if_false, ne_eq, not_false_eq_true, m2, and_self, if_true,
      block_store_read_spec _ _ (test_lt _ _ m2)]
    unfold tableAt at m3 m4 ⊢
    simp [m3, m4]
  · have e1 : ¬ (6 + 256 + d.locate_order < 6) := by omega
    have e2 : ¬ (6 + 256 + d.locate_order < 262) := by omega
    have e3 : 6 + 256 + d.locate_order - 262 = d.locate_order := by omega
    have e4 : ¬ ((4 : Nat) = 1) := by omega
    have e5 : ¬ ((4 : Nat) = 2) := by omega
    simp only [h1, e4, e5, if_false, e1, e2, e3] at hm ⊢
    obtain ⟨m1, m2, m3, m4, m5, m6⟩ := hm
    unfold gdb_double
    simp only [m1, if_false, m2, if_true, block_store_read_spec _ _ (test_lt _ _ m2)]
    unfold tableAt at m3 m4 m5 m6 ⊢
    simp only [m3, if_false, m4, if_true, block_store_read_spec _ _ (test_lt _ _ m4)]
    simp [m5, m6]

end F17


/-! ## `fs_read` over mapped blocks -/

namespace F17

theorem n_read_some (bs : block_store Block) (id off n : Nat) (bytes : List Nat)
    (h : block_store_n_read bs id off n = some bytes) :
    id < 65536 ∧ off + n ≤ 512 ∧ 0 < n ∧
    bytes = (List.range n).map (fun k => bs.data id (off + k)) := by
  unfold block_store_n_read BLOCK_STORE_NUM_BLOCKS BLOCK_SIZE_BYTES at h
  split at h
  · rename_i hc
    cases h
    exact ⟨hc.1, hc.2.1, hc.2.2, rfl⟩
  · cases h

theorem n_read_ok (bs : block_store Block) (id off n : Nat)
    (h1 : id < 65536) (h2 : off + n ≤ 512) (h3 : 0 < n) :
    block_store_n_read bs id off n = some ((List.range n).map (fun k => bs.data id (off + k))) := by
  unfold block_store_n_read BLOCK_STORE_NUM_BLOCKS BLOCK_SIZE_BYTES
  rw [if_pos ⟨h1, h2, h3⟩]

theorem readLoop_total (fuel : Nat) : ∀ (fs : F17FS) (d : fileDescriptor) (nbyte rb : Nat)
    (dst : List Nat) (last : Option Nat), nbyte - rb ≤ fuel →
    ∃ r, readLoop fuel fs d nbyte rb dst last = some r := by
  induction fuel with
  | zero =>
    intro fs d nbyte rb dst last h
    unfold readLoop
    have : ¬ (nbyte - rb > 0) := by omega
    simp [this]
  | succ n ih =>
    intro fs d nbyte rb dst last h
    unfold readLoop
    by_cases h0 : nbyte - rb > 0
    · rw [if_pos h0]
      simp only
      by_cases h1 : (get_data_block_id fs d).1 > 0
      · rw [if_pos h1]
        by_cases h2 : d.locate_offset + nbyte - rb < BLOCK_SIZE_BYTES
        · rw [if_pos h2]
          split
          · apply ih; omega
          · exact ⟨_, rfl⟩
        · rw [if_neg h2]
          split
          · rename_i bytes hb
            have hb2 := n_read_some _ _ _ _ _ hb
            apply ih
            unfold BLOCK_SIZE_BYTES at *
            omega
          · exact ⟨_, rfl⟩
      · rw [if_neg h1]
        exact ⟨_, rfl⟩
    · rw [if_neg h0]
      exact ⟨_, rfl⟩

/-- The proof rule of the loop of `fs_read`: an invariant `P` of the loop head
and a property `Q` of every way the loop stops. -/
theorem readLoop_rule (nbyte : Nat) (P : F17FS → fileDescriptor → Nat → List Nat → Prop)
    (Q : LoopResult × List Nat → Prop)
    (hdone : ∀ fs d rb dst last, P fs d rb dst → ¬ (nbyte - rb > 0) →
      Q (⟨none, fs, d, rb, last⟩, dst))
    (hnoblock : ∀ fs d rb dst, P fs d rb dst → nbyte - rb > 0 →
      ¬ (get_data_block_id fs d).1 > 0 →
      Q (⟨some (-3), (get_data_block_id fs d).2, d, rb, some (get_data_block_id fs d).1⟩, dst))
    (hlast : ∀ fs d rb dst, P fs d rb dst → nbyte - rb > 0 → (get_data_block_id fs d).1 > 0 →
      d.locate_offset + nbyte - rb < BLOCK_SIZE_BYTES →
      (∀ bytes, block_store_n_read (get_data_block_id fs d).2.BlockStore_whole
          (get_data_block_id fs d).1 d.locate_offset (nbyte - rb) = some bytes →
        P (get_data_block_id fs d).2
          { d with locate_offset := (d.locate_offset + nbyte - rb) % 65536 } nbyte
          (dst ++ bytes)) ∧
      (block_store_n_read (get_data_block_id fs d).2.BlockStore_whole
          (get_data_block_id fs d).1 d.locate_offset (nbyte - rb) = none →
        Q (⟨some (-4), (get_data_block_id fs d).2, d, rb, some (get_data_block_id fs d).1⟩,
          dst)))
    (hfull : ∀ fs d rb dst, P fs d rb dst → nbyte - rb > 0 → (get_data_block_id fs d).1 > 0 →
      ¬ d.locate_offset + nbyte - rb < BLOCK_SIZE_BYTES →
      (∀ bytes, block_store_n_read (get_data_block_id fs d).2.BlockStore_whole
          (get_data_block_id fs d).1 d.locate_offset (BLOCK_SIZE_BYTES - d.locate_offset) =
            some bytes →
        P (get_data_block_id fs d).2 (advanceCursor d)
          (rb + (BLOCK_SIZE_BYTES - d.locate_offset)) (dst ++ bytes)) ∧
      (block_store_n_read (get_data_block_id fs d).2.BlockStore_whole
          (get_data_block_id fs d).1 d.locate_offset (BLOCK_SIZE_BYTES - d.locate_offset) =
            none →
        Q (⟨some (-5), (get_data_block_id fs d).2, d, rb, some (get_data_block_id fs d).1⟩,
          dst)))
    (fuel : Nat) : ∀ (fs : F17FS) (d : fileDescriptor) (rb : Nat) (dst : List Nat)
      (last : Option Nat) (r : LoopResult × List Nat), P fs d rb dst →
      readLoop fuel fs d nbyte rb dst last = some r → Q r := by
  induction fuel with
  | zero =>
    intro fs d rb dst last r hP h
    unfold readLoop at h
    by_cases h0 : nbyte - rb > 0
    · rw [if_pos h0] at h; cases h
    · rw [if_neg h0] at h; cases h
      exact hdone _ _ _ _ _ hP h0
  | succ n ih =>
    intro fs d rb dst last r hP h
    unfold readLoop at h
    by_cases h0 : nbyte - rb > 0
    · rw [if_pos h0] at h
      simp only at h
      by_cases h1 : (get_data_block_id fs d).1 > 0
      · rw [if_pos h1] at h
        by_cases h2 : d.locate_offset + nbyte - rb < BLOCK_SIZE_BYTES
        · rw [if_pos h2] at h
          have hl := hlast fs d rb dst hP h0 h1 h2
          split at h
          · rename_i bytes hb
            exact ih _ _ _ _ _ _ (hl.1 bytes hb) h
          · rename_i hb
            cases h
            exact hl.2 hb
        · rw [if_neg h2] at h
          have hf := hfull fs d rb dst hP h0 h1 h2
          split at h
          · rename_i bytes hb
            exact ih _ _ _ _ _ _ (hf.1 bytes hb) h
          · rename_i hb
            cases h
            exact hf.2 hb
      · rw [if_neg h1] at h
        cases h
        exact hnoblock _ _ _ _ hP h0 h1
    · rw [if_neg h0] at h; cases h
      exact hdone _ _ _ _ _ hP h0


theorem fileBytes_append (fs : F17FS) (i S a b : Nat) :
    fileBytes fs i S (a + b) =
      fileBytes fs i S a ++ (List.range b).map (fun k => fileByte fs i (S + a + k)) := by
  unfold fileBytes
  rw [List.range_add, List.map_append, List.map_map]
  congr 1
  apply List.map_congr_left
  intro k _
  simp only [Function.comp, Nat.add_assoc]

theorem blockMapped_blockOf (fs : F17FS) (ino : inode) (L : Nat) (h : blockMapped fs ino L) :
    blockOf fs ino L ≠ 0 ∧ block_store_test fs.BlockStore_whole (blockOf fs ino L) = true := by
  unfold blockMapped at h
  unfold blockOf
  by_cases h1 : L < 6
  · simp only [h1, if_true] at h ⊢
    exact h
  · by_cases h2 : L < 262
    · simp only [h1, h2, if_true, if_false] at h ⊢
      obtain ⟨m1, m2, m3, m4⟩ := h
      simp only [m1, if_false]
      exact ⟨m3, m4⟩
    · simp only [h1, h2, if_false] at h ⊢
      obtain ⟨m1, m2, m3, m4, m5, m6⟩ := h
      simp only [m1, m3, if_false]
      exact ⟨m5, m6⟩

/-- The bytes of one block transfer are the bytes of the file at the cursor. -/
theorem block_bytes_eq (fs : F17FS) (i L off n : Nat) (h : off + n ≤ 512) :
    (List.range n).map
        (fun k => fs.BlockStore_whole.data (blockOf fs (fs.BlockStore_inode.data i) L) (off + k)) =
      (List.range n).map (fun k => fileByte fs i (512 * L + off + k)) := by
  apply List.map_congr_left
  intro k hk
  have hk' : k < n := List.mem_range.mp hk
  unfold fileByte
  have e1 : (512 * L + off + k) / 512 = L := by omega
  have e2 : (512 * L + off + k) % 512 = off + k := by omega
  rw [e1, e2]

/-- The loop of `fs_read` over mapped blocks: it changes nothing, delivers the
bytes of the file from the cursor on, and moves the cursor past them. -/
theorem readLoop_mapped (fs : F17FS) (i S nbyte : Nat) (hi : i < 256)
    (hmax : S + nbyte < MAX_FILE_SIZE)
    (hmap : ∀ L, 512 * L < S + nbyte → S < 512 * (L + 1) →
      blockMapped fs (fs.BlockStore_inode.data i) L)
    (fuel : Nat) (d : fileDescriptor) (rb : Nat) (dst : List Nat) (last : Option Nat)
    (r : LoopResult × List Nat)
    (hP : cursorOK d ∧ d.inodeNum = i ∧ getFileSize d = S + rb ∧ rb ≤ nbyte ∧
      dst = fileBytes fs i S rb)
    (h : readLoop fuel fs d nbyte rb dst last = some r) :
    r.1.err = none ∧ r.1.fs = fs ∧ cursorOK r.1.fd_t ∧ r.1.fd_t.inodeNum = i ∧
    getFileSize r.1.fd_t = S + nbyte ∧ r.1.count = nbyte ∧ r.2 = fileBytes fs i S nbyte := by
  have key : ∀ (d : fileDescriptor) (rb : Nat), cursorOK d → d.inodeNum = i →
      getFileSize d = S + rb → nbyte - rb > 0 →
      get_data_block_id fs d = (blockOf fs (fs.BlockStore_inode.data i) (logicalBlock d), fs) ∧
      0 < blockOf fs (fs.BlockStore_inode.data i) (logicalBlock d) ∧
      blockOf fs (fs.BlockStore_inode.data i) (logicalBlock d) < 65536 := by
    intro d rb hc hdi hpos h0
    have hS := getFileSize_eq d hc
    have hoff := hc.1
    have hm := hmap (logicalBlock d) (by omega) (by omega)
    have hb := blockMapped_blockOf _ _ _ hm
    refine ⟨?_, Nat.pos_of_ne_zero hb.1, test_lt _ _ hb.2⟩
    have := gdb_mapped fs d hc (by omega) (by rw [hdi]; exact hm)
    rw [this, hdi]
  refine readLoop_rule nbyte
    (fun fs1 d rb dst => fs1 = fs ∧ cursorOK d ∧ d.inodeNum = i ∧ getFileSize d = S + rb ∧
      rb ≤ nbyte ∧ dst = fileBytes fs i S rb)
    (fun r => r.1.err = none ∧ r.1.fs = fs ∧ cursorOK r.1.fd_t ∧ r.1.fd_t.inodeNum = i ∧
      getFileSize r.1.fd_t = S + nbyte ∧ r.1.count = nbyte ∧ r.2 = fileBytes fs i S nbyte)
    ?_ ?_ ?_ ?_ fuel fs d rb dst last r ⟨rfl, hP⟩ h
  · rintro fs1 d rb dst last ⟨hfs, hc, hdi, hpos, hle, hdst⟩ h0
    subst fs1
    have : rb = nbyte := by omega
    subst this
    exact ⟨rfl, rfl, hc, hdi, hpos, rfl, hdst⟩
  · rintro fs1 d rb dst ⟨hfs, hc, hdi, hpos, hle, hdst⟩ h0 h1
    subst fs1
    obtain ⟨k1, k2, k3⟩ := key d rb hc hdi hpos h0
    rw [k1] at h1
    exact absurd k2 h1
  · rintro fs1 d rb dst ⟨hfs, hc, hdi, hpos, hle, hdst⟩ h0 h1 h2
    subst fs1
    obtain ⟨k1, k2, k3⟩ := key d rb hc hdi hpos h0
    unfold BLOCK_SIZE_BYTES at h2
    have hS := getFileSize_eq d hc
    rw [k1]
    refine ⟨fun bytes hb => ?_, fun hn => ?_⟩
    · simp only at hb ⊢
      rw [n_read_ok _ _ _ _ k3 (by omega) (by omega)] at hb
      cases hb
      have hmod : (d.locate_offset + nbyte - rb) % 65536 = d.locate_offset + nbyte - rb :=
        Nat.mod_eq_of_lt (by omega)
      refine ⟨by first | rfl | trivial, ?_, hdi, ?_, le_refl _, ?_⟩
      · exact ⟨by simp only [hmod]; omega, hc.2⟩
      · simp only [hmod]
        unfold getFileSize at *
        simp only at *
        split_ifs at * <;> omega
      · have e : nbyte = rb + (nbyte - rb) := by omega
        rw [hdst]
        conv_rhs => rw [e, fileBytes_append]
        congr 1
        rw [block_bytes_eq fs i (logicalBlock d) d.locate_offset (nbyte - rb) (by omega)]
        apply List.map_congr_left
        intro k _
        congr 1
        omega
    · simp only at hn
      rw [n_read_ok _ _ _ _ k3 (by omega) (by omega)] at hn
      cases hn
  · rintro fs1 d rb dst ⟨hfs, hc, hdi, hpos, hle, hdst⟩ h0 h1 h2
    subst fs1
    obtain ⟨k1, k2, k3⟩ := key d rb hc hdi hpos h0
    unfold BLOCK_SIZE_BYTES at h2 ⊢
    have hS := getFileSize_eq d hc
    have hoff := hc.1
    rw [k1]
    refine ⟨fun bytes hb => ?_, fun hn => ?_⟩
    · simp only at hb ⊢
      rw [n_read_ok _ _ _ _ k3 (by omega) (by omega)] at hb
      cases hb
      have hL : logicalBlock d + 1 < 65798 := by
        unfold MAX_FILE_SIZE at hmax
        omega
      obtain ⟨a1, a2, a3⟩ := advanceCursor_spec d hc hL
      refine ⟨by first | rfl | trivial, a1, by simpa using hdi, ?_, by omega, ?_⟩
      · rw [getFileSize_eq _ a1, a2, a3]
        omega
      · rw [hdst, fileBytes_append]
        congr 1
        rw [block_bytes_eq fs i (logicalBlock d) d.locate_offset (512 - d.locate_offset)
          (by omega)]
        apply List.map_congr_left
        intro k _
        congr 1
        omega
    · simp only at hn
      rw [n_read_ok _ _ _ _ k3 (by omega) (by omega)] at hn
      cases hn


theorem upd_self {α : Type} (f : Nat → α) (i : Nat) : upd f i (f i) = f := by
  funext j
  unfold upd
  split_ifs with h
  · rw [h]
  · rfl

/-- C5, as amended. Read clamps at EOF: on an open descriptor with an in-range
cursor at position `S ≤ fileSize`, for a file smaller than 33,688,576 bytes
whose blocks under the bytes to read are mapped, `fs_read` of `n` bytes returns
exactly `min(n, fileSize - S)`, delivers the file bytes `[S, S + count)`,
changes nothing but the descriptor, and leaves the cursor in range at position
`S + count`; at `S = fileSize` the count is 0. -/
theorem fs_read_clamp (fs : F17FS) (fd n : Nat)
    (hfd : block_store_sub_test fs.BlockStore_fd fd = true)
    (hino : (fs.BlockStore_fd.data fd).inodeNum < 256)
    (hc : cursorOK (fs.BlockStore_fd.data fd))
    (hS : getFileSize (fs.BlockStore_fd.data fd) ≤
      (fs.BlockStore_inode.data (fs.BlockStore_fd.data fd).inodeNum).fileSize)
    (hmax : (fs.BlockStore_inode.data (fs.BlockStore_fd.data fd).inodeNum).fileSize <
      MAX_FILE_SIZE)
    (hmap : ∀ L,
      512 * L < getFileSize (fs.BlockStore_fd.data fd) +
        min n ((fs.BlockStore_inode.data (fs.BlockStore_fd.data fd).inodeNum).fileSize -
          getFileSize (fs.BlockStore_fd.data fd)) →
      getFileSize (fs.BlockStore_fd.data fd) < 512 * (L + 1) →
      blockMapped fs (fs.BlockStore_inode.data (fs.BlockStore_fd.data fd).inodeNum) L) :
    ∃ d1 : fileDescriptor,
      fs_read fs fd n =
        some (((min n ((fs.BlockStore_inode.data (fs.BlockStore_fd.data fd).inodeNum).fileSize -
            getFileSize (fs.BlockStore_fd.data fd)) : Nat) : Int),
          fileBytes fs (fs.BlockStore_fd.data fd).inodeNum (getFileSize (fs.BlockStore_fd.data fd))
            (min n ((fs.BlockStore_inode.data (fs.BlockStore_fd.data fd).inodeNum).fileSize -
              getFileSize (fs.BlockStore_fd.data fd))),
          { fs with BlockStore_fd :=
              { fs.BlockStore_fd with data := upd fs.BlockStore_fd.data fd d1 } }) ∧
      cursorOK d1 ∧ d1.inodeNum = (fs.BlockStore_fd.data fd).inodeNum ∧
      getFileSize d1 = getFileSize (fs.BlockStore_fd.data fd) +
        min n ((fs.BlockStore_inode.data (fs.BlockStore_fd.data fd).inodeNum).fileSize -
          getFileSize (fs.BlockStore_fd.data fd)) := by
  have hfd' : fd < 256 := sub_test_lt _ _ hfd
  generalize hd : fs.BlockStore_fd.data fd = d at *
  generalize hF : (fs.BlockStore_inode.data d.inodeNum).fileSize = F at *
  by_cases hn : n = 0
  · subst hn
    refine ⟨d, ?_, hc, rfl, by simp⟩
    unfold fs_read
    have hcond : ((fd : Int) ≥ 0 ∧ block_store_sub_test fs.BlockStore_fd (fd : Int).toNat = true) :=
      ⟨by omega, by simpa using hfd⟩
    rw [if_pos hcond]
    simp only [ne_eq, not_true_eq_false, if_false, Nat.zero_min, Nat.cast_zero, Option.some.injEq,
      Prod.mk.injEq, true_and]
    refine ⟨rfl, ?_⟩
    rw [← hd, upd_self]
  · have hleft : (F + 2 ^ 64 - getFileSize d) % 2 ^ 64 = F - getFileSize d := by
      unfold MAX_FILE_SIZE at hmax
      have : F + 2 ^ 64 - getFileSize d = (F - getFileSize d) + 2 ^ 64 := by omega
      rw [this, Nat.add_mod_right]
      exact Nat.mod_eq_of_lt (by omega)
    have hmin : (if n > F - getFileSize d then F - getFileSize d else n) =
        min n (F - getFileSize d) := by
      split_ifs <;> omega
    obtain ⟨r, hr⟩ := readLoop_total (min n (F - getFileSize d)) fs d
      (min n (F - getFileSize d)) 0 [] none (by omega)
    obtain ⟨q1, q2, q3, q4, q5, q6, q7⟩ :=
      readLoop_mapped fs d.inodeNum (getFileSize d) (min n (F - getFileSize d)) hino
        (by omega) hmap _ d 0 [] none r
        ⟨hc, rfl, rfl, Nat.zero_le _, rfl⟩ hr
    refine ⟨r.1.fd_t, ?_, q3, q4, q5⟩
    unfold fs_read
    have hcond : ((fd : Int) ≥ 0 ∧ block_store_sub_test fs.BlockStore_fd (fd : Int).toNat = true) :=
      ⟨by omega, by simpa using hfd⟩
    rw [if_pos hcond]
    simp only [ne_eq, hn, not_false_eq_true, if_true, Int.toNat_ofNat, block_store_sub_read, hfd',
      hd, hino, hF, hleft, hmin, hr, q1, block_store_sub_write, q2, q6, q7]


/-- Witness of C5 on the example image: ten bytes read at position 0 of a file
of 3000 bytes. -/
theorem fs_read_clamp_witness :
    ∃ d1 : fileDescriptor,
      fs_read exFs (0 : Nat) 10 =
        some (((min 10 ((exFs.BlockStore_inode.data (exFs.BlockStore_fd.data 0).inodeNum).fileSize -
            getFileSize (exFs.BlockStore_fd.data 0)) : Nat) : Int),
          fileBytes exFs (exFs.BlockStore_fd.data 0).inodeNum
            (getFileSize (exFs.BlockStore_fd.data 0))
            (min 10 ((exFs.BlockStore_inode.data (exFs.BlockStore_fd.data 0).inodeNum).fileSize -
              getFileSize (exFs.BlockStore_fd.data 0))),
          { exFs with BlockStore_fd :=
              { exFs.BlockStore_fd with data := upd exFs.BlockStore_fd.data 0 d1 } }) ∧
      cursorOK d1 ∧ d1.inodeNum = (exFs.BlockStore_fd.data 0).inodeNum ∧
      getFileSize d1 = getFileSize (exFs.BlockStore_fd.data 0) +
        min 10 ((exFs.BlockStore_inode.data (exFs.BlockStore_fd.data 0).inodeNum).fileSize -
          getFileSize (exFs.BlockStore_fd.data 0)) :=
  fs_read_clamp exFs 0 10 (by decide) (by decide) (by decide) (by decide) (by decide)
    (fun L h1 _ => by
      have h0 : L = 0 := by
        have e : getFileSize (exFs.BlockStore_fd.data 0) +
            min 10 ((exFs.BlockStore_inode.data (exFs.BlockStore_fd.data 0).inodeNum).fileSize -
              getFileSize (exFs.BlockStore_fd.data 0)) = 10 := by decide
        rw [e] at h1
        omega
      subst h0
      decide)

set_option maxRecDepth 100000 in
/-- C5 fails as stated: on `exFsEnd` the file has 33,688,576 bytes and the
descriptor stands at 33,688,064; `fs_read` of 512 bytes returns 512 and stores
the descriptor `{usage = 4, order = 0, offset = 0}`, which denotes 134,144 and
not 33,688,576: the cursor is not advanced by the count. -/
theorem fs_read_cursor_wraps :
    getFileSize (exFsEnd.BlockStore_fd.data 0) = 33688064 ∧
    (exFsEnd.BlockStore_inode.data 1).fileSize = 33688576 ∧
    readView (fs_read exFsEnd 0 512) 0 =
      some (512, List.replicate 512 0,
        { inodeNum := 1, usage := 4, locate_order := 0, locate_offset := 0 }) ∧
    getFileSize { inodeNum := 1, usage := 4, locate_order := 0, locate_offset := 0 } = 134144 ∧
    134144 ≠ 33688064 + 512 := by
  decide

end F17


/-! ## `fs_create` -/

namespace F17

/-- C10, as amended. `fs_create` rejects bad arguments and namespace violations
without touching state: it returns -1 when the type is neither regular nor
directory or the path has length at most 1; otherwise -2 when the inode table
is full; otherwise, in this order, -3 when the path does not start with `'/'`,
-4 when it ends with `'/'`, -5 when the basename has 64 characters or more, -6
when the parent path does not resolve to a directory, -7 when the lookup of
the basename in the parent finds an entry; in each case the file system
returned is the one given. -/
theorem fs_create_rejects (fs : F17FS) (path : List Nat) (type : file_t) (junk : inode)
    (junkName : Nat → Nat) :
    (((type ≠ file_t.FS_REGULAR ∧ type ≠ file_t.FS_DIRECTORY) ∨ path.length ≤ 1) →
      fs_create fs path type junk junkName = (-1, fs)) ∧
    (¬ ((type ≠ file_t.FS_REGULAR ∧ type ≠ file_t.FS_DIRECTORY) ∨ path.length ≤ 1) →
      (block_store_sub_used fs.BlockStore_inode ≥ 256 →
        fs_create fs path type junk junkName = (-2, fs)) ∧
      (block_store_sub_used fs.BlockStore_inode < 256 →
        (path.head? ≠ some CH_slash → fs_create fs path type junk junkName = (-3, fs)) ∧
        (path.head? = some CH_slash →
          (path.getLast? = some CH_slash → fs_create fs path type junk junkName = (-4, fs)) ∧
          (path.getLast? ≠ some CH_slash →
            ((baseName path).length ≥ 64 → fs_create fs path type junk junkName = (-5, fs)) ∧
            ((baseName path).length < 64 →
              (searchPath fs (dirTokens path) = none →
                fs_create fs path type junk junkName = (-6, fs)) ∧
              (∀ iNum, searchPath fs (dirTokens path) = some iNum →
                getFileInodeID fs iNum (baseName path) ≠ 0 →
                fs_create fs path type junk junkName = (-7, fs))))))) := by
  refine ⟨fun h1 => ?_, fun h1 => ⟨fun h2 => ?_, fun h2 => ⟨fun h3 => ?_, fun h3 =>
    ⟨fun h4 => ?_, fun h4 => ⟨fun h5 => ?_, fun h5 => ⟨fun h6 => ?_, fun iNum h6 h7 => ?_⟩⟩⟩⟩⟩⟩
  · unfold fs_create; rw [if_pos h1]
  · unfold fs_create; rw [if_neg h1, if_pos h2]
  · unfold fs_create; rw [if_neg h1, if_neg (by omega), if_pos h3]
  · unfold fs_create
    rw [if_neg h1, if_neg (by omega), if_neg (by simpa using h3), if_pos h4]
  · unfold fs_create
    rw [if_neg h1, if_neg (by omega), if_neg (by simpa using h3), if_neg h4, if_pos h5]
  · unfold fs_create
    rw [if_neg h1, if_neg (by omega), if_neg (by simpa using h3), if_neg h4,
      if_neg (by omega)]
    simp only [h6]
  · unfold fs_create
    rw [if_neg h1, if_neg (by omega), if_neg (by simpa using h3), if_neg h4,
      if_neg (by omega)]
    simp only [h6, h7, ne_eq, not_false_eq_true, if_true]

set_option maxRecDepth 100000 in
/-- Witness of C10 on the example image, one call for each code: a one-letter
path, `"ab"`, `"/b/"`, a basename of 64 letters, `"/x/b"` with no `x`, and `"/a"`
which exists. -/
theorem fs_create_rejects_witness :
    fs_create exFs [97] .FS_REGULAR exJunk (fun _ => 9) = (-1, exFs) ∧
    fs_create exFs [97, 98] .FS_REGULAR exJunk (fun _ => 9) = (-3, exFs) ∧
    fs_create exFs [47, 98, 47] .FS_REGULAR exJunk (fun _ => 9) = (-4, exFs) ∧
    fs_create exFs (47 :: List.replicate 64 98) .FS_REGULAR exJunk (fun _ => 9) = (-5, exFs) ∧
    fs_create exFs [47, 120, 47, 98] .FS_REGULAR exJunk (fun _ => 9) = (-6, exFs) ∧
    fs_create exFs [47, 97] .FS_REGULAR exJunk (fun _ => 9) = (-7, exFs) :=
  ⟨(fs_create_rejects exFs [97] .FS_REGULAR exJunk (fun _ => 9)).1 (by decide),
   ((fs_create_rejects exFs [97, 98] .FS_REGULAR exJunk (fun _ => 9)).2 (by decide)).2
      (by decide) |>.1 (by decide),
   (((fs_create_rejects exFs [47, 98, 47] .FS_REGULAR exJunk (fun _ => 9)).2 (by decide)).2
      (by decide) |>.2 (by decide)).1 (by decide),
   ((((fs_create_rejects exFs (47 :: List.replicate 64 98) .FS_REGULAR exJunk
      (fun _ => 9)).2 (by decide)).2 (by decide) |>.2 (by decide)).2 (by decide)).1 (by decide),
   (((((fs_create_rejects exFs [47, 120, 47, 98] .FS_REGULAR exJunk (fun _ => 9)).2
      (by decide)).2 (by decide) |>.2 (by decide)).2 (by decide)).2 (by decide)).1 (by decide),
   (((((fs_create_rejects exFs [47, 97] .FS_REGULAR exJunk (fun _ => 9)).2
      (by decide)).2 (by decide) |>.2 (by decide)).2 (by decide)).2 (by decide)).2 0
      (by decide) (by decide)⟩

set_option maxRecDepth 100000 in
/-- C10 fails as stated: with all 256 inodes in use, `fs_create` of the path
`"ab"`, which does not start with `'/'`, returns -2 and not -3. -/
theorem fs_create_full_table_first :
    block_store_sub_used exFsFull.BlockStore_inode = 256 ∧
    ([97, 98] : List Nat).head? ≠ some CH_slash ∧
    (fs_create exFsFull [97, 98] .FS_REGULAR exJunk (fun _ => 9)).1 = -2 := by
  decide


theorem bitmap_test_set (v a k : Nat) :
    bitmap_test (bitmap_set v a) k = (bitmap_test v k || decide (a = k)) := by
  unfold bitmap_test bitmap_set
  rw [Nat.testBit_or, Nat.one_shiftLeft, Nat.testBit_two_pow]

theorem ffzFrom_lowest (bm : Nat → Bool) : ∀ (n i j : Nat), ffzFrom bm n i = some j →
    ∀ k, i ≤ k → k < j → bm k = true := by
  intro n
  induction n with
  | zero => intro i j h; simp [ffzFrom] at h
  | succ n ih =>
    intro i j h k hk1 hk2
    unfold ffzFrom at h
    by_cases hb : bm i = true
    · rw [if_pos hb] at h
      by_cases hki : k = i
      · rw [hki]; exact hb
      · exact ih _ _ h k (by omega) hk2
    · rw [if_neg hb] at h
      cases h
      omega

theorem sub_allocate_spec {α : Type} (bs : block_store α) (h : block_store_sub_used bs < 256) :
    ∃ i, block_store_sub_allocate bs = some (i, { bs with fbm := upd bs.fbm i true }) ∧
      i < 256 ∧ bs.fbm i = false := by
  unfold block_store_sub_used at h
  obtain ⟨j, hj⟩ := ffzFrom_of_count bs.fbm 256 0 (by omega)
  obtain ⟨h1, h2, h3⟩ := ffzFrom_some _ _ _ _ hj
  refine ⟨j, ?_, by omega, h3⟩
  unfold block_store_sub_allocate bitmap_ffz
  simp only [hj]

theorem allocate_spec (bs : block_store Block) (h : 1 ≤ block_store_get_free_blocks bs) :
    ∃ b, block_store_allocate bs = some (b, { bs with fbm := upd bs.fbm b true }) ∧
      b < 65536 ∧ bs.fbm b = false := by
  unfold block_store_get_free_blocks BLOCK_STORE_NUM_BLOCKS at h
  obtain ⟨j, hj⟩ := ffzFrom_of_count bs.fbm 65536 0 h
  obtain ⟨h1, h2, h3⟩ := ffzFrom_some _ _ _ _ hj
  refine ⟨j, ?_, by omega, h3⟩
  unfold block_store_allocate bitmap_ffz BLOCK_STORE_NUM_BLOCKS
  simp only [hj]


end F17


/-! ## Growth of a block map by `get_data_block_id` -/

namespace F17

@[simp] theorem slotLive_data (M L : Nat) : slotLive M (.data L) ↔ L < M := Iff.rfl
@[simp] theorem slotLive_ind (M : Nat) : slotLive M .ind ↔ 6 < M := Iff.rfl
@[simp] theorem slotLive_dbl (M : Nat) : slotLive M .dbl ↔ 262 < M := Iff.rfl
@[simp] theorem slotLive_inner (M h : Nat) : slotLive M (.inner h) ↔ 262 + 256 * h < M := Iff.rfl
@[simp] theorem slotBlock_data (fs : F17FS) (ino : inode) (L : Nat) :
    slotBlock fs ino (.data L) = blockOf fs ino L := rfl
@[simp] theorem slotBlock_ind (fs : F17FS) (ino : inode) :
    slotBlock fs ino .ind = ino.indirectPointer := rfl
@[simp] theorem slotBlock_dbl (fs : F17FS) (ino : inode) :
    slotBlock fs ino .dbl = ino.doubleIndirectPointer := rfl
@[simp] theorem slotBlock_inner (fs : F17FS) (ino : inode) (h : Nat) :
    slotBlock fs ino (.inner h) = tableAt fs ino.doubleIndirectPointer h := rfl

theorem newSlot_cases (M : Nat) (s : Slot) (h1 : slotLive (M + 1) s) (h2 : ¬ slotLive M s) :
    s = .data M ∨ (s = .ind ∧ M = 6) ∨ (s = .dbl ∧ M = 262) ∨
    (∃ h, s = .inner h ∧ M = 262 + 256 * h) := by
  cases s with
  | data L =>
    simp only [slotLive_data] at h1 h2
    left; congr; omega
  | ind =>
    simp only [slotLive_ind] at h1 h2
    right; left; exact ⟨rfl, by omega⟩
  | dbl =>
    simp only [slotLive_dbl] at h1 h2
    right; right; left; exact ⟨rfl, by omega⟩
  | inner h =>
    simp only [slotLive_inner] at h1 h2
    right; right; right; exact ⟨h, rfl, by omega⟩

theorem slotLive_mono (M M1 : Nat) (h : M ≤ M1) (s : Slot) (hs : slotLive M s) :
    slotLive M1 s := by
  cases s <;> simp only [slotLive_data, slotLive_ind, slotLive_dbl, slotLive_inner] at * <;> omega

/-- The block map built from the live slots and the zero clauses is well formed
after one more logical block. -/
theorem wf_extend (fs fs1 : F17FS) (ino ino1 : inode) (M : Nat)
    (hwf : FileWF fs ino M)
    (keep : ∀ s, slotLive M s → slotBlock fs1 ino1 s = slotBlock fs ino s)
    (hnew : ∀ s, slotLive (M + 1) s → ¬ slotLive M s →
      slotBlock fs1 ino1 s ≠ 0 ∧ slotBlock fs1 ino1 s < 65536 ∧
      fs.BlockStore_whole.fbm (slotBlock fs1 ino1 s) = false ∧
      fs1.BlockStore_whole.fbm (slotBlock fs1 ino1 s) = true)
    (hinj : ∀ s t, slotLive (M + 1) s → ¬ slotLive M s → slotLive (M + 1) t → ¬ slotLive M t →
      slotBlock fs1 ino1 s = slotBlock fs1 ino1 t → s = t)
    (mono : ∀ y, fs.BlockStore_whole.fbm y = true → fs1.BlockStore_whole.fbm y = true)
    (dzero : ∀ k, M + 1 ≤ k → k < 6 → ino1.directPointer k = 0)
    (izero : M + 1 ≤ 6 → ino1.indirectPointer = 0)
    (tzero : 6 < M + 1 → ∀ k, M + 1 ≤ 6 + k → k < 256 → tableAt fs1 ino1.indirectPointer k = 0)
    (bzero : M + 1 ≤ 262 → ino1.doubleIndirectPointer = 0)
    (ozero : 262 < M + 1 → ∀ h, M + 1 ≤ 262 + 256 * h → h < 256 →
      tableAt fs1 ino1.doubleIndirectPointer h = 0)
    (nzero : ∀ h l, 262 + 256 * h < M + 1 → M + 1 ≤ 262 + 256 * h + l → l < 256 →
      tableAt fs1 (tableAt fs1 ino1.doubleIndirectPointer h) l = 0) :
    FileWF fs1 ino1 (M + 1) := by
  refine ⟨?_, ?_, dzero, izero, tzero, bzero, ozero, nzero⟩
  · intro s hs
    by_cases hold : slotLive M s
    · rw [keep s hold]
      obtain ⟨l1, l2⟩ := hwf.live s hold
      refine ⟨l1, ?_⟩
      rw [test_iff] at l2 ⊢
      exact ⟨l2.1, mono _ l2.2⟩
    · obtain ⟨n1, n2, n3, n4⟩ := hnew s hs hold
      exact ⟨n1, (test_iff _ _).mpr ⟨n2, n4⟩⟩
  · intro s t hs ht hst
    by_cases h1 : slotLive M s
    · by_cases h2 : slotLive M t
      · rw [keep s h1, keep t h2] at hst
        exact hwf.inj s t h1 h2 hst
      · exfalso
        have a1 := ((test_iff _ _).mp (hwf.live s h1).2).2
        have a2 := (hnew t ht h2).2.2.1
        rw [← hst, keep s h1, a1] at a2
        cases a2
    · by_cases h2 : slotLive M t
      · exfalso
        have a1 := ((test_iff _ _).mp (hwf.live t h2).2).2
        have a2 := (hnew s hs h1).2.2.1
        rw [hst, keep t h2, a1] at a2
        cases a2
      · exact hinj s t hs h1 ht h2 hst

theorem tableAt_lt (fs : F17FS) (b k : Nat) : tableAt fs b k < 65536 := tableOfBlock_lt _ _

theorem tableAt_of_data (fs fs1 : F17FS) (b : Nat)
    (h : fs1.BlockStore_whole.data b = fs.BlockStore_whole.data b) :
    tableAt fs1 b = tableAt fs b := by
  unfold tableAt; rw [h]

theorem tableAt_written (fs1 : F17FS) (b : Nat) (t : Nat → Nat) (k : Nat) (hk : k < 256)
    (h : fs1.BlockStore_whole.data b = blockOfTable t) :
    tableAt fs1 b k = t k % 65536 := by
  unfold tableAt; rw [h, tableOfBlock_blockOfTable t k hk]

/-- The slots in use keep their blocks when the inode pointers in use and the
index entries in use are unchanged. -/
theorem keep_of (fs fs1 : F17FS) (ino ino1 : inode) (M : Nat)
    (hd : ∀ k, k < 6 → k < M → ino1.directPointer k = ino.directPointer k)
    (hi : 6 < M → ino1.indirectPointer = ino.indirectPointer)
    (hb : 262 < M → ino1.doubleIndirectPointer = ino.doubleIndirectPointer)
    (ht : ∀ k, 6 + k < M → k < 256 →
      tableAt fs1 ino.indirectPointer k = tableAt fs ino.indirectPointer k)
    (ho : ∀ h, 262 + 256 * h < M →
      tableAt fs1 ino.doubleIndirectPointer h = tableAt fs ino.doubleIndirectPointer h)
    (hn : ∀ h l, 262 + 256 * h + l < M → l < 256 →
      tableAt fs1 (tableAt fs ino.doubleIndirectPointer h) l =
        tableAt fs (tableAt fs ino.doubleIndirectPointer h) l) :
    ∀ s, slotLive M s → slotBlock fs1 ino1 s = slotBlock fs ino s := by
  intro s hs
  cases s with
  | data L =>
    simp only [slotLive_data] at hs
    simp only [slotBlock_data]
    unfold blockOf
    by_cases h1 : L < 6
    · simp only [h1, if_true]
      exact hd L h1 hs
    · by_cases h2 : L < 262
      · simp only [h1, h2, if_true, if_false]
        rw [hi (by omega), ht (L - 6) (by omega) (by omega)]
      · simp only [h1, h2, if_false]
        rw [hb (by omega), ho ((L - 262) / 256) (by omega),
          hn ((L - 262) / 256) ((L - 262) % 256) (by omega) (by omega)]
  | ind => exact hi hs
  | dbl => exact hb hs
  | inner h =>
    simp only [slotLive_inner] at hs
    simp only [slotBlock_inner]
    rw [hb (by omega), ho h hs]


theorem alloc16_ne_zero (bs : block_store Block) (hz : bs.fbm 0 = true)
    (h : 1 ≤ block_store_get_free_blocks bs) : (alloc16 bs).1 ≠ 0 := by
  intro h0
  have := (alloc16_spec bs h).2.1
  rw [h0, hz] at this
  cases this

/-- Growth by a direct block (logical blocks 0..5). -/
theorem grow_direct (fs : F17FS) (i M : Nat) (hi : i < 256)
    (hz : fs.BlockStore_whole.fbm 0 = true)
    (hwf : FileWF fs (fs.BlockStore_inode.data i) M) (hM : M < 6)
    (hfree : 1 ≤ block_store_get_free_blocks fs.BlockStore_whole) :
    (gdb_direct fs i (fs.BlockStore_inode.data i) M).1 ≠ 0 ∧
    Grows fs (gdb_direct fs i (fs.BlockStore_inode.data i) M).2 i M (M + 1) ∧
    blockOf (gdb_direct fs i (fs.BlockStore_inode.data i) M).2
      ((gdb_direct fs i (fs.BlockStore_inode.data i) M).2.BlockStore_inode.data i) M =
      (gdb_direct fs i (fs.BlockStore_inode.data i) M).1 := by
  obtain ⟨a1, a2, a3, a4⟩ := alloc16_spec fs.BlockStore_whole hfree
  have a0 := alloc16_ne_zero fs.BlockStore_whole hz hfree
  have hd0 := hwf.dzero M (le_refl _) hM
  have hg : gdb_direct fs i (fs.BlockStore_inode.data i) M =
      ((alloc16 fs.BlockStore_whole).1,
        { fs with
          BlockStore_whole := { fs.BlockStore_whole with
            fbm := upd fs.BlockStore_whole.fbm (alloc16 fs.BlockStore_whole).1 true },
          BlockStore_inode := { fs.BlockStore_inode with
            data := upd fs.BlockStore_inode.data i
              { fs.BlockStore_inode.data i with
                directPointer := upd (fs.BlockStore_inode.data i).directPointer M
                  (alloc16 fs.BlockStore_whole).1 } } }) := by
    unfold gdb_direct
    rw [if_pos hd0, if_pos hfree]
    simp only [sub_write_spec _ _ _ hi]
    rw [a3]
  rw [hg]
  generalize (alloc16 fs.BlockStore_whole).1 = a at *
  simp only [upd_same]
  have hb : blockOf
      { fs with
          BlockStore_whole := { fs.BlockStore_whole with
            fbm := upd fs.BlockStore_whole.fbm a true },
          BlockStore_inode := { fs.BlockStore_inode with
            data := upd fs.BlockStore_inode.data i
              { fs.BlockStore_inode.data i with
                directPointer := upd (fs.BlockStore_inode.data i).directPointer M a } } }
      { fs.BlockStore_inode.data i with
        directPointer := upd (fs.BlockStore_inode.data i).directPointer M a } M = a := by
    unfold blockOf
    simp only [hM, if_true, upd_same]
  refine ⟨a0, ?_, hb⟩
  have keep := keep_of fs
    { fs with
        BlockStore_whole := { fs.BlockStore_whole with
          fbm := upd fs.BlockStore_whole.fbm a true },
        BlockStore_inode := { fs.BlockStore_inode with
          data := upd fs.BlockStore_inode.data i
            { fs.BlockStore_inode.data i with
              directPointer := upd (fs.BlockStore_inode.data i).directPointer M a } } }
    (fs.BlockStore_inode.data i)
    { fs.BlockStore_inode.data i with
      directPointer := upd (fs.BlockStore_inode.data i).directPointer M a } M
    (fun k _ hk => upd_other _ _ _ _ (by omega)) (fun _ => rfl) (fun _ => rfl)
    (fun _ _ _ => rfl) (fun _ _ => rfl) (fun _ _ _ _ => rfl)
  have mono : ∀ y, fs.BlockStore_whole.fbm y = true →
      (upd fs.BlockStore_whole.fbm a true) y = true := by
    intro y hy
    by_cases h : y = a
    · rw [h, upd_same]
    · rw [upd_other _ _ _ _ h]; exact hy
  refine ⟨?_, ?_, ?_, mono, fun _ _ _ => rfl, fun j hj => ?_⟩
  · simp only [upd_same]
    refine wf_extend fs _ _ _ M hwf keep ?_ ?_ mono ?_ ?_ ?_ ?_ ?_ ?_
    · intro s h1 h2
      rcases newSlot_cases M s h1 h2 with h | ⟨_, h⟩ | ⟨_, h⟩ | ⟨h, _, h⟩
      · subst h
        simp only [slotBlock_data, hb]
        exact ⟨a0, a1, a2, upd_same _ _ _⟩
      · omega
      · omega
      · omega
    · intro s t h1 h2 h3 h4 _
      rcases newSlot_cases M s h1 h2 with h | ⟨_, h⟩ | ⟨_, h⟩ | ⟨h, _, h⟩
      · rcases newSlot_cases M t h3 h4 with h' | ⟨_, h'⟩ | ⟨_, h'⟩ | ⟨h', _, h'⟩
        · rw [h, h']
        · omega
        · omega
        · omega
      · omega
      · omega
      · omega
    · intro k hk1 hk2
      simp only
      rw [upd_other _ _ _ _ (by omega)]
      exact hwf.dzero k (by omega) hk2
    · intro _; exact hwf.izero (by omega)
    · intro h; omega
    · intro _; exact hwf.bzero (by omega)
    · intro h; omega
    · intro h l h1; omega
  · simpa only [upd_same] using keep
  · intro s h1 h2
    simp only [upd_same]
    rcases newSlot_cases M s h1 h2 with h | ⟨_, h⟩ | ⟨_, h⟩ | ⟨h, _, h⟩
    · subst h
      simp only [slotBlock_data, hb]
      exact a2
    · omega
    · omega
    · omega
  · simp only
    rw [upd_other _ _ _ _ hj]


/-- Packaging of a growth step by one logical block. -/
theorem grows_build (fs fs1 : F17FS) (i M : Nat)
    (hwf : FileWF fs (fs.BlockStore_inode.data i) M)
    (hd : ∀ k, k < 6 → k < M → (fs1.BlockStore_inode.data i).directPointer k =
      (fs.BlockStore_inode.data i).directPointer k)
    (hi : 6 < M → (fs1.BlockStore_inode.data i).indirectPointer =
      (fs.BlockStore_inode.data i).indirectPointer)
    (hb : 262 < M → (fs1.BlockStore_inode.data i).doubleIndirectPointer =
      (fs.BlockStore_inode.data i).doubleIndirectPointer)
    (ht : ∀ k, 6 + k < M → k < 256 →
      tableAt fs1 (fs.BlockStore_inode.data i).indirectPointer k =
        tableAt fs (fs.BlockStore_inode.data i).indirectPointer k)
    (ho : ∀ h, 262 + 256 * h < M →
      tableAt fs1 (fs.BlockStore_inode.data i).doubleIndirectPointer h =
        tableAt fs (fs.BlockStore_inode.data i).doubleIndirectPointer h)
    (hn : ∀ h l, 262 + 256 * h + l < M → l < 256 →
      tableAt fs1 (tableAt fs (fs.BlockStore_inode.data i).doubleIndirectPointer h) l =
        tableAt fs (tableAt fs (fs.BlockStore_inode.data i).doubleIndirectPointer h) l)
    (hnew : ∀ s, slotLive (M + 1) s → ¬ slotLive M s →
      slotBlock fs1 (fs1.BlockStore_inode.data i) s ≠ 0 ∧
      slotBlock fs1 (fs1.BlockStore_inode.data i) s < 65536 ∧
      fs.BlockStore_whole.fbm (slotBlock fs1 (fs1.BlockStore_inode.data i) s) = false ∧
      fs1.BlockStore_whole.fbm (slotBlock fs1 (fs1.BlockStore_inode.data i) s) = true)
    (hinj : ∀ s t, slotLive (M + 1) s → ¬ slotLive M s → slotLive (M + 1) t → ¬ slotLive M t →
      slotBlock fs1 (fs1.BlockStore_inode.data i) s =
        slotBlock fs1 (fs1.BlockStore_inode.data i) t → s = t)
    (mono : ∀ y, fs.BlockStore_whole.fbm y = true → fs1.BlockStore_whole.fbm y = true)
    (dzero : ∀ k, M + 1 ≤ k → k < 6 → (fs1.BlockStore_inode.data i).directPointer k = 0)
    (izero : M + 1 ≤ 6 → (fs1.BlockStore_inode.data i).indirectPointer = 0)
    (tzero : 6 < M + 1 → ∀ k, M + 1 ≤ 6 + k → k < 256 →
      tableAt fs1 (fs1.BlockStore_inode.data i).indirectPointer k = 0)
    (bzero : M + 1 ≤ 262 → (fs1.BlockStore_inode.data i).doubleIndirectPointer = 0)
    (ozero : 262 < M + 1 → ∀ h, M + 1 ≤ 262 + 256 * h → h < 256 →
      tableAt fs1 (fs1.BlockStore_inode.data i).doubleIndirectPointer h = 0)
    (nzero : ∀ h l, 262 + 256 * h < M + 1 → M + 1 ≤ 262 + 256 * h + l → l < 256 →
      tableAt fs1 (tableAt fs1 (fs1.BlockStore_inode.data i).doubleIndirectPointer h) l = 0)
    (frame : ∀ y, fs.BlockStore_whole.fbm y = true →
      ¬ IndexOwned fs (fs.BlockStore_inode.data i) M y →
      fs1.BlockStore_whole.data y = fs.BlockStore_whole.data y)
    (others : ∀ j, j ≠ i → fs1.BlockStore_inode.data j = fs.BlockStore_inode.data j) :
    Grows fs fs1 i M (M + 1) := by
  have keep := keep_of fs fs1 (fs.BlockStore_inode.data i) (fs1.BlockStore_inode.data i) M
    hd hi hb ht ho hn
  exact ⟨wf_extend fs fs1 _ _ M hwf keep hnew hinj mono dzero izero tzero bzero ozero nzero,
    keep, fun s h1 h2 => (hnew s h1 h2).2.2.1, mono, frame, others⟩

theorem upd_true_mono (bm : Nat → Bool) (a y : Nat) (h : bm y = true) :
    upd bm a true y = true := by
  by_cases hy : y = a
  · rw [hy, upd_same]
  · rw [upd_other _ _ _ _ hy]; exact h

/-- Two blocks handed out in a row are distinct, below 65536 and were free. -/
theorem alloc16_two (bs : block_store Block) (h : 2 ≤ block_store_get_free_blocks bs) :
    (alloc16 bs).1 < 65536 ∧ bs.fbm (alloc16 bs).1 = false ∧
    (alloc16 (alloc16 bs).2).1 < 65536 ∧ bs.fbm (alloc16 (alloc16 bs).2).1 = false ∧
    (alloc16 (alloc16 bs).2).1 ≠ (alloc16 bs).1 ∧
    (alloc16 (alloc16 bs).2).2 =
      { bs with fbm := upd (upd bs.fbm (alloc16 bs).1 true) (alloc16 (alloc16 bs).2).1 true } ∧
    block_store_get_free_blocks (alloc16 (alloc16 bs).2).2 + 2 =
      block_store_get_free_blocks bs := by
  obtain ⟨a1, a2, a3, a4⟩ := alloc16_spec bs (by omega)
  obtain ⟨b1, b2, b3, b4⟩ := alloc16_spec (alloc16 bs).2 (by omega)
  have hf : (alloc16 bs).2.fbm = upd bs.fbm (alloc16 bs).1 true := by rw [a3]
  have hdt : (alloc16 bs).2.data = bs.data := by rw [a3]
  rw [hf] at b2
  have hne : (alloc16 (alloc16 bs).2).1 ≠ (alloc16 bs).1 := by
    intro he
    rw [he, upd_same] at b2
    cases b2
  refine ⟨a1, a2, b1, ?_, hne, ?_, by omega⟩
  · rwa [upd_other _ _ _ _ hne] at b2
  · rw [b3, hf, hdt]

end F17


/-! ## The six ways a block map grows -/

namespace F17

theorem ne_of_fbm (bm : Nat → Bool) (x y : Nat) (hx : bm x = true) (hy : bm y = false) :
    x ≠ y := by
  intro h; rw [h, hy] at hx; cases hx

theorem zeroTable_upd (k v j : Nat) (h : j ≠ k) : upd zeroTable k v j = 0 := by
  rw [upd_other _ _ _ _ h]; rfl

/-- Growth by the first indirect block (logical block 6): the index block and
the data block are allocated together. -/
theorem grow_indirect_first (fs : F17FS) (i : Nat) (hi : i < 256)
    (hz : fs.BlockStore_whole.fbm 0 = true)
    (hwf : FileWF fs (fs.BlockStore_inode.data i) 6)
    (hfree : 2 ≤ block_store_get_free_blocks fs.BlockStore_whole) :
    (gdb_indirect fs i (fs.BlockStore_inode.data i) 0).1 ≠ 0 ∧
    Grows fs (gdb_indirect fs i (fs.BlockStore_inode.data i) 0).2 i 6 (6 + 1) ∧
    blockOf (gdb_indirect fs i (fs.BlockStore_inode.data i) 0).2
      ((gdb_indirect fs i (fs.BlockStore_inode.data i) 0).2.BlockStore_inode.data i) 6 =
      (gdb_indirect fs i (fs.BlockStore_inode.data i) 0).1 := by
  obtain ⟨a1, a2, b1, b2, hab, hst, _⟩ := alloc16_two fs.BlockStore_whole hfree
  have hind0 := hwf.izero (le_refl _)
  have hg : gdb_indirect fs i (fs.BlockStore_inode.data i) 0 =
      ((alloc16 (alloc16 fs.BlockStore_whole).2).1,
        { fs with
          BlockStore_whole :=
            { fbm := upd (upd fs.BlockStore_whole.fbm (alloc16 fs.BlockStore_whole).1 true)
                (alloc16 (alloc16 fs.BlockStore_whole).2).1 true,
              data := upd fs.BlockStore_whole.data (alloc16 fs.BlockStore_whole).1
                (blockOfTable (upd zeroTable 0 (alloc16 (alloc16 fs.BlockStore_whole).2).1)) },
          BlockStore_inode := { fs.BlockStore_inode with
            data := upd fs.BlockStore_inode.data i
              { fs.BlockStore_inode.data i with
                indirectPointer := (alloc16 fs.BlockStore_whole).1 } } }) := by
    unfold gdb_indirect
    rw [if_pos ⟨rfl, hind0⟩, if_pos hfree]
    simp only [block_store_write_spec _ _ _ a1, sub_write_spec _ _ _ hi, upd_same, hst]
  generalize (alloc16 fs.BlockStore_whole).1 = a at *
  generalize (alloc16 (alloc16 fs.BlockStore_whole).2).1 = b at *
  have a0 : a ≠ 0 := (ne_of_fbm _ _ _ hz a2).symm
  have b0 : b ≠ 0 := (ne_of_fbm _ _ _ hz b2).symm
  obtain ⟨fs1, hfs1⟩ : ∃ fs1 : F17FS, fs1 = (gdb_indirect fs i (fs.BlockStore_inode.data i) 0).2 :=
    ⟨_, rfl⟩
  have hF : fs1.BlockStore_whole.fbm = upd (upd fs.BlockStore_whole.fbm a true) b true := by
    rw [hfs1, hg]
  have hD : fs1.BlockStore_whole.data =
      upd fs.BlockStore_whole.data a (blockOfTable (upd zeroTable 0 b)) := by rw [hfs1, hg]
  have hI : fs1.BlockStore_inode.data = upd fs.BlockStore_inode.data i
      { fs.BlockStore_inode.data i with indirectPointer := a } := by rw [hfs1, hg]
  have h1 : (gdb_indirect fs i (fs.BlockStore_inode.data i) 0).1 = b := by rw [hg]
  rw [← hfs1, h1]
  clear hfs1 hg h1 hst
  have hIi : fs1.BlockStore_inode.data i =
      { fs.BlockStore_inode.data i with indirectPointer := a } := by rw [hI, upd_same]
  have hTa : ∀ k, k < 256 → tableAt fs1 a k = upd zeroTable 0 b k % 65536 := fun k hk =>
    tableAt_written fs1 a _ k hk (by rw [hD, upd_same])
  have hTa0 : tableAt fs1 a 0 = b := by
    rw [hTa 0 (by norm_num), upd_same]; exact Nat.mod_eq_of_lt b1
  have hblk : blockOf fs1 (fs1.BlockStore_inode.data i) 6 = b := by
    unfold blockOf
    rw [hIi]
    simp only [a0, if_false]
    exact hTa0
  have mono : ∀ y, fs.BlockStore_whole.fbm y = true → fs1.BlockStore_whole.fbm y = true := by
    intro y hy; rw [hF]; exact upd_true_mono _ _ _ (upd_true_mono _ _ _ hy)
  refine ⟨b0, ?_, hblk⟩
  refine grows_build fs fs1 i 6 hwf ?_ ?_ ?_ ?_ ?_ ?_ ?_ ?_ mono ?_ ?_ ?_ ?_ ?_ ?_ ?_ ?_
  · intro k _ _; rw [hIi]
  · intro h; omega
  · intro h; omega
  · intro k h; omega
  · intro h hh; omega
  · intro h l hh; omega
  · intro s s1 s2
    rcases newSlot_cases 6 s s1 s2 with h | ⟨h, _⟩ | ⟨_, h⟩ | ⟨h, _, h'⟩
    · subst h
      rw [slotBlock_data, hblk]
      refine ⟨b0, b1, b2, ?_⟩
      rw [hF, upd_same]
    · subst h
      rw [slotBlock_ind, hIi]
      refine ⟨a0, a1, a2, ?_⟩
      rw [hF]; exact upd_true_mono _ _ _ (upd_same _ _ _)
    · omega
    · omega
  · intro s t s1 s2 t1 t2 hst
    rcases newSlot_cases 6 s s1 s2 with h | ⟨h, _⟩ | ⟨_, h⟩ | ⟨h, _, h'⟩
    · rcases newSlot_cases 6 t t1 t2 with h' | ⟨h', _⟩ | ⟨_, h'⟩ | ⟨h', _, h''⟩
      · rw [h, h']
      · subst h; subst h'
        rw [slotBlock_data, hblk, slotBlock_ind, hIi] at hst
        exact absurd hst hab
      · omega
      · omega
    · rcases newSlot_cases 6 t t1 t2 with h' | ⟨h', _⟩ | ⟨_, h'⟩ | ⟨h', _, h''⟩
      · subst h; subst h'
        rw [slotBlock_data, hblk, slotBlock_ind, hIi] at hst
        exact absurd hst.symm hab
      · rw [h, h']
      · omega
      · omega
    · omega
    · omega
  · intro k h1 h2; omega
  · intro h; omega
  · intro _ k hk1 hk2
    rw [hIi]
    simp only
    rw [hTa k hk2, zeroTable_upd _ _ _ (by omega)]
  · intro _; rw [hIi]; exact hwf.bzero (by omega)
  · intro h; omega
  · intro h l hh; omega
  · intro y hy _
    rw [hD, upd_other _ _ _ _ (ne_of_fbm _ _ _ hy a2)]
  · intro j hj; rw [hI, upd_other _ _ _ _ hj]


theorem upd_mod (t : Nat → Nat) (k v j : Nat) (hv : v < 65536) (ht : t j < 65536) :
    upd t k v j % 65536 = upd t k v j := by
  by_cases h : j = k
  · rw [h, upd_same]; exact Nat.mod_eq_of_lt hv
  · rw [upd_other _ _ _ _ h]; exact Nat.mod_eq_of_lt ht

/-- Growth by a further indirect block (logical blocks 7..261). -/
theorem grow_indirect_next (fs : F17FS) (i M : Nat)
    (hz : fs.BlockStore_whole.fbm 0 = true)
    (hwf : FileWF fs (fs.BlockStore_inode.data i) M) (hM1 : 6 < M) (hM2 : M < 262)
    (hfree : 1 ≤ block_store_get_free_blocks fs.BlockStore_whole) :
    (gdb_indirect fs i (fs.BlockStore_inode.data i) (M - 6)).1 ≠ 0 ∧
    Grows fs (gdb_indirect fs i (fs.BlockStore_inode.data i) (M - 6)).2 i M (M + 1) ∧
    blockOf (gdb_indirect fs i (fs.BlockStore_inode.data i) (M - 6)).2
      ((gdb_indirect fs i (fs.BlockStore_inode.data i) (M - 6)).2.BlockStore_inode.data i) M =
      (gdb_indirect fs i (fs.BlockStore_inode.data i) (M - 6)).1 := by
  obtain ⟨a1, a2, a3, _⟩ := alloc16_spec fs.BlockStore_whole hfree
  obtain ⟨hind, hindt⟩ := hwf.live .ind hM1
  simp only [slotBlock_ind] at hind hindt
  have hindl := test_lt _ _ hindt
  have hindf := ((test_iff _ _).mp hindt).2
  have hT0 := hwf.tzero hM1 (M - 6) (by omega) (by omega)
  have hg : gdb_indirect fs i (fs.BlockStore_inode.data i) (M - 6) =
      ((alloc16 fs.BlockStore_whole).1,
        { fs with
          BlockStore_whole :=
            { fbm := upd fs.BlockStore_whole.fbm (alloc16 fs.BlockStore_whole).1 true,
              data := upd fs.BlockStore_whole.data (fs.BlockStore_inode.data i).indirectPointer
                (blockOfTable (upd (tableAt fs (fs.BlockStore_inode.data i).indirectPointer)
                  (M - 6) (alloc16 fs.BlockStore_whole).1)) } }) := by
    unfold gdb_indirect
    have c1 : ¬ (M - 6 = 0 ∧ (fs.BlockStore_inode.data i).indirectPointer = 0) :=
      fun h => hind h.2
    rw [if_neg c1, if_pos ⟨hind, hindt⟩]
    simp only [block_store_read_spec _ _ hindl]
    unfold tableAt at hT0
    rw [if_pos hT0, if_pos hfree]
    simp only [a3, block_store_write_spec _ _ _ hindl, upd_same]
    rfl
  generalize (alloc16 fs.BlockStore_whole).1 = a at *
  have a0 : a ≠ 0 := (ne_of_fbm _ _ _ hz a2).symm
  obtain ⟨fs1, hfs1⟩ : ∃ fs1 : F17FS,
      fs1 = (gdb_indirect fs i (fs.BlockStore_inode.data i) (M - 6)).2 := ⟨_, rfl⟩
  have hF : fs1.BlockStore_whole.fbm = upd fs.BlockStore_whole.fbm a true := by rw [hfs1, hg]
  have hD : fs1.BlockStore_whole.data =
      upd fs.BlockStore_whole.data (fs.BlockStore_inode.data i).indirectPointer
        (blockOfTable (upd (tableAt fs (fs.BlockStore_inode.data i).indirectPointer)
          (M - 6) a)) := by rw [hfs1, hg]
  have hI : fs1.BlockStore_inode = fs.BlockStore_inode := by rw [hfs1, hg]
  have h1 : (gdb_indirect fs i (fs.BlockStore_inode.data i) (M - 6)).1 = a := by rw [hg]
  rw [← hfs1, h1]
  clear hfs1 hg h1 a3
  have hT : ∀ k, k < 256 → tableAt fs1 (fs.BlockStore_inode.data i).indirectPointer k =
      upd (tableAt fs (fs.BlockStore_inode.data i).indirectPointer) (M - 6) a k := by
    intro k hk
    rw [tableAt_written fs1 _ _ k hk (by rw [hD, upd_same])]
    exact upd_mod _ _ _ _ a1 (tableAt_lt _ _ _)
  have hblk : blockOf fs1 (fs1.BlockStore_inode.data i) M = a := by
    unfold blockOf
    rw [hI]
    have c1 : ¬ (M < 6) := by omega
    simp only [c1, hM2, hind, if_true, if_false]
    rw [hT _ (by omega), upd_same]
  have mono : ∀ y, fs.BlockStore_whole.fbm y = true → fs1.BlockStore_whole.fbm y = true := by
    intro y hy; rw [hF]; exact upd_true_mono _ _ _ hy
  refine ⟨a0, ?_, hblk⟩
  refine grows_build fs fs1 i M hwf ?_ ?_ ?_ ?_ ?_ ?_ ?_ ?_ mono ?_ ?_ ?_ ?_ ?_ ?_ ?_ ?_
  · intro k _ _; rw [hI]
  · intro _; rw [hI]
  · intro _; rw [hI]
  · intro k hk1 hk2
    rw [hT k hk2, upd_other _ _ _ _ (by omega)]
  · intro h hh; omega
  · intro h l hh; omega
  · intro s s1 s2
    rcases newSlot_cases M s s1 s2 with h | ⟨_, h⟩ | ⟨_, h⟩ | ⟨h, _, h'⟩
    · subst h
      rw [slotBlock_data, hblk]
      refine ⟨a0, a1, a2, ?_⟩
      rw [hF, upd_same]
    · omega
    · omega
    · omega
  · intro s t s1 s2 t1 t2 _
    rcases newSlot_cases M s s1 s2 with h | ⟨_, h⟩ | ⟨_, h⟩ | ⟨h, _, h'⟩
    · rcases newSlot_cases M t t1 t2 with h' | ⟨_, h'⟩ | ⟨_, h'⟩ | ⟨h', _, h''⟩
      · rw [h, h']
      · omega
      · omega
      · omega
    · omega
    · omega
    · omega
  · intro k h1 h2; omega
  · intro h; omega
  · intro _ k hk1 hk2
    rw [hI, hT k hk2, upd_other _ _ _ _ (by omega)]
    exact hwf.tzero hM1 k (by omega) hk2
  · intro _; rw [hI]; exact hwf.bzero (by omega)
  · intro h; omega
  · intro h l hh; omega
  · intro y hy hno
    have hne : y ≠ (fs.BlockStore_inode.data i).indirectPointer := by
      intro h
      exact hno ⟨.ind, hM1, fun L => by simp, by rw [slotBlock_ind, h]⟩
    rw [hD, upd_other _ _ _ _ hne]
  · intro j _; rw [hI]


/-- Three blocks handed out in a row are distinct, below 65536 and were free. -/
theorem alloc16_three (bs : block_store Block) (h : 3 ≤ block_store_get_free_blocks bs) :
    (alloc16 bs).1 < 65536 ∧ bs.fbm (alloc16 bs).1 = false ∧
    (alloc16 (alloc16 bs).2).1 < 65536 ∧ bs.fbm (alloc16 (alloc16 bs).2).1 = false ∧
    (alloc16 (alloc16 (alloc16 bs).2).2).1 < 65536 ∧
    bs.fbm (alloc16 (alloc16 (alloc16 bs).2).2).1 = false ∧
    (alloc16 (alloc16 bs).2).1 ≠ (alloc16 bs).1 ∧
    (alloc16 (alloc16 (alloc16 bs).2).2).1 ≠ (alloc16 bs).1 ∧
    (alloc16 (alloc16 (alloc16 bs).2).2).1 ≠ (alloc16 (alloc16 bs).2).1 ∧
    (alloc16 (alloc16 (alloc16 bs).2).2).2 =
      { bs with fbm := (upd (upd (upd bs.fbm (alloc16 bs).1 true) (alloc16 (alloc16 bs).2).1 true)
          (alloc16 (alloc16 (alloc16 bs).2).2).1 true) } := by
  obtain ⟨a1, a2, b1, b2, hab, hst, hcnt⟩ := alloc16_two bs (by omega)
  obtain ⟨c1, c2, c3, _⟩ := alloc16_spec (alloc16 (alloc16 bs).2).2 (by omega)
  have hf : (alloc16 (alloc16 bs).2).2.fbm =
      upd (upd bs.fbm (alloc16 bs).1 true) (alloc16 (alloc16 bs).2).1 true := by rw [hst]
  have hdt : (alloc16 (alloc16 bs).2).2.data = bs.data := by rw [hst]
  rw [hf] at c2
  have hcb : (alloc16 (alloc16 (alloc16 bs).2).2).1 ≠ (alloc16 (alloc16 bs).2).1 := by
    intro he
    rw [he, upd_same] at c2
    cases c2
  rw [upd_other _ _ _ _ hcb] at c2
  have hca : (alloc16 (alloc16 (alloc16 bs).2).2).1 ≠ (alloc16 bs).1 := by
    intro he
    rw [he, upd_same] at c2
    cases c2
  rw [upd_other _ _ _ _ hca] at c2
  refine ⟨a1, a2, b1, b2, c1, c2, hab, hca, hcb, ?_⟩
  rw [c3, hf, hdt]

/-- Growth by the first double-indirect block (logical block 262): the outer
index, the first inner index and the data block are allocated together. -/
theorem grow_double_first (fs : F17FS) (i : Nat) (hi : i < 256)
    (hz : fs.BlockStore_whole.fbm 0 = true)
    (hwf : FileWF fs (fs.BlockStore_inode.data i) 262)
    (hfree : 3 ≤ block_store_get_free_blocks fs.BlockStore_whole) :
    (gdb_double fs i (fs.BlockStore_inode.data i) 0).1 ≠ 0 ∧
    Grows fs (gdb_double fs i (fs.BlockStore_inode.data i) 0).2 i 262 (262 + 1) ∧
    blockOf (gdb_double fs i (fs.BlockStore_inode.data i) 0).2
      ((gdb_double fs i (fs.BlockStore_inode.data i) 0).2.BlockStore_inode.data i) 262 =
      (gdb_double fs i (fs.BlockStore_inode.data i) 0).1 := by
  obtain ⟨a1, a2, b1, b2, c1, c2, hba, hca, hcb, hst⟩ := alloc16_three fs.BlockStore_whole hfree
  have hdbl0 := hwf.bzero (le_refl _)
  obtain ⟨hind, hindt⟩ := hwf.live .ind (by simp)
  simp only [slotBlock_ind] at hind hindt
  have hindf := ((test_iff _ _).mp hindt).2
  have hg : gdb_double fs i (fs.BlockStore_inode.data i) 0 =
      ((alloc16 (alloc16 (alloc16 fs.BlockStore_whole).2).2).1,
        { fs with
          BlockStore_whole :=
            { fbm := upd (upd (upd fs.BlockStore_whole.fbm (alloc16 fs.BlockStore_whole).1 true)
                (alloc16 (alloc16 fs.BlockStore_whole).2).1 true)
                (alloc16 (alloc16 (alloc16 fs.BlockStore_whole).2).2).1 true,
              data := upd (upd fs.BlockStore_whole.data (alloc16 fs.BlockStore_whole).1
                  (blockOfTable (upd zeroTable 0 (alloc16 (alloc16 fs.BlockStore_whole).2).1)))
                (alloc16 (alloc16 fs.BlockStore_whole).2).1
                (blockOfTable (upd zeroTable 0
                  (alloc16 (alloc16 (alloc16 fs.BlockStore_whole).2).2).1)) },
          BlockStore_inode := { fs.BlockStore_inode with
            data := upd fs.BlockStore_inode.data i
              { fs.BlockStore_inode.data i with
                doubleIndirectPointer := (alloc16 fs.BlockStore_whole).1 } } }) := by
    unfold gdb_double
    rw [if_pos hdbl0, if_pos hfree]
    simp only [block_store_write_spec _ _ _ a1, upd_same, block_store_write_spec _ _ _ b1,
      sub_write_spec _ _ _ hi, hst]
  generalize (alloc16 (alloc16 (alloc16 fs.BlockStore_whole).2).2).1 = c at *
  generalize (alloc16 (alloc16 fs.BlockStore_whole).2).1 = b at *
  generalize (alloc16 fs.BlockStore_whole).1 = a at *
  have a0 : a ≠ 0 := (ne_of_fbm _ _ _ hz a2).symm
  have b0 : b ≠ 0 := (ne_of_fbm _ _ _ hz b2).symm
  have c0 : c ≠ 0 := (ne_of_fbm _ _ _ hz c2).symm
  obtain ⟨fs1, hfs1⟩ : ∃ fs1 : F17FS,
      fs1 = (gdb_double fs i (fs.BlockStore_inode.data i) 0).2 := ⟨_, rfl⟩
  have hF : fs1.BlockStore_whole.fbm =
      upd (upd (upd fs.BlockStore_whole.fbm a true) b true) c true := by rw [hfs1, hg]
  have hD : fs1.BlockStore_whole.data =
      upd (upd fs.BlockStore_whole.data a (blockOfTable (upd zeroTable 0 b))) b
        (blockOfTable (upd zeroTable 0 c)) := by rw [hfs1, hg]
  have hI : fs1.BlockStore_inode.data = upd fs.BlockStore_inode.data i
      { fs.BlockStore_inode.data i with doubleIndirectPointer := a } := by rw [hfs1, hg]
  have h1 : (gdb_double fs i (fs.BlockStore_inode.data i) 0).1 = c := by rw [hg]
  rw [← hfs1, h1]
  clear hfs1 hg h1 hst
  have hIi : fs1.BlockStore_inode.data i =
      { fs.BlockStore_inode.data i with doubleIndirectPointer := a } := by rw [hI, upd_same]
  have hTa : ∀ k, k < 256 → tableAt fs1 a k = upd zeroTable 0 b k % 65536 := fun k hk =>
    tableAt_written fs1 a _ k hk (by rw [hD, upd_other _ _ _ _ hba.symm, upd_same])
  have hTb : ∀ k, k < 256 → tableAt fs1 b k = upd zeroTable 0 c k % 65536 := fun k hk =>
    tableAt_written fs1 b _ k hk (by rw [hD, upd_same])
  have hTa0 : tableAt fs1 a 0 = b := by
    rw [hTa 0 (by norm_num), upd_same]; exact Nat.mod_eq_of_lt b1
  have hTb0 : tableAt fs1 b 0 = c := by
    rw [hTb 0 (by norm_num), upd_same]; exact Nat.mod_eq_of_lt c1
  have hblk : blockOf fs1 (fs1.BlockStore_inode.data i) 262 = c := by
    unfold blockOf
    rw [hIi]
    simp only [a0, if_false, Nat.lt_irrefl, Nat.sub_self, Nat.zero_div, Nat.zero_mod, hTa0, b0,
      hTb0]
    norm_num
  have mono : ∀ y, fs.BlockStore_whole.fbm y = true → fs1.BlockStore_whole.fbm y = true := by
    intro y hy; rw [hF]
    exact upd_true_mono _ _ _ (upd_true_mono _ _ _ (upd_true_mono _ _ _ hy))
  have hframe : ∀ y, fs.BlockStore_whole.fbm y = true →
      fs1.BlockStore_whole.data y = fs.BlockStore_whole.data y := by
    intro y hy
    rw [hD, upd_other _ _ _ _ (ne_of_fbm _ _ _ hy b2), upd_other _ _ _ _ (ne_of_fbm _ _ _ hy a2)]
  refine ⟨c0, ?_, hblk⟩
  refine grows_build fs fs1 i 262 hwf ?_ ?_ ?_ ?_ ?_ ?_ ?_ ?_ mono ?_ ?_ ?_ ?_ ?_ ?_ ?_ ?_
  · intro k _ _; rw [hIi]
  · intro _; rw [hIi]
  · intro h; omega
  · intro k _ _
    rw [tableAt_of_data fs fs1 _ (hframe _ hindf)]
  · intro h hh; omega
  · intro h l hh; omega
  · intro s s1 s2
    rcases newSlot_cases 262 s s1 s2 with h | ⟨_, h⟩ | ⟨h, _⟩ | ⟨h, h', h''⟩
    · subst h
      rw [slotBlock_data, hblk]
      refine ⟨c0, c1, c2, ?_⟩
      rw [hF, upd_same]
    · omega
    · subst h
      rw [slotBlock_dbl, hIi]
      refine ⟨a0, a1, a2, ?_⟩
      rw [hF]; exact upd_true_mono _ _ _ (upd_true_mono _ _ _ (upd_same _ _ _))
    · have : h = 0 := by omega
      subst this; subst h'
      rw [slotBlock_inner, hIi]
      simp only
      rw [hTa0]
      refine ⟨b0, b1, b2, ?_⟩
      rw [hF]; exact upd_true_mono _ _ _ (upd_same _ _ _)
  · intro s t s1 s2 t1 t2 hst
    have key : ∀ s, slotLive (262 + 1) s → ¬ slotLive 262 s →
        (s = .data 262 ∧ slotBlock fs1 (fs1.BlockStore_inode.data i) s = c) ∨
        (s = .dbl ∧ slotBlock fs1 (fs1.BlockStore_inode.data i) s = a) ∨
        (s = .inner 0 ∧ slotBlock fs1 (fs1.BlockStore_inode.data i) s = b) := by
      intro s s1 s2
      rcases newSlot_cases 262 s s1 s2 with h | ⟨_, h⟩ | ⟨h, _⟩ | ⟨h, h', h''⟩
      · left; subst h; exact ⟨rfl, by rw [slotBlock_data, hblk]⟩
      · omega
      · right; left; subst h; exact ⟨rfl, by rw [slotBlock_dbl, hIi]⟩
      · right; right
        have : h = 0 := by omega
        subst this; subst h'
        refine ⟨rfl, ?_⟩
        rw [slotBlock_inner, hIi]
        exact hTa0
    rcases key s s1 s2 with ⟨e1, v1⟩ | ⟨e1, v1⟩ | ⟨e1, v1⟩ <;>
    rcases key t t1 t2 with ⟨e2, v2⟩ | ⟨e2, v2⟩ | ⟨e2, v2⟩ <;>
    first
      | (rw [e1, e2]; done)
      | (rw [v1, v2] at hst; first
          | exact absurd hst hca | exact absurd hst.symm hca
          | exact absurd hst hcb | exact absurd hst.symm hcb
          | exact absurd hst hba | exact absurd hst.symm hba)
  · intro k h1 h2; omega
  · intro h; omega
  · intro _ k hk1 hk2; omega
  · intro h; omega
  · intro _ h hh1 hh2
    rw [hIi]
    simp only
    rw [hTa h hh2, zeroTable_upd _ _ _ (by omega)]
  · intro h l hh1 hh2 hh3
    have : h = 0 := by omega
    subst this
    rw [hIi]
    simp only
    rw [hTa0, hTb l hh3, zeroTable_upd _ _ _ (by omega)]
  · intro y hy _
    exact hframe y hy
  · intro j hj; rw [hI, upd_other _ _ _ _ hj]


/-- Growth by the first block of a further inner index (logical block
`262 + 256 * hi`, `hi ≥ 1`): the inner index and the data block are allocated
together. -/
theorem grow_double_inner (fs : F17FS) (i hi : Nat) (hh1 : 1 ≤ hi) (hh2 : hi < 256)
    (hz : fs.BlockStore_whole.fbm 0 = true)
    (hwf : FileWF fs (fs.BlockStore_inode.data i) (262 + 256 * hi))
    (hfree : 2 ≤ block_store_get_free_blocks fs.BlockStore_whole) :
    (gdb_double fs i (fs.BlockStore_inode.data i) (256 * hi)).1 ≠ 0 ∧
    Grows fs (gdb_double fs i (fs.BlockStore_inode.data i) (256 * hi)).2 i (262 + 256 * hi)
      (262 + 256 * hi + 1) ∧
    blockOf (gdb_double fs i (fs.BlockStore_inode.data i) (256 * hi)).2
      ((gdb_double fs i (fs.BlockStore_inode.data i) (256 * hi)).2.BlockStore_inode.data i)
      (262 + 256 * hi) =
      (gdb_double fs i (fs.BlockStore_inode.data i) (256 * hi)).1 := by
  obtain ⟨a1, a2, b1, b2, hba, hst, _⟩ := alloc16_two fs.BlockStore_whole hfree
  have hM : 262 < 262 + 256 * hi := by omega
  obtain ⟨hdbl, hdblt⟩ := hwf.live .dbl hM
  simp only [slotBlock_dbl] at hdbl hdblt
  have hdbll := test_lt _ _ hdblt
  have hdblf := ((test_iff _ _).mp hdblt).2
  obtain ⟨hind, hindt⟩ := hwf.live .ind (by simp; omega)
  simp only [slotBlock_ind] at hind hindt
  have hindf := ((test_iff _ _).mp hindt).2
  have hO0 := hwf.ozero hM hi (le_refl _) hh2
  have e1 : 256 * hi / 256 = hi := by omega
  have e2 : 256 * hi % 256 = 0 := by omega
  have hg : gdb_double fs i (fs.BlockStore_inode.data i) (256 * hi) =
      ((alloc16 (alloc16 fs.BlockStore_whole).2).1,
        { fs with
          BlockStore_whole :=
            { fbm := upd (upd fs.BlockStore_whole.fbm (alloc16 fs.BlockStore_whole).1 true)
                (alloc16 (alloc16 fs.BlockStore_whole).2).1 true,
              data := upd (upd fs.BlockStore_whole.data
                  (fs.BlockStore_inode.data i).doubleIndirectPointer
                  (blockOfTable (upd (tableAt fs (fs.BlockStore_inode.data i).doubleIndirectPointer)
                    hi (alloc16 fs.BlockStore_whole).1)))
                (alloc16 fs.BlockStore_whole).1
                (blockOfTable (upd zeroTable 0 (alloc16 (alloc16 fs.BlockStore_whole).2).1)) } }) := by
    unfold gdb_double
    rw [if_neg hdbl, if_pos hdblt]
    simp only [block_store_read_spec _ _ hdbll, e1, e2]
    unfold tableAt at hO0
    rw [if_pos hO0, if_pos hfree]
    simp only [hst, block_store_write_spec _ _ _ hdbll, upd_same,
      block_store_write_spec _ _ _ a1]
    rfl
  generalize (alloc16 (alloc16 fs.BlockStore_whole).2).1 = b at *
  generalize (alloc16 fs.BlockStore_whole).1 = a at *
  have a0 : a ≠ 0 := (ne_of_fbm _ _ _ hz a2).symm
  have b0 : b ≠ 0 := (ne_of_fbm _ _ _ hz b2).symm
  obtain ⟨fs1, hfs1⟩ : ∃ fs1 : F17FS,
      fs1 = (gdb_double fs i (fs.BlockStore_inode.data i) (256 * hi)).2 := ⟨_, rfl⟩
  have hF : fs1.BlockStore_whole.fbm = upd (upd fs.BlockStore_whole.fbm a true) b true := by
    rw [hfs1, hg]
  have hD : fs1.BlockStore_whole.data =
      upd (upd fs.BlockStore_whole.data (fs.BlockStore_inode.data i).doubleIndirectPointer
          (blockOfTable (upd (tableAt fs (fs.BlockStore_inode.data i).doubleIndirectPointer)
            hi a)))
        a (blockOfTable (upd zeroTable 0 b)) := by rw [hfs1, hg]
  have hI : fs1.BlockStore_inode = fs.BlockStore_inode := by rw [hfs1, hg]
  have h1 : (gdb_double fs i (fs.BlockStore_inode.data i) (256 * hi)).1 = b := by rw [hg]
  rw [← hfs1, h1]
  clear hfs1 hg h1 hst
  have hda : (fs.BlockStore_inode.data i).doubleIndirectPointer ≠ a := ne_of_fbm _ _ _ hdblf a2
  have hTd : ∀ k, k < 256 → tableAt fs1 (fs.BlockStore_inode.data i).doubleIndirectPointer k =
      upd (tableAt fs (fs.BlockStore_inode.data i).doubleIndirectPointer) hi a k := by
    intro k hk
    rw [tableAt_written fs1 _ _ k hk (by rw [hD, upd_other _ _ _ _ hda, upd_same])]
    exact upd_mod _ _ _ _ a1 (tableAt_lt _ _ _)
  have hTa : ∀ k, k < 256 → tableAt fs1 a k = upd zeroTable 0 b k % 65536 := fun k hk =>
    tableAt_written fs1 a _ k hk (by rw [hD, upd_same])
  have hTa0 : tableAt fs1 a 0 = b := by
    rw [hTa 0 (by norm_num), upd_same]; exact Nat.mod_eq_of_lt b1
  have hOhi : tableAt fs1 (fs.BlockStore_inode.data i).doubleIndirectPointer hi = a := by
    rw [hTd hi hh2, upd_same]
  have hblk : blockOf fs1 (fs1.BlockStore_inode.data i) (262 + 256 * hi) = b := by
    unfold blockOf
    rw [hI]
    have c1 : ¬ (262 + 256 * hi < 6) := by omega
    have c2 : ¬ (262 + 256 * hi < 262) := by omega
    have c3 : 262 + 256 * hi - 262 = 256 * hi := by omega
    simp only [c1, c2, c3, e1, e2, hdbl, if_false, hOhi, a0, hTa0]
  have mono : ∀ y, fs.BlockStore_whole.fbm y = true → fs1.BlockStore_whole.fbm y = true := by
    intro y hy; rw [hF]
    exact upd_true_mono _ _ _ (upd_true_mono _ _ _ hy)
  have hframe : ∀ y, fs.BlockStore_whole.fbm y = true →
      y ≠ (fs.BlockStore_inode.data i).doubleIndirectPointer →
      fs1.BlockStore_whole.data y = fs.BlockStore_whole.data y := by
    intro y hy hne
    rw [hD, upd_other _ _ _ _ (ne_of_fbm _ _ _ hy a2), upd_other _ _ _ _ hne]
  have hinner : ∀ h, 262 + 256 * h < 262 + 256 * hi →
      fs.BlockStore_whole.fbm (tableAt fs (fs.BlockStore_inode.data i).doubleIndirectPointer h)
        = true ∧
      tableAt fs (fs.BlockStore_inode.data i).doubleIndirectPointer h ≠
        (fs.BlockStore_inode.data i).doubleIndirectPointer := by
    intro h hh
    have hl := hwf.live (.inner h) hh
    simp only [slotBlock_inner] at hl
    refine ⟨((test_iff _ _).mp hl.2).2, fun he => ?_⟩
    have := hwf.inj (.inner h) .dbl hh hM (by simp only [slotBlock_inner, slotBlock_dbl, he])
    cases this
  have hindd : (fs.BlockStore_inode.data i).indirectPointer ≠
      (fs.BlockStore_inode.data i).doubleIndirectPointer := by
    intro he
    have := hwf.inj .ind .dbl (by simp; omega) hM (by simp only [slotBlock_ind, slotBlock_dbl, he])
    cases this
  refine ⟨b0, ?_, hblk⟩
  refine grows_build fs fs1 i (262 + 256 * hi) hwf ?_ ?_ ?_ ?_ ?_ ?_ ?_ ?_ mono
    ?_ ?_ ?_ ?_ ?_ ?_ ?_ ?_
  · intro k _ _; rw [hI]
  · intro _; rw [hI]
  · intro _; rw [hI]
  · intro k _ _
    rw [tableAt_of_data fs fs1 _ (hframe _ hindf hindd)]
  · intro h hh
    rw [hTd h (by omega), upd_other _ _ _ _ (by omega)]
  · intro h l hh hl
    have hh' : 262 + 256 * h < 262 + 256 * hi := by omega
    obtain ⟨q1, q2⟩ := hinner h hh'
    rw [tableAt_of_data fs fs1 _ (hframe _ q1 q2)]
  · intro s s1 s2
    rcases newSlot_cases (262 + 256 * hi) s s1 s2 with h | ⟨_, h⟩ | ⟨_, h⟩ | ⟨h, h', h''⟩
    · subst h
      rw [slotBlock_data, hblk]
      refine ⟨b0, b1, b2, ?_⟩
      rw [hF, upd_same]
    · omega
    · omega
    · have : h = hi := by omega
      subst this; subst h'
      rw [slotBlock_inner, hI, hOhi]
      refine ⟨a0, a1, a2, ?_⟩
      rw [hF]; exact upd_true_mono _ _ _ (upd_same _ _ _)
  · intro s t s1 s2 t1 t2 hst
    have key : ∀ s, slotLive (262 + 256 * hi + 1) s → ¬ slotLive (262 + 256 * hi) s →
        (s = .data (262 + 256 * hi) ∧ slotBlock fs1 (fs1.BlockStore_inode.data i) s = b) ∨
        (s = .inner hi ∧ slotBlock fs1 (fs1.BlockStore_inode.data i) s = a) := by
      intro s s1 s2
      rcases newSlot_cases (262 + 256 * hi) s s1 s2 with h | ⟨_, h⟩ | ⟨_, h⟩ | ⟨h, h', h''⟩
      · left; subst h; exact ⟨rfl, by rw [slotBlock_data, hblk]⟩
      · omega
      · omega
      · right
        have : h = hi := by omega
        subst this; subst h'
        exact ⟨rfl, by rw [slotBlock_inner, hI, hOhi]⟩
    rcases key s s1 s2 with ⟨e1, v1⟩ | ⟨e1, v1⟩ <;>
    rcases key t t1 t2 with ⟨e2, v2⟩ | ⟨e2, v2⟩ <;>
    first
      | (rw [e1, e2]; done)
      | (rw [v1, v2] at hst; first
          | exact absurd hst hba | exact absurd hst.symm hba)
  · intro k h1 h2; omega
  · intro h; omega
  · intro _ k hk1 hk2; omega
  · intro h; omega
  · intro _ h hh1 hh2
    rw [hI, hTd h hh2, upd_other _ _ _ _ (by omega)]
    exact hwf.ozero hM h (by omega) hh2
  · intro h l hh1 hh2 hh3
    have : h = hi := by omega
    subst this
    rw [hI, hOhi, hTa l hh3, zeroTable_upd _ _ _ (by omega)]
  · intro y hy hno
    have hne : y ≠ (fs.BlockStore_inode.data i).doubleIndirectPointer := by
      intro h
      exact hno ⟨.dbl, hM, fun L => by simp, by rw [slotBlock_dbl, h]⟩
    exact hframe y hy hne
  · intro j _; rw [hI]


/-- Growth by a further block of an inner index that exists (logical block
`262 + 256 * hi + lo`, `lo ≥ 1`). -/
theorem grow_double_next (fs : F17FS) (i hi lo : Nat) (hl1 : 1 ≤ lo) (hl2 : lo < 256)
    (hz : fs.BlockStore_whole.fbm 0 = true)
    (hwf : FileWF fs (fs.BlockStore_inode.data i) (262 + 256 * hi + lo))
    (hfree : 1 ≤ block_store_get_free_blocks fs.BlockStore_whole) :
    (gdb_double fs i (fs.BlockStore_inode.data i) (256 * hi + lo)).1 ≠ 0 ∧
    Grows fs (gdb_double fs i (fs.BlockStore_inode.data i) (256 * hi + lo)).2 i
      (262 + 256 * hi + lo) (262 + 256 * hi + lo + 1) ∧
    blockOf (gdb_double fs i (fs.BlockStore_inode.data i) (256 * hi + lo)).2
      ((gdb_double fs i (fs.BlockStore_inode.data i) (256 * hi + lo)).2.BlockStore_inode.data i)
      (262 + 256 * hi + lo) =
      (gdb_double fs i (fs.BlockStore_inode.data i) (256 * hi + lo)).1 := by
  obtain ⟨a1, a2, a3, _⟩ := alloc16_spec fs.BlockStore_whole hfree
  have hM : 262 < 262 + 256 * hi + lo := by omega
  have hMi : 262 + 256 * hi < 262 + 256 * hi + lo := by omega
  obtain ⟨hdbl, hdblt⟩ := hwf.live .dbl hM
  simp only [slotBlock_dbl] at hdbl hdblt
  have hdbll := test_lt _ _ hdblt
  have hdblf := ((test_iff _ _).mp hdblt).2
  obtain ⟨hind, hindt⟩ := hwf.live .ind (by simp; omega)
  simp only [slotBlock_ind] at hind hindt
  have hindf := ((test_iff _ _).mp hindt).2
  obtain ⟨hinn, hinnt⟩ := hwf.live (.inner hi) hMi
  simp only [slotBlock_inner] at hinn hinnt
  have hinnl := test_lt _ _ hinnt
  have hinnf := ((test_iff _ _).mp hinnt).2
  have hN0 := hwf.nzero hi lo hMi (le_refl _) hl2
  have e1 : (256 * hi + lo) / 256 = hi := by omega
  have e2 : (256 * hi + lo) % 256 = lo := by omega
  have hg : gdb_double fs i (fs.BlockStore_inode.data i) (256 * hi + lo) =
      ((alloc16 fs.BlockStore_whole).1,
        { fs with
          BlockStore_whole :=
            { fbm := upd fs.BlockStore_whole.fbm (alloc16 fs.BlockStore_whole).1 true,
              data := upd fs.BlockStore_whole.data
                (tableAt fs (fs.BlockStore_inode.data i).doubleIndirectPointer hi)
                (blockOfTable (upd
                  (tableAt fs (tableAt fs (fs.BlockStore_inode.data i).doubleIndirectPointer hi))
                  lo (alloc16 fs.BlockStore_whole).1)) } }) := by
    unfold gdb_double
    rw [if_neg hdbl, if_pos hdblt]
    simp only [block_store_read_spec _ _ hdbll, e1, e2]
    unfold tableAt at hinn hinnt hinnl hN0
    rw [if_neg hinn, if_pos hinnt]
    simp only [block_store_read_spec _ _ hinnl]
    rw [if_pos hN0, if_pos hfree]
    simp only [a3, block_store_write_spec _ _ _ hinnl, upd_same]
    rfl
  generalize (alloc16 fs.BlockStore_whole).1 = a at *
  have a0 : a ≠ 0 := (ne_of_fbm _ _ _ hz a2).symm
  obtain ⟨fs1, hfs1⟩ : ∃ fs1 : F17FS,
      fs1 = (gdb_double fs i (fs.BlockStore_inode.data i) (256 * hi + lo)).2 := ⟨_, rfl⟩
  have hF : fs1.BlockStore_whole.fbm = upd fs.BlockStore_whole.fbm a true := by
    rw [hfs1, hg]
  have hD : fs1.BlockStore_whole.data =
      upd fs.BlockStore_whole.data
        (tableAt fs (fs.BlockStore_inode.data i).doubleIndirectPointer hi)
        (blockOfTable (upd
          (tableAt fs (tableAt fs (fs.BlockStore_inode.data i).doubleIndirectPointer hi))
          lo a)) := by rw [hfs1, hg]
  have hI : fs1.BlockStore_inode = fs.BlockStore_inode := by rw [hfs1, hg]
  have h1 : (gdb_double fs i (fs.BlockStore_inode.data i) (256 * hi + lo)).1 = a := by rw [hg]
  rw [← hfs1, h1]
  clear hfs1 hg h1 a3
  have hframe : ∀ y, y ≠ tableAt fs (fs.BlockStore_inode.data i).doubleIndirectPointer hi →
      fs1.BlockStore_whole.data y = fs.BlockStore_whole.data y := by
    intro y hne
    rw [hD, upd_other _ _ _ _ hne]
  have hdn : (fs.BlockStore_inode.data i).doubleIndirectPointer ≠
      tableAt fs (fs.BlockStore_inode.data i).doubleIndirectPointer hi := by
    intro he
    have := hwf.inj .dbl (.inner hi) hM hMi (by simp only [slotBlock_inner, slotBlock_dbl, ← he])
    cases this
  have hin : (fs.BlockStore_inode.data i).indirectPointer ≠
      tableAt fs (fs.BlockStore_inode.data i).doubleIndirectPointer hi := by
    intro he
    have := hwf.inj .ind (.inner hi) (by simp; omega) hMi
      (by simp only [slotBlock_inner, slotBlock_ind, ← he])
    cases this
  have hTd : tableAt fs1 (fs.BlockStore_inode.data i).doubleIndirectPointer =
      tableAt fs (fs.BlockStore_inode.data i).doubleIndirectPointer :=
    tableAt_of_data fs fs1 _ (hframe _ hdn)
  have hTn : ∀ k, k < 256 →
      tableAt fs1 (tableAt fs (fs.BlockStore_inode.data i).doubleIndirectPointer hi) k =
      upd (tableAt fs (tableAt fs (fs.BlockStore_inode.data i).doubleIndirectPointer hi))
        lo a k := by
    intro k hk
    rw [tableAt_written fs1 _ _ k hk (by rw [hD, upd_same])]
    exact upd_mod _ _ _ _ a1 (tableAt_lt _ _ _)
  have hblk : blockOf fs1 (fs1.BlockStore_inode.data i) (262 + 256 * hi + lo) = a := by
    unfold blockOf
    rw [hI]
    have c1 : ¬ (262 + 256 * hi + lo < 6) := by omega
    have c2 : ¬ (262 + 256 * hi + lo < 262) := by omega
    have c3 : 262 + 256 * hi + lo - 262 = 256 * hi + lo := by omega
    simp only [c1, c2, c3, e1, e2, hdbl, if_false, hTd, hinn, hTn lo hl2, upd_same]
  have mono : ∀ y, fs.BlockStore_whole.fbm y = true → fs1.BlockStore_whole.fbm y = true := by
    intro y hy; rw [hF]
    exact upd_true_mono _ _ _ hy
  refine ⟨a0, ?_, hblk⟩
  refine grows_build fs fs1 i (262 + 256 * hi + lo) hwf ?_ ?_ ?_ ?_ ?_ ?_ ?_ ?_ mono
    ?_ ?_ ?_ ?_ ?_ ?_ ?_ ?_
  · intro k _ _; rw [hI]
  · intro _; rw [hI]
  · intro _; rw [hI]
  · intro k _ _
    rw [tableAt_of_data fs fs1 _ (hframe _ hin)]
  · intro h _; rw [hTd]
  · intro h l hh hl
    by_cases hhh : h = hi
    · subst hhh
      rw [hTn l hl, upd_other _ _ _ _ (by omega)]
    · have hlive : slotLive (262 + 256 * hi + lo) (.inner h) := by
        simp only [slotLive_inner]; omega
      have hne : tableAt fs (fs.BlockStore_inode.data i).doubleIndirectPointer h ≠
          tableAt fs (fs.BlockStore_inode.data i).doubleIndirectPointer hi := by
        intro he
        have := hwf.inj (.inner h) (.inner hi) hlive hMi (by simp only [slotBlock_inner, he])
        cases this
        exact hhh rfl
      rw [tableAt_of_data fs fs1 _ (hframe _ hne)]
  · intro s s1 s2
    rcases newSlot_cases (262 + 256 * hi + lo) s s1 s2 with h | ⟨_, h⟩ | ⟨_, h⟩ | ⟨h, h', h''⟩
    · subst h
      rw [slotBlock_data, hblk]
      refine ⟨a0, a1, a2, ?_⟩
      rw [hF, upd_same]
    · omega
    · omega
    · omega
  · intro s t s1 s2 t1 t2 _
    rcases newSlot_cases (262 + 256 * hi + lo) s s1 s2 with h | ⟨_, h⟩ | ⟨_, h⟩ | ⟨h, h', h''⟩
    · rcases newSlot_cases (262 + 256 * hi + lo) t t1 t2 with
        h' | ⟨_, h'⟩ | ⟨_, h'⟩ | ⟨h', _, h''⟩
      · rw [h, h']
      · omega
      · omega
      · omega
    · omega
    · omega
    · omega
  · intro k h1 h2; omega
  · intro h; omega
  · intro _ k hk1 hk2; omega
  · intro h; omega
  · intro _ h hh1 hh2
    rw [hI, hTd]
    exact hwf.ozero hM h (by omega) hh2
  · intro h l hh1 hh2 hh3
    have : h = hi := by omega
    subst this
    rw [hI, hTd, hTn l hh3, upd_other _ _ _ _ (by omega)]
    exact hwf.nzero h l hMi (by omega) hh3
  · intro y hy hno
    have hne : y ≠ tableAt fs (fs.BlockStore_inode.data i).doubleIndirectPointer hi := by
      intro h
      exact hno ⟨.inner hi, hMi, fun L => by simp, by rw [slotBlock_inner, h]⟩
    exact hframe y hne
  · intro j _; rw [hI]

end F17


/-! ## `get_data_block_id` on a well-formed block map -/

namespace F17

theorem wf_mapped (fs : F17FS) (ino : inode) (M L : Nat) (hwf : FileWF fs ino M) (hL : L < M) :
    blockMapped fs ino L := by
  have hd := hwf.live (.data L) hL
  simp only [slotBlock_data] at hd
  unfold blockMapped
  unfold blockOf at hd
  by_cases h1 : L < 6
  · simp only [h1, if_true] at hd ⊢
    exact hd
  · by_cases h2 : L < 262
    · simp only [h1, h2, if_true, if_false] at hd ⊢
      have hi := hwf.live .ind (by simp only [slotLive_ind]; omega)
      simp only [slotBlock_ind] at hi
      simp only [hi.1, if_false] at hd
      exact ⟨hi.1, hi.2, hd.1, hd.2⟩
    · simp only [h1, h2, if_false] at hd ⊢
      have hb := hwf.live .dbl (by simp only [slotLive_dbl]; omega)
      simp only [slotBlock_dbl] at hb
      have hn := hwf.live (.inner ((L - 262) / 256)) (by simp only [slotLive_inner]; omega)
      simp only [slotBlock_inner] at hn
      simp only [hb.1, hn.1, if_false] at hd
      exact ⟨hb.1, hb.2, hn.1, hn.2, hd.1, hd.2⟩

theorem grows_refl (fs : F17FS) (i M : Nat) (hwf : FileWF fs (fs.BlockStore_inode.data i) M) :
    Grows fs fs i M M :=
  ⟨hwf, fun _ _ => rfl, fun _ h1 h2 => absurd h1 h2, fun _ h => h, fun _ _ _ => rfl,
    fun _ _ => rfl⟩

/-- What `get_data_block_id` does on a well-formed block map of `M` logical
blocks when the cursor stands in a mapped block or in the block right after the
last: it fails with 0 and changes nothing, or it returns the block of the map
for the cursor, after growing the map by that block if it was missing. -/
theorem gdb_wf (fs : F17FS) (d : fileDescriptor) (M : Nat) (hc : cursorOK d)
    (hi : d.inodeNum < 256) (hz : fs.BlockStore_whole.fbm 0 = true)
    (hwf : FileWF fs (fs.BlockStore_inode.data d.inodeNum) M) (hL : logicalBlock d ≤ M) :
    get_data_block_id fs d = (0, fs) ∨
    ((get_data_block_id fs d).1 ≠ 0 ∧
      Grows fs (get_data_block_id fs d).2 d.inodeNum M (max M (logicalBlock d + 1)) ∧
      blockOf (get_data_block_id fs d).2
        ((get_data_block_id fs d).2.BlockStore_inode.data d.inodeNum) (logicalBlock d) =
        (get_data_block_id fs d).1) := by
  by_cases hlt : logicalBlock d < M
  · right
    have hm := wf_mapped fs _ M _ hwf hlt
    rw [gdb_mapped fs d hc hi hm]
    have e : max M (logicalBlock d + 1) = M := by omega
    rw [e]
    exact ⟨(blockMapped_blockOf _ _ _ hm).1, grows_refl fs _ M hwf, rfl⟩
  · have hM : M = logicalBlock d := by omega
    have e : max M (logicalBlock d + 1) = M + 1 := by omega
    rw [e]
    have hgd : get_data_block_id fs d =
        if d.usage = 1 then gdb_direct fs d.inodeNum (fs.BlockStore_inode.data d.inodeNum)
          d.locate_order
        else if d.usage = 2 then
          gdb_indirect fs d.inodeNum (fs.BlockStore_inode.data d.inodeNum) d.locate_order
        else gdb_double fs d.inodeNum (fs.BlockStore_inode.data d.inodeNum) d.locate_order := by
      unfold get_data_block_id block_store_sub_read
      rw [if_pos hi]
    rw [hgd]
    unfold logicalBlock at hM ⊢
    rcases hc.2 with ⟨h1, h2⟩ | ⟨h1, h2⟩ | ⟨h1, h2⟩
    · simp only [h1, if_true] at hM ⊢
      subst hM
      by_cases hf : 1 ≤ block_store_get_free_blocks fs.BlockStore_whole
      · right; exact grow_direct fs _ _ hi hz hwf h2 hf
      · left
        unfold gdb_direct
        rw [if_pos (hwf.dzero _ (le_refl _) h2), if_neg hf]
    · have c1 : ¬ ((2 : Nat) = 1) := by omega
      simp only [h1, c1, if_true, if_false] at hM ⊢
      subst hM
      by_cases h0 : d.locate_order = 0
      · rw [h0] at hwf ⊢
        by_cases hf : 2 ≤ block_store_get_free_blocks fs.BlockStore_whole
        · right; exact grow_indirect_first fs _ hi hz hwf hf
        · left
          unfold gdb_indirect
          rw [if_pos ⟨rfl, hwf.izero (le_refl _)⟩, if_neg hf]
      · have hM1 : 6 < 6 + d.locate_order := by omega
        have e3 : 6 + d.locate_order - 6 = d.locate_order := by omega
        by_cases hf : 1 ≤ block_store_get_free_blocks fs.BlockStore_whole
        · right
          have := grow_indirect_next fs d.inodeNum (6 + d.locate_order) hz hwf hM1 (by omega) hf
          rw [e3] at this
          exact this
        · left
          obtain ⟨hind, hindt⟩ := hwf.live .ind hM1
          simp only [slotBlock_ind] at hind hindt
          have hT0 := hwf.tzero hM1 d.locate_order (le_refl _) h2
          unfold gdb_indirect
          have c2 : ¬ (d.locate_order = 0 ∧
              (fs.BlockStore_inode.data d.inodeNum).indirectPointer = 0) := fun h => hind h.2
          rw [if_neg c2, if_pos ⟨hind, hindt⟩]
          simp only [block_store_read_spec _ _ (test_lt _ _ hindt)]
          unfold tableAt at hT0
          rw [if_pos hT0, if_neg hf]
    · have c1 : ¬ ((4 : Nat) = 1) := by omega
      have c2 : ¬ ((4 : Nat) = 2) := by omega
      simp only [h1, c1, c2, if_false] at hM ⊢
      subst hM
      by_cases h0 : d.locate_order = 0
      · rw [h0] at hwf ⊢
        by_cases hf : 3 ≤ block_store_get_free_blocks fs.BlockStore_whole
        · right; exact grow_double_first fs _ hi hz hwf hf
        · left
          unfold gdb_double
          rw [if_pos (hwf.bzero (le_refl _)), if_neg hf]
      · obtain ⟨q, r, hqr, hr⟩ : ∃ q r, d.locate_order = 256 * q + r ∧ r < 256 :=
          ⟨d.locate_order / 256, d.locate_order % 256, by omega, Nat.mod_lt _ (by norm_num)⟩
        rw [hqr] at hwf h0 h2 ⊢
        have e4 : 6 + 256 + (256 * q + r) = 262 + 256 * q + r := by omega
        rw [e4] at hwf ⊢
        have hM1 : 262 < 262 + 256 * q + r := by omega
        obtain ⟨hdbl, hdblt⟩ := hwf.live .dbl hM1
        simp only [slotBlock_dbl] at hdbl hdblt
        have eq1 : (256 * q + r) / 256 = q := by omega
        have eq2 : (256 * q + r) % 256 = r := by omega
        by_cases hlo : r = 0
        · subst hlo
          simp only [Nat.add_zero] at hwf hM1 eq1 eq2 ⊢
          by_cases hf : 2 ≤ block_store_get_free_blocks fs.BlockStore_whole
          · right
            exact grow_double_inner fs d.inodeNum q (by omega) (by omega) hz hwf hf
          · left
            have hO0 := hwf.ozero hM1 q (le_refl _) (by omega)
            unfold gdb_double
            rw [if_neg hdbl, if_pos hdblt]
            simp only [block_store_read_spec _ _ (test_lt _ _ hdblt), eq1]
            unfold tableAt at hO0
            rw [if_pos hO0, if_neg hf]
        · by_cases hf : 1 ≤ block_store_get_free_blocks fs.BlockStore_whole
          · right
            exact grow_double_next fs d.inodeNum q r (by omega) hr hz hwf hf
          · left
            have hMi : 262 + 256 * q < 262 + 256 * q + r := by omega
            obtain ⟨hinn, hinnt⟩ := hwf.live (.inner q) hMi
            simp only [slotBlock_inner] at hinn hinnt
            have hN0 := hwf.nzero q r hMi (le_refl _) hr
            unfold gdb_double
            rw [if_neg hdbl, if_pos hdblt]
            simp only [block_store_read_spec _ _ (test_lt _ _ hdblt), eq1, eq2]
            unfold tableAt at hinn hinnt hN0
            rw [if_neg hinn, if_pos hinnt]
            simp only [block_store_read_spec _ _ (test_lt _ _ hinnt)]
            rw [if_pos hN0, if_neg hf]


/-- A file cannot have more logical blocks than the store has blocks. -/
theorem wf_bound (fs : F17FS) (ino : inode) (M : Nat) (hwf : FileWF fs ino M) : M ≤ 65536 := by
  have h := Finset.card_le_card_of_injOn (s := Finset.range M) (t := Finset.range 65536)
    (fun L => blockOf fs ino L)
    (by
      intro L hL
      have hL' : L < M := Finset.mem_range.mp (Finset.mem_coe.mp hL)
      have := (hwf.live (.data L) hL').2
      simp only [slotBlock_data] at this
      exact Finset.mem_coe.mpr (Finset.mem_range.mpr (test_lt _ _ this)))
    (by
      intro L1 h1 L2 h2 he
      have h1' : L1 < M := Finset.mem_range.mp (Finset.mem_coe.mp h1)
      have h2' : L2 < M := Finset.mem_range.mp (Finset.mem_coe.mp h2)
      have := hwf.inj (.data L1) (.data L2) h1' h2' he
      cases this
      rfl)
  simpa using h

end F17


/-! ## Writing a data block of a well-formed file -/

namespace F17

theorem not_indexOwned_data (fs : F17FS) (ino : inode) (M L : Nat) (hwf : FileWF fs ino M)
    (hL : L < M) : ¬ IndexOwned fs ino M (blockOf fs ino L) := by
  rintro ⟨s, hs, hnd, he⟩
  have := hwf.inj s (.data L) hs hL (by rw [he, slotBlock_data])
  exact hnd L this

/-- Growth leaves the bytes of the old logical blocks as they were. -/
theorem grows_fileByte (fs fs1 : F17FS) (i M M1 : Nat)
    (hwf : FileWF fs (fs.BlockStore_inode.data i) M) (hg : Grows fs fs1 i M M1)
    (x : Nat) (hx : x / 512 < M) : fileByte fs1 i x = fileByte fs i x := by
  unfold fileByte
  have hk := hg.keep (.data (x / 512)) hx
  simp only [slotBlock_data] at hk
  rw [hk]
  have hl := hwf.live (.data (x / 512)) hx
  simp only [slotBlock_data] at hl
  rw [hg.frame _ ((test_iff _ _).mp hl.2).2 (not_indexOwned_data fs _ M _ hwf hx)]

/-- Overwriting the data block of logical block `L` leaves the block map as it
is and changes the bytes of that block only. -/
theorem write_data_block (fs fs1 : F17FS) (i M L : Nat) (blk : Block)
    (hwf : FileWF fs (fs.BlockStore_inode.data i) M) (hL : L < M)
    (hF : fs1.BlockStore_whole.fbm = fs.BlockStore_whole.fbm)
    (hD : fs1.BlockStore_whole.data =
      upd fs.BlockStore_whole.data (blockOf fs (fs.BlockStore_inode.data i) L) blk)
    (hI : fs1.BlockStore_inode = fs.BlockStore_inode) :
    (∀ s, slotLive M s → slotBlock fs1 (fs1.BlockStore_inode.data i) s =
      slotBlock fs (fs.BlockStore_inode.data i) s) ∧
    FileWF fs1 (fs1.BlockStore_inode.data i) M ∧
    (∀ x, x / 512 < M → fileByte fs1 i x =
      if x / 512 = L then blk (x % 512) else fileByte fs i x) := by
  have hidx : ∀ s, slotLive M s → (∀ K, s ≠ Slot.data K) →
      fs1.BlockStore_whole.data (slotBlock fs (fs.BlockStore_inode.data i) s) =
        fs.BlockStore_whole.data (slotBlock fs (fs.BlockStore_inode.data i) s) := by
    intro s hs hnd
    have hne : slotBlock fs (fs.BlockStore_inode.data i) s ≠
        blockOf fs (fs.BlockStore_inode.data i) L := by
      intro he
      exact hnd L (hwf.inj s (.data L) hs hL (by rw [he, slotBlock_data]))
    rw [hD, upd_other _ _ _ _ hne]
  have keep : ∀ s, slotLive M s → slotBlock fs1 (fs1.BlockStore_inode.data i) s =
      slotBlock fs (fs.BlockStore_inode.data i) s := by
    rw [hI]
    refine keep_of fs fs1 _ _ M (fun _ _ _ => rfl) (fun _ => rfl) (fun _ => rfl) ?_ ?_ ?_
    · intro k hk _
      have := hidx .ind (by simp only [slotLive_ind]; omega) (fun K => by simp)
      simp only [slotBlock_ind] at this
      rw [tableAt_of_data fs fs1 _ this]
    · intro h hh
      have := hidx .dbl (by simp only [slotLive_dbl]; omega) (fun K => by simp)
      simp only [slotBlock_dbl] at this
      rw [tableAt_of_data fs fs1 _ this]
    · intro h l hh _
      have := hidx (.inner h) (by simp only [slotLive_inner]; omega) (fun K => by simp)
      simp only [slotBlock_inner] at this
      rw [tableAt_of_data fs fs1 _ this]
  have tab : ∀ s, slotLive M s → (∀ K, s ≠ Slot.data K) →
      tableAt fs1 (slotBlock fs (fs.BlockStore_inode.data i) s) =
        tableAt fs (slotBlock fs (fs.BlockStore_inode.data i) s) :=
    fun s hs hnd => tableAt_of_data fs fs1 _ (hidx s hs hnd)
  refine ⟨keep, ?_, ?_⟩
  · refine ⟨?_, ?_, ?_, ?_, ?_, ?_, ?_, ?_⟩
    · intro s hs
      rw [keep s hs]
      obtain ⟨l1, l2⟩ := hwf.live s hs
      refine ⟨l1, ?_⟩
      rw [test_iff] at l2 ⊢
      rw [hF]; exact l2
    · intro s t hs ht hst
      rw [keep s hs, keep t ht] at hst
      exact hwf.inj s t hs ht hst
    · rw [hI]; exact hwf.dzero
    · rw [hI]; exact hwf.izero
    · rw [hI]
      intro h6 k hk1 hk2
      have := tab .ind h6 (fun K => by simp)
      simp only [slotBlock_ind] at this
      rw [this]
      exact hwf.tzero h6 k hk1 hk2
    · rw [hI]; exact hwf.bzero
    · rw [hI]
      intro h262 h hh1 hh2
      have := tab .dbl h262 (fun K => by simp)
      simp only [slotBlock_dbl] at this
      rw [this]
      exact hwf.ozero h262 h hh1 hh2
    · rw [hI]
      intro h l hh1 hh2 hh3
      have t1 := tab .dbl (by simp only [slotLive_dbl]; omega) (fun K => by simp)
      simp only [slotBlock_dbl] at t1
      have t2 := tab (.inner h) hh1 (fun K => by simp)
      simp only [slotBlock_inner] at t2
      rw [t1, t2]
      exact hwf.nzero h l hh1 hh2 hh3
  · intro x hx
    unfold fileByte
    have hk := keep (.data (x / 512)) hx
    simp only [slotBlock_data] at hk
    rw [hk, hD]
    by_cases hxl : x / 512 = L
    · rw [if_pos hxl, hxl, upd_same]
    · rw [if_neg hxl]
      have hne : blockOf fs (fs.BlockStore_inode.data i) (x / 512) ≠
          blockOf fs (fs.BlockStore_inode.data i) L := by
        intro he
        have := hwf.inj (.data (x / 512)) (.data L) hx hL he
        cases this
        exact hxl rfl
      rw [upd_other _ _ _ _ hne]

end F17


/-! ## The content invariant of the loop of `fs_write` -/

namespace F17

theorem owned_or_fresh (fs0 : F17FS) (i M0 S : Nat) (src : List Nat) (fs : F17FS)
    (d : fileDescriptor) (w M : Nat) (inv : WriteInv fs0 i M0 S src fs d w M)
    (s : Slot) (hs : slotLive M s) :
    Owned fs0 (fs0.BlockStore_inode.data i) M0 (slotBlock fs (fs.BlockStore_inode.data i) s) ∨
    fs0.BlockStore_whole.fbm (slotBlock fs (fs.BlockStore_inode.data i) s) = false := by
  by_cases h0 : slotLive M0 s
  · left; exact ⟨s, h0, (inv.keep s h0).symm⟩
  · right; exact inv.fresh s hs h0

/-- One iteration of the loop of `fs_write` keeps its invariant. -/
theorem writeInv_step (fs0 : F17FS) (i M0 S : Nat) (src : List Nat) (fs : F17FS)
    (d : fileDescriptor) (w M : Nat) (hi : i < 256)
    (inv : WriteInv fs0 i M0 S src fs d w M) (cnt : Nat) (hcnt : 0 < cnt)
    (hoff : d.locate_offset + cnt ≤ 512) (hw : w + cnt ≤ src.length)
    (hg : 0 < (get_data_block_id fs d).1) (wst : block_store Block)
    (hws : block_store_n_write (get_data_block_id fs d).2.BlockStore_whole
      (get_data_block_id fs d).1 d.locate_offset (src.drop w) cnt = some wst)
    (d1 : fileDescriptor)
    (hd1 : cursorOK d1 ∧ d1.inodeNum = i ∧ getFileSize d1 = S + (w + cnt) ∧
      logicalBlock d1 ≤ logicalBlock d + 1) :
    WriteInv fs0 i M0 S src { (get_data_block_id fs d).2 with BlockStore_whole := wst } d1
      (w + cnt) (max M (logicalBlock d + 1)) := by
  obtain ⟨hc, hin, hpos, hwl, hL⟩ := inv.cur
  subst hin
  have hpos1 := getFileSize_eq d hc
  rcases gdb_wf fs d M hc hi inv.z inv.wf hL with h0 | ⟨hne, hG, hb⟩
  · rw [h0] at hg; exact absurd hg (lt_irrefl 0)
  have hlt : (get_data_block_id fs d).1 < 65536 := (gdb_spec fs d).1
  generalize get_data_block_id fs d = G at *
  obtain ⟨b, g⟩ := G
  simp only at *
  unfold block_store_n_write BLOCK_STORE_NUM_BLOCKS BLOCK_SIZE_BYTES at hws
  rw [if_pos ⟨hlt, hoff, hcnt⟩] at hws
  cases hws
  have hLM : logicalBlock d < max M (logicalBlock d + 1) := by omega
  obtain ⟨wk, wwf, wby⟩ := write_data_block g
    { g with BlockStore_whole := ({ g.BlockStore_whole with data := (upd g.BlockStore_whole.data b
        (fun j => if d.locate_offset ≤ j ∧ j < d.locate_offset + cnt then
          (src.drop w).getD (j - d.locate_offset) 0 else g.BlockStore_whole.data b j)) }) }
    d.inodeNum (max M (logicalBlock d + 1)) (logicalBlock d) _ hG.wf hLM rfl
    (by rw [hb]) rfl
  have hmono : ∀ s, slotLive M s → slotLive (max M (logicalBlock d + 1)) s :=
    fun s hs => slotLive_mono M _ (le_max_left _ _) s hs
  have hM0 : ∀ s, slotLive M0 s → slotLive M s := fun s hs => slotLive_mono M0 _ inv.le s hs
  refine ⟨wwf, ?_, ?_, ?_, ?_, ?_, ?_, ?_, ?_, ?_, ?_⟩
  · exact hG.mono _ inv.z
  · have := inv.le; omega
  · intro s hs
    rw [wk s (hmono s (hM0 s hs))]
    rw [hG.keep s (hM0 s hs), inv.keep s hs]
  · intro s hs hns
    rw [wk s hs]
    by_cases hsM : slotLive M s
    · rw [hG.keep s hsM]; exact inv.fresh s hsM hns
    · have := hG.fresh s hs hsM
      by_contra hcon
      rw [Bool.not_eq_false] at hcon
      rw [inv.mono _ hcon] at this
      exact absurd this (by decide)
  · intro y hy
    exact hG.mono _ (inv.mono _ hy)
  · intro y hy hno
    simp only
    have hyb : y ≠ b := by
      intro he
      subst he
      rw [← hb] at hy hno
      by_cases hsM : slotLive M (.data (logicalBlock d))
      · have hk := hG.keep _ hsM
        simp only [slotBlock_data] at hk
        rw [hk] at hy hno
        rcases owned_or_fresh fs0 _ M0 S src fs d w M inv (.data (logicalBlock d)) hsM with h | h
        · simp only [slotBlock_data] at h; exact hno h
        · simp only [slotBlock_data] at h; rw [h] at hy; exact absurd hy (by decide)
      · have := hG.fresh (.data (logicalBlock d)) hLM hsM
        simp only [slotBlock_data] at this
        rw [inv.mono _ hy] at this
        exact absurd this (by decide)
    rw [upd_other _ _ _ _ hyb]
    rw [hG.frame y (inv.mono _ hy) ?_, inv.frame y hy hno]
    rintro ⟨s, hs, _, he⟩
    rcases owned_or_fresh fs0 _ M0 S src fs d w M inv s hs with h | h
    · rw [he] at h; exact hno h
    · rw [he, hy] at h; exact absurd h (by decide)
  · intro j hj
    simp only
    rw [hG.others j hj, inv.others j hj]
  · intro x hx1 hx2
    by_cases hxw : x < S + w
    · obtain ⟨h1, h2⟩ := inv.written x hx1 hxw
      refine ⟨by omega, ?_⟩
      rw [wby x (by omega)]
      have hx512 : ¬ (x / 512 = logicalBlock d ∧ d.locate_offset ≤ x % 512) := by
        rintro ⟨e1, e2⟩
        have := Nat.div_add_mod x 512
        omega
      by_cases hxl : x / 512 = logicalBlock d
      · rw [if_pos hxl, if_neg (by intro hh; exact hx512 ⟨hxl, hh.1⟩)]
        rw [← h2]
        have := grows_fileByte fs g d.inodeNum M _ inv.wf hG x h1
        unfold fileByte at this ⊢
        rw [← this, hxl, hb]
      · rw [if_neg hxl, grows_fileByte fs g d.inodeNum M _ inv.wf hG x h1, h2]
    · have hdm := Nat.div_add_mod x 512
      have e1 : x / 512 = logicalBlock d := by omega
      have e2 : d.locate_offset ≤ x % 512 ∧ x % 512 < d.locate_offset + cnt := by omega
      refine ⟨by omega, ?_⟩
      rw [wby x (by omega), if_pos e1, if_pos e2]
      rw [List.getD_eq_getElem?_getD, List.getD_eq_getElem?_getD, List.getElem?_drop]
      congr 2
      omega
  · intro x hx hnx
    have hxM : x / 512 < M := by have := inv.le; omega
    rw [wby x (by omega)]
    have hold := inv.old x hx (by omega)
    by_cases hxl : x / 512 = logicalBlock d
    · have hdm := Nat.div_add_mod x 512
      rw [if_pos hxl, if_neg (by omega)]
      rw [← hold]
      have := grows_fileByte fs g d.inodeNum M _ inv.wf hG x hxM
      unfold fileByte at this ⊢
      rw [← this, hxl, hb]
    · rw [if_neg hxl, grows_fileByte fs g d.inodeNum M _ inv.wf hG x hxM, hold]
  · obtain ⟨c1, c2, c3, c4⟩ := hd1
    exact ⟨c1, c2, c3, hw, by omega⟩

/-- The invariant holds when the loop is entered. -/
theorem writeInv_init (fs : F17FS) (d : fileDescriptor) (M : Nat) (src : List Nat)
    (hc : cursorOK d) (hz : fs.BlockStore_whole.fbm 0 = true)
    (hwf : FileWF fs (fs.BlockStore_inode.data d.inodeNum) M) (hL : logicalBlock d ≤ M) :
    WriteInv fs d.inodeNum M (getFileSize d) src fs d 0 M :=
  ⟨hwf, hz, le_refl _, fun _ _ => rfl, fun s hs hn => absurd hs hn, fun _ h => h,
    fun _ _ _ => rfl, fun _ _ => rfl, fun x h1 h2 => by omega, fun _ _ _ => rfl,
    ⟨hc, rfl, rfl, Nat.zero_le _, hL⟩⟩

/-- The loop of `fs_write` on a well-formed file: it stops without an error
code, its invariant holds of the state it leaves, and it stops short only
when `get_data_block_id` returned 0. -/
theorem writeLoop_content (fs0 : F17FS) (i M0 S : Nat) (src : List Nat) (hi : i < 256)
    (fuel : Nat) (fs : F17FS) (d : fileDescriptor) (w : Nat) (last : Option Nat)
    (r : LoopResult)
    (hP : ∃ M, WriteInv fs0 i M0 S src fs d w M)
    (h : writeLoop fuel fs d src w last = some r) :
    r.err = none ∧ (∃ M, WriteInv fs0 i M0 S src r.fs r.fd_t r.count M) ∧
    (r.blockID ≠ some 0 → r.count = src.length) := by
  refine writeLoop_rule src (fun fs d w => ∃ M, WriteInv fs0 i M0 S src fs d w M)
    (fun r => r.err = none ∧ (∃ M, WriteInv fs0 i M0 S src r.fs r.fd_t r.count M) ∧
      (r.blockID ≠ some 0 → r.count = src.length))
    ?_ ?_ ?_ ?_ fuel fs d w last r hP h
  · rintro fs d w last ⟨M, inv⟩ h0
    refine ⟨rfl, ⟨M, inv⟩, fun _ => ?_⟩
    have := inv.cur.2.2.2.1
    simp only; omega
  · rintro fs d w ⟨M, inv⟩ _ h1
    obtain ⟨hc, hin, hpos, hwl, hL⟩ := inv.cur
    have hg0 : (get_data_block_id fs d).1 = 0 := by omega
    rcases gdb_wf fs d M hc (by rw [hin]; exact hi) inv.z (by rw [hin]; exact inv.wf) hL with
      h0 | ⟨hne, _, _⟩
    · rw [h0]
      refine ⟨rfl, ⟨M, inv⟩, fun hb => ?_⟩
      exact absurd rfl hb
    · exact absurd hg0 hne
  · rintro fs d w ⟨M, inv⟩ h0 h1 h2
    unfold BLOCK_SIZE_BYTES at h2
    obtain ⟨hc, hin, hpos, hwl, hL⟩ := inv.cur
    refine ⟨fun wst hws => ?_, fun hn => ?_⟩
    · have hmod : (d.locate_offset + (src.length - w)) % 65536 =
          d.locate_offset + (src.length - w) := Nat.mod_eq_of_lt (by omega)
      have hd1 : cursorOK { d with locate_offset := d.locate_offset + (src.length - w) } ∧
          ({ d with locate_offset := d.locate_offset + (src.length - w) } : fileDescriptor).inodeNum
            = i ∧
          getFileSize { d with locate_offset := d.locate_offset + (src.length - w) } =
            S + (w + (src.length - w)) ∧
          logicalBlock { d with locate_offset := d.locate_offset + (src.length - w) } ≤
            logicalBlock d + 1 := by
        refine ⟨⟨by simp only; omega, hc.2⟩, hin, ?_, ?_⟩
        · unfold getFileSize at *
          simp only at *
          split_ifs at * <;> omega
        · unfold logicalBlock; simp only; split_ifs <;> omega
      have step := writeInv_step fs0 i M0 S src fs d w M hi inv (src.length - w) h0
        (by omega) (by omega) h1 wst hws _ hd1
      have e : w + (src.length - w) = src.length := by omega
      rw [e] at step
      rw [hmod]
      exact ⟨rfl, ⟨_, step⟩, fun _ => rfl⟩
    · exact absurd hn (n_write_ok _ _ _ _ _ (gdb_spec fs d).1 (by omega) (by omega))
  · rintro fs d w ⟨M, inv⟩ h0 h1 h2
    unfold BLOCK_SIZE_BYTES at h2 ⊢
    obtain ⟨hc, hin, hpos, hwl, hL⟩ := inv.cur
    have hoff := hc.1
    refine ⟨fun wst hws => ?_, fun hn => ?_⟩
    · have hb := wf_bound fs _ M inv.wf
      obtain ⟨a1, a2, a3⟩ := advanceCursor_spec d hc (by omega)
      have hS := getFileSize_eq d hc
      have hd1 : cursorOK (advanceCursor d) ∧ (advanceCursor d).inodeNum = i ∧
          getFileSize (advanceCursor d) = S + (w + (512 - d.locate_offset)) ∧
          logicalBlock (advanceCursor d) ≤ logicalBlock d + 1 := by
        refine ⟨a1, by simpa using hin, ?_, by omega⟩
        rw [getFileSize_eq _ a1, a2, a3]
        omega
      exact ⟨_, writeInv_step fs0 i M0 S src fs d w M hi inv (512 - d.locate_offset)
        (by omega) (by omega) (by omega) h1 wst hws _ hd1⟩
    · exact absurd hn (n_write_ok _ _ _ _ _ (gdb_spec fs d).1 (by omega) (by omega))

/-- The loop of `fs_write` reports block 0 only when it stopped short. -/
theorem writeLoop_zero_short (src : List Nat) (fuel : Nat) : ∀ (fs : F17FS)
    (d : fileDescriptor) (w : Nat) (last : Option Nat) (r : LoopResult),
    (last = some 0 → w < src.length) → writeLoop fuel fs d src w last = some r →
    r.blockID = some 0 → r.count < src.length := by
  induction fuel with
  | zero =>
    intro fs d w last r hl h hb
    unfold writeLoop at h
    by_cases h0 : src.length - w > 0
    · rw [if_pos h0] at h; cases h
    · rw [if_neg h0] at h; cases h
      exact hl hb
  | succ n ih =>
    intro fs d w last r hl h hb
    unfold writeLoop at h
    by_cases h0 : src.length - w > 0
    · rw [if_pos h0] at h
      simp only at h
      by_cases h1 : 0 < (get_data_block_id fs d).1
      · rw [if_pos h1] at h
        have hne : some (get_data_block_id fs d).1 ≠ some 0 := by
          simp only [ne_eq, Option.some.injEq]; omega
        by_cases h2 : d.locate_offset + src.length - w < BLOCK_SIZE_BYTES
        · rw [if_pos h2] at h
          split at h <;> cases h <;> exact absurd hb hne
        · rw [if_neg h2] at h
          split at h
          · exact ih _ _ _ _ _ (fun hh => absurd hh hne) h hb
          · cases h; exact absurd hb hne
      · rw [if_neg h1] at h
        cases h
        simp only; omega
    · rw [if_neg h0] at h; cases h
      exact hl hb

end F17


/-! ## `fs_write` on a well-formed file -/

namespace F17

theorem samePtrs_refl (a : inode) : samePtrs a a := ⟨rfl, rfl, rfl⟩

theorem tableAt_congr (fs fs1 : F17FS)
    (hw : fs1.BlockStore_whole.data = fs.BlockStore_whole.data) (b : Nat) :
    tableAt fs1 b = tableAt fs b := by
  unfold tableAt; rw [hw]

theorem blockOf_congr (fs fs1 : F17FS) (a b : inode)
    (hw : fs1.BlockStore_whole.data = fs.BlockStore_whole.data) (hp : samePtrs a b) (L : Nat) :
    blockOf fs1 a L = blockOf fs b L := by
  obtain ⟨h1, h2, h3⟩ := hp
  unfold blockOf
  simp only [tableAt_congr fs fs1 hw, h1, h2, h3]

theorem slotBlock_congr (fs fs1 : F17FS) (a b : inode)
    (hw : fs1.BlockStore_whole.data = fs.BlockStore_whole.data) (hp : samePtrs a b) (s : Slot) :
    slotBlock fs1 a s = slotBlock fs b s := by
  cases s
  · simp only [slotBlock_data]; exact blockOf_congr fs fs1 a b hw hp _
  · simp only [slotBlock_ind]; exact hp.2.1
  · simp only [slotBlock_dbl]; exact hp.2.2
  · simp only [slotBlock_inner]; rw [tableAt_congr fs fs1 hw, hp.2.2]

theorem fileWF_congr (fs fs1 : F17FS) (a b : inode) (M : Nat)
    (hw : fs1.BlockStore_whole = fs.BlockStore_whole) (hp : samePtrs a b)
    (h : FileWF fs b M) : FileWF fs1 a M := by
  have hd : fs1.BlockStore_whole.data = fs.BlockStore_whole.data := by rw [hw]
  have sb := slotBlock_congr fs fs1 a b hd hp
  have ta := tableAt_congr fs fs1 hd
  obtain ⟨h1, h2, h3⟩ := hp
  refine ⟨?_, ?_, ?_, ?_, ?_, ?_, ?_, ?_⟩
  · intro s hs; rw [sb, hw]; exact h.live s hs
  · intro s t hs ht he; rw [sb, sb] at he; exact h.inj s t hs ht he
  · rw [h1]; exact h.dzero
  · rw [h2]; exact h.izero
  · rw [h2, ta]; exact h.tzero
  · rw [h3]; exact h.bzero
  · rw [h3, ta]; exact h.ozero
  · rw [h3]; simp only [ta]; exact h.nzero

theorem fileByte_congr (fs fs1 : F17FS) (j : Nat)
    (hw : fs1.BlockStore_whole.data = fs.BlockStore_whole.data)
    (hp : samePtrs (fs1.BlockStore_inode.data j) (fs.BlockStore_inode.data j)) (x : Nat) :
    fileByte fs1 j x = fileByte fs j x := by
  unfold fileByte
  rw [blockOf_congr fs fs1 _ _ hw hp, hw]

/-- The invariant of the loop survives the write-back of the descriptor and of
the file size. -/
theorem writeInv_final (fs0 : F17FS) (i M0 S : Nat) (src : List Nat) (fs fs1 : F17FS)
    (d : fileDescriptor) (w M : Nat) (inv : WriteInv fs0 i M0 S src fs d w M)
    (hw : fs1.BlockStore_whole = fs.BlockStore_whole)
    (hp : samePtrs (fs1.BlockStore_inode.data i) (fs.BlockStore_inode.data i))
    (ho : ∀ j, j ≠ i → fs1.BlockStore_inode.data j = fs.BlockStore_inode.data j) :
    WriteInv fs0 i M0 S src fs1 d w M := by
  have hd : fs1.BlockStore_whole.data = fs.BlockStore_whole.data := by rw [hw]
  have sb := slotBlock_congr fs fs1 _ _ hd hp
  have fb := fileByte_congr fs fs1 i hd hp
  refine ⟨fileWF_congr fs fs1 _ _ M hw hp inv.wf, ?_, inv.le, ?_, ?_, ?_, ?_, ?_, ?_, ?_,
    inv.cur⟩
  · rw [hw]; exact inv.z
  · intro s hs; rw [sb]; exact inv.keep s hs
  · intro s hs hn; rw [sb]; exact inv.fresh s hs hn
  · rw [hw]; exact inv.mono
  · rw [hw]; exact inv.frame
  · intro j hj; rw [ho j hj]; exact inv.others j hj
  · intro x h1 h2; rw [fb]; exact inv.written x h1 h2
  · intro x h1 h2; rw [fb]; exact inv.old x h1 h2

/-- The whole of `fs_write` on a well-formed file, for a non-empty buffer: it
returns a count `c` of at most the bytes asked for, the invariant of its loop
holds of the final state, the file size is the larger of the old size and the
end of the bytes written, the descriptor stays open, and the count is short
exactly when the last value of `get_data_block_id` was 0. -/
theorem fs_write_content (fs : F17FS) (fd : Nat) (src : List Nat) (M : Nat)
    (hfd : block_store_sub_test fs.BlockStore_fd fd = true) (hne : src ≠ [])
    (hc : cursorOK (fs.BlockStore_fd.data fd))
    (hi : (fs.BlockStore_fd.data fd).inodeNum < 256)
    (hz : fs.BlockStore_whole.fbm 0 = true)
    (hwf : FileWF fs (fs.BlockStore_inode.data (fs.BlockStore_fd.data fd).inodeNum) M)
    (hL : logicalBlock (fs.BlockStore_fd.data fd) ≤ M) :
    ∃ (r : LoopResult) (fs1 : F17FS) (M1 : Nat),
      writeLoop src.length fs (fs.BlockStore_fd.data fd) src 0 none = some r ∧
      fs_write fs fd src = some ((r.count : Int), fs1) ∧
      WriteInv fs (fs.BlockStore_fd.data fd).inodeNum M (getFileSize (fs.BlockStore_fd.data fd))
        src fs1 (fs1.BlockStore_fd.data fd) r.count M1 ∧
      (fs1.BlockStore_inode.data (fs.BlockStore_fd.data fd).inodeNum).fileSize =
        max (fs.BlockStore_inode.data (fs.BlockStore_fd.data fd).inodeNum).fileSize
          (getFileSize (fs.BlockStore_fd.data fd) + r.count) ∧
      fs1.BlockStore_fd.fbm = fs.BlockStore_fd.fbm ∧
      (r.blockID ≠ some 0 → r.count = src.length) ∧
      (r.blockID = some 0 → r.count < src.length) := by
  have hfd' : fd < 256 := sub_test_lt _ _ hfd
  generalize hd : fs.BlockStore_fd.data fd = d at *
  obtain ⟨r, hr⟩ := writeLoop_total src.length fs d src 0 none (by omega)
  obtain ⟨e1, ⟨M1, inv⟩, e3⟩ := writeLoop_content fs d.inodeNum M (getFileSize d) src hi
    src.length fs d 0 none r ⟨M, writeInv_init fs d M src hc hz hwf hL⟩ hr
  obtain ⟨m1, m2⟩ := writeLoop_meta src fs d src.length fs d 0 none r ⟨metaFrame_refl fs, rfl⟩ hr
  have hrd : r.fd_t.inodeNum = d.inodeNum := inv.cur.2.1
  have hw := fs_write_eq fs fd src r hfd hne (by rw [hd]; exact hr) e1 (by rw [hrd]; exact hi)
  rw [hd, hrd] at hw
  refine ⟨r, _, M1, hr, hw, ?_, ?_, ?_, e3, ?_⟩
  · simp only [upd_same]
    refine writeInv_final fs d.inodeNum M (getFileSize d) src r.fs _ r.fd_t r.count M1 inv rfl
      ?_ ?_
    · simp only [upd_same]
      split_ifs <;> exact ⟨rfl, rfl, rfl⟩
    · intro j hj
      simp only [upd_other _ _ _ _ hj]
  · simp only [upd_same]
    have hsz : (r.fs.BlockStore_inode.data d.inodeNum).fileSize =
        (fs.BlockStore_inode.data d.inodeNum).fileSize := (m1.2.2 d.inodeNum).2.2.2.1
    rw [hsz]
    split_ifs with hlt
    · simp only; omega
    · omega
  · simp only
    rw [m1.1]
  · exact writeLoop_zero_short src src.length fs d 0 none r (fun h => by cases h) hr

end F17


/-! ## Reading back -/

namespace F17

/-- The value of `fs_read` of `n > 0` bytes on an open descriptor whose cursor is
in range at a position `S` of a file of `F < MAX_FILE_SIZE` bytes, when the
blocks under the bytes to read are mapped. -/
theorem fs_read_mapped (fs : F17FS) (fd n : Nat) (d : fileDescriptor) (F : Nat)
    (hfd : block_store_sub_test fs.BlockStore_fd fd = true)
    (hd : fs.BlockStore_fd.data fd = d)
    (hF : (fs.BlockStore_inode.data d.inodeNum).fileSize = F)
    (hino : d.inodeNum < 256) (hc : cursorOK d) (hS : getFileSize d ≤ F)
    (hmax : F < MAX_FILE_SIZE) (hn : n ≠ 0)
    (hmap : ∀ L, 512 * L < getFileSize d + min n (F - getFileSize d) →
      getFileSize d < 512 * (L + 1) → blockMapped fs (fs.BlockStore_inode.data d.inodeNum) L) :
    ∃ d1 : fileDescriptor,
      fs_read fs fd n =
        some (((min n (F - getFileSize d) : Nat) : Int),
          fileBytes fs d.inodeNum (getFileSize d) (min n (F - getFileSize d)),
          { fs with BlockStore_fd :=
              { fs.BlockStore_fd with data := upd fs.BlockStore_fd.data fd d1 } }) := by
  have hfd' : fd < 256 := sub_test_lt _ _ hfd
  have hleft : (F + 2 ^ 64 - getFileSize d) % 2 ^ 64 = F - getFileSize d := by
    unfold MAX_FILE_SIZE at hmax
    have : F + 2 ^ 64 - getFileSize d = (F - getFileSize d) + 2 ^ 64 := by omega
    rw [this, Nat.add_mod_right]
    exact Nat.mod_eq_of_lt (by omega)
  have hmin : (if n > F - getFileSize d then F - getFileSize d else n) =
      min n (F - getFileSize d) := by
    split_ifs <;> omega
  obtain ⟨r, hr⟩ := readLoop_total (min n (F - getFileSize d)) fs d
    (min n (F - getFileSize d)) 0 [] none (by omega)
  obtain ⟨q1, q2, q3, q4, q5, q6, q7⟩ :=
    readLoop_mapped fs d.inodeNum (getFileSize d) (min n (F - getFileSize d)) hino
      (by omega) hmap _ d 0 [] none r
      ⟨hc, rfl, rfl, Nat.zero_le _, rfl⟩ hr
  refine ⟨r.1.fd_t, ?_⟩
  unfold fs_read
  have hcond : ((fd : Int) ≥ 0 ∧ block_store_sub_test fs.BlockStore_fd (fd : Int).toNat = true) :=
    ⟨by omega, by simpa using hfd⟩
  rw [if_pos hcond]
  simp only [ne_eq, hn, not_false_eq_true, if_true, Int.toNat_ofNat, block_store_sub_read, hfd',
    hd, hino, hF, hleft, hmin, hr, q1, block_store_sub_write, q2, q6, q7]

/-- The bytes of a file that all agree with a list are that list. -/
theorem fileBytes_eq_list (fs : F17FS) (i : Nat) (B : List Nat)
    (h : ∀ x, x < B.length → fileByte fs i x = B.getD x 0) :
    fileBytes fs i 0 B.length = B := by
  unfold fileBytes
  apply List.ext_getElem
  · simp
  · intro k h1 h2
    simp only [List.getElem_map, List.getElem_range, Nat.zero_add]
    rw [h k h2, List.getD_eq_getElem?_getD, List.getElem?_eq_getElem h2]
    rfl

/-- A file without blocks is well formed. -/
theorem fileWF_empty (fs : F17FS) (ino : inode)
    (hdir : ∀ k, k < 6 → ino.directPointer k = 0) (hind : ino.indirectPointer = 0)
    (hdbl : ino.doubleIndirectPointer = 0) : FileWF fs ino 0 := by
  have hno : ∀ s, ¬ slotLive 0 s := by
    intro s
    cases s <;> simp only [slotLive_data, slotLive_ind, slotLive_dbl, slotLive_inner] <;> omega
  exact ⟨fun s hs => absurd hs (hno s), fun s _ hs => absurd hs (hno s),
    fun k _ hk => hdir k hk, fun _ => hind, fun h => absurd h (by omega), fun _ => hdbl,
    fun h => absurd h (by omega), fun h l hh => absurd hh (by omega)⟩

/-- With block 0 free, a first write to an empty file stores nothing: the
allocator hands out block 0, which `fs_write` reads as failure. -/
theorem fs_write_block0_free (fs : F17FS) (fd i : Nat) (B : List Nat)
    (hfd : block_store_sub_test fs.BlockStore_fd fd = true)
    (hd : fs.BlockStore_fd.data fd =
      { inodeNum := i, usage := 1, locate_order := 0, locate_offset := 0 })
    (hi : i < 256) (hne : B ≠ [])
    (hdir : (fs.BlockStore_inode.data i).directPointer 0 = 0)
    (hz : fs.BlockStore_whole.fbm 0 = false) :
    ∃ fs1, fs_write fs fd B = some (0, fs1) := by
  have hlen : 0 < B.length := List.length_pos.mpr hne
  have hg : (get_data_block_id fs (fs.BlockStore_fd.data fd)).1 = 0 := by
    rw [hd]
    unfold get_data_block_id block_store_sub_read
    simp only [hi, if_true]
    unfold gdb_direct
    simp only [hdir, if_true]
    by_cases hf : 1 ≤ block_store_get_free_blocks fs.BlockStore_whole
    · rw [if_pos hf]
      have ha : (alloc16 fs.BlockStore_whole).1 = 0 := by
        unfold alloc16 block_store_allocate bitmap_ffz BLOCK_STORE_NUM_BLOCKS
        have : ffzFrom fs.BlockStore_whole.fbm 65536 0 = some 0 := by
          show ffzFrom fs.BlockStore_whole.fbm (65535 + 1) 0 = some 0
          unfold ffzFrom
          simp [hz]
        rw [this]
      unfold block_store_sub_write
      simp only [hi, if_true, ha]
    · rw [if_neg hf]
  obtain ⟨n, hn⟩ : ∃ n, B.length = n + 1 := ⟨B.length - 1, by omega⟩
  have hr : writeLoop B.length fs (fs.BlockStore_fd.data fd) B 0 none =
      some ⟨none, (get_data_block_id fs (fs.BlockStore_fd.data fd)).2, fs.BlockStore_fd.data fd,
        0, some (get_data_block_id fs (fs.BlockStore_fd.data fd)).1⟩ := by
    have h0 : B.length - 0 > 0 := by omega
    rw [show writeLoop B.length = writeLoop (n + 1) by rw [hn]]
    unfold writeLoop
    rw [if_pos h0]
    simp only
    rw [if_neg (by omega)]
  have := fs_write_eq fs fd B _ hfd hne hr rfl (by rw [hd]; exact hi)
  exact ⟨_, this⟩

end F17


/-! ## Facts about the example images -/

namespace F17

/-- A clear bit in range makes the count of free blocks positive. -/
theorem countFreeFrom_pos (bm : Nat → Bool) (y : Nat) (hy : bm y = false) : ∀ (n i : Nat),
    i ≤ y → y < i + n → 1 ≤ countFreeFrom bm n i := by
  intro n
  induction n with
  | zero => intro i h1 h2; omega
  | succ n ih =>
    intro i h1 h2
    unfold countFreeFrom
    by_cases hiy : i = y
    · subst hiy; simp [hy]
    · have := ih (i + 1) (by omega) (by omega)
      omega

/-- A bitmap without a clear bit has no free block. -/
theorem countFreeFrom_full (bm : Nat → Bool) (h : ∀ y, bm y = true) : ∀ (n i : Nat),
    countFreeFrom bm n i = 0 := by
  intro n
  induction n with
  | zero => intro i; rfl
  | succ n ih =>
    intro i
    unfold countFreeFrom
    rw [ih, h i]; rfl

/-- A block map that uses direct pointers only is well formed when its first
`M` direct pointers name distinct allocated blocks other than block 0 and
every other pointer is 0. -/
theorem fileWF_direct (fs : F17FS) (ino : inode) (M : Nat) (hM : M ≤ 6)
    (hlive : ∀ L, L < M → ino.directPointer L ≠ 0 ∧
      block_store_test fs.BlockStore_whole (ino.directPointer L) = true)
    (hinj : ∀ L, L < M → ∀ K, K < M → ino.directPointer L = ino.directPointer K → L = K)
    (hdz : ∀ k, M ≤ k → k < 6 → ino.directPointer k = 0)
    (hind : ino.indirectPointer = 0) (hdbl : ino.doubleIndirectPointer = 0) :
    FileWF fs ino M := by
  have hdata : ∀ s, slotLive M s → ∃ L, s = .data L ∧ L < M := by
    intro s hs
    cases s with
    | data L => exact ⟨L, rfl, hs⟩
    | ind => simp only [slotLive_ind] at hs; omega
    | dbl => simp only [slotLive_dbl] at hs; omega
    | inner h => simp only [slotLive_inner] at hs; omega
  have hb : ∀ L, L < M → blockOf fs ino L = ino.directPointer L := by
    intro L hL
    unfold blockOf
    rw [if_pos (by omega)]
  refine ⟨?_, ?_, hdz, fun _ => hind, fun h => absurd h (by omega), fun _ => hdbl,
    fun h => absurd h (by omega), fun h l hh => absurd hh (by omega)⟩
  · intro s hs
    obtain ⟨L, rfl, hL⟩ := hdata s hs
    simp only [slotBlock_data, hb L hL]
    exact hlive L hL
  · intro s t hs ht he
    obtain ⟨L, rfl, hL⟩ := hdata s hs
    obtain ⟨K, rfl, hK⟩ := hdata t ht
    simp only [slotBlock_data, hb L hL, hb K hK] at he
    rw [hinj L hL K hK he]

/-- A write that fits into the current block and finds a block there does not
stop on block 0. -/
theorem writeLoop_one_block (fs : F17FS) (d : fileDescriptor) (src : List Nat)
    (r : LoopResult) (h0 : 0 < src.length)
    (hg : 0 < (get_data_block_id fs d).1)
    (hfit : d.locate_offset + src.length < 512)
    (hr : writeLoop src.length fs d src 0 none = some r) : r.blockID ≠ some 0 := by
  obtain ⟨n, hn⟩ : ∃ n, src.length = n + 1 := ⟨src.length - 1, by omega⟩
  rw [show writeLoop src.length = writeLoop (n + 1) by rw [hn]] at hr
  unfold writeLoop at hr
  rw [if_pos (by omega)] at hr
  simp only at hr
  rw [if_pos hg, if_pos (by unfold BLOCK_SIZE_BYTES; omega)] at hr
  have hne : some (get_data_block_id fs d).1 ≠ some 0 := by
    simp only [ne_eq, Option.some.injEq]; omega
  split at hr <;> cases hr <;> exact hne

theorem exFs_wf : FileWF exFs (exFs.BlockStore_inode.data 1) 6 :=
  fileWF_direct exFs _ 6 (le_refl _) (by decide) (by decide) (fun k h1 h2 => by omega)
    rfl rfl

theorem exFsShort_wf : FileWF exFsShort (exFsShort.BlockStore_inode.data 1) 6 :=
  fileWF_direct exFsShort _ 6 (le_refl _) (by decide) (by decide) (fun k h1 h2 => by omega)
    rfl rfl

theorem exFsShort_free (bs : block_store Block) (h : bs.fbm = fun _ => true) :
    block_store_get_free_blocks bs = 0 := by
  unfold block_store_get_free_blocks
  exact countFreeFrom_full _ (fun y => by rw [h]) _ _

/-- One iteration of the loop of `fs_write` that fills the current block. -/
theorem writeLoop_fill (fuel : Nat) (fs fs1 : F17FS) (d : fileDescriptor) (src : List Nat)
    (w : Nat) (last : Option Nat) (b : Nat) (wst : block_store Block)
    (h0 : src.length - w > 0) (hg : get_data_block_id fs d = (b, fs1)) (hb : 0 < b)
    (hnf : ¬ d.locate_offset + src.length - w < BLOCK_SIZE_BYTES)
    (hw : block_store_n_write fs1.BlockStore_whole b d.locate_offset (src.drop w)
      (BLOCK_SIZE_BYTES - d.locate_offset) = some wst) :
    writeLoop (fuel + 1) fs d src w last =
      writeLoop fuel { fs1 with BlockStore_whole := wst } (advanceCursor d) src
        (w + (BLOCK_SIZE_BYTES - d.locate_offset)) (some b) := by
  rw [writeLoop, if_pos h0]
  simp only [hg]
  rw [if_pos hb, if_neg hnf]
  simp only [hw]

/-- One iteration of the loop of `fs_write` in which `get_data_block_id`
returns 0 and changes nothing. -/
theorem writeLoop_starve (fuel : Nat) (fs : F17FS) (d : fileDescriptor) (src : List Nat)
    (w : Nat) (last : Option Nat) (h0 : src.length - w > 0)
    (hg : get_data_block_id fs d = (0, fs)) :
    writeLoop (fuel + 1) fs d src w last = some ⟨none, fs, d, w, some 0⟩ := by
  rw [writeLoop, if_pos h0]
  simp only [hg]
  rw [if_neg (lt_irrefl 0)]

/-- The loop of `fs_write` on `exFsShort` for 600 bytes of value 7: it fills
block 39 and stops when `get_data_block_id` returns 0 for the first indirect
block. -/
theorem exFsShort_loop :
    writeLoop (List.replicate 600 7).length exFsShort (exFsShort.BlockStore_fd.data 0)
      (List.replicate 600 7) 0 none =
    some ⟨none, exFsShortAfter,
      { inodeNum := 1, usage := 2, locate_order := 0, locate_offset := 0 }, 512, some 0⟩ := by
  have hlen : (List.replicate 600 7).length = 600 := List.length_replicate 600 7
  have hg1 : get_data_block_id exFsShort (exFsShort.BlockStore_fd.data 0) = (39, exFsShort) := by
    unfold get_data_block_id block_store_sub_read
    rw [if_pos (by decide)]
    simp only
    rw [if_pos (by decide)]
    unfold gdb_direct
    rw [if_neg (by decide), if_pos (by decide)]
    rfl
  have hg2 : get_data_block_id exFsShortAfter
      { inodeNum := 1, usage := 2, locate_order := 0, locate_offset := 0 } =
      (0, exFsShortAfter) := by
    unfold get_data_block_id block_store_sub_read
    rw [if_pos (by decide)]
    simp only
    rw [if_neg (by decide), if_pos (by decide)]
    unfold gdb_indirect
    rw [if_pos (by decide)]
    have : block_store_get_free_blocks exFsShortAfter.BlockStore_whole = 0 :=
      exFsShort_free _ rfl
    rw [this, if_neg (by decide)]
  have hw1 : block_store_n_write exFsShort.BlockStore_whole 39
      (exFsShort.BlockStore_fd.data 0).locate_offset (List.drop 0 (List.replicate 600 7))
      (BLOCK_SIZE_BYTES - (exFsShort.BlockStore_fd.data 0).locate_offset) =
      some exFsShortAfter.BlockStore_whole := by
    unfold exFsShortAfter block_store_n_write
    rw [if_pos (by decide), if_pos (by decide)]
    rfl
  have e1 := writeLoop_fill 599 exFsShort exFsShort (exFsShort.BlockStore_fd.data 0)
    (List.replicate 600 7) 0 none 39 _ (by rw [hlen]; decide) hg1 (by decide)
    (by rw [hlen]; decide) hw1
  have e2 := writeLoop_starve 598 exFsShortAfter
    { inodeNum := 1, usage := 2, locate_order := 0, locate_offset := 0 }
    (List.replicate 600 7) 512 (some 39) (by rw [hlen]; decide) hg2
  rw [hlen]
  exact e1.trans e2

end F17


/-! ## C1: the round trip -/

namespace F17

/-- The value of `fs_seek(fd, 0, FS_SEEK_SET)` on an open descriptor: 0, and only
the descriptor changes, to the start of the direct tier. -/
theorem fs_seek_zero (fs : F17FS) (fd : Nat)
    (hfd : block_store_sub_test fs.BlockStore_fd fd = true)
    (hi : (fs.BlockStore_fd.data fd).inodeNum < 256)
    (hF : (fs.BlockStore_inode.data (fs.BlockStore_fd.data fd).inodeNum).fileSize < 2 ^ 63) :
    (fs_seek fs fd 0 .FS_SEEK_SET).1 = 0 ∧
    (fs_seek fs fd 0 .FS_SEEK_SET).2.BlockStore_whole = fs.BlockStore_whole ∧
    (fs_seek fs fd 0 .FS_SEEK_SET).2.BlockStore_inode = fs.BlockStore_inode ∧
    (fs_seek fs fd 0 .FS_SEEK_SET).2.BlockStore_fd.fbm = fs.BlockStore_fd.fbm ∧
    (fs_seek fs fd 0 .FS_SEEK_SET).2.BlockStore_fd.data fd =
      { inodeNum := (fs.BlockStore_fd.data fd).inodeNum, usage := 1, locate_order := 0,
        locate_offset := 0 } := by
  have hfd' : fd < 256 := sub_test_lt _ _ hfd
  have hc1 : ((fd : Int) ≥ 0 ∧ block_store_sub_test fs.BlockStore_fd (fd : Int).toNat = true) :=
    ⟨by omega, by simpa using hfd⟩
  have hstd : seekStdOffset (toSsize (getFileSize (fs.BlockStore_fd.data fd)))
      (toSsize (fs.BlockStore_inode.data (fs.BlockStore_fd.data fd).inodeNum).fileSize) 0
      .FS_SEEK_SET = some 0 := by
    rw [toSsize_small _ hF]
    unfold seekStdOffset
    simp
  have hloc : seekLocate (fs.BlockStore_fd.data fd) 0 =
      { inodeNum := (fs.BlockStore_fd.data fd).inodeNum, usage := 1, locate_order := 0,
        locate_offset := 0 } := by
    unfold seekLocate toU16
    simp
  unfold fs_seek
  rw [if_pos hc1]
  simp only [Int.toNat_ofNat, block_store_sub_read, hfd', if_true, hi, block_store_sub_write,
    hstd, upd_same, hloc]
  simp

end F17


/-! ## What a write changes (C6) -/

namespace F17

/-- A byte of a file is the same in two states that agree on the inode and on
the blocks read on the way to the byte. -/
theorem fileByte_frame (fs fs1 : F17FS) (j x : Nat)
    (hino : fs1.BlockStore_inode.data j = fs.BlockStore_inode.data j)
    (hdata : ∀ y, y ∈ pathBlocks fs (fs.BlockStore_inode.data j) (x / 512) →
      fs1.BlockStore_whole.data y = fs.BlockStore_whole.data y) :
    fileByte fs1 j x = fileByte fs j x := by
  unfold fileByte
  rw [hino]
  unfold pathBlocks at hdata
  unfold blockOf
  by_cases h1 : x / 512 < 6
  · simp only [h1, if_true, List.mem_singleton, forall_eq] at hdata ⊢
    rw [hdata]
  · by_cases h2 : x / 512 < 262
    · simp only [h1, h2, if_true, if_false, List.mem_cons, List.mem_singleton, forall_eq_or_imp,
        forall_eq, List.not_mem_nil, or_false] at hdata ⊢
      obtain ⟨d1, d2⟩ := hdata
      have t1 : tableAt fs1 (fs.BlockStore_inode.data j).indirectPointer =
          tableAt fs (fs.BlockStore_inode.data j).indirectPointer := by
        unfold tableAt; rw [d1]
      rw [t1]
      split_ifs with h0
      · rw [h0] at d1; rw [d1]
      · rw [d2]
    · simp only [h1, h2, if_false, List.mem_cons, List.mem_singleton, forall_eq_or_imp,
        forall_eq, List.not_mem_nil, or_false] at hdata ⊢
      obtain ⟨d1, d2, d3⟩ := hdata
      have t1 : tableAt fs1 (fs.BlockStore_inode.data j).doubleIndirectPointer =
          tableAt fs (fs.BlockStore_inode.data j).doubleIndirectPointer := by
        unfold tableAt; rw [d1]
      have t2 : tableAt fs1 (tableAt fs (fs.BlockStore_inode.data j).doubleIndirectPointer
            ((x / 512 - 262) / 256)) =
          tableAt fs (tableAt fs (fs.BlockStore_inode.data j).doubleIndirectPointer
            ((x / 512 - 262) / 256)) := by
        unfold tableAt at d2 ⊢; rw [d2]
      rw [t1, t2]
      split_ifs with h0 h3
      · rw [h0] at d1; rw [d1]
      · rw [h3] at d2; rw [d2]
      · rw [d3]


/-- The locality of a write where no block has two owners: on a well-formed
regular file of `N` bytes in `M` blocks, with the cursor of the open descriptor
in range at a position `S <= N`, an `fs_write` of the bytes `B` that returns
`len(B)` leaves the bytes of `B` at the offsets `[S, S + len(B))`, leaves every
other byte of the file below `N` as it was, and leaves every other inode as it
was.  A byte of another file is as it was when the blocks on the way to it are
allocated and are not blocks of the file written; the theorem says nothing
about a byte of another file that lies in a block of the file written, as the
stale pointers that `fs_remove` leaves behind allow. -/
theorem fs_write_local (fs : F17FS) (fd : Nat) (B : List Nat) (M : Nat) (fs1 : F17FS)
    (hfd : block_store_sub_test fs.BlockStore_fd fd = true)
    (hi : (fs.BlockStore_fd.data fd).inodeNum < 256)
    (hc : cursorOK (fs.BlockStore_fd.data fd))
    (hz : fs.BlockStore_whole.fbm 0 = true)
    (hwf : FileWF fs (fs.BlockStore_inode.data (fs.BlockStore_fd.data fd).inodeNum) M)
    (hN : (fs.BlockStore_inode.data (fs.BlockStore_fd.data fd).inodeNum).fileSize ≤ 512 * M)
    (hS : getFileSize (fs.BlockStore_fd.data fd) ≤
      (fs.BlockStore_inode.data (fs.BlockStore_fd.data fd).inodeNum).fileSize)
    (hw : fs_write fs fd B = some ((B.length : Int), fs1)) :
    (∀ x, getFileSize (fs.BlockStore_fd.data fd) ≤ x →
      x < getFileSize (fs.BlockStore_fd.data fd) + B.length →
      fileByte fs1 (fs.BlockStore_fd.data fd).inodeNum x =
        B.getD (x - getFileSize (fs.BlockStore_fd.data fd)) 0) ∧
    (∀ x, x < (fs.BlockStore_inode.data (fs.BlockStore_fd.data fd).inodeNum).fileSize →
      ¬ (getFileSize (fs.BlockStore_fd.data fd) ≤ x ∧
        x < getFileSize (fs.BlockStore_fd.data fd) + B.length) →
      fileByte fs1 (fs.BlockStore_fd.data fd).inodeNum x =
        fileByte fs (fs.BlockStore_fd.data fd).inodeNum x) ∧
    (∀ j, j ≠ (fs.BlockStore_fd.data fd).inodeNum →
      fs1.BlockStore_inode.data j = fs.BlockStore_inode.data j ∧
      ∀ x, (∀ y, y ∈ pathBlocks fs (fs.BlockStore_inode.data j) (x / 512) →
          fs.BlockStore_whole.fbm y = true ∧
          ¬ Owned fs (fs.BlockStore_inode.data (fs.BlockStore_fd.data fd).inodeNum) M y) →
        fileByte fs1 j x = fileByte fs j x) := by
  by_cases hne : B = []
  · subst hne
    have : fs_write fs fd [] = some (0, fs) := by
      unfold fs_write
      have hnn : ¬ ((fd : Int) < 0 ∨
          block_store_sub_test fs.BlockStore_fd (fd : Int).toNat = false) := by
        simp [hfd]
      rw [if_neg hnn]
      simp
    rw [this] at hw
    simp only [List.length_nil, Nat.cast_zero, Option.some.injEq, Prod.mk.injEq, true_and] at hw
    subst hw
    refine ⟨fun x h1 h2 => ?_, fun _ _ _ => rfl, fun _ _ => ⟨rfl, fun _ _ => rfl⟩⟩
    simp only [List.length_nil] at h2
    omega
  · have hL : logicalBlock (fs.BlockStore_fd.data fd) ≤ M := by
      have := getFileSize_eq _ hc
      omega
    obtain ⟨r, fsw, M1, _, hw1, inv, _, _, _, _⟩ :=
      fs_write_content fs fd B M hfd hne hc hi hz hwf hL
    rw [hw1] at hw
    simp only [Option.some.injEq, Prod.mk.injEq, Nat.cast_inj] at hw
    obtain ⟨hcnt, hfs⟩ := hw
    subst hfs
    rw [hcnt] at inv
    refine ⟨fun x h1 h2 => (inv.written x h1 h2).2, fun x h1 h2 => inv.old x (by omega) h2,
      fun j hj => ⟨inv.others j hj, fun x hp => ?_⟩⟩
    exact fileByte_frame fs fsw j x (inv.others j hj)
      (fun y hy => inv.frame y (hp y hy).1 (hp y hy).2)

/-- The locality of a write on the example image: three bytes written at
position 0 of the file of 3000 bytes. -/
theorem fs_write_local_witness :
    fs_write exFs (0 : Nat) [1, 2, 3] = some ((([1, 2, 3] : List Nat).length : Int), exFsWritten) ∧
    ((∀ x, getFileSize (exFs.BlockStore_fd.data 0) ≤ x →
      x < getFileSize (exFs.BlockStore_fd.data 0) + ([1, 2, 3] : List Nat).length →
      fileByte exFsWritten (exFs.BlockStore_fd.data 0).inodeNum x =
        ([1, 2, 3] : List Nat).getD (x - getFileSize (exFs.BlockStore_fd.data 0)) 0) ∧
    (∀ x, x < (exFs.BlockStore_inode.data (exFs.BlockStore_fd.data 0).inodeNum).fileSize →
      ¬ (getFileSize (exFs.BlockStore_fd.data 0) ≤ x ∧
        x < getFileSize (exFs.BlockStore_fd.data 0) + ([1, 2, 3] : List Nat).length) →
      fileByte exFsWritten (exFs.BlockStore_fd.data 0).inodeNum x =
        fileByte exFs (exFs.BlockStore_fd.data 0).inodeNum x) ∧
    (∀ j, j ≠ (exFs.BlockStore_fd.data 0).inodeNum →
      exFsWritten.BlockStore_inode.data j = exFs.BlockStore_inode.data j ∧
      ∀ x, (∀ y, y ∈ pathBlocks exFs (exFs.BlockStore_inode.data j) (x / 512) →
          exFs.BlockStore_whole.fbm y = true ∧
          ¬ Owned exFs (exFs.BlockStore_inode.data (exFs.BlockStore_fd.data 0).inodeNum) 6 y) →
        fileByte exFsWritten j x = fileByte exFs j x)) :=
  ⟨rfl, fs_write_local exFs 0 [1, 2, 3] 6 exFsWritten (by decide) (by decide) (by decide)
    (by decide) exFs_wf (by decide) (by decide) rfl⟩

end F17

/-! ## What the operations do to the descriptor bitmap -/

namespace F17

/-- The loop of `fs_read` keeps the frame of the allocator. -/
theorem readLoop_meta (nbyte : Nat) (fs0 : F17FS) (fuel : Nat)
    (fs : F17FS) (d : fileDescriptor) (rb : Nat) (dst : List Nat) (last : Option Nat)
    (r : LoopResult × List Nat)
    (hP : metaFrame fs0 fs)
    (h : readLoop fuel fs d nbyte rb dst last = some r) :
    metaFrame fs0 r.1.fs := by
  refine readLoop_rule nbyte (fun fs _ _ _ => metaFrame fs0 fs)
    (fun r => metaFrame fs0 r.1.fs) ?_ ?_ ?_ ?_ fuel fs d rb dst last r hP h
  · intro fs d rb dst last hP _; exact hP
  · intro fs d rb dst hP _ _
    exact metaFrame_trans hP (gdb_spec fs d).2
  · intro fs d rb dst hP _ _ _
    exact ⟨fun _ _ => metaFrame_trans hP (gdb_spec fs d).2,
      fun _ => metaFrame_trans hP (gdb_spec fs d).2⟩
  · intro fs d rb dst hP _ _ _
    exact ⟨fun _ _ => metaFrame_trans hP (gdb_spec fs d).2,
      fun _ => metaFrame_trans hP (gdb_spec fs d).2⟩

theorem fd_sub_write {α : Type} (s : block_store α) (x : Nat) (v : α) :
    ∀ st, block_store_sub_write s x v = some st → st.fbm = s.fbm := by
  intro st h
  unfold block_store_sub_write at h
  split_ifs at h
  cases h; rfl

theorem fs_create_at_fd (fs : F17FS) (p : Nat) (name : List Nat) (ft : Nat) (junk : inode)
    (junkName : Nat → Nat) :
    (fs_create_at fs p name ft junk junkName).2.BlockStore_fd = fs.BlockStore_fd := by
  unfold fs_create_at
  split
  · rfl
  · split
    · rfl
    · split
      · rfl
      · split
        · rfl
        · dsimp only
          split
          · rfl
          · split
            · rfl
            · split
              · rfl
              · rfl

theorem fs_create_fd (fs : F17FS) (path : List Nat) (type : file_t) (junk : inode)
    (junkName : Nat → Nat) :
    (fs_create fs path type junk junkName).2.BlockStore_fd = fs.BlockStore_fd := by
  unfold fs_create
  split
  · rfl
  · split
    · rfl
    · split
      · rfl
      · split
        · rfl
        · split
          · rfl
          · dsimp only
            split
            · rfl
            · split
              · rfl
              · exact fs_create_at_fd _ _ _ _ _ _

theorem linkLoop_fd (fs : F17FS) (s dp : Nat) (base : List Nat) (srcI dstI : inode)
    (blk : Block) : ∀ (n i : Nat),
    (linkLoop fs s dp base srcI dstI blk n i).2.BlockStore_fd = fs.BlockStore_fd := by
  intro n
  induction n with
  | zero => intro i; rfl
  | succ n ih =>
    intro i
    unfold linkLoop
    split
    · dsimp only
      split
      · rfl
      · split
        · rfl
        · split
          · rfl
          · rfl
    · exact ih _

theorem fs_link_fd (fs : F17FS) (src dst : List Nat) :
    (fs_link fs src dst).2.BlockStore_fd = fs.BlockStore_fd := by
  unfold fs_link
  split
  · split
    · dsimp only
      split
      · split
        · rfl
        · split
          · rfl
          · split
            · rfl
            · split
              · exact linkLoop_fd _ _ _ _ _ _ _ _ _
              · rfl
      · rfl
    · rfl
  · rfl

theorem moveLoop_fd (fs : F17FS) (sp dp s : Nat) (base : List Nat) (srcI : inode)
    (srcBlk : Block) : ∀ (n i : Nat) (dstI : inode) (dstBlk : Block),
    (moveLoop fs sp dp s base srcI srcBlk n i dstI dstBlk).2.BlockStore_fd = fs.BlockStore_fd := by
  intro n
  induction n with
  | zero => intro i dstI dstBlk; rfl
  | succ n ih =>
    intro i dstI dstBlk
    unfold moveLoop
    split
    · dsimp only
      split
      · split
        · rfl
        · split
          · rfl
          · split
            · rfl
            · split
              · rfl
              · rfl
      · exact ih _ _ _
    · exact ih _ _ _

theorem fs_move_fd (fs : F17FS) (src dst : List Nat) :
    (fs_move fs src dst).2.BlockStore_fd = fs.BlockStore_fd := by
  unfold fs_move
  split
  · split
    · split
      · rfl
      · dsimp only
        split
        · split
          · split
            · rfl
            · split
              · rfl
              · split
                · rfl
                · rfl
          · split
            · rfl
            · split
              · rfl
              · split
                · rfl
                · split
                  · rfl
                  · exact moveLoop_fd _ _ _ _ _ _ _ _ _ _ _
        · rfl
    · rfl
  · rfl

theorem fs_remove_tail_fd (fs : F17FS) (d : Nat) (name : List Nat) (junk : inode)
    (junkBlk : Block) :
    (fs_remove_tail fs d name junk junkBlk).2.BlockStore_fd = fs.BlockStore_fd := by
  unfold fs_remove_tail
  dsimp only
  split
  · rfl
  · split
    · rfl
    · rfl

theorem fs_close_fd (fs : F17FS) (fd : Int) (i : Nat)
    (h : (fs_close fs fd).2.BlockStore_fd.fbm i = true) : fs.BlockStore_fd.fbm i = true := by
  unfold fs_close at h
  split_ifs at h
  · exact h
  · exact h
  · dsimp only at h
    unfold block_store_sub_release at h
    split_ifs at h
    · dsimp only at h
      by_cases hi : i = fd.toNat
      · subst hi; rw [upd_same] at h; cases h
      · rw [upd_other _ _ _ _ hi] at h; exact h
    · exact h

theorem fs_remove_fd (fs : F17FS) (path : List Nat) (junk : inode) (junkBlk : Block) (i : Nat)
    (h : (fs_remove fs path junk junkBlk).2.BlockStore_fd.fbm i = true) :
    fs.BlockStore_fd.fbm i = true := by
  unfold fs_remove at h
  split at h
  · exact h
  · split at h
    · exact h
    · split at h
      · exact h
      · split at h
        · exact h
        · dsimp only at h
          split at h
          · exact h
          · split at h
            · unfold fs_remove_dir at h
              split at h
              · dsimp only at h
                split at h
                · exact h
                · split at h
                  · exact h
                  · exact h
              · exact h
            · split at h
              · unfold fs_remove_file at h
                split at h
                · split at h
                  · exact h
                  · rw [fs_remove_tail_fd] at h; exact h
                · split at h
                  · exact h
                  · dsimp only at h
                    split at h
                    · split at h
                      · dsimp only at h
                        have h2 := fs_close_fd _ _ i h
                        exact h2
                      · exact h
                    · rw [fs_remove_tail_fd] at h; exact h
              · exact h

theorem fs_seek_fd (fs : F17FS) (fd : Int) (offset : Int) (whence : seek_t) :
    (fs_seek fs fd offset whence).2.BlockStore_fd.fbm = fs.BlockStore_fd.fbm := by
  unfold fs_seek
  split
  · split
    · rfl
    · split
      · rfl
      · dsimp only
        split
        · rfl
        · split
          · rename_i st h; exact fd_sub_write _ _ _ st h
          · rfl
  · rfl

theorem fs_read_fd (fs : F17FS) (fd : Int) (nbyte : Nat) (r : Int) (dst : List Nat)
    (fs1 : F17FS) (h : fs_read fs fd nbyte = some (r, dst, fs1)) :
    fs1.BlockStore_fd.fbm = fs.BlockStore_fd.fbm := by
  unfold fs_read at h
  split_ifs at h
  · cases hfd : block_store_sub_read fs.BlockStore_fd fd.toNat with
    | none => rw [hfd] at h; cases h; rfl
    | some fd_t =>
      rw [hfd] at h
      dsimp only at h
      cases hino : block_store_sub_read fs.BlockStore_inode fd_t.inodeNum with
      | none => rw [hino] at h; cases h; rfl
      | some fi =>
        rw [hino] at h
        dsimp only at h
        cases hl : readLoop (if nbyte > (fi.fileSize + 2 ^ 64 - getFileSize fd_t) % 2 ^ 64 then
            (fi.fileSize + 2 ^ 64 - getFileSize fd_t) % 2 ^ 64 else nbyte) fs fd_t
            (if nbyte > (fi.fileSize + 2 ^ 64 - getFileSize fd_t) % 2 ^ 64 then
            (fi.fileSize + 2 ^ 64 - getFileSize fd_t) % 2 ^ 64 else nbyte) 0 [] none with
        | none => rw [hl] at h; cases h
        | some rr =>
          rw [hl] at h
          have hm := readLoop_meta _ fs _ fs fd_t 0 [] none rr (metaFrame_refl _) hl
          obtain ⟨lr, ds⟩ := rr
          dsimp only at h hm
          cases he : lr.err with
          | some e =>
            rw [he] at h; cases h
            rw [hm.1]
          | none =>
            rw [he] at h
            dsimp only at h
            cases hw : block_store_sub_write lr.fs.BlockStore_fd fd.toNat lr.fd_t with
            | none =>
              rw [hw] at h; cases h
              rw [hm.1]
            | some st =>
              rw [hw] at h; cases h
              dsimp only
              rw [fd_sub_write _ _ _ st hw, hm.1]
  · cases h; rfl
  · cases h; rfl

theorem fs_write_fd (fs : F17FS) (fd : Int) (src : List Nat) (r : Int)
    (fs1 : F17FS) (h : fs_write fs fd src = some (r, fs1)) :
    fs1.BlockStore_fd.fbm = fs.BlockStore_fd.fbm := by
  unfold fs_write at h
  split_ifs at h
  · cases h; rfl
  · cases h; rfl
  · cases hfd : block_store_sub_read fs.BlockStore_fd fd.toNat with
    | none => rw [hfd] at h; cases h; rfl
    | some fd_t =>
      rw [hfd] at h
      dsimp only at h
      cases hl : writeLoop src.length fs fd_t src 0 none with
      | none => rw [hl] at h; cases h
      | some lr =>
        rw [hl] at h
        have hm := (writeLoop_meta src fs fd_t _ fs fd_t 0 none lr ⟨metaFrame_refl _, rfl⟩ hl).1
        dsimp only at h
        cases he : lr.err with
        | some e =>
          rw [he] at h; cases h
          rw [hm.1]
        | none =>
          rw [he] at h
          dsimp only at h
          cases hw : block_store_sub_write lr.fs.BlockStore_fd fd.toNat lr.fd_t with
          | none =>
            rw [hw] at h; cases h
            rw [hm.1]
          | some st =>
            rw [hw] at h
            dsimp only at h
            split at h
            · cases h
              dsimp only
              rw [fd_sub_write _ _ _ st hw, hm.1]
            · cases h
              dsimp only
              rw [fd_sub_write _ _ _ st hw, hm.1]

theorem fs_open_fd (fs : F17FS) (path : List Nat) (i : Nat)
    (h : (fs_open fs path).2.BlockStore_fd.fbm i = true) :
    fs.BlockStore_fd.fbm i = true ∨ (fs_open fs path).1 = (i : Int) := by
  unfold fs_open at h ⊢
  split
  · rw [if_pos (by assumption)] at h; exact Or.inl h
  · rename_i c1
    rw [if_neg c1] at h
    split
    · rw [if_pos (by assumption)] at h; exact Or.inl h
    · rename_i c2
      rw [if_neg c2] at h
      split
      · rw [if_pos (by assumption)] at h; exact Or.inl h
      · rename_i c3
        rw [if_neg c3] at h
        split
        · rw [if_pos (by assumption)] at h; exact Or.inl h
        · rename_i c4
          rw [if_neg c4] at h
          cases hs : searchPath fs (dirTokens path) with
          | none => rw [hs] at h; exact Or.inl h
          | some d =>
            rw [hs] at h
            dsimp only at h ⊢
            by_cases c5 : getFileInodeID fs d (baseName path) = 0
            · rw [if_pos c5] at h; exact Or.inl h
            · rw [if_neg c5] at h ⊢
              cases hr : block_store_sub_read fs.BlockStore_inode
                  (getFileInodeID fs d (baseName path)) with
              | none => rw [hr] at h; exact Or.inl h
              | some fi =>
                rw [hr] at h
                dsimp only at h ⊢
                by_cases c6 : fi.fileType = CH_d
                · rw [if_pos c6] at h; exact Or.inl h
                · rw [if_neg c6] at h ⊢
                  unfold block_store_sub_allocate at h ⊢
                  cases hz : bitmap_ffz fs.BlockStore_fd.fbm 256 with
                  | none =>
                    simp only [hz] at h
                    have hw : ¬ (2 ^ 64 - 1 < 256) := by norm_num
                    simp only [block_store_sub_write, hw, if_false] at h
                    exact Or.inl h
                  | some a =>
                    have ha : a < 256 := by
                      have := (ffzFrom_some _ _ _ _ hz).2.1
                      omega
                    simp only [hz, sub_write_spec _ _ _ ha] at h ⊢
                    by_cases hia : i = a
                    · right; rw [hia]
                    · rw [upd_other _ _ _ _ hia] at h; exact Or.inl h

/-- A descriptor that is free stays free through public operations other than
an `fs_open` that returns it. -/
theorem reachedWithoutOpen_closed (k : Nat) (fs0 fs : F17FS)
    (h : ReachedWithoutOpen k fs0 fs)
    (h0 : block_store_sub_test fs0.BlockStore_fd k = false) :
    block_store_sub_test fs.BlockStore_fd k = false := by
  have key : ∀ (a b : F17FS), block_store_sub_test a.BlockStore_fd k = false →
      (b.BlockStore_fd.fbm k = true → a.BlockStore_fd.fbm k = true) →
      block_store_sub_test b.BlockStore_fd k = false := by
    intro a b ha hab
    unfold block_store_sub_test at ha ⊢
    by_cases hk : k < 256
    · simp only [hk, decide_True, Bool.true_and] at ha ⊢
      cases hb : b.BlockStore_fd.fbm k with
      | false => rfl
      | true => rw [hab hb] at ha; cases ha
    · simp [hk]
  induction h with
  | start => exact h0
  | mount fs _ _ =>
    unfold block_store_sub_test fs_mount block_store_sub_create
    simp
  | create fs path type junk junkName _ ih =>
    exact key fs _ ih (fun hb => by rw [fs_create_fd] at hb; exact hb)
  | opened fs path _ hne ih =>
    refine key fs _ ih (fun hb => ?_)
    rcases fs_open_fd fs path k hb with h1 | h1
    · exact h1
    · exact absurd h1 hne
  | close fs fd _ ih => exact key fs _ ih (fun hb => fs_close_fd fs fd k hb)
  | read fs fd nbyte r dst fs1 _ hr ih =>
    exact key fs _ ih (fun hb => by rw [fs_read_fd fs fd nbyte r dst fs1 hr] at hb; exact hb)
  | write fs fd src r fs1 _ hr ih =>
    exact key fs _ ih (fun hb => by rw [fs_write_fd fs fd src r fs1 hr] at hb; exact hb)
  | seek fs fd offset whence _ ih =>
    exact key fs _ ih (fun hb => by rw [fs_seek_fd] at hb; exact hb)
  | remove fs path junk junkBlk _ ih =>
    exact key fs _ ih (fun hb => fs_remove_fd fs path junk junkBlk k hb)
  | move fs src dst _ ih =>
    exact key fs _ ih (fun hb => by rw [fs_move_fd] at hb; exact hb)
  | link fs src dst _ ih =>
    exact key fs _ ih (fun hb => by rw [fs_link_fd] at hb; exact hb)

end F17


/-! ## C13: `fs_close` -/

namespace F17

/-- C13. close: `fs_close` returns 0 exactly when `fd >= 0` and the descriptor
is allocated, and then clears its allocation bit and nothing else; otherwise it
returns a negative code and changes nothing.  After a successful close the bit
of `fd` is clear, and in every state in which it is clear `fs_read`,
`fs_write`, `fs_seek` and `fs_close` on `fd` return negative codes and change
nothing; such are all the states reached after the close by public operations
none of which is an `fs_open` that returns `fd`. -/
theorem fs_close_spec (fs : F17FS) (fd : Int) :
    ((fs_close fs fd).1 = 0 ↔
      (0 ≤ fd ∧ block_store_sub_test fs.BlockStore_fd fd.toNat = true)) ∧
    ((fs_close fs fd).1 = 0 →
      (fs_close fs fd).2 = { fs with BlockStore_fd :=
        { fs.BlockStore_fd with fbm := upd fs.BlockStore_fd.fbm fd.toNat false } } ∧
      block_store_sub_test (fs_close fs fd).2.BlockStore_fd fd.toNat = false) ∧
    ((fs_close fs fd).1 ≠ 0 → (fs_close fs fd).1 < 0 ∧ (fs_close fs fd).2 = fs) ∧
    (∀ fs2 : F17FS, block_store_sub_test fs2.BlockStore_fd fd.toNat = false →
      ∀ (nbyte : Nat) (src : List Nat) (offset : Int) (whence : seek_t),
        fs_read fs2 fd nbyte = some (-1, [], fs2) ∧
        fs_write fs2 fd src = some (-1, fs2) ∧
        fs_seek fs2 fd offset whence = (-1, fs2) ∧
        (fs_close fs2 fd).1 < 0 ∧ (fs_close fs2 fd).2 = fs2) ∧
    (∀ fs2 : F17FS, (fs_close fs fd).1 = 0 →
      ReachedWithoutOpen fd.toNat (fs_close fs fd).2 fs2 →
      block_store_sub_test fs2.BlockStore_fd fd.toNat = false ∧
      ∀ (nbyte : Nat) (src : List Nat) (offset : Int) (whence : seek_t),
        (∃ r, fs_read fs2 fd nbyte = some r ∧ r.1 < 0) ∧
        (∃ r, fs_write fs2 fd src = some r ∧ r.1 < 0) ∧
        (fs_seek fs2 fd offset whence).1 < 0 ∧
        (fs_close fs2 fd).1 < 0) := by
  have hclosed : (fs_close fs fd).1 = 0 →
      block_store_sub_test (fs_close fs fd).2.BlockStore_fd fd.toNat = false := by
    unfold fs_close
    by_cases h1 : fd < 0
    · rw [if_pos h1]; intro h; simp at h
    · rw [if_neg h1]
      by_cases h2 : block_store_sub_test fs.BlockStore_fd fd.toNat = false
      · rw [if_pos h2]; intro h; simp at h
      · rw [if_neg h2]
        intro _
        have h3 : fd.toNat < 256 := sub_test_lt _ _ (by simpa using h2)
        unfold block_store_sub_release
        rw [if_pos h3]
        unfold block_store_sub_test
        simp [upd]
  have hops : ∀ fs2 : F17FS, block_store_sub_test fs2.BlockStore_fd fd.toNat = false →
      ∀ (nbyte : Nat) (src : List Nat) (offset : Int) (whence : seek_t),
        fs_read fs2 fd nbyte = some (-1, [], fs2) ∧
        fs_write fs2 fd src = some (-1, fs2) ∧
        fs_seek fs2 fd offset whence = (-1, fs2) ∧
        (fs_close fs2 fd).1 < 0 ∧ (fs_close fs2 fd).2 = fs2 := by
    intro fs2 h2 nbyte src offset whence
    refine ⟨?_, ?_, ?_, ?_, ?_⟩
    · unfold fs_read
      rw [if_neg (by rw [h2]; simp)]
    · unfold fs_write
      rw [if_pos (Or.inr h2)]
    · unfold fs_seek
      rw [if_neg (by rw [h2]; simp)]
    · unfold fs_close
      by_cases h1 : fd < 0
      · rw [if_pos h1]; simp
      · rw [if_neg h1, if_pos h2]; simp
    · unfold fs_close
      by_cases h1 : fd < 0
      · rw [if_pos h1]
      · rw [if_neg h1, if_pos h2]
  refine ⟨?_, ?_, ?_, hops, ?_⟩
  rotate_right
  · intro fs2 h0 hreach
    have hb := reachedWithoutOpen_closed fd.toNat _ fs2 hreach (hclosed h0)
    refine ⟨hb, fun nbyte src offset whence => ?_⟩
    obtain ⟨e1, e2, e3, e4, _⟩ := hops fs2 hb nbyte src offset whence
    exact ⟨⟨_, e1, by simp⟩, ⟨_, e2, by simp⟩, by rw [e3]; simp, e4⟩
  · unfold fs_close
    by_cases h1 : fd < 0
    · rw [if_pos h1]
      constructor
      · intro h; simp at h
      · intro h; omega
    · rw [if_neg h1]
      by_cases h2 : block_store_sub_test fs.BlockStore_fd fd.toNat = false
      · rw [if_pos h2]
        constructor
        · intro h; simp at h
        · intro h; rw [h.2] at h2; exact absurd h2 (by decide)
      · rw [if_neg h2]
        exact ⟨fun _ => ⟨by omega, by simpa using h2⟩, fun _ => rfl⟩
  · unfold fs_close
    by_cases h1 : fd < 0
    · rw [if_pos h1]; intro h; simp at h
    · rw [if_neg h1]
      by_cases h2 : block_store_sub_test fs.BlockStore_fd fd.toNat = false
      · rw [if_pos h2]; intro h; simp at h
      · rw [if_neg h2]
        intro _
        have h3 : fd.toNat < 256 := sub_test_lt _ _ (by simpa using h2)
        unfold block_store_sub_release
        rw [if_pos h3]
        refine ⟨rfl, ?_⟩
        unfold block_store_sub_test
        simp [upd]
  · unfold fs_close
    by_cases h1 : fd < 0
    · rw [if_pos h1]; intro _; exact ⟨by simp, rfl⟩
    · rw [if_neg h1]
      by_cases h2 : block_store_sub_test fs.BlockStore_fd fd.toNat = false
      · rw [if_pos h2]; intro _; exact ⟨by simp, rfl⟩
      · rw [if_neg h2]; intro h; exact absurd rfl h

end F17


/-! ## C12: `fs_open` -/

namespace F17

theorem scanEntries_lt (v : Nat) (blk : Block) (name : List Nat) : ∀ (n k : Nat),
    scanEntries v blk name n k < 256 := by
  intro n
  induction n with
  | zero => intro k; unfold scanEntries; decide
  | succ n ih =>
    intro k
    unfold scanEntries
    split_ifs
    · unfold dentryInode; exact Nat.mod_lt _ (by decide)
    · exact ih _

theorem getFileInodeID_lt (fs : F17FS) (d : Nat) (name : List Nat) :
    getFileInodeID fs d name < 256 := by
  unfold getFileInodeID
  split
  · decide
  · split
    · decide
    · exact scanEntries_lt _ _ _ _ _

/-- C12, as amended. Postcondition of open: for a path that `fs_open` accepts
and that resolves (parent `d`, child `f`, not 0) to a regular file, when slot `k`
is the lowest free descriptor, `fs_open` returns `k` (0 when no descriptor is
open), marks it allocated and stores `{f, usage 1, order 0, offset 0}` there,
changing nothing else; when all 256 descriptors are in use it returns `-9` and
changes nothing; and when the path resolves to a directory it returns `-8` and
changes nothing. -/
theorem fs_open_post (fs : F17FS) (path : List Nat) (d f : Nat)
    (hargs : openArgsOK path)
    (hd : searchPath fs (dirTokens path) = some d)
    (hf : getFileInodeID fs d (baseName path) = f) (hf0 : f ≠ 0) :
    ((fs.BlockStore_inode.data f).fileType = CH_r →
      (∀ k, bitmap_ffz fs.BlockStore_fd.fbm 256 = some k →
        fs_open fs path = ((k : Int), { fs with BlockStore_fd :=
          { fbm := upd fs.BlockStore_fd.fbm k true,
            data := upd fs.BlockStore_fd.data k
              { inodeNum := f, usage := 1, locate_order := 0, locate_offset := 0 } } }) ∧
        k < 256 ∧ fs.BlockStore_fd.fbm k = false ∧
        (∀ j, j < k → fs.BlockStore_fd.fbm j = true)) ∧
      (bitmap_ffz fs.BlockStore_fd.fbm 256 = none → fs_open fs path = (-9, fs))) ∧
    ((fs.BlockStore_inode.data f).fileType = CH_d → fs_open fs path = (-8, fs)) := by
  obtain ⟨a1, a2, a3, a4⟩ := hargs
  have hlt : f < 256 := by rw [← hf]; exact getFileInodeID_lt _ _ _
  have hmod : f % 256 = f := Nat.mod_eq_of_lt hlt
  have e1 : ¬ path.length ≤ 1 := by omega
  have e2 : ¬ path.head? ≠ some CH_slash := by simp [a2]
  have e4 : ¬ (baseName path).length ≥ 64 := by omega
  refine ⟨fun hr => ⟨fun k hk => ?_, fun hn => ?_⟩, fun hdir => ?_⟩
  · obtain ⟨h1, h2, h3⟩ := ffzFrom_some _ _ _ _ hk
    have hk256 : k < 256 := by omega
    refine ⟨?_, hk256, h3, fun j hj => ffzFrom_lowest _ _ _ _ hk j (Nat.zero_le _) hj⟩
    unfold fs_open
    rw [if_neg e1, if_neg e2, if_neg a3, if_neg e4]
    simp only [hd, hf, if_neg hf0, block_store_sub_read, if_pos hlt]
    rw [if_neg (by rw [hr]; decide)]
    unfold block_store_sub_allocate
    simp only [hk, block_store_sub_write, if_pos hk256, hmod]
  · unfold fs_open
    rw [if_neg e1, if_neg e2, if_neg a3, if_neg e4]
    simp only [hd, hf, if_neg hf0, block_store_sub_read, if_pos hlt]
    rw [if_neg (by rw [hr]; decide)]
    unfold block_store_sub_allocate
    simp only [hn, block_store_sub_write]
    rw [if_neg (by decide)]
  · unfold fs_open
    rw [if_neg e1, if_neg e2, if_neg a3, if_neg e4]
    simp only [hd, hf, if_neg hf0, block_store_sub_read, if_pos hlt]
    rw [if_pos hdir]

/-- Witness of C12 on the example image: `"/a"` is the regular file of inode 1
and descriptor 0 is in use, so descriptor 1 is handed out. -/
theorem fs_open_post_witness :
    ((exFs.BlockStore_inode.data 1).fileType = CH_r →
      (∀ k, bitmap_ffz exFs.BlockStore_fd.fbm 256 = some k →
        fs_open exFs [47, 97] = ((k : Int), { exFs with BlockStore_fd :=
          { fbm := upd exFs.BlockStore_fd.fbm k true,
            data := upd exFs.BlockStore_fd.data k
              { inodeNum := 1, usage := 1, locate_order := 0, locate_offset := 0 } } }) ∧
        k < 256 ∧ exFs.BlockStore_fd.fbm k = false ∧
        (∀ j, j < k → exFs.BlockStore_fd.fbm j = true)) ∧
      (bitmap_ffz exFs.BlockStore_fd.fbm 256 = none → fs_open exFs [47, 97] = (-9, exFs))) ∧
    ((exFs.BlockStore_inode.data 1).fileType = CH_d → fs_open exFs [47, 97] = (-8, exFs)) :=
  fs_open_post exFs [47, 97] 0 1 (by decide) (by decide) (by decide) (by decide)

set_option maxRecDepth 100000 in
/-- C12 fails as stated: on `exFsFdFull` the path `"/a"` resolves to the
regular file of inode 1, all 256 descriptors are in use, and `fs_open` returns
`-9`, not a descriptor index. -/
theorem fs_open_table_full :
    openArgsOK [47, 97] ∧
    searchPath exFsFdFull (dirTokens [47, 97]) = some 0 ∧
    getFileInodeID exFsFdFull 0 (baseName [47, 97]) = 1 ∧
    (exFsFdFull.BlockStore_inode.data 1).fileType = CH_r ∧
    (fs_open exFsFdFull [47, 97]).1 = -9 := by
  decide

end F17

/-! ## Absent targets (C17) -/

namespace F17

theorem strtokAll_ne_nil : ∀ (cs cur : List Nat),
    (cur ≠ [] ∨ (cs ≠ [] ∧ cs.getLast? ≠ some CH_slash)) → strtokAll cs cur ≠ [] := by
  intro cs
  induction cs with
  | nil =>
    intro cur h
    rcases h with h | ⟨h, _⟩
    · unfold strtokAll; rw [if_neg h]; simp
    · exact absurd rfl h
  | cons c cs ih =>
    intro cur h
    unfold strtokAll
    by_cases hc : c = CH_slash
    · rw [if_pos hc]
      by_cases hcur : cur = []
      · rw [if_pos hcur]
        apply ih
        right
        rcases h with h | ⟨_, h⟩
        · exact absurd hcur h
        · cases cs with
          | nil => simp [hc] at h
          | cons x xs => exact ⟨by simp, by simpa [List.getLast?_cons_cons] using h⟩
      · rw [if_neg hcur]; simp
    · rw [if_neg hc]
      apply ih
      left; simp

/-- For a path that does not end in `'/'` the two models of `basename` agree. -/
theorem baseName_eq_basename (path : List Nat) (h1 : path ≠ [])
    (h2 : path.getLast? ≠ some CH_slash) : baseName path = basename path := by
  have hne := strtokAll_ne_nil path [] (Or.inr ⟨h1, h2⟩)
  unfold baseName basename
  cases hl : (strtokAll path []).getLast? with
  | none => rw [List.getLast?_eq_none_iff] at hl; exact absurd hl hne
  | some t => rfl

theorem absent_open (fs : F17FS) (path : List Nat) (d : Nat)
    (hd : searchPath fs (dirTokens path) = some d)
    (hl : getFileInodeID fs d (basename path) = 0) :
    ∃ c : Int, c < 0 ∧ fs_open fs path = (c, fs) := by
  unfold fs_open
  by_cases h1 : path.length ≤ 1
  · rw [if_pos h1]; exact ⟨-1, by decide, rfl⟩
  rw [if_neg h1]
  by_cases h2 : path.head? ≠ some CH_slash
  · rw [if_pos h2]; exact ⟨-2, by decide, rfl⟩
  rw [if_neg h2]
  by_cases h3 : path.getLast? = some CH_slash
  · rw [if_pos h3]; exact ⟨-3, by decide, rfl⟩
  rw [if_neg h3]
  by_cases h4 : (baseName path).length ≥ 64
  · rw [if_pos h4]; exact ⟨-4, by decide, rfl⟩
  rw [if_neg h4]
  have hb := baseName_eq_basename path (by intro h; subst h; simp at h1) h3
  simp only [hd, hb, hl, if_true]
  exact ⟨-6, by decide, rfl⟩

theorem absent_remove (fs : F17FS) (path : List Nat) (d : Nat) (junk : inode)
    (junkBlk : Block)
    (hd : searchPath fs (dirTokens path) = some d)
    (hl : getFileInodeID fs d (basename path) = 0) :
    ∃ c : Int, c < 0 ∧ fs_remove fs path junk junkBlk = (c, fs) := by
  unfold fs_remove
  by_cases h1 : path.length = 0
  · rw [if_pos h1]; exact ⟨-1, by decide, rfl⟩
  rw [if_neg h1]
  by_cases h2 : path.head? ≠ some CH_slash
  · rw [if_pos h2]; exact ⟨-2, by decide, rfl⟩
  rw [if_neg h2]
  simp only [hd, hl, if_true]
  by_cases h3 : basename path = [CH_slash] ∧ dirTokens path = []
  · rw [if_pos h3]; exact ⟨-4, by decide, rfl⟩
  · rw [if_neg h3]; exact ⟨-4, by decide, rfl⟩

theorem absent_move (fs : F17FS) (path dst : List Nat) (d : Nat)
    (hd : searchPath fs (dirTokens path) = some d)
    (hl : getFileInodeID fs d (basename path) = 0) :
    ∃ c : Int, c < 0 ∧ fs_move fs path dst = (c, fs) := by
  unfold fs_move
  by_cases h1 : path ≠ [CH_slash] ∧ dst ≠ [CH_slash] ∧ path.head? = some CH_slash ∧
      dst.head? = some CH_slash
  · rw [if_pos h1]
    simp only [hd]
    cases searchPath fs (dirTokens dst) with
    | none => exact ⟨-3, by decide, rfl⟩
    | some dp =>
      simp only [hl]
      by_cases h2 : path.length < dst.length ∧ path <+: dst
      · rw [if_pos h2]; exact ⟨-3, by decide, rfl⟩
      · rw [if_neg h2, if_neg (by simp)]; exact ⟨-4, by decide, rfl⟩
  · rw [if_neg h1]; exact ⟨-2, by decide, rfl⟩

/-- Targets that the lookup does not find are reported without state change:
for every path whose parent directory resolves and for whose last token the
lookup in that directory returns 0 (no live entry begins with it), `fs_open`,
`fs_remove` and `fs_move` (with the path as source) each return a negative
code and leave the whole file system as it was. -/
theorem fs_absent_target (fs : F17FS) (path dst : List Nat) (d : Nat) (junk : inode)
    (junkBlk : Block)
    (hd : searchPath fs (dirTokens path) = some d)
    (hl : getFileInodeID fs d (basename path) = 0) :
    (fs_open fs path).1 < 0 ∧ (fs_open fs path).2 = fs ∧
    (fs_remove fs path junk junkBlk).1 < 0 ∧ (fs_remove fs path junk junkBlk).2 = fs ∧
    (fs_move fs path dst).1 < 0 ∧ (fs_move fs path dst).2 = fs := by
  obtain ⟨c1, n1, e1⟩ := absent_open fs path d hd hl
  obtain ⟨c2, n2, e2⟩ := absent_remove fs path d junk junkBlk hd hl
  obtain ⟨c3, n3, e3⟩ := absent_move fs path dst d hd hl
  rw [e1, e2, e3]
  exact ⟨n1, rfl, n2, rfl, n3, rfl⟩

set_option maxRecDepth 100000 in
/-- The path `"/b"` on the image with the one file `"/ab"`. -/
theorem fs_absent_target_witness :
    (fs_open exAb [47, 98]).1 < 0 ∧ (fs_open exAb [47, 98]).2 = exAb ∧
    (fs_remove exAb [47, 98] exJunk (fun _ => 0)).1 < 0 ∧
    (fs_remove exAb [47, 98] exJunk (fun _ => 0)).2 = exAb ∧
    (fs_move exAb [47, 98] [47, 99]).1 < 0 ∧ (fs_move exAb [47, 98] [47, 99]).2 = exAb :=
  fs_absent_target exAb [47, 98] [47, 99] 0 exJunk (fun _ => 0) (by decide) (by decide)

set_option maxRecDepth 100000 in
/-- C17: absent targets on the image that holds the one regular file `"/ab"`.
No live entry of the root directory has the filename `"a"`, yet `fs_open("/a")`
returns the descriptor 0, which it allocates on the inode of `"/ab"`, and
`fs_remove("/a")` returns 0 and releases that inode, the entry `"ab"` staying
live: the lookup compares only the first `strlen("a")` characters. -/
theorem fs_open_absent_name :
    searchPath exAb (dirTokens [47, 97]) = some 0 ∧
    (∀ k, k < 7 → bitmap_test (exAb.BlockStore_inode.data 0).vacantFile k = true →
      strcmpEq (dentryName (exAb.BlockStore_whole.data
        ((exAb.BlockStore_inode.data 0).directPointer 0)) k) [97] = false) ∧
    (fs_open exAb [47, 97]).1 = 0 ∧
    exAb.BlockStore_fd.fbm 0 = false ∧
    (fs_open exAb [47, 97]).2.BlockStore_fd.fbm 0 = true ∧
    ((fs_open exAb [47, 97]).2.BlockStore_fd.data 0).inodeNum =
      getFileInodeID exAb 0 [97, 98] ∧
    getFileInodeID exAb 0 [97, 98] = 1 ∧
    (fs_remove exAb [47, 97] exJunk (fun _ => 0)).1 = 0 ∧
    block_store_sub_test exAb.BlockStore_inode 1 = true ∧
    block_store_sub_test (fs_remove exAb [47, 97] exJunk (fun _ => 0)).2.BlockStore_inode 1
      = false ∧
    bitmap_test ((fs_remove exAb [47, 97] exJunk (fun _ => 0)).2.BlockStore_inode.data
      0).vacantFile 0 = true := by
  decide

end F17

/-! ## The full directory (C11) -/

namespace F17

theorem ffz8_full (bm : Nat → Bool) (h : ∀ k, k < 7 → bm k = true) :
    bitmap_ffz bm 8 = none ∨ bitmap_ffz bm 8 = some 7 := by
  unfold bitmap_ffz
  cases hc : ffzFrom bm 8 0 with
  | none => exact Or.inl rfl
  | some a =>
    obtain ⟨_, h2, h3⟩ := ffzFrom_some _ _ _ _ hc
    by_cases ha : a < 7
    · rw [h a ha] at h3; cases h3
    · have : a = 7 := by omega
      rw [this]; exact Or.inr rfl

theorem ffz8_free (bm : Nat → Bool) (h : ¬ ∀ k, k < 7 → bm k = true) :
    ∃ a, a < 7 ∧ bitmap_ffz bm 8 = some a := by
  push_neg at h
  obtain ⟨k, hk, hb⟩ := h
  have hb2 : bm k = false := by simpa using hb
  obtain ⟨j, hj⟩ := ffzFrom_of_count bm 8 0 (countFreeFrom_pos bm k hb2 8 0 (by omega) (by omega))
  refine ⟨j, ?_, hj⟩
  by_contra hge
  have := ffzFrom_lowest bm 8 0 j hj k (by omega) (by omega)
  rw [this] at hb2; cases hb2

/-- With a free slot among 0..6 the second half of `fs_create` does not return
the full-directory code. -/
theorem fs_create_at_ne9 (fs : F17FS) (p : Nat) (name : List Nat) (ft : Nat) (junk : inode)
    (junkName : Nat → Nat) (a : Nat) (ha : a < 7)
    (hslot : bitmap_ffz (bitmap_test (fs.BlockStore_inode.data p).vacantFile) 8 = some a) :
    (fs_create_at fs p name ft junk junkName).1 ≠ -9 := by
  have ha7 : a ≠ 7 := by omega
  unfold fs_create_at block_store_sub_read
  by_cases hp : p < 256
  · simp only [hp, if_true]
    unfold block_store_read
    by_cases hb : (fs.BlockStore_inode.data p).directPointer 0 < BLOCK_STORE_NUM_BLOCKS
    · simp only [hb, if_true, hslot, ha7, if_false]
      split
      · simp
      · split
        · simp
        · split
          · simp
          · simp
    · simp only [hb, if_false]; simp
  · simp only [hp, if_false]; simp

/-- A call of `fs_create` that returns 0 went through the second half of the
function, with an inode table that was not full. -/
theorem fs_create_ok_eq (fs : F17FS) (path : List Nat) (type : file_t) (junk : inode)
    (junkName : Nat → Nat) (p : Nat)
    (h0 : (fs_create fs path type junk junkName).1 = 0)
    (hres : searchPath fs (dirTokens path) = some p) :
    fs_create fs path type junk junkName =
      fs_create_at fs p (baseName path) (if type = file_t.FS_DIRECTORY then CH_d else CH_r)
        junk junkName ∧
    block_store_sub_used fs.BlockStore_inode < 256 := by
  by_cases c1 : (type ≠ file_t.FS_REGULAR ∧ type ≠ file_t.FS_DIRECTORY) ∨ path.length ≤ 1
  · unfold fs_create at h0; rw [if_pos c1] at h0; simp at h0
  by_cases c2 : block_store_sub_used fs.BlockStore_inode ≥ 256
  · unfold fs_create at h0; rw [if_neg c1, if_pos c2] at h0; simp at h0
  by_cases c3 : path.head? ≠ some CH_slash
  · unfold fs_create at h0; rw [if_neg c1, if_neg c2, if_pos c3] at h0; simp at h0
  by_cases c4 : path.getLast? = some CH_slash
  · unfold fs_create at h0; rw [if_neg c1, if_neg c2, if_neg c3, if_pos c4] at h0; simp at h0
  by_cases c5 : (baseName path).length ≥ 64
  · unfold fs_create at h0
    rw [if_neg c1, if_neg c2, if_neg c3, if_neg c4, if_pos c5] at h0; simp at h0
  unfold fs_create at h0 ⊢
  rw [if_neg c1, if_neg c2, if_neg c3, if_neg c4, if_neg c5] at h0 ⊢
  simp only [hres] at h0 ⊢
  by_cases c6 : getFileInodeID fs p (baseName path) ≠ 0
  · rw [if_pos c6] at h0; simp at h0
  · rw [if_neg c6]; exact ⟨rfl, by omega⟩

/-- A successful second half of `fs_create` in an allocated directory `p`
whose inode carries its own number sets the lowest clear occupancy bit of `p`. -/
theorem fs_create_at_ok (fs : F17FS) (p : Nat) (name : List Nat) (ft : Nat) (junk : inode)
    (junkName : Nat → Nat)
    (h0 : (fs_create_at fs p name ft junk junkName).1 = 0)
    (hnotfull : block_store_sub_used fs.BlockStore_inode < 256)
    (hpa : fs.BlockStore_inode.fbm p = true)
    (hpn : (fs.BlockStore_inode.data p).inodeNumber = p) :
    (fs_create_at fs p name ft junk junkName).2.BlockStore_inode.fbm p = true ∧
    ((fs_create_at fs p name ft junk junkName).2.BlockStore_inode.data p).inodeNumber = p ∧
    ∃ a, a < 7 ∧ (∀ k, k < a → bitmap_test (fs.BlockStore_inode.data p).vacantFile k = true) ∧
      bitmap_test (fs.BlockStore_inode.data p).vacantFile a = false ∧
      ((fs_create_at fs p name ft junk junkName).2.BlockStore_inode.data p).vacantFile =
        bitmap_set (fs.BlockStore_inode.data p).vacantFile a := by
  obtain ⟨i, hal, hi, hifree⟩ := sub_allocate_spec fs.BlockStore_inode hnotfull
  have hip : i ≠ p := by
    intro h; rw [h] at hifree; rw [hifree] at hpa; cases hpa
  by_cases hp : p < 256
  swap
  · unfold fs_create_at block_store_sub_read at h0
    simp [hp] at h0
  by_cases hb : (fs.BlockStore_inode.data p).directPointer 0 < 65536
  swap
  · unfold fs_create_at block_store_sub_read block_store_read BLOCK_STORE_NUM_BLOCKS at h0
    simp [hp, hb] at h0
  unfold fs_create_at at h0 ⊢
  simp only [block_store_sub_read, hp, if_true, block_store_read_spec _ _ hb] at h0 ⊢
  cases hz : bitmap_ffz (bitmap_test (fs.BlockStore_inode.data p).vacantFile) 8 with
  | none => simp [hz] at h0
  | some a =>
    simp only [hz] at h0 ⊢
    by_cases ha7 : a = 7
    · simp [ha7] at h0
    obtain ⟨_, s2, s3⟩ := ffzFrom_some _ _ _ _ hz
    have hlow := ffzFrom_lowest _ _ _ _ hz
    simp only [ha7, if_false, hal] at h0 ⊢
    by_cases hft : ft = CH_d
    · simp only [hft, if_true] at h0 ⊢
      cases hba : block_store_allocate fs.BlockStore_whole with
      | none => simp [hba] at h0
      | some r =>
        obtain ⟨b, w⟩ := r
        have hbm : b % 65536 < 65536 := Nat.mod_lt _ (by decide)
        simp only [hba, sub_write_spec _ _ _ hi, Option.getD_some, hpn, sub_write_spec _ _ _ hp,
          block_store_write_spec _ _ _ hbm, block_store_write_spec _ _ _ hb]
        refine ⟨?_, ?_, a, by omega, fun k hk => hlow k (Nat.zero_le _) hk, s3, ?_⟩
        · exact upd_true_mono _ _ _ hpa
        · simp
        · simp
    · simp only [hft, if_false, sub_write_spec _ _ _ hi, Option.getD_some, hpn,
        sub_write_spec _ _ _ hp, block_store_write_spec _ _ _ hb]
      refine ⟨upd_true_mono _ _ _ hpa, by simp, a, by omega,
        fun k hk => hlow k (Nat.zero_le _) hk, s3, by simp⟩

/-- Successful creates in directory `p` fill its occupancy bits from the
lowest on: with bits `0..j-1` set before, bits `0..j+n-1` are set after `n`
of them. -/
theorem createAll_bits (p : Nat) : ∀ (cs : List createCall) (fs0 : F17FS) (j : Nat),
    (∀ k, k < j → bitmap_test (fs0.BlockStore_inode.data p).vacantFile k = true) →
    fs0.BlockStore_inode.fbm p = true →
    (fs0.BlockStore_inode.data p).inodeNumber = p →
    createAllIn fs0 p cs = true →
    ∀ k, k < j + cs.length →
      bitmap_test ((createAll fs0 cs).BlockStore_inode.data p).vacantFile k = true := by
  intro cs
  induction cs with
  | nil => intro fs0 j hj _ _ _ k hk; exact hj k (by simpa using hk)
  | cons c cs ih =>
    intro fs0 j hj hpa hpn hin k hk
    unfold createAllIn at hin
    simp only [Bool.and_eq_true, decide_eq_true_eq] at hin
    obtain ⟨⟨hres, h0⟩, hrest⟩ := hin
    obtain ⟨heq, hnf⟩ := fs_create_ok_eq fs0 c.path c.type c.junk c.junkName p h0 hres
    rw [heq] at h0
    obtain ⟨g1, g2, a, ha, hlow, hclear, hv⟩ := fs_create_at_ok fs0 p _ _ _ _ h0 hnf hpa hpn
    unfold createAll
    rw [heq] at hrest ⊢
    refine ih _ (j + 1) ?_ g1 g2 hrest k (by simp only [List.length_cons] at hk; omega)
    intro k2 hk2
    rw [hv, bitmap_test_set]
    by_cases hka : a = k2
    · simp [hka]
    · have haj : ¬ a < j := by
        intro h; rw [hj a h] at hclear; cases hclear
      by_cases hk3 : k2 < j
      · simp [hj k2 hk3]
      · simp [hlow k2 (by omega)]

end F17

/-! ## Removal with an open descriptor (C15) -/

namespace F17

set_option maxRecDepth 100000 in
/-- C15: what `fs_remove` does when a descriptor is open.  On the image with
the regular file `"/a"` (inode 1, link count 1) open on descriptor 0,
`fs_remove("/a")` returns `-7`, the inode stays allocated and the entry stays
in the root directory; only the descriptor is closed.  On the image where the
open descriptor is on another file, `"/b"`, `fs_remove("/a")` returns `-7` as
well and removes nothing.  On the image `exFs`, where `"/a"` holds the blocks
34..39 and is open on descriptor 0, `fs_remove("/a")` returns `-7` after it has
released the six blocks: the inode stays allocated, with its pointers, and the
entry stays in the root directory. -/
theorem fs_remove_open_descriptor :
    getFileInodeID exAOpen 0 [97] = 1 ∧
    (exAOpen.BlockStore_inode.data 1).fileType = CH_r ∧
    (exAOpen.BlockStore_inode.data 1).linkCount = 1 ∧
    block_store_sub_test exAOpen.BlockStore_fd 0 = true ∧
    (exAOpen.BlockStore_fd.data 0).inodeNum = 1 ∧
    (fs_remove exAOpen [47, 97] exJunk (fun _ => 0)).1 = -7 ∧
    block_store_sub_test (fs_remove exAOpen [47, 97] exJunk (fun _ => 0)).2.BlockStore_inode 1
      = true ∧
    getFileInodeID (fs_remove exAOpen [47, 97] exJunk (fun _ => 0)).2 0 [97] = 1 ∧
    block_store_sub_test (fs_remove exAOpen [47, 97] exJunk (fun _ => 0)).2.BlockStore_fd 0
      = false ∧
    (fs_remove exABOpen [47, 97] exJunk (fun _ => 0)).1 = -7 ∧
    getFileInodeID (fs_remove exABOpen [47, 97] exJunk (fun _ => 0)).2 0 [97] = 1 ∧
    block_store_sub_test (fs_remove exABOpen [47, 97] exJunk (fun _ => 0)).2.BlockStore_inode 1
      = true ∧
    (fs_remove exFs [47, 97] exJunk (fun _ => 0)).1 = -7 ∧
    (∀ b, b < 6 → block_store_test exFs.BlockStore_whole (34 + b) = true ∧
      block_store_test (fs_remove exFs [47, 97] exJunk (fun _ => 0)).2.BlockStore_whole (34 + b)
        = false) ∧
    block_store_sub_test (fs_remove exFs [47, 97] exJunk (fun _ => 0)).2.BlockStore_inode 1
      = true ∧
    getFileInodeID (fs_remove exFs [47, 97] exJunk (fun _ => 0)).2 0 [97] = 1 ∧
    ((fs_remove exFs [47, 97] exJunk (fun _ => 0)).2.BlockStore_inode.data 1).directPointer 0
      = 34 ∧
    block_store_sub_test (fs_remove exFs [47, 97] exJunk (fun _ => 0)).2.BlockStore_fd 0
      = false := by
  decide

end F17

/-! ## Removal of a directory (C16) -/

namespace F17

theorem testBit_sub_two_pow : ∀ (k v j : Nat), v.testBit k = true →
    (v - 2 ^ k).testBit j = (v.testBit j && !decide (j = k)) := by
  intro k
  induction k with
  | zero =>
    intro v j h
    rw [Nat.testBit_zero] at h
    have hv : v % 2 = 1 := by simpa using h
    cases j with
    | zero =>
      rw [Nat.testBit_zero]
      have : (v - 2 ^ 0) % 2 = 0 := by simp; omega
      rw [this]; simp
    | succ j =>
      rw [Nat.testBit_succ, Nat.testBit_succ]
      have : (v - 2 ^ 0) / 2 = v / 2 := by simp; omega
      rw [this]; simp
  | succ k ih =>
    intro v j h
    rw [Nat.testBit_succ] at h
    have hge := Nat.testBit_implies_ge h
    cases j with
    | zero =>
      rw [Nat.testBit_zero, Nat.testBit_zero]
      have : (v - 2 ^ (k + 1)) % 2 = v % 2 := by
        rw [pow_succ]
        generalize 2 ^ k = p at hge ⊢
        omega
      rw [this]; simp
    | succ j =>
      rw [Nat.testBit_succ, Nat.testBit_succ]
      have : (v - 2 ^ (k + 1)) / 2 = v / 2 - 2 ^ k := by
        rw [pow_succ]
        generalize 2 ^ k = p at hge ⊢
        omega
      rw [this, ih _ _ h]
      simp

theorem bitmap_test_reset (v k j : Nat) :
    bitmap_test (bitmap_reset v k) j = (bitmap_test v j && !decide (j = k)) := by
  unfold bitmap_test bitmap_reset
  by_cases h : v.testBit k = true
  · rw [if_pos h, Nat.one_shiftLeft, testBit_sub_two_pow _ _ _ h]
  · rw [if_neg h]
    by_cases hjk : j = k
    · subst hjk; simp at h; simp [h]
    · simp [hjk]

theorem firstMatch_some (v : Nat) (blk : Block) (name : List Nat) (len : Nat) :
    ∀ (n m k : Nat), firstMatch v blk name len n m = some k →
    m ≤ k ∧ k < m + n ∧ bitmap_test v k = true ∧
    strncmpEq (dentryName blk k) (cstr name) len 0 = true ∧
    ∀ j, m ≤ j → j < k →
      ¬ (bitmap_test v j = true ∧ strncmpEq (dentryName blk j) (cstr name) len 0 = true) := by
  intro n
  induction n with
  | zero => intro m k h; simp [firstMatch] at h
  | succ n ih =>
    intro m k h
    unfold firstMatch at h
    by_cases hc : bitmap_test v m = true ∧
        strncmpEq (dentryName blk m) (cstr name) len 0 = true
    · rw [if_pos hc] at h
      cases h
      exact ⟨le_refl _, by omega, hc.1, hc.2, fun j h1 h2 => absurd h2 (by omega)⟩
    · rw [if_neg hc] at h
      obtain ⟨h1, h2, h3, h4, h5⟩ := ih _ _ h
      refine ⟨by omega, by omega, h3, h4, ?_⟩
      intro j hj1 hj2
      by_cases hjm : j = m
      · rw [hjm]; exact hc
      · exact h5 j (by omega) hj2

theorem firstMatch_none (v : Nat) (blk : Block) (name : List Nat) (len : Nat) :
    ∀ (n m : Nat),
    (∀ j, m ≤ j → j < m + n →
      ¬ (bitmap_test v j = true ∧ strncmpEq (dentryName blk j) (cstr name) len 0 = true)) →
    firstMatch v blk name len n m = none := by
  intro n
  induction n with
  | zero => intro m _; rfl
  | succ n ih =>
    intro m h
    unfold firstMatch
    rw [if_neg (h m (le_refl _) (by omega))]
    exact ih _ (fun j h1 h2 => h j (by omega) (by omega))

/-- The scan of `getFileInodeID` yields the inode number of the first live
entry that matches over the length of the name. -/
theorem scanEntries_firstMatch (v : Nat) (blk : Block) (name : List Nat) :
    ∀ (n m : Nat), scanEntries v blk name n m =
      match firstMatch v blk name name.length n m with
      | some k => dentryInode blk k
      | none => 0 := by
  intro n
  induction n with
  | zero => intro m; rfl
  | succ n ih =>
    intro m
    unfold scanEntries firstMatch
    by_cases hc : bitmap_test v m = true ∧
        strncmpEq (dentryName blk m) (cstr name) name.length 0 = true
    · rw [if_pos hc, if_pos hc]
    · rw [if_neg hc, if_neg hc]; exact ih _

/-- The loop of `fs_remove` for a directory clears the first live entry that
matches over 64 bytes. -/
theorem clearDirEntry_firstMatch (name : List Nat) (v : Nat) (blk : Block) :
    ∀ (n m : Nat), clearDirEntry name n m v blk =
      match firstMatch v blk name 64 n m with
      | some k => (bitmap_reset v k, zeroDentry blk k)
      | none => (v, blk) := by
  intro n
  induction n with
  | zero => intro m; rfl
  | succ n ih =>
    intro m
    unfold clearDirEntry firstMatch FS_FNAME_MAX
    by_cases hc : bitmap_test v m = true ∧
        strncmpEq (dentryName blk m) (cstr name) 64 0 = true
    · rw [if_pos hc, if_pos hc]; rfl
    · rw [if_neg hc, if_neg hc]; exact ih _

theorem strncmpEq_congr (a a1 b : Nat → Nat) : ∀ (n i : Nat),
    (∀ t, i ≤ t → t < i + n → a1 t = a t) → strncmpEq a1 b n i = strncmpEq a b n i := by
  intro n
  induction n with
  | zero => intro i _; rfl
  | succ n ih =>
    intro i h
    unfold strncmpEq
    rw [h i (le_refl _) (by omega), ih (i + 1) (fun t h1 h2 => h t (by omega) (by omega))]

/-- A step of `searchPath` from directory `q` reads the inode of `q`, its data
block, and the type and number of the inodes the entries name. -/
theorem searchStep_congr (fs fs1 : F17FS) (q : Nat) (fn : List Nat)
    (hq : fs1.BlockStore_inode.data q = fs.BlockStore_inode.data q)
    (hblk : fs1.BlockStore_whole.data ((fs.BlockStore_inode.data q).directPointer 0) =
      fs.BlockStore_whole.data ((fs.BlockStore_inode.data q).directPointer 0))
    (hty : ∀ x, (fs1.BlockStore_inode.data x).fileType = (fs.BlockStore_inode.data x).fileType)
    (hnum : ∀ x, (fs1.BlockStore_inode.data x).inodeNumber =
      (fs.BlockStore_inode.data x).inodeNumber) :
    searchStep fs1 q fn = searchStep fs q fn := by
  unfold searchStep block_store_sub_read block_store_read
  by_cases hq2 : q < 256
  · simp only [hq2, if_true, hq]
    by_cases hB : (fs.BlockStore_inode.data q).directPointer 0 < BLOCK_STORE_NUM_BLOCKS
    · simp only [hB, if_true, hblk]
      by_cases hd : (fs.BlockStore_inode.data q).fileType ≠ CH_d
      · rw [if_pos hd, if_pos hd]
      · rw [if_neg hd, if_neg hd]
        congr 1
        funext acc j
        by_cases hx : dentryInode
            (fs.BlockStore_whole.data ((fs.BlockStore_inode.data q).directPointer 0)) j < 256
        · simp only [hx, if_true, hty, hnum]
        · simp only [hx, if_false]
    · simp only [hB, if_false]
  · simp only [hq2, if_false]

/-- The walk of `searchPath` is the same in two file systems that agree on the
directories it steps from. -/
theorem searchFrom_congr (fs fs1 : F17FS)
    (hty : ∀ x, (fs1.BlockStore_inode.data x).fileType = (fs.BlockStore_inode.data x).fileType)
    (hnum : ∀ x, (fs1.BlockStore_inode.data x).inodeNumber =
      (fs.BlockStore_inode.data x).inodeNumber) :
    ∀ (toks : List (List Nat)) (q : Nat),
    (∀ x, x ∈ searchTrace fs q toks →
      fs1.BlockStore_inode.data x = fs.BlockStore_inode.data x ∧
      fs1.BlockStore_whole.data ((fs.BlockStore_inode.data x).directPointer 0) =
        fs.BlockStore_whole.data ((fs.BlockStore_inode.data x).directPointer 0)) →
    searchFrom fs1 q toks = searchFrom fs q toks := by
  intro toks
  induction toks with
  | nil => intro q _; rfl
  | cons t ts ih =>
    intro q h
    unfold searchFrom
    have hq := h q (by unfold searchTrace; simp)
    rw [searchStep_congr fs fs1 q t hq.1 hq.2 hty hnum]
    cases hs : searchStep fs q t with
    | none => rfl
    | some nx =>
      simp only
      apply ih
      intro x hx
      apply h
      unfold searchTrace
      simp only [hs]
      exact List.mem_cons_of_mem _ hx

/-- The codes of `fs_open` are negative when the lookup of a basename of fewer
than 64 characters finds nothing. -/
theorem fs_open_neg (fs : F17FS) (path : List Nat) (d : Nat)
    (hd : searchPath fs (dirTokens path) = some d)
    (hl : (basename path).length < 64 → getFileInodeID fs d (basename path) = 0) :
    (fs_open fs path).1 < 0 := by
  unfold fs_open
  by_cases h1 : path.length ≤ 1
  · rw [if_pos h1]; simp
  rw [if_neg h1]
  by_cases h2 : path.head? ≠ some CH_slash
  · rw [if_pos h2]; simp
  rw [if_neg h2]
  by_cases h3 : path.getLast? = some CH_slash
  · rw [if_pos h3]; simp
  rw [if_neg h3]
  by_cases h4 : (baseName path).length ≥ 64
  · rw [if_pos h4]; simp
  rw [if_neg h4]
  have hb := baseName_eq_basename path (by intro h; subst h; simp at h1) h3
  rw [hb] at h4
  simp only [hd, hb, hl (by omega), if_true]
  simp

/-- A lookup that finds an entry has read the inode and the data block of the
directory. -/
theorem getFileInodeID_ne_zero (fs : F17FS) (d : Nat) (name : List Nat)
    (h : getFileInodeID fs d name ≠ 0) :
    d < 256 ∧ (fs.BlockStore_inode.data d).directPointer 0 < 65536 ∧
    getFileInodeID fs d name =
      scanEntries (fs.BlockStore_inode.data d).vacantFile
        (fs.BlockStore_whole.data ((fs.BlockStore_inode.data d).directPointer 0)) name 7 0 := by
  unfold getFileInodeID block_store_sub_read block_store_read BLOCK_STORE_NUM_BLOCKS at h ⊢
  by_cases hd : d < 256
  · simp only [hd, if_true] at h ⊢
    by_cases hB : (fs.BlockStore_inode.data d).directPointer 0 < 65536
    · simp only [hB, if_true] at h ⊢
      exact ⟨trivial, trivial, trivial⟩
    · simp [hB] at h
  · simp [hd] at h

/-- The call `fs_remove` makes for a path that resolves to a directory. -/
theorem fs_remove_eq_dir (fs : F17FS) (path : List Nat) (junk : inode) (junkBlk : Block)
    (d f : Nat)
    (h1 : path.length ≠ 0) (h2 : path.head? = some CH_slash)
    (hd : searchPath fs (dirTokens path) = some d)
    (hnr : ¬ (basename path = [CH_slash] ∧ dirTokens path = []))
    (hf : getFileInodeID fs d (basename path) = f) (hf0 : f ≠ 0)
    (hty : (fs.BlockStore_inode.data f).fileType = CH_d) :
    fs_remove fs path junk junkBlk =
      fs_remove_dir fs d f (fs.BlockStore_inode.data f) (basename path) junk junkBlk := by
  have hflt : f < 256 := hf ▸ getFileInodeID_lt fs d (basename path)
  unfold fs_remove
  rw [if_neg h1, if_neg (not_not.2 h2)]
  simp only [hd]
  rw [if_neg hnr]
  simp only [hf]
  rw [if_neg hf0]
  simp only [block_store_sub_read, hflt, if_true, Option.getD_some]
  rw [if_pos hty]

/-- The state after the removal of an empty directory `f` whose link count is
at most 1, from the readable directory `d`. -/
theorem fs_remove_dir_state (fs : F17FS) (d f : Nat) (name : List Nat) (junk : inode)
    (junkBlk : Block) (hd : d < 256)
    (hB : (fs.BlockStore_inode.data d).directPointer 0 < 65536)
    (hv : (fs.BlockStore_inode.data f).vacantFile = 0)
    (hlc : (fs.BlockStore_inode.data f).linkCount ≤ 1) :
    (fs_remove_dir fs d f (fs.BlockStore_inode.data f) name junk junkBlk).1 = 0 ∧
    (fs_remove_dir fs d f (fs.BlockStore_inode.data f) name junk junkBlk).2.BlockStore_inode.fbm =
      (if f < 256 then upd fs.BlockStore_inode.fbm f false else fs.BlockStore_inode.fbm) ∧
    (fs_remove_dir fs d f (fs.BlockStore_inode.data f) name junk junkBlk).2.BlockStore_inode.data =
      upd fs.BlockStore_inode.data d
        { fs.BlockStore_inode.data d with
          vacantFile := (clearDirEntry name 7 0 (fs.BlockStore_inode.data d).vacantFile
            (fs.BlockStore_whole.data ((fs.BlockStore_inode.data d).directPointer 0))).1 } ∧
    (fs_remove_dir fs d f (fs.BlockStore_inode.data f) name junk junkBlk).2.BlockStore_whole.fbm =
      (if (fs.BlockStore_inode.data f).directPointer 0 < 65536 then
        upd fs.BlockStore_whole.fbm ((fs.BlockStore_inode.data f).directPointer 0) false
       else fs.BlockStore_whole.fbm) ∧
    (fs_remove_dir fs d f (fs.BlockStore_inode.data f) name junk junkBlk).2.BlockStore_whole.data =
      upd fs.BlockStore_whole.data ((fs.BlockStore_inode.data d).directPointer 0)
        (clearDirEntry name 7 0 (fs.BlockStore_inode.data d).vacantFile
          (fs.BlockStore_whole.data ((fs.BlockStore_inode.data d).directPointer 0))).2 ∧
    (fs_remove_dir fs d f (fs.BlockStore_inode.data f) name junk junkBlk).2.BlockStore_fd =
      fs.BlockStore_fd := by
  unfold fs_remove_dir
  rw [if_pos (Or.inl hv)]
  simp only [block_store_sub_read, hd, if_true, Option.getD_some, block_store_read_spec _ _ hB,
    sub_write_spec _ _ _ hd, block_store_write_spec _ _ _ hB]
  rw [if_pos hlc]
  unfold block_store_release block_store_sub_release BLOCK_STORE_NUM_BLOCKS
  refine ⟨rfl, ?_, ?_, ?_, ?_, rfl⟩
  · by_cases h : f < 256
    · simp only [h, if_true]
    · simp only [h, if_false]
  · by_cases h : f < 256
    · simp only [h, if_true]
    · simp only [h, if_false]
  · by_cases h : (fs.BlockStore_inode.data f).directPointer 0 < 65536
    · simp only [h, if_true]
    · simp only [h, if_false]
  · by_cases h : (fs.BlockStore_inode.data f).directPointer 0 < 65536
    · simp only [h, if_true]
    · simp only [h, if_false]

/-- Directory removal through the lookup: for a path other than the root whose
parent resolves to `d` and whose basename the lookup in `d` resolves to a
directory inode `f` with link count at most 1, `fs_remove` returns 0 if and
only if `f` has no live entries (`vacantFile = 0`); when `f` has a live entry
the call returns -5 and changes nothing; when it succeeds the data block and
the inode of `f` are released, and when the entry the lookup took (the first
live entry `k` that begins with the basename) is also the first live entry
whose 64 name bytes equal the basename, that entry is zeroed and its occupancy
bit cleared, nothing else in the directory changing; when moreover no other
live entry of `d` begins with the basename and the walk to `d` does not step
from `d` or from a directory that shares its data block, a later `fs_open` of
the same path fails. -/
theorem fs_remove_directory (fs : F17FS) (path : List Nat) (junk : inode) (junkBlk : Block)
    (d f : Nat)
    (h1 : path.length ≠ 0) (h2 : path.head? = some CH_slash)
    (hd : searchPath fs (dirTokens path) = some d)
    (hnr : ¬ (basename path = [CH_slash] ∧ dirTokens path = []))
    (hf : getFileInodeID fs d (basename path) = f) (hf0 : f ≠ 0)
    (hty : (fs.BlockStore_inode.data f).fileType = CH_d)
    (hlc : (fs.BlockStore_inode.data f).linkCount ≤ 1) :
    ((fs_remove fs path junk junkBlk).1 = 0 ↔ (fs.BlockStore_inode.data f).vacantFile = 0) ∧
    ((fs.BlockStore_inode.data f).vacantFile ≠ 0 →
      fs_remove fs path junk junkBlk = (-5, fs)) ∧
    ((fs.BlockStore_inode.data f).vacantFile = 0 →
      block_store_sub_test (fs_remove fs path junk junkBlk).2.BlockStore_inode f = false ∧
      block_store_test (fs_remove fs path junk junkBlk).2.BlockStore_whole
        ((fs.BlockStore_inode.data f).directPointer 0) = false ∧
      (fs_remove fs path junk junkBlk).2.BlockStore_fd = fs.BlockStore_fd ∧
      ∀ k,
        firstMatch (fs.BlockStore_inode.data d).vacantFile
          (fs.BlockStore_whole.data ((fs.BlockStore_inode.data d).directPointer 0))
          (basename path) (basename path).length 7 0 = some k →
        firstMatch (fs.BlockStore_inode.data d).vacantFile
          (fs.BlockStore_whole.data ((fs.BlockStore_inode.data d).directPointer 0))
          (basename path) 64 7 0 = some k →
        bitmap_test ((fs_remove fs path junk junkBlk).2.BlockStore_inode.data d).vacantFile k
          = false ∧
        (∀ j, j ≠ k →
          bitmap_test ((fs_remove fs path junk junkBlk).2.BlockStore_inode.data d).vacantFile j
            = bitmap_test (fs.BlockStore_inode.data d).vacantFile j) ∧
        (∀ t, t ≤ 64 → (fs_remove fs path junk junkBlk).2.BlockStore_whole.data
          ((fs.BlockStore_inode.data d).directPointer 0) (65 * k + t) = 0) ∧
        (∀ b o, ¬ (b = (fs.BlockStore_inode.data d).directPointer 0 ∧
            65 * k ≤ o ∧ o ≤ 65 * k + 64) →
          (fs_remove fs path junk junkBlk).2.BlockStore_whole.data b o =
            fs.BlockStore_whole.data b o) ∧
        (∀ j, j ≠ d → (fs_remove fs path junk junkBlk).2.BlockStore_inode.data j =
          fs.BlockStore_inode.data j) ∧
        (fs_remove fs path junk junkBlk).2.BlockStore_inode.data d =
          { fs.BlockStore_inode.data d with
            vacantFile := bitmap_reset (fs.BlockStore_inode.data d).vacantFile k } ∧
        ((∀ j, j < 7 → j ≠ k → bitmap_test (fs.BlockStore_inode.data d).vacantFile j = true →
            strncmpEq (dentryName (fs.BlockStore_whole.data
              ((fs.BlockStore_inode.data d).directPointer 0)) j) (cstr (basename path))
              (basename path).length 0 = false) →
          (∀ q, q ∈ searchTrace fs 0 (dirTokens path) →
            q ≠ d ∧ (fs.BlockStore_inode.data q).directPointer 0 ≠
              (fs.BlockStore_inode.data d).directPointer 0) →
          (fs_open (fs_remove fs path junk junkBlk).2 path).1 < 0)) := by
  have heq := fs_remove_eq_dir fs path junk junkBlk d f h1 h2 hd hnr hf hf0 hty
  obtain ⟨hdlt, hB, hscan⟩ := getFileInodeID_ne_zero fs d (basename path) (by rw [hf]; exact hf0)
  have hflt : f < 256 := hf ▸ getFileInodeID_lt fs d (basename path)
  have hneg : (fs.BlockStore_inode.data f).vacantFile ≠ 0 →
      fs_remove fs path junk junkBlk = (-5, fs) := by
    intro hv
    rw [heq]
    unfold fs_remove_dir
    rw [if_neg (by rintro (h | h); exact hv h; omega)]
  refine ⟨⟨fun h0 => ?_, fun hv => ?_⟩, hneg, fun hv => ?_⟩
  · by_contra hv
    rw [hneg hv] at h0
    simp at h0
  · rw [heq]
    exact (fs_remove_dir_state fs d f (basename path) junk junkBlk hdlt hB hv hlc).1
  obtain ⟨_, e1, e2, e3, e4, e5⟩ :=
    fs_remove_dir_state fs d f (basename path) junk junkBlk hdlt hB hv hlc
  rw [← heq] at e1 e2 e3 e4 e5
  refine ⟨?_, ?_, e5, ?_⟩
  · unfold block_store_sub_test
    rw [e1]; simp [hflt]
  · unfold block_store_test BLOCK_STORE_NUM_BLOCKS
    rw [e3]
    by_cases h : (fs.BlockStore_inode.data f).directPointer 0 < 65536
    · simp [h]
    · simp [h]
  intro k hk1 hk2
  rw [clearDirEntry_firstMatch, hk2] at e2 e4
  simp only at e2 e4
  obtain ⟨_, hk7, hlive, hmatch, hfirst⟩ := firstMatch_some _ _ _ _ _ _ _ hk1
  have hframe : ∀ b o, ¬ (b = (fs.BlockStore_inode.data d).directPointer 0 ∧
      65 * k ≤ o ∧ o ≤ 65 * k + 64) →
      (fs_remove fs path junk junkBlk).2.BlockStore_whole.data b o =
        fs.BlockStore_whole.data b o := by
    intro b o hbo
    rw [e4]
    by_cases hb : b = (fs.BlockStore_inode.data d).directPointer 0
    · subst hb
      have c1 : ¬ (o = 65 * k + 64) := by omega
      have c2 : ¬ (65 * k ≤ o ∧ o < 65 * k + FS_FNAME_MAX) := by
        unfold FS_FNAME_MAX; omega
      simp only [upd_same, zeroDentry, c1, c2, if_false]
    · rw [upd_other _ _ _ _ hb]
  have hbits : ∀ j, j ≠ k →
      bitmap_test ((fs_remove fs path junk junkBlk).2.BlockStore_inode.data d).vacantFile j
        = bitmap_test (fs.BlockStore_inode.data d).vacantFile j := by
    intro j hj
    rw [e2, upd_same]
    simp [bitmap_test_reset, hj]
  have hothers : ∀ j, j ≠ d → (fs_remove fs path junk junkBlk).2.BlockStore_inode.data j =
      fs.BlockStore_inode.data j := by
    intro j hj
    rw [e2, upd_other _ _ _ _ hj]
  have hmeta : (fs_remove fs path junk junkBlk).2.BlockStore_inode.data d =
      { fs.BlockStore_inode.data d with
        vacantFile := bitmap_reset (fs.BlockStore_inode.data d).vacantFile k } := by
    rw [e2, upd_same]
  refine ⟨?_, hbits, ?_, hframe, hothers, hmeta, ?_⟩
  · rw [e2, upd_same]
    simp [bitmap_test_reset]
  · intro t ht
    rw [e4, upd_same]
    unfold zeroDentry FS_FNAME_MAX
    by_cases c : t = 64
    · subst c; simp
    · have c2 : 65 * k ≤ 65 * k + t ∧ 65 * k + t < 65 * k + 64 := by omega
      simp only [c2, and_self, if_true]
  · intro hU htrace
    have hty1 : ∀ x, ((fs_remove fs path junk junkBlk).2.BlockStore_inode.data x).fileType =
        (fs.BlockStore_inode.data x).fileType := by
      intro x
      by_cases hx : x = d
      · rw [hx, hmeta]
      · rw [hothers x hx]
    have hnum1 : ∀ x, ((fs_remove fs path junk junkBlk).2.BlockStore_inode.data x).inodeNumber =
        (fs.BlockStore_inode.data x).inodeNumber := by
      intro x
      by_cases hx : x = d
      · rw [hx, hmeta]
      · rw [hothers x hx]
    have hsp : searchPath (fs_remove fs path junk junkBlk).2 (dirTokens path) = some d := by
      unfold searchPath at hd ⊢
      rw [searchFrom_congr fs _ hty1 hnum1 _ _ ?_]
      · exact hd
      · intro x hx
        obtain ⟨hx1, hx2⟩ := htrace x hx
        exact ⟨hothers x hx1, funext (fun o => hframe _ o (fun h => hx2 h.1))⟩
    apply fs_open_neg _ path d hsp
    intro hlen
    unfold getFileInodeID
    simp only [block_store_sub_read, hdlt, if_true]
    have hdp : ((fs_remove fs path junk junkBlk).2.BlockStore_inode.data d).directPointer 0 =
        (fs.BlockStore_inode.data d).directPointer 0 := by
      rw [hmeta]
    rw [hdp, block_store_read_spec _ _ hB]
    simp only
    rw [scanEntries_firstMatch, firstMatch_none]
    intro j _ hj7 ⟨hjl, hjm⟩
    by_cases hjk : j = k
    · subst hjk
      rw [e2, upd_same] at hjl
      simp [bitmap_test_reset] at hjl
    · rw [hbits j hjk] at hjl
      have hno := hU j (by omega) hjk hjl
      rw [strncmpEq_congr (dentryName (fs.BlockStore_whole.data
        ((fs.BlockStore_inode.data d).directPointer 0)) j)] at hjm
      · rw [hno] at hjm; cases hjm
      · intro t _ ht
        unfold dentryName
        apply hframe
        rintro ⟨_, c1, c2⟩
        omega

set_option maxRecDepth 100000 in
/-- The removal of the empty directory on the image with the directory `"/d"`: `fs_remove("/d")`
returns 0, releases inode 1, and a later `fs_open("/d")` fails. -/
theorem fs_remove_directory_witness :
    (fs_remove exD [47, 100] exJunk (fun _ => 0)).1 = 0 ∧
    block_store_sub_test (fs_remove exD [47, 100] exJunk (fun _ => 0)).2.BlockStore_inode 1
      = false ∧
    bitmap_test ((fs_remove exD [47, 100] exJunk (fun _ => 0)).2.BlockStore_inode.data
      0).vacantFile 0 = false ∧
    (fs_open (fs_remove exD [47, 100] exJunk (fun _ => 0)).2 [47, 100]).1 < 0 :=
  have h := fs_remove_directory exD [47, 100] exJunk (fun _ => 0) 0 1 (by decide) (by decide)
    (by decide) (by decide) (by decide) (by decide) (by decide) (by decide)
  have h3 := h.2.2 (by decide)
  have h4 := h3.2.2.2 0 (by decide) (by decide)
  ⟨h.1.2 (by decide), h3.1, h4.1, h4.2.2.2.2.2.2 (by decide) (by decide)⟩

set_option maxRecDepth 100000 in
/-- C16: directory removal on the image `exDirs`, whose root directory has the live
entries `"ab"` (slot 0, inode 1, an empty directory) and `"a"` (slot 1, inode
2, a directory with link count 1 and one live entry).  `fs_remove("/a")`
returns 0 although the directory `"a"` is not empty: the lookup of `"a"` takes
the entry `"ab"`, the block and the inode of `"ab"` are released and its entry
stays, while the entry `"a"` is zeroed and inode 2 stays allocated. -/
theorem fs_remove_directory_prefix :
    bitmap_test (exDirs.BlockStore_inode.data 0).vacantFile 1 = true ∧
    strcmpEq (dentryName (exDirs.BlockStore_whole.data
      ((exDirs.BlockStore_inode.data 0).directPointer 0)) 1) [97] = true ∧
    dentryInode (exDirs.BlockStore_whole.data
      ((exDirs.BlockStore_inode.data 0).directPointer 0)) 1 = 2 ∧
    (exDirs.BlockStore_inode.data 2).fileType = CH_d ∧
    (exDirs.BlockStore_inode.data 2).linkCount = 1 ∧
    (exDirs.BlockStore_inode.data 2).vacantFile ≠ 0 ∧
    (fs_remove exDirs [47, 97] exJunk (fun _ => 0)).1 = 0 ∧
    block_store_sub_test (fs_remove exDirs [47, 97] exJunk (fun _ => 0)).2.BlockStore_inode 2
      = true ∧
    block_store_sub_test (fs_remove exDirs [47, 97] exJunk (fun _ => 0)).2.BlockStore_inode 1
      = false ∧
    bitmap_test ((fs_remove exDirs [47, 97] exJunk (fun _ => 0)).2.BlockStore_inode.data
      0).vacantFile 0 = true ∧
    bitmap_test ((fs_remove exDirs [47, 97] exJunk (fun _ => 0)).2.BlockStore_inode.data
      0).vacantFile 1 = false := by
  decide

end F17

/-! ## Removal of a regular file releases its blocks (C14) -/

namespace F17

theorem clearedTo_refl (bs : block_store Block) : ClearedTo bs bs [] :=
  ⟨rfl, fun y => by simp⟩

theorem clearedTo_test (bs0 bs : block_store Block) (S : List Nat) (h : ClearedTo bs0 bs S)
    (q : Nat) : block_store_test bs q = (block_store_test bs0 q && !decide (q ∈ S)) := by
  unfold block_store_test
  rw [h.2 q, Bool.and_assoc]

theorem clearedTo_release (bs0 bs : block_store Block) (S : List Nat) (h : ClearedTo bs0 bs S)
    (p : Nat) (hp : p < 65536) : ClearedTo bs0 (block_store_release bs p) (S ++ [p]) := by
  unfold block_store_release BLOCK_STORE_NUM_BLOCKS
  rw [if_pos hp]
  refine ⟨h.1, fun y => ?_⟩
  by_cases hy : y = p
  · subst hy; simp
  · simp only [upd_other _ _ _ _ hy, h.2 y, List.mem_append, List.mem_singleton, hy, or_false]

theorem clearedTo_releaseIf (bs0 bs : block_store Block) (S : List Nat)
    (h : ClearedTo bs0 bs S) (p : Nat) (hp : p ≠ 0) (hp2 : p < 65536) :
    ClearedTo bs0 (releaseIf bs p) (S ++ [p]) := by
  unfold releaseIf
  by_cases ht : block_store_test bs p = true
  · rw [if_pos ⟨hp, ht⟩]; exact clearedTo_release bs0 bs S h p hp2
  · rw [if_neg (fun c => ht c.2)]
    refine ⟨h.1, fun y => ?_⟩
    by_cases hy : y = p
    · subst hy
      have : bs.fbm y = false := by
        unfold block_store_test BLOCK_STORE_NUM_BLOCKS at ht
        simpa [hp2] using ht
      rw [this]; simp
    · simp only [h.2 y, List.mem_append, List.mem_singleton, hy, or_false]

theorem releaseIf_zero (bs : block_store Block) : releaseIf bs 0 = bs := by
  unfold releaseIf; simp

/-- The loop over a pointer table clears the non-zero entries. -/
theorem clearedTo_releaseEntries (bs0 : block_store Block) (table : Nat → Nat) :
    ∀ (n j : Nat) (bs : block_store Block) (S : List Nat), ClearedTo bs0 bs S →
    (∀ x, j ≤ x → x < j + n → table x ≠ 0 → table x < 65536) →
    ClearedTo bs0 (releaseEntries table n j bs)
      (S ++ ((List.range' j n).map table).filter (fun x => decide (x ≠ 0))) := by
  intro n
  induction n with
  | zero => intro j bs S h _; simpa [releaseEntries] using h
  | succ n ih =>
    intro j bs S h hb
    unfold releaseEntries
    rw [List.range'_succ, List.map_cons, List.filter_cons]
    by_cases hz : table j = 0
    · rw [hz, releaseIf_zero]
      simp only [ne_eq, not_true_eq_false, decide_False, Bool.false_eq_true, if_false]
      exact ih (j + 1) bs S h (fun x h1 h2 => hb x (by omega) (by omega))
    · have h1 := clearedTo_releaseIf bs0 bs S h (table j) hz (hb j (le_refl _) (by omega) hz)
      have h2 := ih (j + 1) _ _ h1 (fun x h1 h2 => hb x (by omega) (by omega))
      simp only [ne_eq, hz, not_false_eq_true, decide_True, if_true]
      simpa [List.append_assoc] using h2

/-- The loop over the outer index clears, for each non-zero entry, the leaves of
the inner index and the inner index, when these blocks are marked and all
different. -/
theorem clearedTo_releaseOuter (fs : F17FS) (o : Nat) :
    ∀ (n j : Nat) (bs : block_store Block) (S : List Nat),
    ClearedTo fs.BlockStore_whole bs S →
    (S ++ (List.range' j n).flatMap (innerRefs fs o)).Nodup →
    (∀ y, y ∈ (List.range' j n).flatMap (innerRefs fs o) →
      block_store_test fs.BlockStore_whole y = true) →
    (releaseOuter (tableAt fs o) n j bs).1 = true ∧
    ClearedTo fs.BlockStore_whole (releaseOuter (tableAt fs o) n j bs).2
      (S ++ (List.range' j n).flatMap (innerRefs fs o)) := by
  intro n
  induction n with
  | zero => intro j bs S h _ _; simpa [releaseOuter] using h
  | succ n ih =>
    intro j bs S h hnd hmark
    unfold releaseOuter
    rw [List.range'_succ, List.flatMap_cons] at hnd hmark ⊢
    by_cases hz : tableAt fs o j = 0
    · have he : innerRefs fs o j = [] := by unfold innerRefs; simp [hz]
      rw [he, List.nil_append] at hnd hmark ⊢
      rw [if_neg (fun c => c.1 hz)]
      exact ih (j + 1) bs S h hnd hmark
    · have he : innerRefs fs o j = tableRefs fs (tableAt fs o j) ++ [tableAt fs o j] := by
        unfold innerRefs; simp [hz]
      rw [he] at hnd hmark ⊢
      have hm := hmark (tableAt fs o j) (by simp)
      have hlt := test_lt _ _ hm
      have hnS : tableAt fs o j ∉ S := by
        intro hin
        have hd := (List.nodup_append.1 hnd).2.2
        exact hd hin (by simp)
      have ht : block_store_test bs (tableAt fs o j) = true := by
        rw [clearedTo_test _ _ _ h, hm]; simp [hnS]
      rw [if_pos ⟨hz, ht⟩, block_store_read_spec _ _ hlt]
      simp only
      have h1 := clearedTo_releaseEntries fs.BlockStore_whole
        (tableOfBlock (bs.data (tableAt fs o j))) 256 0 bs S h
        (fun x _ _ _ => tableOfBlock_lt _ _)
      rw [h.1] at h1 ⊢
      have h2 := clearedTo_release _ _ _ h1 (tableAt fs o j) hlt
      have h3 := ih (j + 1) _ _ h2
        (by
          have : S ++ (tableRefs fs (tableAt fs o j) ++ [tableAt fs o j] ++
              (List.range' (j + 1) n).flatMap (innerRefs fs o)) =
              S ++ List.filter (fun x => decide (x ≠ 0))
                (List.map (tableOfBlock (fs.BlockStore_whole.data (tableAt fs o j)))
                  (List.range' 0 256)) ++ [tableAt fs o j] ++
              (List.range' (j + 1) n).flatMap (innerRefs fs o) := by
            unfold tableRefs tableAt
            simp only [List.append_assoc]
          rw [← this]; exact hnd)
        (fun y hy => hmark y (List.mem_append_right _ hy))
      have e : S ++ (tableRefs fs (tableAt fs o j) ++ [tableAt fs o j] ++
          (List.range' (j + 1) n).flatMap (innerRefs fs o)) =
          S ++ List.filter (fun x => decide (x ≠ 0))
            (List.map (tableOfBlock (fs.BlockStore_whole.data (tableAt fs o j)))
              (List.range' 0 256)) ++ [tableAt fs o j] ++
          (List.range' (j + 1) n).flatMap (innerRefs fs o) := by
        unfold tableRefs tableAt
        simp only [List.append_assoc]
      rw [e]
      exact h3

/-- Clearing marked bits of a list without duplicates raises the count of clear
bits by the length of the list. -/
theorem countFreeFrom_cleared (N : Nat) : ∀ (S : List Nat) (bm : Nat → Bool), S.Nodup →
    (∀ y, y ∈ S → y < N ∧ bm y = true) →
    countFreeFrom (fun y => bm y && !decide (y ∈ S)) N 0 = countFreeFrom bm N 0 + S.length := by
  intro S
  induction S with
  | nil => intro bm _ _; simp
  | cons p S ih =>
    intro bm hnd hm
    have hp := hm p (by simp)
    obtain ⟨hpS, hndS⟩ := List.nodup_cons.1 hnd
    have e : (fun y => bm y && !decide (y ∈ p :: S)) =
        (fun y => upd bm p false y && !decide (y ∈ S)) := by
      funext y
      by_cases hy : y = p
      · subst hy; simp
      · simp [upd_other _ _ _ _ hy, hy]
    rw [e, ih (upd bm p false) hndS ?_]
    · have e2 : upd (upd bm p false) p true = bm := by
        funext y
        by_cases hy : y = p
        · subst hy; simp [hp.2]
        · simp [upd_other _ _ _ _ hy]
      have h1 := countFreeFrom_set (upd bm p false) p (by simp) N 0 (Nat.zero_le _)
        (by omega)
      rw [e2] at h1
      simp only [List.length_cons]
      omega
    · intro y hy
      have hyp : y ≠ p := fun c => hpS (c ▸ hy)
      rw [upd_other _ _ _ _ hyp]
      exact hm y (List.mem_cons_of_mem _ hy)

/-- The release through the double-indirect pointer, from a store in which the
blocks of `S` are released already. -/
theorem releaseDouble_ok (fs : F17FS) (ino : inode) (w2 : block_store Block) (S : List Nat)
    (hC : ClearedTo fs.BlockStore_whole w2 S)
    (hnd : (S ++ doubleRefs fs ino).Nodup)
    (hmark : ∀ y, y ∈ doubleRefs fs ino → block_store_test fs.BlockStore_whole y = true) :
    ∃ w,
      (if ino.doubleIndirectPointer ≠ 0 ∧
          block_store_test w2 ino.doubleIndirectPointer = true then
        match block_store_read w2 ino.doubleIndirectPointer with
        | some outerBlk =>
          if (releaseOuter (tableOfBlock outerBlk) 256 0 w2).1 = true then
            (Except.ok (block_store_release (releaseOuter (tableOfBlock outerBlk) 256 0 w2).2
              ino.doubleIndirectPointer) : Except (Int × block_store Block) (block_store Block))
          else Except.error (-10, (releaseOuter (tableOfBlock outerBlk) 256 0 w2).2)
        | none => Except.error (-9, w2)
       else Except.ok w2) = Except.ok w ∧
      ClearedTo fs.BlockStore_whole w (S ++ doubleRefs fs ino) := by
  by_cases hz : ino.doubleIndirectPointer = 0
  · have he : doubleRefs fs ino = [] := by unfold doubleRefs; simp [hz]
    rw [if_neg (fun c => c.1 hz), he, List.append_nil]
    exact ⟨_, rfl, hC⟩
  · have he : doubleRefs fs ino =
        (List.range' 0 256).flatMap (innerRefs fs ino.doubleIndirectPointer) ++
          [ino.doubleIndirectPointer] := by
      unfold doubleRefs; simp [hz]
    rw [he] at hnd hmark ⊢
    have hm := hmark ino.doubleIndirectPointer (by simp)
    have hlt := test_lt _ _ hm
    have hnS : ino.doubleIndirectPointer ∉ S := by
      intro hin
      have hd := (List.nodup_append.1 hnd).2.2
      exact hd hin (by simp)
    have ht : block_store_test w2 ino.doubleIndirectPointer = true := by
      rw [clearedTo_test _ _ _ hC, hm]; simp [hnS]
    rw [if_pos ⟨hz, ht⟩, block_store_read_spec _ _ hlt]
    simp only
    rw [hC.1]
    have hnd2 : (S ++
        (List.range' 0 256).flatMap (innerRefs fs ino.doubleIndirectPointer)).Nodup := by
      rw [← List.append_assoc] at hnd
      exact (List.nodup_append.1 hnd).1
    obtain ⟨r1, r2⟩ := clearedTo_releaseOuter fs ino.doubleIndirectPointer 256 0 w2 _ hC hnd2
      (fun y hy => hmark y (List.mem_append_left _ hy))
    have r1b : (releaseOuter (tableOfBlock (fs.BlockStore_whole.data ino.doubleIndirectPointer))
        256 0 w2).1 = true := r1
    rw [if_pos r1b]
    refine ⟨_, rfl, ?_⟩
    have h3 := clearedTo_release _ _ _ r2 ino.doubleIndirectPointer hlt
    rw [← List.append_assoc]
    exact h3

/-- The release of the blocks of a file whose references are marked and all
different succeeds and clears exactly these blocks. -/
theorem fs_remove_blocks_ok (fs : F17FS) (ino : inode)
    (hnd : (mapRefs fs ino).Nodup)
    (hmark : ∀ y, y ∈ mapRefs fs ino → block_store_test fs.BlockStore_whole y = true) :
    ∃ w, fs_remove_blocks fs.BlockStore_whole ino = .ok w ∧
      ClearedTo fs.BlockStore_whole w (mapRefs fs ino) := by
  unfold mapRefs at hnd hmark ⊢
  -- the direct pointers
  have hA : ClearedTo fs.BlockStore_whole
      (releaseEntries ino.directPointer 6 0 fs.BlockStore_whole) (directRefs ino) := by
    have h := clearedTo_releaseEntries fs.BlockStore_whole ino.directPointer 6 0 _ []
      (clearedTo_refl _) (fun x _ hx hz => test_lt _ _ (hmark _ (by
        apply List.mem_append_left; apply List.mem_append_left
        unfold directRefs
        simp only [List.mem_filter, List.mem_map, List.mem_range', decide_eq_true_eq]
        exact ⟨⟨x, ⟨x, by omega, by omega⟩, rfl⟩, hz⟩)))
    simpa [directRefs] using h
  unfold fs_remove_blocks
  dsimp only
  by_cases hz : ino.indirectPointer = 0
  · have he : indirectRefs fs ino = [] := by unfold indirectRefs; simp [hz]
    rw [if_neg (fun c => c.1 hz)]
    dsimp only
    rw [he, List.append_nil] at hnd hmark ⊢
    exact releaseDouble_ok fs ino _ _ hA hnd (fun y hy => hmark y (List.mem_append_right _ hy))
  · have he : indirectRefs fs ino =
        tableRefs fs ino.indirectPointer ++ [ino.indirectPointer] := by
      unfold indirectRefs; simp [hz]
    have hm := hmark ino.indirectPointer (by rw [he]; simp)
    have hlt := test_lt _ _ hm
    have hnS : ino.indirectPointer ∉ directRefs ino := by
      intro hin
      have hd := (List.nodup_append.1 (List.nodup_append.1 hnd).1).2.2
      exact hd hin (by rw [he]; simp)
    have ht : block_store_test (releaseEntries ino.directPointer 6 0 fs.BlockStore_whole)
        ino.indirectPointer = true := by
      rw [clearedTo_test _ _ _ hA, hm]; simp [hnS]
    rw [if_pos ⟨hz, ht⟩, block_store_read_spec _ _ hlt]
    dsimp only
    have h1 := clearedTo_releaseEntries fs.BlockStore_whole
      (tableOfBlock ((releaseEntries ino.directPointer 6 0 fs.BlockStore_whole).data
        ino.indirectPointer)) 256 0 _ _ hA (fun x _ _ _ => tableOfBlock_lt _ _)
    have h2 := clearedTo_release _ _ _ h1 ino.indirectPointer hlt
    have e : directRefs ino ++ indirectRefs fs ino =
        directRefs ino ++ List.filter (fun x => decide (x ≠ 0))
          (List.map (tableOfBlock ((releaseEntries ino.directPointer 6 0
            fs.BlockStore_whole).data ino.indirectPointer))
            (List.range' 0 256)) ++ [ino.indirectPointer] := by
      rw [he]
      unfold tableRefs tableAt
      rw [hA.1]
      simp only [List.append_assoc]
    rw [← e] at h2
    exact releaseDouble_ok fs ino _ _ h2 hnd (fun y hy => hmark y (List.mem_append_right _ hy))

theorem firstSetFrom_none (bm : Nat → Bool) : ∀ (n i : Nat),
    (∀ x, i ≤ x → x < i + n → bm x = false) → firstSetFrom bm n i = none := by
  intro n
  induction n with
  | zero => intro i _; rfl
  | succ n ih =>
    intro i h
    unfold firstSetFrom
    rw [h i (le_refl _) (by omega)]
    simp only [Bool.false_eq_true, if_false]
    exact ih (i + 1) (fun x h1 h2 => h x (by omega) (by omega))

/-- The call `fs_remove` makes for a path that resolves to a regular file. -/
theorem fs_remove_eq_file (fs : F17FS) (path : List Nat) (junk : inode) (junkBlk : Block)
    (d f : Nat)
    (h1 : path.length ≠ 0) (h2 : path.head? = some CH_slash)
    (hd : searchPath fs (dirTokens path) = some d)
    (hnr : ¬ (basename path = [CH_slash] ∧ dirTokens path = []))
    (hf : getFileInodeID fs d (basename path) = f) (hf0 : f ≠ 0)
    (hty : (fs.BlockStore_inode.data f).fileType = CH_r) :
    fs_remove fs path junk junkBlk =
      fs_remove_file fs d f (fs.BlockStore_inode.data f) (basename path) junk junkBlk := by
  have hflt : f < 256 := hf ▸ getFileInodeID_lt fs d (basename path)
  unfold fs_remove
  rw [if_neg h1, if_neg (not_not.2 h2)]
  simp only [hd]
  rw [if_neg hnr]
  simp only [hf]
  rw [if_neg hf0]
  simp only [block_store_sub_read, hflt, if_true, Option.getD_some]
  rw [if_neg (by rw [hty]; decide), if_pos hty]

/-- The end of `fs_remove` for a regular file returns 0 on a readable directory
and leaves the bitmaps and the descriptors as they are. -/
theorem fs_remove_tail_ok (fs : F17FS) (d : Nat) (name : List Nat) (junk : inode)
    (junkBlk : Block) (hd : d < 256)
    (hB : (fs.BlockStore_inode.data d).directPointer 0 < 65536) :
    (fs_remove_tail fs d name junk junkBlk).1 = 0 ∧
    (fs_remove_tail fs d name junk junkBlk).2.BlockStore_whole.fbm = fs.BlockStore_whole.fbm ∧
    (fs_remove_tail fs d name junk junkBlk).2.BlockStore_inode.fbm = fs.BlockStore_inode.fbm ∧
    (fs_remove_tail fs d name junk junkBlk).2.BlockStore_fd = fs.BlockStore_fd ∧
    (fs_remove_tail fs d name junk junkBlk).2.BlockStore_inode.data =
      upd fs.BlockStore_inode.data d
        { fs.BlockStore_inode.data d with
          vacantFile := (clearFileEntry name 7 0 (fs.BlockStore_inode.data d).vacantFile
            (fs.BlockStore_whole.data ((fs.BlockStore_inode.data d).directPointer 0))).1 } ∧
    (fs_remove_tail fs d name junk junkBlk).2.BlockStore_whole.data =
      upd fs.BlockStore_whole.data ((fs.BlockStore_inode.data d).directPointer 0)
        (clearFileEntry name 7 0 (fs.BlockStore_inode.data d).vacantFile
          (fs.BlockStore_whole.data ((fs.BlockStore_inode.data d).directPointer 0))).2 := by
  unfold fs_remove_tail
  simp only [block_store_sub_read, hd, if_true, Option.getD_some, block_store_read_spec _ _ hB,
    sub_write_spec _ _ _ hd, block_store_write_spec _ _ _ hB]
  exact ⟨trivial, trivial, trivial, trivial, trivial, trivial⟩

/-- C14. No block leak on removal: for a path other than the root that resolves
(parent `d`, lookup `f`) to a regular file with link count 1 whose block map
references marked blocks, no block twice, when no descriptor is allocated,
`fs_remove` returns 0; afterwards every block of the list `mapRefs` (each
non-zero direct pointer, the indirect index block and its non-zero entries,
the outer index, each inner index and each leaf) is free in the bitmap of the
whole store, the inode `f` is free, the free-block count has grown by exactly
the length of that list, and no other bit of the bitmap has changed. -/
theorem fs_remove_no_leak (fs : F17FS) (path : List Nat) (junk : inode) (junkBlk : Block)
    (d f : Nat)
    (h1 : path.length ≠ 0) (h2 : path.head? = some CH_slash)
    (hd : searchPath fs (dirTokens path) = some d)
    (hnr : ¬ (basename path = [CH_slash] ∧ dirTokens path = []))
    (hf : getFileInodeID fs d (basename path) = f) (hf0 : f ≠ 0)
    (hty : (fs.BlockStore_inode.data f).fileType = CH_r)
    (hlc : (fs.BlockStore_inode.data f).linkCount = 1)
    (hfd : ∀ i, i < 256 → block_store_sub_test fs.BlockStore_fd i = false)
    (hnd : (mapRefs fs (fs.BlockStore_inode.data f)).Nodup)
    (hmark : ∀ y, y ∈ mapRefs fs (fs.BlockStore_inode.data f) →
      block_store_test fs.BlockStore_whole y = true) :
    (fs_remove fs path junk junkBlk).1 = 0 ∧
    (∀ y, y ∈ mapRefs fs (fs.BlockStore_inode.data f) →
      block_store_test (fs_remove fs path junk junkBlk).2.BlockStore_whole y = false) ∧
    block_store_sub_test (fs_remove fs path junk junkBlk).2.BlockStore_inode f = false ∧
    block_store_get_free_blocks (fs_remove fs path junk junkBlk).2.BlockStore_whole =
      block_store_get_free_blocks fs.BlockStore_whole +
        (mapRefs fs (fs.BlockStore_inode.data f)).length ∧
    (∀ y, y ∉ mapRefs fs (fs.BlockStore_inode.data f) →
      (fs_remove fs path junk junkBlk).2.BlockStore_whole.fbm y = fs.BlockStore_whole.fbm y) := by
  have heq := fs_remove_eq_file fs path junk junkBlk d f h1 h2 hd hnr hf hf0 hty
  obtain ⟨hdlt, hB, _⟩ := getFileInodeID_ne_zero fs d (basename path) (by rw [hf]; exact hf0)
  have hflt : f < 256 := hf ▸ getFileInodeID_lt fs d (basename path)
  obtain ⟨w, hw, hC⟩ := fs_remove_blocks_ok fs (fs.BlockStore_inode.data f) hnd hmark
  have hnone : firstSetFrom fs.BlockStore_fd.fbm 256 0 = none := by
    apply firstSetFrom_none
    intro x _ hx
    have := hfd x (by omega)
    unfold block_store_sub_test at this
    simpa [show x < 256 by omega] using this
  have htail := fs_remove_tail_ok
    { fs with BlockStore_whole := w,
              BlockStore_inode := block_store_sub_release fs.BlockStore_inode f }
    d (basename path) junk junkBlk hdlt
    (by unfold block_store_sub_release; rw [if_pos hflt]; exact hB)
  have heq2 : fs_remove fs path junk junkBlk =
      fs_remove_tail
        { fs with BlockStore_whole := w,
                  BlockStore_inode := block_store_sub_release fs.BlockStore_inode f }
        d (basename path) junk junkBlk := by
    rw [heq]
    unfold fs_remove_file
    rw [if_neg (by omega)]
    simp only [hw, hnone]
  rw [← heq2] at htail
  obtain ⟨t1, t2, t3, _, _, _⟩ := htail
  have hfbm : ∀ y, (fs_remove fs path junk junkBlk).2.BlockStore_whole.fbm y =
      (fs.BlockStore_whole.fbm y &&
        !decide (y ∈ mapRefs fs (fs.BlockStore_inode.data f))) := by
    intro y; rw [t2]; exact hC.2 y
  refine ⟨t1, ?_, ?_, ?_, ?_⟩
  · intro y hy
    unfold block_store_test
    rw [hfbm y]; simp [hy]
  · unfold block_store_sub_test
    rw [t3]
    unfold block_store_sub_release
    rw [if_pos hflt]; simp
  · unfold block_store_get_free_blocks
    have e : (fs_remove fs path junk junkBlk).2.BlockStore_whole.fbm =
        (fun y => fs.BlockStore_whole.fbm y &&
          !decide (y ∈ mapRefs fs (fs.BlockStore_inode.data f))) := funext hfbm
    rw [e]
    apply countFreeFrom_cleared _ _ _ hnd
    intro y hy
    exact (test_iff _ _).1 (hmark y hy)
  · intro y hy
    rw [hfbm y]; simp [hy]

set_option maxRecDepth 100000 in
/-- Witness of C14 on the image `exBlocks`: `fs_remove("/a")` returns 0 and
frees the six direct blocks, the index block 50 and its entries 51 and 52. -/
theorem fs_remove_no_leak_witness :
    mapRefs exBlocks (exBlocks.BlockStore_inode.data 1) = [34, 35, 36, 37, 38, 39, 51, 52, 50] ∧
    (fs_remove exBlocks [47, 97] exJunk (fun _ => 0)).1 = 0 ∧
    (∀ y, y ∈ mapRefs exBlocks (exBlocks.BlockStore_inode.data 1) →
      block_store_test (fs_remove exBlocks [47, 97] exJunk (fun _ => 0)).2.BlockStore_whole y
        = false) ∧
    block_store_get_free_blocks (fs_remove exBlocks [47, 97] exJunk (fun _ => 0)).2.BlockStore_whole
      = block_store_get_free_blocks exBlocks.BlockStore_whole +
        (mapRefs exBlocks (exBlocks.BlockStore_inode.data 1)).length :=
  have h := fs_remove_no_leak exBlocks [47, 97] exJunk (fun _ => 0) 0 1 (by decide) (by decide)
    (by decide) (by decide) (by decide) (by decide) (by decide) (by decide)
    (fun _ _ => by simp [block_store_sub_test, exBlocks, block_store_sub_create])
    (by decide) (by decide)
  ⟨by decide, h.1, h.2.1, h.2.2.2.1⟩

/-- The release of the blocks of a file that has direct pointers only. -/
theorem fs_remove_blocks_direct (bs : block_store Block) (ino : inode)
    (hip : ino.indirectPointer = 0) (hdp : ino.doubleIndirectPointer = 0)
    (hb : ∀ x, x < 6 → ino.directPointer x < 65536) :
    ∃ w, fs_remove_blocks bs ino = .ok w ∧ ClearedTo bs w (directRefs ino) := by
  have hA : ClearedTo bs (releaseEntries ino.directPointer 6 0 bs) (directRefs ino) := by
    have h := clearedTo_releaseEntries bs ino.directPointer 6 0 _ []
      (clearedTo_refl _) (fun x _ hx _ => hb x (by omega))
    simpa [directRefs] using h
  unfold fs_remove_blocks
  dsimp only
  rw [if_neg (fun c => c.1 hip)]
  dsimp only
  rw [if_neg (fun c => c.1 hdp)]
  exact ⟨_, rfl, hA⟩

/-- Two block stores with the same bitmap do not differ by six free blocks. -/
theorem free_blocks_ne_add (a b : block_store Block) (h : a.fbm = b.fbm) :
    block_store_get_free_blocks a ≠ block_store_get_free_blocks b + 6 := by
  unfold block_store_get_free_blocks
  rw [h]
  omega

set_option maxRecDepth 100000 in
/-- On `exHalfRemoved` the call `fs_remove("/a")` takes the file branch. -/
theorem exHalfRemoved_file :
    fs_remove exHalfRemoved [47, 97] exJunk (fun _ => 0) =
      fs_remove_file exHalfRemoved 0 1 (exHalfRemoved.BlockStore_inode.data 1)
        (basename [47, 97]) exJunk (fun _ => 0) :=
  fs_remove_eq_file exHalfRemoved [47, 97] exJunk (fun _ => 0) 0 1
    (by decide) (by decide) (by decide) (by decide) (by decide) (by decide) (by decide)

set_option maxRecDepth 100000 in
/-- On `exHalfRemoved` the release of the blocks of `"/a"` succeeds. -/
theorem exHalfRemoved_blocks :
    ∃ w, fs_remove_blocks exHalfRemoved.BlockStore_whole
        (exHalfRemoved.BlockStore_inode.data 1) = .ok w ∧
      ClearedTo exHalfRemoved.BlockStore_whole w
        (directRefs (exHalfRemoved.BlockStore_inode.data 1)) :=
  fs_remove_blocks_direct exHalfRemoved.BlockStore_whole
    (exHalfRemoved.BlockStore_inode.data 1) (by decide) (by decide) (by decide)

set_option maxRecDepth 100000 in
/-- On `exHalfRemoved` the call `fs_remove("/a")` reaches the tail of the file
branch. -/
theorem exHalfRemoved_tail (w : block_store Block)
    (hw : fs_remove_blocks exHalfRemoved.BlockStore_whole
      (exHalfRemoved.BlockStore_inode.data 1) = .ok w) :
    fs_remove exHalfRemoved [47, 97] exJunk (fun _ => 0) =
      fs_remove_tail
        { exHalfRemoved with BlockStore_whole := w,
                             BlockStore_inode :=
                               block_store_sub_release exHalfRemoved.BlockStore_inode 1 }
        0 (basename [47, 97]) exJunk (fun _ => 0) := by
  have hnone : firstSetFrom exHalfRemoved.BlockStore_fd.fbm 256 0 = none := by decide
  rw [exHalfRemoved_file]
  unfold fs_remove_file
  rw [if_neg (by decide)]
  simp only [hw, hnone]

set_option maxRecDepth 100000 in
/-- On `exHalfRemoved` the call `fs_remove("/a")` returns 0 and leaves the
bitmap of the block store as it is. -/
theorem exHalfRemoved_same :
    (fs_remove exHalfRemoved [47, 97] exJunk (fun _ => 0)).1 = 0 ∧
    (fs_remove exHalfRemoved [47, 97] exJunk (fun _ => 0)).2.BlockStore_whole.fbm =
      exHalfRemoved.BlockStore_whole.fbm := by
  have hflt : (1 : Nat) < 256 := by norm_num
  obtain ⟨w, hw, hC⟩ := exHalfRemoved_blocks
  have htail := fs_remove_tail_ok
    { exHalfRemoved with BlockStore_whole := w,
                         BlockStore_inode :=
                           block_store_sub_release exHalfRemoved.BlockStore_inode 1 }
    0 (basename [47, 97]) exJunk (fun _ => 0) (by decide)
    (by unfold block_store_sub_release; rw [if_pos hflt]
        exact (by decide : (exHalfRemoved.BlockStore_inode.data 0).directPointer 0 < 65536))
  rw [← exHalfRemoved_tail w hw] at htail
  obtain ⟨t1, t2, _⟩ := htail
  have hfree : ∀ y, y ∈ directRefs (exHalfRemoved.BlockStore_inode.data 1) →
      exHalfRemoved.BlockStore_whole.fbm y = false := by decide
  refine ⟨t1, ?_⟩
  rw [t2]
  funext y
  rw [hC.2 y]
  by_cases hy : y ∈ directRefs (exHalfRemoved.BlockStore_inode.data 1)
  · rw [hfree y hy]; rfl
  · simp [hy]

set_option maxRecDepth 100000 in
/-- C14 fails as stated.  On the image `exHalfRemoved`, which a removal that
returned -7 has left, `"/a"` is a regular file with link count 1 whose block
map references the six blocks 34..39, and no descriptor is open;
`fs_remove("/a")` returns 0, but the free-block count does not grow by six: the
six blocks are free already, and the test of line 859 skips them.  On the image
`exAliased`, where the first direct pointer of `"/a"` names its indirect index
block 50, `fs_remove("/a")` returns 0 and the block 51, which the index
references, stays allocated. -/
theorem fs_remove_blocks_free_already :
    getFileInodeID exHalfRemoved 0 (basename [47, 97]) = 1 ∧
    (exHalfRemoved.BlockStore_inode.data 1).fileType = CH_r ∧
    (exHalfRemoved.BlockStore_inode.data 1).linkCount = 1 ∧
    (∀ i, i < 256 → block_store_sub_test exHalfRemoved.BlockStore_fd i = false) ∧
    mapRefs exHalfRemoved (exHalfRemoved.BlockStore_inode.data 1) = [34, 35, 36, 37, 38, 39] ∧
    (fs_remove exHalfRemoved [47, 97] exJunk (fun _ => 0)).1 = 0 ∧
    block_store_get_free_blocks
        (fs_remove exHalfRemoved [47, 97] exJunk (fun _ => 0)).2.BlockStore_whole ≠
      block_store_get_free_blocks exHalfRemoved.BlockStore_whole + 6 ∧
    (exAliased.BlockStore_inode.data 1).fileType = CH_r ∧
    (exAliased.BlockStore_inode.data 1).linkCount = 1 ∧
    (∀ i, i < 256 → block_store_sub_test exAliased.BlockStore_fd i = false) ∧
    mapRefs exAliased (exAliased.BlockStore_inode.data 1) = [50, 51, 52, 50] ∧
    (fs_remove exAliased [47, 97] exJunk (fun _ => 0)).1 = 0 ∧
    block_store_test (fs_remove exAliased [47, 97] exJunk (fun _ => 0)).2.BlockStore_whole 51
      = true :=
  ⟨by decide, by decide, by decide, by decide, by decide, exHalfRemoved_same.1,
    free_blocks_ne_add _ _ exHalfRemoved_same.2, by decide, by decide, by decide, by decide,
    by decide, by decide⟩

end F17

/-! ## `fs_link` (C19) -/

namespace F17

/-- A run of the loop of `fs_link` that returns 0 has taken the lowest free slot
`k` and has made its three writes. -/
theorem linkLoop_ok (fs : F17FS) (s dp : Nat) (base : List Nat) (srcI dstI : inode)
    (blk : Block) : ∀ (n i : Nat),
    (linkLoop fs s dp base srcI dstI blk n i).1 = 0 →
    ∃ k, i ≤ k ∧ k < i + n ∧ bitmap_test dstI.vacantFile k = false ∧
      (∀ j, i ≤ j → j < k → bitmap_test dstI.vacantFile j = true) ∧
      s < 256 ∧ dp < 256 ∧ dstI.directPointer 0 < 65536 ∧
      (linkLoop fs s dp base srcI dstI blk n i).2.BlockStore_whole.fbm = fs.BlockStore_whole.fbm ∧
      (linkLoop fs s dp base srcI dstI blk n i).2.BlockStore_whole.data =
        upd fs.BlockStore_whole.data (dstI.directPointer 0)
          (setDentryInode (strncpyEntry blk k base) k s) ∧
      (linkLoop fs s dp base srcI dstI blk n i).2.BlockStore_inode.fbm = fs.BlockStore_inode.fbm ∧
      (linkLoop fs s dp base srcI dstI blk n i).2.BlockStore_inode.data =
        upd (upd fs.BlockStore_inode.data s { srcI with linkCount := srcI.linkCount + 1 }) dp
          { dstI with linkCount := if s = dp then dstI.linkCount + 1 else dstI.linkCount,
                      vacantFile := bitmap_set dstI.vacantFile k } ∧
      (linkLoop fs s dp base srcI dstI blk n i).2.BlockStore_fd = fs.BlockStore_fd := by
  intro n
  induction n with
  | zero => intro i h0; unfold linkLoop at h0; simp at h0
  | succ n ih =>
    intro i h0
    by_cases hbit : bitmap_test dstI.vacantFile i = false
    · unfold linkLoop at h0 ⊢
      rw [if_pos hbit] at h0 ⊢
      by_cases hs : s < 256
      swap
      · simp [block_store_sub_write, hs] at h0
      by_cases hd : dp < 256
      swap
      · simp [block_store_sub_write, hs, hd] at h0
      by_cases hB : dstI.directPointer 0 < 65536
      swap
      · by_cases hsd : s = dp
        · simp [block_store_sub_write, block_store_write, BLOCK_STORE_NUM_BLOCKS, hs, hd, hB,
            hsd] at h0
        · simp [block_store_sub_write, block_store_write, BLOCK_STORE_NUM_BLOCKS, hs, hd, hB,
            hsd] at h0
      refine ⟨i, le_refl _, by omega, hbit, fun j h1 h2 => absurd h2 (by omega), hs, hd, hB, ?_⟩
      by_cases hsd : s = dp
      · subst hsd
        simp only [if_true, sub_write_spec _ _ _ hs, block_store_write_spec _ _ _ hB]
        exact ⟨trivial, trivial, trivial, trivial, trivial⟩
      · simp only [hsd, if_false, sub_write_spec _ _ _ hs, sub_write_spec _ _ _ hd,
          block_store_write_spec _ _ _ hB]
        exact ⟨trivial, trivial, trivial, trivial, trivial⟩
    · unfold linkLoop at h0 ⊢
      rw [if_neg hbit] at h0 ⊢
      obtain ⟨k, h1, h2, h3, h4, h5⟩ := ih (i + 1) h0
      refine ⟨k, by omega, by omega, h3, ?_, h5⟩
      intro j hj1 hj2
      by_cases hji : j = i
      · rw [hji]; simpa using hbit
      · exact h4 j (by omega) hj2

/-- A call of `fs_link` that returns 0 went through the loop over the slots of
the destination directory. -/
theorem fs_link_ok_eq (fs : F17FS) (src dst : List Nat) (h0 : (fs_link fs src dst).1 = 0) :
    ∃ sp dp, searchPath fs (dirTokens src) = some sp ∧
      searchPath fs (dirTokens dst) = some dp ∧
      getFileInodeID fs sp (basename src) ≠ 0 ∧
      getFileInodeID fs dp (basename dst) = 0 ∧
      (fs.BlockStore_inode.data (getFileInodeID fs sp (basename src))).linkCount < 255 ∧
      fs_link fs src dst =
        linkLoop fs (getFileInodeID fs sp (basename src)) dp (basename dst)
          (fs.BlockStore_inode.data (getFileInodeID fs sp (basename src)))
          (fs.BlockStore_inode.data dp)
          (fs.BlockStore_whole.data ((fs.BlockStore_inode.data dp).directPointer 0)) 7 0 := by
  by_cases c1 : dst ≠ [CH_slash] ∧ src.head? = some CH_slash ∧ dst.head? = some CH_slash
  swap
  · unfold fs_link at h0; rw [if_neg c1] at h0; simp at h0
  cases hsp : searchPath fs (dirTokens src) with
  | none => unfold fs_link at h0; rw [if_pos c1] at h0; simp [hsp] at h0
  | some sp =>
    cases hdp : searchPath fs (dirTokens dst) with
    | none => unfold fs_link at h0; rw [if_pos c1] at h0; simp [hsp, hdp] at h0
    | some dp =>
      by_cases c2 : getFileInodeID fs sp (basename src) ≠ 0 ∧
          getFileInodeID fs dp (basename dst) = 0
      swap
      · unfold fs_link at h0; rw [if_pos c1] at h0
        simp only [hsp, hdp] at h0
        rw [if_neg c2] at h0; simp at h0
      have hs := getFileInodeID_lt fs sp (basename src)
      by_cases hd : dp < 256
      swap
      · unfold fs_link at h0; rw [if_pos c1] at h0
        simp only [hsp, hdp] at h0
        rw [if_pos c2] at h0
        simp [block_store_sub_read, hd] at h0
      by_cases hB : (fs.BlockStore_inode.data dp).directPointer 0 < 65536
      swap
      · unfold fs_link at h0; rw [if_pos c1] at h0
        simp only [hsp, hdp] at h0
        rw [if_pos c2] at h0
        simp [block_store_sub_read, hd, hs, block_store_read, BLOCK_STORE_NUM_BLOCKS, hB] at h0
      by_cases hl : (fs.BlockStore_inode.data (getFileInodeID fs sp (basename src))).linkCount
          < 255
      swap
      · unfold fs_link at h0; rw [if_pos c1] at h0
        simp only [hsp, hdp] at h0
        rw [if_pos c2] at h0
        simp only [block_store_sub_read, hd, hs, if_true, block_store_read_spec _ _ hB] at h0
        rw [if_neg hl] at h0; simp at h0
      refine ⟨sp, dp, rfl, rfl, c2.1, c2.2, hl, ?_⟩
      unfold fs_link
      rw [if_pos c1]
      simp only [hsp, hdp]
      rw [if_pos c2]
      simp only [block_store_sub_read, hd, hs, if_true, block_store_read_spec _ _ hB]
      rw [if_pos hl]

/-- What a successful link leaves behind: whenever `fs_link(src, dst)` returns
0, both parent paths resolve (to `sp` and `dp`), the lookup of the source finds
an inode `s` and that of the destination finds none, and with `i` the lowest
clear occupancy bit among 0..6 of `dp` and `B` its data block: entry `i` of `B`
holds the first 64 characters of `basename(dst)`, padded with NUL, and inode `s`,
bit `i` of `dp` is set and its other bits are as before; every byte outside
entry `i` of `B` is as before, so every live entry of `dp` and every entry of
another block is unchanged; the link count of `s` is one more than before, its
other fields unchanged, also when `s = dp`, where the stored inode has the new
bit and the link count `old + 1`; and no other inode, no bitmap of the stores
and no descriptor changes. -/
theorem fs_link_post (fs : F17FS) (src dst : List Nat) (h0 : (fs_link fs src dst).1 = 0) :
    ∃ (sp dp i s B : Nat) (fs1 : F17FS),
      fs1 = (fs_link fs src dst).2 ∧
      searchPath fs (dirTokens src) = some sp ∧
      searchPath fs (dirTokens dst) = some dp ∧
      s = getFileInodeID fs sp (basename src) ∧ s ≠ 0 ∧
      getFileInodeID fs dp (basename dst) = 0 ∧
      B = (fs.BlockStore_inode.data dp).directPointer 0 ∧
      i < 7 ∧ bitmap_test (fs.BlockStore_inode.data dp).vacantFile i = false ∧
      (∀ k, k < i → bitmap_test (fs.BlockStore_inode.data dp).vacantFile k = true) ∧
      (∀ t, t < 64 → dentryName (fs1.BlockStore_whole.data B) i t = (basename dst).getD t 0) ∧
      dentryInode (fs1.BlockStore_whole.data B) i = s ∧
      bitmap_test (fs1.BlockStore_inode.data dp).vacantFile i = true ∧
      (∀ k, k ≠ i → bitmap_test (fs1.BlockStore_inode.data dp).vacantFile k =
        bitmap_test (fs.BlockStore_inode.data dp).vacantFile k) ∧
      (fs1.BlockStore_inode.data dp).directPointer 0 = B ∧
      (∀ b o, ¬ (b = B ∧ 65 * i ≤ o ∧ o ≤ 65 * i + 64) →
        fs1.BlockStore_whole.data b o = fs.BlockStore_whole.data b o) ∧
      (∀ k t, k < 7 → bitmap_test (fs.BlockStore_inode.data dp).vacantFile k = true → t ≤ 64 →
        fs1.BlockStore_whole.data B (65 * k + t) = fs.BlockStore_whole.data B (65 * k + t)) ∧
      (fs1.BlockStore_inode.data s).linkCount = (fs.BlockStore_inode.data s).linkCount + 1 ∧
      (s ≠ dp →
        fs1.BlockStore_inode.data s =
          { fs.BlockStore_inode.data s with
            linkCount := (fs.BlockStore_inode.data s).linkCount + 1 } ∧
        fs1.BlockStore_inode.data dp =
          { fs.BlockStore_inode.data dp with
            vacantFile := bitmap_set (fs.BlockStore_inode.data dp).vacantFile i }) ∧
      (s = dp →
        fs1.BlockStore_inode.data dp =
          { fs.BlockStore_inode.data dp with
            linkCount := (fs.BlockStore_inode.data dp).linkCount + 1,
            vacantFile := bitmap_set (fs.BlockStore_inode.data dp).vacantFile i }) ∧
      (∀ j, j ≠ s → j ≠ dp → fs1.BlockStore_inode.data j = fs.BlockStore_inode.data j) ∧
      fs1.BlockStore_inode.fbm = fs.BlockStore_inode.fbm ∧
      fs1.BlockStore_whole.fbm = fs.BlockStore_whole.fbm ∧
      fs1.BlockStore_fd = fs.BlockStore_fd := by
  obtain ⟨sp, dp, hsp, hdp, hs0, hd0, hl, heq⟩ := fs_link_ok_eq fs src dst h0
  rw [heq] at h0
  obtain ⟨i, _, hi, hclear, hlow, hs, hd, hB, e1, e2, e3, e4, e5⟩ :=
    linkLoop_ok fs _ dp _ _ _ _ 7 0 h0
  rw [← heq] at e1 e2 e3 e4 e5
  have hframe : ∀ b o, ¬ (b = (fs.BlockStore_inode.data dp).directPointer 0 ∧
      65 * i ≤ o ∧ o ≤ 65 * i + 64) →
      (fs_link fs src dst).2.BlockStore_whole.data b o = fs.BlockStore_whole.data b o := by
    intro b o hbo
    rw [e2]
    by_cases hb : b = (fs.BlockStore_inode.data dp).directPointer 0
    · subst hb
      have c1 : ¬ (o = 65 * i + 64) := by omega
      have c2 : ¬ (65 * i ≤ o ∧ o < 65 * i + FS_FNAME_MAX) := by
        unfold FS_FNAME_MAX; omega
      simp only [upd_same, setDentryInode, strncpyEntry, c1, c2, if_false]
    · rw [upd_other _ _ _ _ hb]
  refine ⟨sp, dp, i, _, _, _, rfl, hsp, hdp, rfl, hs0, hd0, rfl, by omega, hclear,
    fun k hk => hlow k (Nat.zero_le _) hk, ?_, ?_, ?_, ?_, ?_, hframe, ?_, ?_, ?_, ?_, ?_,
    e3, e1, e5⟩
  · intro t ht
    rw [e2]
    have c1 : ¬ (65 * i + t = 65 * i + 64) := by omega
    have c2 : 65 * i ≤ 65 * i + t ∧ 65 * i + t < 65 * i + FS_FNAME_MAX := by
      unfold FS_FNAME_MAX; omega
    simp only [upd_same, dentryName, setDentryInode, strncpyEntry, c1, c2, if_false, and_self,
      if_true, Nat.add_sub_cancel_left]
  · rw [e2]
    simp only [upd_same, dentryInode, setDentryInode, if_true, Nat.mod_mod]
    exact Nat.mod_eq_of_lt hs
  · rw [e4]; simp [bitmap_test_set]
  · intro k hk
    rw [e4]
    have : ¬ (i = k) := fun h => hk h.symm
    simp [bitmap_test_set, this]
  · rw [e4]; simp
  · intro k t hk hlive ht
    apply hframe
    rintro ⟨_, h1, h2⟩
    have hki : k ≠ i := by
      intro h; rw [h] at hlive; rw [hlive] at hclear; cases hclear
    omega
  · rw [e4]
    by_cases hsd : getFileInodeID fs sp (basename src) = dp
    · rw [hsd]; simp
    · rw [upd_other _ _ _ _ hsd, upd_same]
  · intro hsd
    rw [e4]
    refine ⟨by rw [upd_other _ _ _ _ hsd, upd_same], ?_⟩
    rw [upd_same]; simp [hsd]
  · intro hsd
    rw [e4, upd_same]; simp [hsd]
  · intro j hj1 hj2
    rw [e4, upd_other _ _ _ _ hj2, upd_other _ _ _ _ hj1]

set_option maxRecDepth 100000 in
/-- The link on the image with the regular file `"/a"`:
`fs_link("/a", "/b")` returns 0. -/
theorem fs_link_post_witness :
    ∃ (sp dp i s B : Nat) (fs1 : F17FS),
      fs1 = (fs_link exA [47, 97] [47, 98]).2 ∧
      searchPath exA (dirTokens [47, 97]) = some sp ∧
      searchPath exA (dirTokens [47, 98]) = some dp ∧
      s = getFileInodeID exA sp (basename [47, 97]) ∧ s ≠ 0 ∧
      i < 7 ∧ dentryInode (fs1.BlockStore_whole.data B) i = s ∧
      (fs1.BlockStore_inode.data s).linkCount = (exA.BlockStore_inode.data s).linkCount + 1 := by
  obtain ⟨sp, dp, i, s, B, fs1, h⟩ := fs_link_post exA [47, 97] [47, 98] (by decide)
  exact ⟨sp, dp, i, s, B, fs1, h.1, h.2.1, h.2.2.1, h.2.2.2.1, h.2.2.2.2.1,
    h.2.2.2.2.2.2.2.1, h.2.2.2.2.2.2.2.2.2.2.2.1,
    h.2.2.2.2.2.2.2.2.2.2.2.2.2.2.2.2.2.1⟩

set_option maxRecDepth 100000 in
/-- C19: the postcondition of link for a long name.  On the image with the
regular file `"/a"`, the call
`fs_link("/a", dst)` with a basename of 65 letters `b` returns 0 and sets bit 1
of the root directory, but entry 1 does not hold `basename(dst)`: its 64 name
bytes are followed by the inode number, `strcmp` with the basename fails, and
the lookup of the basename in the root directory finds nothing. -/
theorem fs_link_long_name :
    (fs_link exA [47, 97] (47 :: List.replicate 65 98)).1 = 0 ∧
    (basename (47 :: List.replicate 65 98)).length = 65 ∧
    bitmap_test ((fs_link exA [47, 97] (47 :: List.replicate 65 98)).2.BlockStore_inode.data
      0).vacantFile 1 = true ∧
    strcmpEq (dentryName ((fs_link exA [47, 97] (47 :: List.replicate 65 98)).2.BlockStore_whole.data
      (((fs_link exA [47, 97] (47 :: List.replicate 65 98)).2.BlockStore_inode.data
        0).directPointer 0)) 1) (basename (47 :: List.replicate 65 98)) = false ∧
    getFileInodeID (fs_link exA [47, 97] (47 :: List.replicate 65 98)).2 0
      (basename (47 :: List.replicate 65 98)) = 0 := by
  decide

end F17

/-! ## The root inode in the inode store of the model -/

namespace F17

theorem nodesKept_refl (s : block_store inode) : NodesKept s s :=
  ⟨fun h => h, fun _ => Or.inl ⟨rfl, rfl⟩⟩

theorem nodesKept_trans {a b c : block_store inode} (h1 : NodesKept a b) (h2 : NodesKept b c) :
    NodesKept a c := by
  refine ⟨fun h => h2.1 (h1.1 h), fun x => ?_⟩
  rcases h2.2 x with ⟨e1, e2⟩ | h
  · rcases h1.2 x with ⟨e3, e4⟩ | ⟨hx, e4⟩
    · exact Or.inl ⟨e1.trans e3, e2.trans e4⟩
    · exact Or.inr ⟨hx, e2.trans e4⟩
  · exact Or.inr h

theorem rootInv_of_kept (fs fs1 : F17FS) (h : RootInv fs)
    (hk : NodesKept fs.BlockStore_inode fs1.BlockStore_inode) : RootInv fs1 := by
  obtain ⟨h1, h2, h3⟩ := h
  refine ⟨hk.1 h1, ?_, fun x hx => ?_⟩
  · rcases hk.2 0 with ⟨e1, _⟩ | ⟨hx, _⟩
    · rw [e1]; exact h2
    · exact absurd rfl hx
  · rcases hk.2 x with ⟨e1, e2⟩ | ⟨_, e2⟩
    · rw [e2]; exact h3 x (by rw [← e1]; exact hx)
    · exact e2

/-- A write of an inode with the type and the number of the one it replaces. -/
theorem nodesKept_write (s : block_store inode) (x : Nat) (ino : inode)
    (h1 : ino.fileType = (s.data x).fileType) (h2 : ino.inodeNumber = (s.data x).inodeNumber) :
    ∀ st, block_store_sub_write s x ino = some st → NodesKept s st := by
  intro st hst
  unfold block_store_sub_write at hst
  split_ifs at hst
  cases hst
  refine ⟨fun h => h, fun y => ?_⟩
  by_cases hy : y = x
  · subst hy; dsimp only; rw [upd_same]; exact Or.inl ⟨h1, h2⟩
  · dsimp only; rw [upd_other _ _ _ _ hy]; exact Or.inl ⟨rfl, rfl⟩

theorem nodesKept_release (s : block_store inode) (x : Nat) (hx : x ≠ 0) :
    NodesKept s (block_store_sub_release s x) := by
  unfold block_store_sub_release
  split_ifs
  · refine ⟨fun h => ?_, fun _ => Or.inl ⟨rfl, rfl⟩⟩
    simp only [upd_other _ _ _ _ (Ne.symm hx)]; exact h
  · exact nodesKept_refl _

/-- Under the root invariant a step of `searchPath` ends in a directory inode. -/
theorem searchStep_dir (fs : F17FS) (hJ : RootInv fs) (q : Nat) (fn : List Nat) (nx : Nat)
    (h : searchStep fs q fn = some nx) : (fs.BlockStore_inode.data nx).fileType = CH_d := by
  unfold searchStep at h
  cases hr : block_store_sub_read fs.BlockStore_inode q with
  | none => rw [hr] at h; cases h
  | some dirInode =>
    rw [hr] at h
    simp only at h
    by_cases hd : dirInode.fileType ≠ CH_d
    · rw [if_pos hd] at h; cases h
    rw [if_neg hd] at h
    cases hb : block_store_read fs.BlockStore_whole (dirInode.directPointer 0) with
    | none => rw [hb] at h; cases h
    | some dirBlock =>
      rw [hb] at h
      simp only at h
      have key : ∀ (l : List Nat) (acc : Option Nat),
          (∀ a, acc = some a → (fs.BlockStore_inode.data a).fileType = CH_d) →
          ∀ a, l.foldl (fun (acc : Option Nat) j =>
            if bitmap_test dirInode.vacantFile j = true ∧
                strncmpEq (dentryName dirBlock j) (cstr fn) fn.length 0 = true then
              match block_store_sub_read fs.BlockStore_inode (dentryInode dirBlock j) with
              | some nextInode =>
                if nextInode.fileType = CH_d then some nextInode.inodeNumber else acc
              | none => acc
            else acc) acc = some a → (fs.BlockStore_inode.data a).fileType = CH_d := by
        intro l
        induction l with
        | nil => intro acc hacc a ha; exact hacc a ha
        | cons j l ih =>
          intro acc hacc a ha
          rw [List.foldl_cons] at ha
          refine ih _ ?_ a ha
          intro b hb
          split_ifs at hb with c1
          · unfold block_store_sub_read at hb
            split_ifs at hb with c2
            · simp only at hb
              split_ifs at hb with c3
              · cases hb
                rw [hJ.2.2 _ c3]; exact c3
              · exact hacc b hb
            · exact hacc b hb
          · exact hacc b hb
      exact key _ none (fun a ha => by cases ha) nx h

theorem searchFrom_dir (fs : F17FS) (hJ : RootInv fs) : ∀ (toks : List (List Nat)) (q r : Nat),
    (fs.BlockStore_inode.data q).fileType = CH_d → searchFrom fs q toks = some r →
    (fs.BlockStore_inode.data r).fileType = CH_d := by
  intro toks
  induction toks with
  | nil => intro q r hq h; unfold searchFrom at h; cases h; exact hq
  | cons t ts ih =>
    intro q r hq h
    unfold searchFrom at h
    split at h
    · cases h
    · rename_i nx hs
      exact ih nx r (searchStep_dir fs hJ q t nx hs) h

theorem searchPath_dir (fs : F17FS) (hJ : RootInv fs) (toks : List (List Nat)) (r : Nat)
    (h : searchPath fs toks = some r) :
    (fs.BlockStore_inode.data r).fileType = CH_d ∧ (fs.BlockStore_inode.data r).inodeNumber = r :=
  have h1 := searchFrom_dir fs hJ toks 0 r hJ.2.1 h
  ⟨h1, hJ.2.2 r h1⟩

theorem nodesKept_of_metaFrame (fs fs1 : F17FS) (h : metaFrame fs fs1) :
    NodesKept fs.BlockStore_inode fs1.BlockStore_inode := by
  obtain ⟨_, h2, h3⟩ := h
  exact ⟨fun h => by rw [h2]; exact h, fun x => Or.inl ⟨(h3 x).2.1, (h3 x).2.2.1⟩⟩

theorem ffzFrom_here (bm : Nat → Bool) (n i : Nat) (h : bm i = false) :
    ffzFrom bm (n + 1) i = some i := by
  unfold ffzFrom; rw [h]; rfl

theorem rootInv_format (created : block_store Block) (path : List Nat) (fs : F17FS)
    (h : fs_format created path = some fs) : RootInv fs := by
  unfold fs_format at h
  split_ifs at h
  have e := congrArg F17FS.BlockStore_inode (Option.some.inj h)
  dsimp only at e
  have ha : block_store_sub_allocate (block_store_sub_create zeroInode) =
      some (0, { block_store_sub_create zeroInode with
        fbm := upd (block_store_sub_create zeroInode).fbm 0 true }) := by
    unfold block_store_sub_allocate bitmap_ffz
    rw [show (256 : Nat) = 255 + 1 from rfl, ffzFrom_here _ _ _ rfl]
  rw [ha] at e
  dsimp only at e
  rw [sub_write_spec _ _ _ (show 0 < 256 by norm_num)] at e
  unfold RootInv
  rw [← e]
  refine ⟨by simp, by simp, fun x hx => ?_⟩
  by_cases h0 : x = 0
  · subst h0; simp
  · simp only [Option.getD_some, upd_other _ _ _ _ h0, block_store_sub_create, zeroInode] at hx
    exact absurd hx (by decide)

theorem fs_open_inode (fs : F17FS) (path : List Nat) :
    (fs_open fs path).2.BlockStore_inode = fs.BlockStore_inode := by
  unfold fs_open
  dsimp only
  split_ifs
  · rfl
  · rfl
  · rfl
  · rfl
  · cases searchPath fs (dirTokens path) with
    | none => rfl
    | some d =>
      dsimp only
      split_ifs
      · rfl
      · cases block_store_sub_read fs.BlockStore_inode (getFileInodeID fs d (baseName path)) with
        | none => rfl
        | some fi =>
          dsimp only
          split_ifs
          · rfl
          · cases block_store_sub_write _ _ _ <;> rfl

theorem fs_close_inode (fs : F17FS) (fd : Int) :
    (fs_close fs fd).2.BlockStore_inode = fs.BlockStore_inode := by
  unfold fs_close
  split_ifs <;> rfl

theorem fs_seek_inode (fs : F17FS) (fd : Int) (offset : Int) (whence : seek_t) :
    (fs_seek fs fd offset whence).2.BlockStore_inode = fs.BlockStore_inode := by
  unfold fs_seek
  split_ifs
  · cases block_store_sub_read fs.BlockStore_fd fd.toNat with
    | none => rfl
    | some fd_t =>
      dsimp only
      cases block_store_sub_read fs.BlockStore_inode fd_t.inodeNum with
      | none => rfl
      | some fi =>
        dsimp only
        cases seekStdOffset _ _ offset whence with
        | none => rfl
        | some st =>
          dsimp only
          cases block_store_sub_write _ _ _ <;> rfl
  · rfl

theorem fs_read_kept (fs : F17FS) (fd : Int) (nbyte : Nat) (r : Int) (dst : List Nat)
    (fs1 : F17FS) (h : fs_read fs fd nbyte = some (r, dst, fs1)) :
    NodesKept fs.BlockStore_inode fs1.BlockStore_inode := by
  unfold fs_read at h
  split_ifs at h
  · cases hfd : block_store_sub_read fs.BlockStore_fd fd.toNat with
    | none => rw [hfd] at h; cases h; exact nodesKept_refl _
    | some fd_t =>
      rw [hfd] at h
      dsimp only at h
      cases hino : block_store_sub_read fs.BlockStore_inode fd_t.inodeNum with
      | none => rw [hino] at h; cases h; exact nodesKept_refl _
      | some fi =>
        rw [hino] at h
        dsimp only at h
        cases hl : readLoop (if nbyte > (fi.fileSize + 2 ^ 64 - getFileSize fd_t) % 2 ^ 64 then
            (fi.fileSize + 2 ^ 64 - getFileSize fd_t) % 2 ^ 64 else nbyte) fs fd_t
            (if nbyte > (fi.fileSize + 2 ^ 64 - getFileSize fd_t) % 2 ^ 64 then
            (fi.fileSize + 2 ^ 64 - getFileSize fd_t) % 2 ^ 64 else nbyte) 0 [] none with
        | none => rw [hl] at h; cases h
        | some rr =>
          rw [hl] at h
          have hm := readLoop_meta _ fs _ fs fd_t 0 [] none rr (metaFrame_refl _) hl
          obtain ⟨lr, ds⟩ := rr
          dsimp only at h hm
          cases he : lr.err with
          | some e =>
            rw [he] at h; cases h
            exact nodesKept_of_metaFrame _ _ hm
          | none =>
            rw [he] at h
            dsimp only at h
            cases hw : block_store_sub_write lr.fs.BlockStore_fd fd.toNat lr.fd_t with
            | none =>
              rw [hw] at h; cases h
              exact nodesKept_of_metaFrame _ _ hm
            | some st =>
              rw [hw] at h; cases h
              exact nodesKept_of_metaFrame fs lr.fs hm
  · cases h; exact nodesKept_refl _
  · cases h; exact nodesKept_refl _

theorem fs_write_kept (fs : F17FS) (fd : Int) (src : List Nat) (r : Int)
    (fs1 : F17FS) (h : fs_write fs fd src = some (r, fs1)) :
    NodesKept fs.BlockStore_inode fs1.BlockStore_inode := by
  unfold fs_write at h
  split_ifs at h
  · cases h; exact nodesKept_refl _
  · cases h; exact nodesKept_refl _
  · cases hfd : block_store_sub_read fs.BlockStore_fd fd.toNat with
    | none => rw [hfd] at h; cases h; exact nodesKept_refl _
    | some fd_t =>
      rw [hfd] at h
      dsimp only at h
      cases hl : writeLoop src.length fs fd_t src 0 none with
      | none => rw [hl] at h; cases h
      | some lr =>
        rw [hl] at h
        have hm := (writeLoop_meta src fs fd_t _ fs fd_t 0 none lr ⟨metaFrame_refl _, rfl⟩ hl).1
        dsimp only at h
        cases he : lr.err with
        | some e =>
          rw [he] at h; cases h
          exact nodesKept_of_metaFrame _ _ hm
        | none =>
          rw [he] at h
          dsimp only at h
          cases hw : block_store_sub_write lr.fs.BlockStore_fd fd.toNat lr.fd_t with
          | none =>
            rw [hw] at h; cases h
            exact nodesKept_of_metaFrame _ _ hm
          | some st =>
            rw [hw] at h
            dsimp only at h
            cases hw2 : block_store_sub_write lr.fs.BlockStore_inode lr.fd_t.inodeNum
                (if (lr.fs.BlockStore_inode.data lr.fd_t.inodeNum).fileSize <
                    getFileSize fd_t + lr.count then
                  { lr.fs.BlockStore_inode.data lr.fd_t.inodeNum with
                    fileSize := getFileSize fd_t + lr.count }
                 else lr.fs.BlockStore_inode.data lr.fd_t.inodeNum) with
            | none =>
              rw [hw2] at h; cases h
              exact nodesKept_of_metaFrame fs lr.fs hm
            | some st2 =>
              rw [hw2] at h; cases h
              refine nodesKept_trans (nodesKept_of_metaFrame _ _ hm) ?_
              refine nodesKept_write _ _ _ ?_ ?_ st2 hw2
              · split_ifs <;> rfl
              · split_ifs <;> rfl

theorem linkLoop_kept (fs : F17FS) (s dp : Nat) (base : List Nat) (blk : Block)
    (srcI dstI : inode)
    (hs : srcI = fs.BlockStore_inode.data s) (hd : dstI = fs.BlockStore_inode.data dp) :
    ∀ (n i : Nat),
    NodesKept fs.BlockStore_inode (linkLoop fs s dp base srcI dstI blk n i).2.BlockStore_inode := by
  intro n
  induction n with
  | zero => intro i; exact nodesKept_refl _
  | succ n ih =>
    intro i
    unfold linkLoop
    by_cases hbit : bitmap_test dstI.vacantFile i = false
    · rw [if_pos hbit]
      dsimp only
      split
      · exact nodesKept_refl _
      · rename_i st1 h1
        have k1 : NodesKept fs.BlockStore_inode st1 :=
          nodesKept_write _ _ _ (by rw [hs]) (by rw [hs]) st1 h1
        have e1 : (st1.data dp).fileType = (fs.BlockStore_inode.data dp).fileType ∧
            (st1.data dp).inodeNumber = (fs.BlockStore_inode.data dp).inodeNumber := by
          unfold block_store_sub_write at h1
          split_ifs at h1
          cases h1
          by_cases hsd : dp = s
          · subst hsd; dsimp only; rw [upd_same, hs]; exact ⟨rfl, rfl⟩
          · dsimp only; rw [upd_other _ _ _ _ hsd]; exact ⟨rfl, rfl⟩
        split
        · exact k1
        · rename_i st2 h2
          have k2 : NodesKept st1 st2 := by
            refine nodesKept_write _ _ _ ?_ ?_ st2 h2
            · dsimp only; rw [e1.1, hd]; split_ifs <;> rfl
            · dsimp only; rw [e1.2, hd]; split_ifs <;> rfl
          split
          · exact nodesKept_trans k1 k2
          · exact nodesKept_trans k1 k2
    · rw [if_neg hbit]
      exact ih _

theorem fs_link_kept (fs : F17FS) (src dst : List Nat) :
    NodesKept fs.BlockStore_inode (fs_link fs src dst).2.BlockStore_inode := by
  unfold fs_link
  split_ifs
  · cases searchPath fs (dirTokens src) with
    | none => exact nodesKept_refl _
    | some sp =>
      cases searchPath fs (dirTokens dst) with
      | none => exact nodesKept_refl _
      | some dp =>
        dsimp only
        split_ifs
        · cases hd : block_store_sub_read fs.BlockStore_inode dp with
          | none => exact nodesKept_refl _
          | some dstI =>
            dsimp only
            cases hs : block_store_sub_read fs.BlockStore_inode
                (getFileInodeID fs sp (basename src)) with
            | none => exact nodesKept_refl _
            | some srcI =>
              dsimp only
              cases block_store_read fs.BlockStore_whole (dstI.directPointer 0) with
              | none => exact nodesKept_refl _
              | some blk =>
                dsimp only
                split_ifs
                · unfold block_store_sub_read at hd hs
                  split_ifs at hd hs
                  cases hd; cases hs
                  exact linkLoop_kept fs _ dp _ blk _ _ rfl rfl 7 0
                · exact nodesKept_refl _
        · exact nodesKept_refl _
  · exact nodesKept_refl _

theorem moveLoop_kept (fs : F17FS) (sp dp s : Nat) (base : List Nat) (srcI : inode)
    (srcBlk : Block)
    (hs : srcI.fileType = (fs.BlockStore_inode.data sp).fileType ∧
      srcI.inodeNumber = (fs.BlockStore_inode.data sp).inodeNumber) :
    ∀ (n i : Nat) (dstI : inode) (dstBlk : Block),
    (dstI.fileType = (fs.BlockStore_inode.data dp).fileType ∧
      dstI.inodeNumber = (fs.BlockStore_inode.data dp).inodeNumber) →
    NodesKept fs.BlockStore_inode
      (moveLoop fs sp dp s base srcI srcBlk n i dstI dstBlk).2.BlockStore_inode := by
  intro n
  induction n with
  | zero => intro i dstI dstBlk _; exact nodesKept_refl _
  | succ n ih =>
    intro i dstI dstBlk hd
    unfold moveLoop
    by_cases hbit : bitmap_test dstI.vacantFile i = false
    · rw [if_pos hbit]
      dsimp only
      split
      · split
        · exact nodesKept_refl _
        · split
          · exact nodesKept_refl _
          · split
            · exact nodesKept_refl _
            · rename_i st1 h1
              have k1 : NodesKept fs.BlockStore_inode st1 := by
                refine nodesKept_write _ _ _ ?_ ?_ st1 h1
                · exact hd.1
                · exact hd.2
              have e1 : (st1.data sp).fileType = (fs.BlockStore_inode.data sp).fileType ∧
                  (st1.data sp).inodeNumber = (fs.BlockStore_inode.data sp).inodeNumber := by
                unfold block_store_sub_write at h1
                split_ifs at h1
                cases h1
                by_cases hsd : sp = dp
                · subst hsd; dsimp only; rw [upd_same]; exact hd
                · dsimp only; rw [upd_other _ _ _ _ hsd]; exact ⟨rfl, rfl⟩
              split
              · exact k1
              · rename_i st2 h2
                refine nodesKept_trans k1 (nodesKept_write _ _ _ ?_ ?_ st2 h2)
                · dsimp only; rw [e1.1]; exact hs.1
                · dsimp only; rw [e1.2]; exact hs.2
      · exact ih _ _ _ hd
    · rw [if_neg hbit]
      exact ih _ _ _ hd

theorem fs_move_kept (fs : F17FS) (src dst : List Nat) :
    NodesKept fs.BlockStore_inode (fs_move fs src dst).2.BlockStore_inode := by
  unfold fs_move
  split
  · split
    · rename_i sp dp _ _
      split
      · exact nodesKept_refl _
      · dsimp only
        split
        · split
          · split
            · exact nodesKept_refl _
            · split
              · exact nodesKept_refl _
              · split
                · exact nodesKept_refl _
                · exact nodesKept_refl _
          · split
            · exact nodesKept_refl _
            · rename_i dstI hd
              split
              · exact nodesKept_refl _
              · split
                · exact nodesKept_refl _
                · rename_i srcI hs
                  split
                  · exact nodesKept_refl _
                  · unfold block_store_sub_read at hd hs
                    split_ifs at hd hs
                    cases hd; cases hs
                    exact moveLoop_kept fs _ _ _ _ _ _ ⟨rfl, rfl⟩ 7 0 _ _ ⟨rfl, rfl⟩
        · exact nodesKept_refl _
    · exact nodesKept_refl _
  · exact nodesKept_refl _

theorem nodesKept_getD_write (s : block_store inode) (x : Nat) (ino : inode)
    (h1 : ino.fileType = (s.data x).fileType) (h2 : ino.inodeNumber = (s.data x).inodeNumber) :
    NodesKept s ((block_store_sub_write s x ino).getD s) := by
  cases h : block_store_sub_write s x ino with
  | none => exact nodesKept_refl _
  | some st => exact nodesKept_write s x ino h1 h2 st h

theorem fs_remove_tail_kept (fs : F17FS) (d : Nat) (name : List Nat) (junk : inode)
    (junkBlk : Block) :
    NodesKept fs.BlockStore_inode (fs_remove_tail fs d name junk junkBlk).2.BlockStore_inode := by
  unfold fs_remove_tail
  dsimp only
  split
  · exact nodesKept_refl _
  · split
    · exact nodesKept_refl _
    · rename_i st h
      by_cases hd : d < 256
      · refine nodesKept_write _ _ _ ?_ ?_ st h
        · simp only [block_store_sub_read, hd, if_true, Option.getD_some]
        · simp only [block_store_sub_read, hd, if_true, Option.getD_some]
      · unfold block_store_sub_write at h
        rw [if_neg hd] at h; cases h

theorem fs_remove_dir_kept (fs : F17FS) (d f : Nat) (name : List Nat) (junk : inode)
    (junkBlk : Block) (hf : f ≠ 0) :
    NodesKept fs.BlockStore_inode
      (fs_remove_dir fs d f (fs.BlockStore_inode.data f) name junk junkBlk).2.BlockStore_inode := by
  have k1 : NodesKept fs.BlockStore_inode
      ((block_store_sub_write fs.BlockStore_inode d
        { (block_store_sub_read fs.BlockStore_inode d).getD junk with
          vacantFile := (clearDirEntry name 7 0
            ((block_store_sub_read fs.BlockStore_inode d).getD junk).vacantFile
            ((block_store_read fs.BlockStore_whole
              (((block_store_sub_read fs.BlockStore_inode d).getD junk).directPointer 0)).getD
              junkBlk)).1 }).getD fs.BlockStore_inode) := by
    by_cases hd : d < 256
    · apply nodesKept_getD_write
      · simp only [block_store_sub_read, hd, if_true, Option.getD_some]
      · simp only [block_store_sub_read, hd, if_true, Option.getD_some]
    · unfold block_store_sub_write
      rw [if_neg hd]; exact nodesKept_refl _
  unfold fs_remove_dir
  split
  · dsimp only
    split
    · exact nodesKept_trans k1 (nodesKept_release _ _ hf)
    · split
      · rename_i st2 h2
        refine nodesKept_trans k1 (nodesKept_write _ _ _ ?_ ?_ st2 h2)
        · dsimp only
          by_cases hd : d < 256
          · simp only [sub_write_spec _ _ _ hd, Option.getD_some]
            by_cases hfd : f = d
            · subst hfd
              simp only [upd_same, block_store_sub_read, hd, if_true, Option.getD_some]
            · simp only [upd_other _ _ _ _ hfd]
          · unfold block_store_sub_write
            rw [if_neg hd]; rfl
        · dsimp only
          by_cases hd : d < 256
          · simp only [sub_write_spec _ _ _ hd, Option.getD_some]
            by_cases hfd : f = d
            · subst hfd
              simp only [upd_same, block_store_sub_read, hd, if_true, Option.getD_some]
            · simp only [upd_other _ _ _ _ hfd]
          · unfold block_store_sub_write
            rw [if_neg hd]; rfl
      · exact k1
  · exact nodesKept_refl _

theorem fs_remove_file_kept (fs : F17FS) (d f : Nat) (name : List Nat) (junk : inode)
    (junkBlk : Block) (hf : f ≠ 0) :
    NodesKept fs.BlockStore_inode
      (fs_remove_file fs d f (fs.BlockStore_inode.data f) name junk junkBlk).2.BlockStore_inode := by
  unfold fs_remove_file
  split
  · split
    · exact nodesKept_refl _
    · rename_i st h
      have k1 : NodesKept fs.BlockStore_inode st := by
        refine nodesKept_write _ _ _ ?_ ?_ st h
        · rfl
        · rfl
      exact nodesKept_trans k1
        (fs_remove_tail_kept { fs with BlockStore_inode := st } d name junk junkBlk)
  · cases hb : fs_remove_blocks fs.BlockStore_whole (fs.BlockStore_inode.data f) with
    | error e => exact nodesKept_refl _
    | ok w =>
      dsimp only
      cases hfd : firstSetFrom fs.BlockStore_fd.fbm 256 0 with
      | some c =>
        dsimp only
        split_ifs
        · rw [fs_close_inode]; exact nodesKept_refl _
        · exact nodesKept_refl _
      | none =>
        dsimp only
        exact nodesKept_trans (nodesKept_release _ _ hf)
          (fs_remove_tail_kept
            { fs with BlockStore_whole := w,
                      BlockStore_inode := block_store_sub_release fs.BlockStore_inode f }
            d name junk junkBlk)

theorem fs_remove_kept (fs : F17FS) (path : List Nat) (junk : inode) (junkBlk : Block) :
    NodesKept fs.BlockStore_inode (fs_remove fs path junk junkBlk).2.BlockStore_inode := by
  unfold fs_remove
  split
  · exact nodesKept_refl _
  · split
    · exact nodesKept_refl _
    · split
      · exact nodesKept_refl _
      · rename_i d _
        split
        · exact nodesKept_refl _
        · dsimp only
          split
          · exact nodesKept_refl _
          · rename_i hf0
            have hflt := getFileInodeID_lt fs d (basename path)
            simp only [block_store_sub_read, hflt, if_true, Option.getD_some]
            split
            · exact fs_remove_dir_kept fs d _ _ junk junkBlk hf0
            · split
              · exact fs_remove_file_kept fs d _ _ junk junkBlk hf0
              · exact nodesKept_refl _

/-- The inode store after the two inode writes of `fs_create`, for a new inode
`i` other than 0 and a parent `p` that keeps its type and number. -/
theorem nodesKept_create (s : block_store inode) (i p : Nat) (newI parentI : inode)
    (hi : i ≠ 0) (hn : newI.inodeNumber = i)
    (h1 : parentI.fileType = (s.data p).fileType)
    (h2 : parentI.inodeNumber = (s.data p).inodeNumber) :
    NodesKept s { fbm := upd s.fbm i true, data := upd (upd s.data i newI) p parentI } := by
  refine ⟨fun h => upd_true_mono _ _ _ h, fun x => ?_⟩
  dsimp only
  by_cases hx : x = p
  · subst hx; rw [upd_same]; exact Or.inl ⟨h1, h2⟩
  · rw [upd_other _ _ _ _ hx]
    by_cases hxi : x = i
    · subst hxi; rw [upd_same]; exact Or.inr ⟨hi, hn⟩
    · rw [upd_other _ _ _ _ hxi]; exact Or.inl ⟨rfl, rfl⟩

theorem fs_create_at_kept (fs : F17FS) (p : Nat) (name : List Nat) (ft : Nat) (junk : inode)
    (junkName : Nat → Nat) (hJ : RootInv fs)
    (hnotfull : block_store_sub_used fs.BlockStore_inode < 256)
    (hpn : (fs.BlockStore_inode.data p).inodeNumber = p) :
    NodesKept fs.BlockStore_inode
      (fs_create_at fs p name ft junk junkName).2.BlockStore_inode := by
  obtain ⟨i, hal, hi, hifree⟩ := sub_allocate_spec fs.BlockStore_inode hnotfull
  have hi0 : i ≠ 0 := by
    intro h; rw [h] at hifree; rw [hJ.1] at hifree; cases hifree
  have kA : NodesKept fs.BlockStore_inode
      { fs.BlockStore_inode with fbm := upd fs.BlockStore_inode.fbm i true } :=
    ⟨fun h => upd_true_mono _ _ _ h, fun _ => Or.inl ⟨rfl, rfl⟩⟩
  by_cases hp : p < 256
  swap
  · unfold fs_create_at block_store_sub_read
    rw [if_neg hp]; exact nodesKept_refl _
  by_cases hb : (fs.BlockStore_inode.data p).directPointer 0 < 65536
  swap
  · unfold fs_create_at block_store_sub_read block_store_read BLOCK_STORE_NUM_BLOCKS
    rw [if_pos hp]; dsimp only
    rw [if_neg hb]; exact nodesKept_refl _
  unfold fs_create_at
  simp only [block_store_sub_read, hp, if_true, block_store_read_spec _ _ hb]
  cases hz : bitmap_ffz (bitmap_test (fs.BlockStore_inode.data p).vacantFile) 8 with
  | none => exact nodesKept_refl _
  | some a =>
    dsimp only
    by_cases ha7 : a = 7
    · rw [if_pos ha7]; exact nodesKept_refl _
    rw [if_neg ha7]
    simp only [hal]
    by_cases hft : ft = CH_d
    · simp only [hft, if_true]
      cases hba : block_store_allocate fs.BlockStore_whole with
      | none => exact kA
      | some r =>
        obtain ⟨b, w⟩ := r
        simp only [sub_write_spec _ _ _ hi, Option.getD_some, hpn, sub_write_spec _ _ _ hp]
        split
        · exact nodesKept_create _ i p _ _ hi0 rfl rfl hpn.symm
        · exact nodesKept_create _ i p _ _ hi0 rfl rfl hpn.symm
    · simp only [hft, if_false, sub_write_spec _ _ _ hi, Option.getD_some, hpn,
        sub_write_spec _ _ _ hp]
      split
      · exact nodesKept_create _ i p _ _ hi0 rfl rfl hpn.symm
      · exact nodesKept_create _ i p _ _ hi0 rfl rfl hpn.symm

theorem fs_create_kept (fs : F17FS) (path : List Nat) (type : file_t) (junk : inode)
    (junkName : Nat → Nat) (hJ : RootInv fs) :
    NodesKept fs.BlockStore_inode
      (fs_create fs path type junk junkName).2.BlockStore_inode := by
  unfold fs_create
  split
  · exact nodesKept_refl _
  · split
    · exact nodesKept_refl _
    · rename_i hnf
      split
      · exact nodesKept_refl _
      · split
        · exact nodesKept_refl _
        · split
          · exact nodesKept_refl _
          · dsimp only
            split
            · exact nodesKept_refl _
            · rename_i p hres
              split
              · exact nodesKept_refl _
              · exact fs_create_at_kept fs p _ _ junk junkName hJ (by omega)
                  (searchPath_dir fs hJ _ p hres).2

/-- Every state the public operations reach from `fs_format` satisfies the root
invariant. -/
theorem reachable_rootInv (fs : F17FS) (h : Reachable fs) : RootInv fs := by
  induction h with
  | format created path fs h => exact rootInv_format created path fs h
  | mount fs _ ih => exact rootInv_of_kept fs _ ih (nodesKept_refl _)
  | create fs path type junk junkName _ ih =>
    exact rootInv_of_kept fs _ ih (fs_create_kept fs path type junk junkName ih)
  | opened fs path _ ih =>
    exact rootInv_of_kept fs _ ih (by rw [fs_open_inode]; exact nodesKept_refl _)
  | close fs fd _ ih =>
    exact rootInv_of_kept fs _ ih (by rw [fs_close_inode]; exact nodesKept_refl _)
  | read fs fd nbyte r dst fs1 _ h ih =>
    exact rootInv_of_kept fs _ ih (fs_read_kept fs fd nbyte r dst fs1 h)
  | write fs fd src r fs1 _ h ih =>
    exact rootInv_of_kept fs _ ih (fs_write_kept fs fd src r fs1 h)
  | seek fs fd offset whence _ ih =>
    exact rootInv_of_kept fs _ ih (by rw [fs_seek_inode]; exact nodesKept_refl _)
  | remove fs path junk junkBlk _ ih =>
    exact rootInv_of_kept fs _ ih (fs_remove_kept fs path junk junkBlk)
  | move fs src dst _ ih => exact rootInv_of_kept fs _ ih (fs_move_kept fs src dst)
  | link fs src dst _ ih => exact rootInv_of_kept fs _ ih (fs_link_kept fs src dst)

/-- The root inode in the model.  `fs_remove("/")` returns the negative code -4
and changes nothing, in every state.  In the inode store of the model, which is
a store of its own, inode 0 is allocated and has `fileType` `'d'` in every
state the public operations reach from `fs_format`: no operation writes inode 0
with another type.  The source keeps the inode table in the blocks 1..32 of the
block store (lines 113 and 164), where a block write can reach it; the section
on the stale index block gives such a write, which this invariant of the model
does not see. -/
theorem root_permanent (fs : F17FS) (h : Reachable fs) (junk : inode) (junkBlk : Block) :
    block_store_sub_test fs.BlockStore_inode 0 = true ∧
    (fs.BlockStore_inode.data 0).fileType = CH_d ∧
    (fs_remove fs [CH_slash] junk junkBlk).1 < 0 ∧
    fs_remove fs [CH_slash] junk junkBlk = (-4, fs) := by
  obtain ⟨h1, h2, _⟩ := reachable_rootInv fs h
  have hr : fs_remove fs [CH_slash] junk junkBlk = (-4, fs) := by
    unfold fs_remove
    rw [if_neg (by decide), if_neg (by decide)]
    have e : searchPath fs (dirTokens [CH_slash]) = some 0 := rfl
    rw [e]
    dsimp only
    rw [if_pos (by decide)]
  refine ⟨?_, h2, ?_, hr⟩
  · unfold block_store_sub_test; rw [h1]; rfl
  · rw [hr]; simp

/-- The root inode of the model on an example: the image after `fs_format`,
`fs_create("/a")`, `fs_open("/a")` and `fs_remove("/a")` is reachable. -/
theorem root_permanent_witness :
    block_store_sub_test (fs_remove exAOpen [47, 97] exJunk (fun _ => 0)).2.BlockStore_inode 0
      = true ∧
    ((fs_remove exAOpen [47, 97] exJunk (fun _ => 0)).2.BlockStore_inode.data 0).fileType
      = CH_d ∧
    fs_remove (fs_remove exAOpen [47, 97] exJunk (fun _ => 0)).2 [CH_slash] exJunk (fun _ => 0)
      = (-4, (fs_remove exAOpen [47, 97] exJunk (fun _ => 0)).2) :=
  have h := root_permanent (fs_remove exAOpen [47, 97] exJunk (fun _ => 0)).2
    (Reachable.remove _ _ _ _ (Reachable.opened _ _ (Reachable.create _ _ _ _ _
      (Reachable.format exCreated [105] exFormat rfl)))) exJunk (fun _ => 0)
  ⟨h.1, h.2.1, h.2.2.2⟩

end F17

/-! ## Link then unlink (C20) -/

namespace F17

set_option maxRecDepth 100000 in
/-- Link then unlink with short names, on the image with the regular file
`"/a"`: after `fs_link("/a", "/b")` the removal of either name returns 0, the
other name resolves to inode 1, and the link count is 1 again. -/
theorem fs_link_unlink_example :
    (fs_link exA [47, 97] [47, 98]).1 = 0 ∧
    (fs_remove exLinked [47, 98] exJunk (fun _ => 0)).1 = 0 ∧
    ((fs_remove exLinked [47, 98] exJunk (fun _ => 0)).2.BlockStore_inode.data 1).linkCount = 1 ∧
    ((fs_remove exLinked [47, 98] exJunk (fun _ => 0)).2.BlockStore_inode.data 0).vacantFile = 1 ∧
    getFileInodeID (fs_remove exLinked [47, 98] exJunk (fun _ => 0)).2 0 [97] = 1 ∧
    (fs_remove exLinked [47, 97] exJunk (fun _ => 0)).1 = 0 ∧
    ((fs_remove exLinked [47, 97] exJunk (fun _ => 0)).2.BlockStore_inode.data 1).linkCount = 1 ∧
    getFileInodeID (fs_remove exLinked [47, 97] exJunk (fun _ => 0)).2 0 [98] = 1 := by
  decide

set_option maxRecDepth 100000 in
/-- C20: link then unlink with a destination name of 65 characters.  On the
image with the regular file `"/a"` (inode 1, link count 1) the lookup of the
long name finds nothing and `fs_link("/a", exLongPath)` returns 0, raising the
link count to 2 and setting bit 1 of the root directory; afterwards
`fs_remove(exLongPath)` returns -4 and changes neither the link count nor the
occupancy bits, and `fs_open(exLongPath)` returns -4 as well: the new entry
cannot be removed by the name it was linked under. -/
theorem fs_link_unlink_long_name :
    (basename exLongPath).length = 65 ∧
    getFileInodeID exA 0 (basename [47, 97]) = 1 ∧
    (exA.BlockStore_inode.data 1).fileType = CH_r ∧
    (exA.BlockStore_inode.data 1).linkCount = 1 ∧
    getFileInodeID exA 0 (basename exLongPath) = 0 ∧
    (fs_link exA [47, 97] exLongPath).1 = 0 ∧
    (exLinkedLong.BlockStore_inode.data 1).linkCount = 2 ∧
    (exLinkedLong.BlockStore_inode.data 0).vacantFile = 3 ∧
    (fs_remove exLinkedLong exLongPath exJunk (fun _ => 0)).1 = -4 ∧
    ((fs_remove exLinkedLong exLongPath exJunk (fun _ => 0)).2.BlockStore_inode.data
      1).linkCount = 2 ∧
    ((fs_remove exLinkedLong exLongPath exJunk (fun _ => 0)).2.BlockStore_inode.data
      0).vacantFile = 3 ∧
    (fs_open exLinkedLong exLongPath).1 = -4 := by
  decide

end F17

namespace F17

/-! ## Bounds of the inode store of the model: link count and bit 7 -/

theorem inodeOK_of (a b : inode) (hl : b.linkCount = a.linkCount)
    (ht : b.fileType = a.fileType) (hv : b.vacantFile = a.vacantFile) (h : InodeOK a) :
    InodeOK b := by
  unfold InodeOK at h ⊢
  rw [hl, ht, hv]; exact h

theorem inodeOK_set (a : inode) (j : Nat) (hj : j < 7) (h : InodeOK a) :
    InodeOK { a with vacantFile := bitmap_set a.vacantFile j } := by
  refine ⟨h.1, fun ht => ?_⟩
  dsimp only
  rw [bitmap_test_set, h.2 ht]
  simp; omega

theorem inodeOK_reset (a : inode) (j : Nat) (h : InodeOK a) :
    InodeOK { a with vacantFile := bitmap_reset a.vacantFile j } := by
  refine ⟨h.1, fun ht => ?_⟩
  dsimp only
  rw [bitmap_test_reset, h.2 ht]
  rfl

theorem inodeOK_dec (a : inode) (h : InodeOK a) :
    InodeOK { a with linkCount := a.linkCount - 1 } := by
  refine ⟨?_, h.2⟩
  have := h.1
  dsimp only
  omega

theorem inodeOK_inc (a : inode) (hlt : a.linkCount < 255) (h : InodeOK a) :
    InodeOK { a with linkCount := a.linkCount + 1 } := by
  refine ⟨?_, h.2⟩
  dsimp only
  omega

theorem inodesOK_write (s : block_store inode) (x : Nat) (ino : inode) (hs : InodesOK s)
    (hi : InodeOK ino) : ∀ st, block_store_sub_write s x ino = some st → InodesOK st := by
  intro st hst
  unfold block_store_sub_write at hst
  split_ifs at hst
  cases hst
  intro y
  dsimp only
  by_cases hy : y = x
  · subst hy; rw [upd_same]; exact hi
  · rw [upd_other _ _ _ _ hy]; exact hs y

theorem inodesOK_getD_write (s : block_store inode) (x : Nat) (ino : inode) (hs : InodesOK s)
    (hi : x < 256 → InodeOK ino) : InodesOK ((block_store_sub_write s x ino).getD s) := by
  cases h : block_store_sub_write s x ino with
  | none => exact hs
  | some st =>
    have hx : x < 256 := by
      unfold block_store_sub_write at h
      split_ifs at h with c
      exact c
    exact inodesOK_write s x ino hs (hi hx) st h

theorem inodesOK_release (s : block_store inode) (x : Nat) (hs : InodesOK s) :
    InodesOK (block_store_sub_release s x) := by
  unfold block_store_sub_release
  split_ifs
  · exact hs
  · exact hs

theorem inodesOK_of_metaFrame (fs fs1 : F17FS) (h : metaFrame fs fs1)
    (hs : InodesOK fs.BlockStore_inode) : InodesOK fs1.BlockStore_inode := by
  intro x
  obtain ⟨h1, h2, _, _, h5⟩ := h.2.2 x
  exact inodeOK_of _ _ h5 h2 h1 (hs x)

theorem clearFileEntry_ok (name : List Nat) (a : inode) (h : InodeOK a) :
    ∀ (n m : Nat) (blk : Block),
    InodeOK { a with vacantFile := (clearFileEntry name n m a.vacantFile blk).1 } := by
  intro n
  induction n with
  | zero => intro m blk; exact h
  | succ n ih =>
    intro m blk
    unfold clearFileEntry
    split_ifs
    · exact inodeOK_reset a m h
    · exact ih _ _

theorem clearDirEntry_ok (name : List Nat) (a : inode) (h : InodeOK a) :
    ∀ (n m : Nat) (blk : Block),
    InodeOK { a with vacantFile := (clearDirEntry name n m a.vacantFile blk).1 } := by
  intro n
  induction n with
  | zero => intro m blk; exact h
  | succ n ih =>
    intro m blk
    unfold clearDirEntry
    split_ifs
    · exact inodeOK_reset a m h
    · exact ih _ _

theorem fs_read_ok (fs : F17FS) (fd : Int) (nbyte : Nat) (r : Int) (dst : List Nat)
    (fs1 : F17FS) (h : fs_read fs fd nbyte = some (r, dst, fs1))
    (hs : InodesOK fs.BlockStore_inode) : InodesOK fs1.BlockStore_inode := by
  unfold fs_read at h
  split_ifs at h
  · cases hfd : block_store_sub_read fs.BlockStore_fd fd.toNat with
    | none => rw [hfd] at h; cases h; exact hs
    | some fd_t =>
      rw [hfd] at h
      dsimp only at h
      cases hino : block_store_sub_read fs.BlockStore_inode fd_t.inodeNum with
      | none => rw [hino] at h; cases h; exact hs
      | some fi =>
        rw [hino] at h
        dsimp only at h
        cases hl : readLoop (if nbyte > (fi.fileSize + 2 ^ 64 - getFileSize fd_t) % 2 ^ 64 then
            (fi.fileSize + 2 ^ 64 - getFileSize fd_t) % 2 ^ 64 else nbyte) fs fd_t
            (if nbyte > (fi.fileSize + 2 ^ 64 - getFileSize fd_t) % 2 ^ 64 then
            (fi.fileSize + 2 ^ 64 - getFileSize fd_t) % 2 ^ 64 else nbyte) 0 [] none with
        | none => rw [hl] at h; cases h
        | some rr =>
          rw [hl] at h
          have hm := readLoop_meta _ fs _ fs fd_t 0 [] none rr (metaFrame_refl _) hl
          obtain ⟨lr, ds⟩ := rr
          dsimp only at h hm
          cases he : lr.err with
          | some e =>
            rw [he] at h; cases h
            exact inodesOK_of_metaFrame _ _ hm hs
          | none =>
            rw [he] at h
            dsimp only at h
            cases hw : block_store_sub_write lr.fs.BlockStore_fd fd.toNat lr.fd_t with
            | none =>
              rw [hw] at h; cases h
              exact inodesOK_of_metaFrame _ _ hm hs
            | some st =>
              rw [hw] at h; cases h
              exact inodesOK_of_metaFrame fs lr.fs hm hs
  · cases h; exact hs
  · cases h; exact hs

theorem fs_write_ok (fs : F17FS) (fd : Int) (src : List Nat) (r : Int)
    (fs1 : F17FS) (h : fs_write fs fd src = some (r, fs1))
    (hs : InodesOK fs.BlockStore_inode) : InodesOK fs1.BlockStore_inode := by
  unfold fs_write at h
  split_ifs at h
  · cases h; exact hs
  · cases h; exact hs
  · cases hfd : block_store_sub_read fs.BlockStore_fd fd.toNat with
    | none => rw [hfd] at h; cases h; exact hs
    | some fd_t =>
      rw [hfd] at h
      dsimp only at h
      cases hl : writeLoop src.length fs fd_t src 0 none with
      | none => rw [hl] at h; cases h
      | some lr =>
        rw [hl] at h
        have hm := (writeLoop_meta src fs fd_t _ fs fd_t 0 none lr ⟨metaFrame_refl _, rfl⟩ hl).1
        have hk := inodesOK_of_metaFrame _ _ hm hs
        dsimp only at h
        cases he : lr.err with
        | some e =>
          rw [he] at h; cases h
          exact hk
        | none =>
          rw [he] at h
          dsimp only at h
          cases hw : block_store_sub_write lr.fs.BlockStore_fd fd.toNat lr.fd_t with
          | none =>
            rw [hw] at h; cases h
            exact hk
          | some st =>
            rw [hw] at h
            dsimp only at h
            cases hw2 : block_store_sub_write lr.fs.BlockStore_inode lr.fd_t.inodeNum
                (if (lr.fs.BlockStore_inode.data lr.fd_t.inodeNum).fileSize <
                    getFileSize fd_t + lr.count then
                  { lr.fs.BlockStore_inode.data lr.fd_t.inodeNum with
                    fileSize := getFileSize fd_t + lr.count }
                 else lr.fs.BlockStore_inode.data lr.fd_t.inodeNum) with
            | none =>
              rw [hw2] at h; cases h
              exact hk
            | some st2 =>
              rw [hw2] at h; cases h
              refine inodesOK_write _ _ _ hk ?_ st2 hw2
              split_ifs
              · exact inodeOK_of _ _ rfl rfl rfl (hk _)
              · exact hk _

theorem linkLoop_ok_inodes (fs : F17FS) (s dp : Nat) (base : List Nat) (blk : Block)
    (srcI dstI : inode) (hok : InodesOK fs.BlockStore_inode)
    (hs : srcI = fs.BlockStore_inode.data s) (hd : dstI = fs.BlockStore_inode.data dp)
    (hlt : srcI.linkCount < 255) :
    ∀ (n i : Nat), i + n ≤ 7 →
    InodesOK (linkLoop fs s dp base srcI dstI blk n i).2.BlockStore_inode := by
  intro n
  induction n with
  | zero => intro i _; exact hok
  | succ n ih =>
    intro i hin
    unfold linkLoop
    by_cases hbit : bitmap_test dstI.vacantFile i = false
    · rw [if_pos hbit]
      dsimp only
      have hsrc : InodeOK { srcI with linkCount := srcI.linkCount + 1 } :=
        inodeOK_inc _ hlt (by rw [hs]; exact hok s)
      have hdst0 : InodeOK (if s = dp then { dstI with linkCount := dstI.linkCount + 1 }
          else dstI) := by
        split_ifs with c
        · refine inodeOK_inc _ ?_ (by rw [hd]; exact hok dp)
          rw [hd, ← c, ← hs]; exact hlt
        · rw [hd]; exact hok dp
      have hdst : InodeOK
          { (if s = dp then { dstI with linkCount := dstI.linkCount + 1 } else dstI) with
            vacantFile := bitmap_set
              (if s = dp then { dstI with linkCount := dstI.linkCount + 1 }
                else dstI).vacantFile i } :=
        inodeOK_set _ i (by omega) hdst0
      split
      · exact hok
      · rename_i st1 h1
        have k1 := inodesOK_write _ _ _ hok hsrc st1 h1
        split
        · exact k1
        · rename_i st2 h2
          have k2 := inodesOK_write _ _ _ k1 hdst st2 h2
          split
          · exact k2
          · exact k2
    · rw [if_neg hbit]
      exact ih _ (by omega)

theorem fs_link_ok_inodes (fs : F17FS) (src dst : List Nat)
    (hok : InodesOK fs.BlockStore_inode) :
    InodesOK (fs_link fs src dst).2.BlockStore_inode := by
  unfold fs_link
  split_ifs
  · cases searchPath fs (dirTokens src) with
    | none => exact hok
    | some sp =>
      cases searchPath fs (dirTokens dst) with
      | none => exact hok
      | some dp =>
        dsimp only
        split_ifs
        · cases hd : block_store_sub_read fs.BlockStore_inode dp with
          | none => exact hok
          | some dstI =>
            dsimp only
            cases hs : block_store_sub_read fs.BlockStore_inode
                (getFileInodeID fs sp (basename src)) with
            | none => exact hok
            | some srcI =>
              dsimp only
              cases block_store_read fs.BlockStore_whole (dstI.directPointer 0) with
              | none => exact hok
              | some blk =>
                dsimp only
                split_ifs with hlt
                · unfold block_store_sub_read at hd hs
                  split_ifs at hd hs
                  cases hd; cases hs
                  exact linkLoop_ok_inodes fs _ dp _ blk _ _ hok rfl rfl hlt 7 0 (by omega)
                · exact hok
        · exact hok
  · exact hok

theorem moveLoop_ok_inodes (fs : F17FS) (sp dp s : Nat) (base : List Nat) (srcI : inode)
    (srcBlk : Block) (hok : InodesOK fs.BlockStore_inode) (hs : InodeOK srcI) :
    ∀ (n i : Nat) (dstI : inode) (dstBlk : Block), i + n ≤ 7 → InodeOK dstI →
    InodesOK (moveLoop fs sp dp s base srcI srcBlk n i dstI dstBlk).2.BlockStore_inode := by
  intro n
  induction n with
  | zero => intro i dstI dstBlk _ _; exact hok
  | succ n ih =>
    intro i dstI dstBlk hin hd
    unfold moveLoop
    have hd1 : InodeOK { dstI with vacantFile := bitmap_set dstI.vacantFile i } :=
      inodeOK_set _ i (by omega) hd
    by_cases hbit : bitmap_test dstI.vacantFile i = false
    · rw [if_pos hbit]
      dsimp only
      split
      · rename_i j _
        split
        · exact hok
        · split
          · exact hok
          · split
            · exact hok
            · rename_i st1 h1
              have k1 := inodesOK_write _ _ _ hok hd1 st1 h1
              split
              · exact k1
              · rename_i st2 h2
                exact inodesOK_write _ _ _ k1 (inodeOK_reset _ j hs) st2 h2
      · exact ih _ _ _ (by omega) hd1
    · rw [if_neg hbit]
      exact ih _ _ _ (by omega) hd

theorem fs_move_ok_inodes (fs : F17FS) (src dst : List Nat)
    (hok : InodesOK fs.BlockStore_inode) :
    InodesOK (fs_move fs src dst).2.BlockStore_inode := by
  unfold fs_move
  split
  · split
    · rename_i sp dp _ _
      split
      · exact hok
      · dsimp only
        split
        · split
          · split
            · exact hok
            · split
              · exact hok
              · split
                · exact hok
                · exact hok
          · split
            · exact hok
            · rename_i dstI hd
              split
              · exact hok
              · split
                · exact hok
                · rename_i srcI hs
                  split
                  · exact hok
                  · unfold block_store_sub_read at hd hs
                    split_ifs at hd hs
                    cases hd; cases hs
                    exact moveLoop_ok_inodes fs _ _ _ _ _ _ hok (hok _) 7 0 _ _ (by omega)
                      (hok _)
        · exact hok
    · exact hok
  · exact hok

theorem fs_remove_tail_ok_inodes (fs : F17FS) (d : Nat) (name : List Nat) (junk : inode)
    (junkBlk : Block) (hok : InodesOK fs.BlockStore_inode) :
    InodesOK (fs_remove_tail fs d name junk junkBlk).2.BlockStore_inode := by
  unfold fs_remove_tail
  dsimp only
  split
  · exact hok
  · split
    · exact hok
    · rename_i st h
      by_cases hd : d < 256
      · refine inodesOK_write _ _ _ hok ?_ st h
        simp only [block_store_sub_read, hd, if_true, Option.getD_some]
        exact clearFileEntry_ok name _ (hok d) _ _ _
      · unfold block_store_sub_write at h
        rw [if_neg hd] at h; cases h

theorem fs_remove_dir_ok_inodes (fs : F17FS) (d f : Nat) (name : List Nat) (junk : inode)
    (junkBlk : Block) (hok : InodesOK fs.BlockStore_inode) :
    InodesOK
      (fs_remove_dir fs d f (fs.BlockStore_inode.data f) name junk junkBlk).2.BlockStore_inode := by
  have k1 : InodesOK
      ((block_store_sub_write fs.BlockStore_inode d
        { (block_store_sub_read fs.BlockStore_inode d).getD junk with
          vacantFile := (clearDirEntry name 7 0
            ((block_store_sub_read fs.BlockStore_inode d).getD junk).vacantFile
            ((block_store_read fs.BlockStore_whole
              (((block_store_sub_read fs.BlockStore_inode d).getD junk).directPointer 0)).getD
              junkBlk)).1 }).getD fs.BlockStore_inode) := by
    apply inodesOK_getD_write _ _ _ hok
    intro hd
    simp only [block_store_sub_read, hd, if_true, Option.getD_some]
    exact clearDirEntry_ok name _ (hok d) _ _ _
  unfold fs_remove_dir
  split
  · dsimp only
    split
    · exact inodesOK_release _ _ k1
    · split
      · rename_i st2 h2
        exact inodesOK_write _ _ _ k1 (inodeOK_dec _ (hok f)) st2 h2
      · exact k1
  · exact hok

theorem fs_remove_file_ok_inodes (fs : F17FS) (d f : Nat) (name : List Nat) (junk : inode)
    (junkBlk : Block) (hok : InodesOK fs.BlockStore_inode) :
    InodesOK
      (fs_remove_file fs d f (fs.BlockStore_inode.data f) name junk
        junkBlk).2.BlockStore_inode := by
  unfold fs_remove_file
  split
  · split
    · exact hok
    · rename_i st h
      have k1 := inodesOK_write _ _ _ hok (inodeOK_dec _ (hok f)) st h
      exact fs_remove_tail_ok_inodes { fs with BlockStore_inode := st } d name junk junkBlk k1
  · cases hb : fs_remove_blocks fs.BlockStore_whole (fs.BlockStore_inode.data f) with
    | error e => exact hok
    | ok w =>
      dsimp only
      cases hfd : firstSetFrom fs.BlockStore_fd.fbm 256 0 with
      | some c =>
        dsimp only
        split_ifs
        · rw [fs_close_inode]; exact hok
        · exact hok
      | none =>
        dsimp only
        exact fs_remove_tail_ok_inodes
            { fs with BlockStore_whole := w,
                      BlockStore_inode := block_store_sub_release fs.BlockStore_inode f }
            d name junk junkBlk (inodesOK_release _ _ hok)

theorem fs_remove_ok_inodes (fs : F17FS) (path : List Nat) (junk : inode) (junkBlk : Block)
    (hok : InodesOK fs.BlockStore_inode) :
    InodesOK (fs_remove fs path junk junkBlk).2.BlockStore_inode := by
  unfold fs_remove
  split
  · exact hok
  · split
    · exact hok
    · split
      · exact hok
      · rename_i d _
        split
        · exact hok
        · dsimp only
          split
          · exact hok
          · have hflt := getFileInodeID_lt fs d (basename path)
            simp only [block_store_sub_read, hflt, if_true, Option.getD_some]
            split
            · exact fs_remove_dir_ok_inodes fs d _ _ junk junkBlk hok
            · split
              · exact fs_remove_file_ok_inodes fs d _ _ junk junkBlk hok
              · exact hok

theorem ffz8_lt (v : Nat) (a : Nat) (h : bitmap_ffz (bitmap_test v) 8 = some a) : a < 8 := by
  unfold bitmap_ffz at h
  have := (ffzFrom_some _ _ _ _ h)
  omega

theorem fs_create_at_ok_inodes (fs : F17FS) (p : Nat) (name : List Nat) (ft : Nat)
    (junk : inode) (junkName : Nat → Nat) (hok : InodesOK fs.BlockStore_inode) :
    InodesOK (fs_create_at fs p name ft junk junkName).2.BlockStore_inode := by
  unfold fs_create_at
  split
  · exact hok
  · rename_i parentInode hp
    have hpar : InodeOK parentInode := by
      unfold block_store_sub_read at hp
      split_ifs at hp
      cases hp
      exact hok p
    split
    · exact hok
    · split
      · exact hok
      · rename_i a ha
        have ha8 := ffz8_lt _ _ ha
        split
        · exact hok
        · rename_i ha7
          dsimp only
          have hA : InodesOK (match block_store_sub_allocate fs.BlockStore_inode with
              | some r => r
              | none => (2 ^ 64 - 1, fs.BlockStore_inode)).2 := by
            cases hal : block_store_sub_allocate fs.BlockStore_inode with
            | none => exact hok
            | some r =>
              dsimp only
              unfold block_store_sub_allocate at hal
              split at hal
              · cases hal
              · simp only [Option.some.injEq] at hal
                rw [← hal]; exact hok
          have hpar1 : InodeOK
              { parentInode with vacantFile := bitmap_set parentInode.vacantFile a } :=
            inodeOK_set _ a (by omega) hpar
          split
          · exact hA
          · rename_i newInode0 w hmade
            have hnew : InodeOK
                { newInode0 with
                  inodeNumber := (match block_store_sub_allocate fs.BlockStore_inode with
                    | some r => r
                    | none => (2 ^ 64 - 1, fs.BlockStore_inode)).1,
                  linkCount := 1 } := by
              refine ⟨by dsimp only; omega, fun ht => ?_⟩
              dsimp only at ht ⊢
              split_ifs at hmade with hft
              · split at hmade
                · cases hmade
                · simp only [Option.some.injEq, Prod.mk.injEq] at hmade
                  rw [← hmade.1]
                  exact (by decide : bitmap_test 0 7 = false)
              · simp only [Option.some.injEq, Prod.mk.injEq] at hmade
                rw [← hmade.1] at ht
                exact absurd ht hft
            split
            · exact inodesOK_getD_write _ _ _ hA (fun _ => hnew)
            · rename_i st2 h2
              have k2 := inodesOK_write _ _ _ (inodesOK_getD_write _ _ _ hA (fun _ => hnew))
                hpar1 st2 h2
              split
              · exact k2
              · exact k2

theorem fs_create_ok_inodes (fs : F17FS) (path : List Nat) (type : file_t) (junk : inode)
    (junkName : Nat → Nat) (hok : InodesOK fs.BlockStore_inode) :
    InodesOK (fs_create fs path type junk junkName).2.BlockStore_inode := by
  unfold fs_create
  split
  · exact hok
  · split
    · exact hok
    · split
      · exact hok
      · split
        · exact hok
        · split
          · exact hok
          · dsimp only
            split
            · exact hok
            · split
              · exact hok
              · exact fs_create_at_ok_inodes fs _ _ _ junk junkName hok

theorem inodesOK_format (created : block_store Block) (path : List Nat) (fs : F17FS)
    (h : fs_format created path = some fs) : InodesOK fs.BlockStore_inode := by
  unfold fs_format at h
  split_ifs at h
  have e := congrArg F17FS.BlockStore_inode (Option.some.inj h)
  dsimp only at e
  rw [← e]
  have hz : InodeOK zeroInode := ⟨by decide, fun ht => absurd ht (by decide)⟩
  have h0 : InodesOK (block_store_sub_create zeroInode) := fun _ => hz
  have h1 : InodesOK (match block_store_sub_allocate (block_store_sub_create zeroInode) with
      | some r => r.2
      | none => block_store_sub_create zeroInode) := by
    cases ha : block_store_sub_allocate (block_store_sub_create zeroInode) with
    | none => exact h0
    | some r =>
      dsimp only
      unfold block_store_sub_allocate at ha
      split at ha
      · cases ha
      · simp only [Option.some.injEq] at ha
        rw [← ha]; exact h0
  apply inodesOK_getD_write _ _ _ h1
  intro _
  exact ⟨(by decide : (1 : Nat) ≤ 255), fun _ => (by decide : bitmap_test 0 7 = false)⟩

/-- Every state the public operations reach from `fs_format` has link counts of
at most 255 and bit 7 of `vacantFile` clear in every directory inode. -/
theorem reachable_inodesOK (fs : F17FS) (h : Reachable fs) : InodesOK fs.BlockStore_inode := by
  induction h with
  | format created path fs h => exact inodesOK_format created path fs h
  | mount fs _ ih => exact ih
  | create fs path type junk junkName _ ih => exact fs_create_ok_inodes fs path type junk junkName ih
  | opened fs path _ ih => rw [fs_open_inode]; exact ih
  | close fs fd _ ih => rw [fs_close_inode]; exact ih
  | read fs fd nbyte r dst fs1 _ h ih => exact fs_read_ok fs fd nbyte r dst fs1 h ih
  | write fs fd src r fs1 _ h ih => exact fs_write_ok fs fd src r fs1 h ih
  | seek fs fd offset whence _ ih => rw [fs_seek_inode]; exact ih
  | remove fs path junk junkBlk _ ih => exact fs_remove_ok_inodes fs path junk junkBlk ih
  | move fs src dst _ ih => exact fs_move_ok_inodes fs src dst ih
  | link fs src dst _ ih => exact fs_link_ok_inodes fs src dst ih

theorem liveCount_le (v : Nat) (h : bitmap_test v 7 = false) : liveCount v ≤ 7 := by
  unfold liveCount
  rw [show (8 : Nat) = 7 + 1 from rfl, List.range_succ, List.filter_append]
  simp only [List.filter_cons, List.filter_nil, h, List.length_append]
  have := List.length_filter_le (fun k => bitmap_test v k) (List.range 7)
  simp only [List.length_range] at this
  simp
  omega

/-- The occupancy byte in the model.  In the inode store of the model, in every
state the public operations reach from `fs_format`, bit 7 of `vacantFile` is 0
in every directory inode, so that at most 7 of its 8 bits are set: the
statements of the source that write `vacantFile` set a bit below 7 or reset a
bit.  The invariant is one of the model: it does not follow a write into the
blocks 1..32, where the source keeps the inode table, nor the bytes `strcpy`
stores past the end of a directory block in `fs_move`. -/
theorem seven_entry_bound (fs : F17FS) (h : Reachable fs) (x : Nat)
    (hd : (fs.BlockStore_inode.data x).fileType = CH_d) :
    bitmap_test (fs.BlockStore_inode.data x).vacantFile 7 = false ∧
    liveCount (fs.BlockStore_inode.data x).vacantFile ≤ 7 ∧
    (liveSlots (fs.BlockStore_inode.data x).vacantFile).length ≤ 7 := by
  have h7 := (reachable_inodesOK fs h x).2 hd
  refine ⟨h7, liveCount_le _ h7, ?_⟩
  unfold liveSlots
  have := List.length_filter_le (fun k => bitmap_test (fs.BlockStore_inode.data x).vacantFile k)
    (List.range 7)
  simpa using this

set_option maxRecDepth 100000 in
/-- The occupancy byte on an example: the root directory of the image `exSeven`, reached by
`fs_format` and seven calls of `fs_create`, has seven live entries and bit 7
clear. -/
theorem seven_entry_bound_witness :
    (exSeven.BlockStore_inode.data 0).fileType = CH_d ∧
    (exSeven.BlockStore_inode.data 0).vacantFile = 127 ∧
    bitmap_test (exSeven.BlockStore_inode.data 0).vacantFile 7 = false ∧
    liveCount (exSeven.BlockStore_inode.data 0).vacantFile ≤ 7 ∧
    (liveSlots (exSeven.BlockStore_inode.data 0).vacantFile).length ≤ 7 :=
  have hr : Reachable exSeven :=
    Reachable.create _ _ _ _ _ (Reachable.create _ _ _ _ _ (Reachable.create _ _ _ _ _
      (Reachable.create _ _ _ _ _ (Reachable.create _ _ _ _ _ (Reachable.create _ _ _ _ _
        (Reachable.create _ _ _ _ _ (Reachable.format exCreated [105] exFormat rfl)))))))
  ⟨by decide, by decide, seven_entry_bound exSeven hr 0 (by decide)⟩

end F17

namespace F17

/-! ## The refusals of `fs_link` -/

theorem strncmpEq_mono (a b : Nat → Nat) : ∀ (n i : Nat),
    strncmpEq a b (n + 1) i = true → strncmpEq a b n i = true := by
  intro n
  induction n with
  | zero => intro i _; rfl
  | succ n ih =>
    intro i h
    unfold strncmpEq at h ⊢
    by_cases h1 : a i ≠ b i
    · rw [if_pos h1] at h; cases h
    · rw [if_neg h1] at h ⊢
      by_cases h2 : a i = 0
      · rw [if_pos h2]
      · rw [if_neg h2] at h ⊢
        exact ih _ h

/-- A live entry with the name looked up, behind live entries that all carry an
inode number other than 0, makes the scan of `getFileInodeID` return an inode
number other than 0. -/
theorem scanEntries_present (v : Nat) (blk : Block) (name : List Nat) (k : Nat) (hk : k < 7)
    (hlive : bitmap_test v k = true) (hname : strcmpEq (dentryName blk k) name = true)
    (hino : ∀ j, j ≤ k → bitmap_test v j = true → dentryInode blk j ≠ 0) :
    scanEntries v blk name 7 0 ≠ 0 := by
  have hm : strncmpEq (dentryName blk k) (cstr name) name.length 0 = true :=
    strncmpEq_mono _ _ _ _ hname
  rw [scanEntries_firstMatch]
  cases hf : firstMatch v blk name name.length 7 0 with
  | none =>
    exfalso
    have : firstMatch v blk name name.length 7 0 ≠ none := by
      intro hn
      clear hf
      have key : ∀ (n m : Nat), m ≤ k → k < m + n →
          firstMatch v blk name name.length n m ≠ none := by
        intro n
        induction n with
        | zero => intro m h1 h2; omega
        | succ n ih =>
          intro m h1 h2
          unfold firstMatch
          by_cases hc : bitmap_test v m = true ∧
              strncmpEq (dentryName blk m) (cstr name) name.length 0 = true
          · rw [if_pos hc]; simp
          · rw [if_neg hc]
            have hmk : m ≠ k := by
              intro e; subst e; exact hc ⟨hlive, hm⟩
            exact ih (m + 1) (by omega) (by omega)
      exact key 7 0 (by omega) (by omega) hn
    exact this hf
  | some j =>
    obtain ⟨_, _, hj1, _, hj3⟩ := firstMatch_some v blk name name.length 7 0 j hf
    have hjk : j ≤ k := by
      by_contra hc
      exact hj3 k (by omega) (by omega) ⟨hlive, hm⟩
    exact hino j hjk hj1

theorem linkLoop_full (fs : F17FS) (s dp : Nat) (base : List Nat) (srcI dstI : inode)
    (blk : Block) (hfull : ∀ i, i < 7 → bitmap_test dstI.vacantFile i = true) :
    ∀ (n i : Nat), i + n ≤ 7 → linkLoop fs s dp base srcI dstI blk n i = (-7, fs) := by
  intro n
  induction n with
  | zero => intro i _; rfl
  | succ n ih =>
    intro i hin
    unfold linkLoop
    rw [if_neg (by rw [hfull i (by omega)]; simp)]
    exact ih _ (by omega)

/-- Either `fs_link` refuses before its loop, with a negative code and the file
system as it was, or it runs the loop over the slots of the destination
directory, on a source with fewer than 255 links and a destination name that the
lookup does not find. -/
theorem fs_link_cases (fs : F17FS) (src dst : List Nat) :
    ((fs_link fs src dst).1 < 0 ∧ (fs_link fs src dst).2 = fs) ∨
    (dst ≠ [CH_slash] ∧ ∃ sp dp, searchPath fs (dirTokens src) = some sp ∧
      searchPath fs (dirTokens dst) = some dp ∧
      getFileInodeID fs sp (basename src) ≠ 0 ∧
      getFileInodeID fs dp (basename dst) = 0 ∧
      dp < 256 ∧ (fs.BlockStore_inode.data dp).directPointer 0 < 65536 ∧
      (fs.BlockStore_inode.data (getFileInodeID fs sp (basename src))).linkCount < 255 ∧
      fs_link fs src dst =
        linkLoop fs (getFileInodeID fs sp (basename src)) dp (basename dst)
          (fs.BlockStore_inode.data (getFileInodeID fs sp (basename src)))
          (fs.BlockStore_inode.data dp)
          (fs.BlockStore_whole.data ((fs.BlockStore_inode.data dp).directPointer 0)) 7 0) := by
  by_cases c1 : dst ≠ [CH_slash] ∧ src.head? = some CH_slash ∧ dst.head? = some CH_slash
  swap
  · left; unfold fs_link; rw [if_neg c1]; simp
  cases hsp : searchPath fs (dirTokens src) with
  | none => left; unfold fs_link; rw [if_pos c1]; simp [hsp]
  | some sp =>
    cases hdp : searchPath fs (dirTokens dst) with
    | none => left; unfold fs_link; rw [if_pos c1]; simp [hsp, hdp]
    | some dp =>
      by_cases c2 : getFileInodeID fs sp (basename src) ≠ 0 ∧
          getFileInodeID fs dp (basename dst) = 0
      swap
      · left; unfold fs_link; rw [if_pos c1]
        simp only [hsp, hdp]
        rw [if_neg c2]; simp
      have hs := getFileInodeID_lt fs sp (basename src)
      by_cases hd : dp < 256
      swap
      · left; unfold fs_link; rw [if_pos c1]
        simp only [hsp, hdp]
        rw [if_pos c2]
        simp [block_store_sub_read, hd]
      by_cases hB : (fs.BlockStore_inode.data dp).directPointer 0 < 65536
      swap
      · left; unfold fs_link; rw [if_pos c1]
        simp only [hsp, hdp]
        rw [if_pos c2]
        simp [block_store_sub_read, hd, hs, block_store_read, BLOCK_STORE_NUM_BLOCKS, hB]
      by_cases hl : (fs.BlockStore_inode.data
          (getFileInodeID fs sp (basename src))).linkCount < 255
      swap
      · left; unfold fs_link; rw [if_pos c1]
        simp only [hsp, hdp]
        rw [if_pos c2]
        simp [block_store_sub_read, hd, hs, block_store_read, BLOCK_STORE_NUM_BLOCKS, hB, hl]
      right
      refine ⟨c1.1, sp, dp, rfl, rfl, c2.1, c2.2, hd, hB, hl, ?_⟩
      unfold fs_link
      rw [if_pos c1]
      simp only [hsp, hdp]
      rw [if_pos c2]
      simp only [block_store_sub_read, hd, hs, if_true, block_store_read_spec _ _ hB]
      rw [if_pos hl]

/-- The refusals of `fs_link` are atomic: in every state `fs_link` returns a
negative code and leaves the whole file system as it was (every inode, block
and bitmap) when `dst` is `"/"`, when the link count of the source inode is 255
or more, when the destination name is already present (the lookup finds it; or
a live entry carries that name and the live entries up to it carry inode
numbers other than 0), or when the bits 0..6 of the destination directory are
all set. -/
theorem fs_link_refusals (fs : F17FS) (src dst : List Nat) :
    (dst = [CH_slash] → fs_link fs src dst = (-2, fs)) ∧
    (∀ sp dp, searchPath fs (dirTokens src) = some sp →
      searchPath fs (dirTokens dst) = some dp →
      ((fs.BlockStore_inode.data (getFileInodeID fs sp (basename src))).linkCount ≥ 255 ∨
        getFileInodeID fs dp (basename dst) ≠ 0 ∨
        (∃ k, k < 7 ∧ bitmap_test (fs.BlockStore_inode.data dp).vacantFile k = true ∧
          strcmpEq (dentryName
            (fs.BlockStore_whole.data ((fs.BlockStore_inode.data dp).directPointer 0)) k)
            (basename dst) = true ∧
          ∀ j, j ≤ k → bitmap_test (fs.BlockStore_inode.data dp).vacantFile j = true →
            dentryInode
              (fs.BlockStore_whole.data ((fs.BlockStore_inode.data dp).directPointer 0)) j ≠ 0) ∨
        (∀ i, i < 7 → bitmap_test (fs.BlockStore_inode.data dp).vacantFile i = true)) →
      (fs_link fs src dst).1 < 0 ∧ (fs_link fs src dst).2 = fs) := by
  refine ⟨?_, ?_⟩
  · intro hd
    unfold fs_link
    rw [if_neg (fun c => c.1 hd)]
  · intro sp dp hsp hdp hc
    rcases fs_link_cases fs src dst with h | ⟨_, sp1, dp1, e1, e2, h1, h2, h3, h4, h5, h6⟩
    · exact h
    · rw [hsp] at e1; rw [hdp] at e2
      cases e1; cases e2
      rcases hc with c | c | ⟨k, hk, hlive, hname, hino⟩ | c
      · omega
      · exact absurd h2 c
      · exfalso
        have := scanEntries_present _ _ _ k hk hlive hname hino
        unfold getFileInodeID at h2
        simp only [block_store_sub_read, h3, if_true, block_store_read_spec _ _ h4] at h2
        exact this h2
      · rw [h6, linkLoop_full fs _ _ _ _ _ _ c 7 0 (by omega)]
        simp

set_option maxRecDepth 100000 in
/-- The refusals of `fs_link` on example images: `fs_link("/a", "/")` returns
-2; on the image `exLinked`, where `"/b"` exists, `fs_link("/a", "/b")` returns
-4; on the image `exSeven`, whose root directory is full, `fs_link("/a", "/h")`
returns -7. -/
theorem fs_link_refusals_examples :
    (fs_link exA [47, 97] [47]).1 = -2 ∧
    getFileInodeID exLinked 0 (basename [47, 98]) ≠ 0 ∧
    (fs_link exLinked [47, 97] [47, 98]).1 = -4 ∧
    (∀ i, i < 7 → bitmap_test (exSeven.BlockStore_inode.data 0).vacantFile i = true) ∧
    (fs_link exSeven [47, 97] [47, 104]).1 = -7 := by
  decide

end F17

namespace F17

/-! ## Rename, move and the test against a move into itself (C22, C23, C25) -/

set_option maxRecDepth 100000 in
/-- C22, evaluated.  On the image `exA` (root directory with the file `"a"`,
inode 1): `"/a"` and `"/ab"` have the same parent directory, `"a"` exists and
`"ab"` does not, and `fs_move("/a", "/ab")` returns -3 and renames nothing,
because `"/a"` is a string prefix of `"/ab"` (line 1125).  And
`fs_move("/a", exPath64)`, to a name of 64 characters, returns 0 and leaves slot
0 with the inode number 0 instead of 1: the NUL that ends the name is stored
over the inode number (line 1142), the lookup of the new name returns 0, and
inode 1 is still allocated with one link. -/
theorem fs_move_rename_refused :
    searchPath exA (dirTokens [47, 97]) = some 0 ∧
    searchPath exA (dirTokens [47, 97, 98]) = some 0 ∧
    getFileInodeID exA 0 (basename [47, 97]) = 1 ∧
    getFileInodeID exA 0 (basename [47, 97, 98]) = 0 ∧
    (fs_move exA [47, 97] [47, 97, 98]).1 = -3 ∧
    getFileInodeID (fs_move exA [47, 97] [47, 97, 98]).2 0 [97, 98] = 0 ∧
    searchPath exA (dirTokens exPath64) = some 0 ∧
    getFileInodeID exA 0 (basename exPath64) = 0 ∧
    (basename exPath64).length = 64 ∧
    (fs_move exA [47, 97] exPath64).1 = 0 ∧
    dentryInode (exA.BlockStore_whole.data 33) 0 = 1 ∧
    dentryInode ((fs_move exA [47, 97] exPath64).2.BlockStore_whole.data 33) 0 = 0 ∧
    bitmap_test ((fs_move exA [47, 97] exPath64).2.BlockStore_inode.data 0).vacantFile 0 = true ∧
    getFileInodeID (fs_move exA [47, 97] exPath64).2 0 (basename exPath64) = 0 ∧
    block_store_sub_test (fs_move exA [47, 97] exPath64).2.BlockStore_inode 1 = true ∧
    ((fs_move exA [47, 97] exPath64).2.BlockStore_inode.data 1).linkCount = 1 := by
  decide

set_option maxRecDepth 100000 in
/-- C23, evaluated.  On the image `exHardLinks` the root directory holds the
directory `"d"` and the names `"a"` and `"b"` of one file (inode 2).
`fs_move("/b", "/d/x")` returns 0 and the directory `"d"` gets the live entry
`{"x", 2}`, but the entry taken out of the root directory is the one of `"a"`
(slot 1), the first with inode number 2 (line 1175): afterwards the root
directory still has the live entry `"b"`, and the lookup of `"a"` returns 0. -/
theorem fs_move_hard_link :
    searchPath exHardLinks (dirTokens [47, 98]) = some 0 ∧
    searchPath exHardLinks (dirTokens [47, 100, 47, 120]) = some 1 ∧
    getFileInodeID exHardLinks 0 (basename [47, 97]) = 2 ∧
    getFileInodeID exHardLinks 0 (basename [47, 98]) = 2 ∧
    getFileInodeID exHardLinks 1 (basename [47, 100, 47, 120]) = 0 ∧
    bitmap_test (exHardLinks.BlockStore_inode.data 1).vacantFile 0 = false ∧
    (fs_move exHardLinks [47, 98] [47, 100, 47, 120]).1 = 0 ∧
    getFileInodeID (fs_move exHardLinks [47, 98] [47, 100, 47, 120]).2 1 [120] = 2 ∧
    bitmap_test ((fs_move exHardLinks [47, 98] [47, 100, 47, 120]).2.BlockStore_inode.data
      0).vacantFile 2 = true ∧
    strcmpEq (dentryName ((fs_move exHardLinks [47, 98] [47, 100, 47,
      120]).2.BlockStore_whole.data 33) 2) [98] = true ∧
    getFileInodeID (fs_move exHardLinks [47, 98] [47, 100, 47, 120]).2 0 [98] = 2 ∧
    bitmap_test (exHardLinks.BlockStore_inode.data 0).vacantFile 1 = true ∧
    strcmpEq (dentryName (exHardLinks.BlockStore_whole.data 33) 1) [97] = true ∧
    bitmap_test ((fs_move exHardLinks [47, 98] [47, 100, 47, 120]).2.BlockStore_inode.data
      0).vacantFile 1 = false ∧
    getFileInodeID (fs_move exHardLinks [47, 98] [47, 100, 47, 120]).2 0 [97] = 0 := by
  decide

set_option maxRecDepth 100000 in
/-- C25, evaluated.  On the image `exD` (root directory with the directory
`"d"`, inode 1) the parent directory of the path `"//d/x"` resolves to inode 1,
the directory `"/d"` itself, and `"/d"` is not a string prefix of `"//d/x"`:
`fs_move("/d", "//d/x")` returns 0.  Afterwards the directory of inode 1 holds
the live entry `{"x", 1}`, an entry of itself, and the root directory has no
live entry.  The same happens through a second name of the directory: after
`fs_link("/d", "/e")`, which returns 0, the parent directory of `"/e/x"`
resolves to inode 1 and `fs_move("/d", "/e/x")` returns 0 and leaves the live
entry `{"x", 1}` in the directory of inode 1. -/
theorem fs_move_into_itself :
    (exD.BlockStore_inode.data 1).fileType = CH_d ∧
    searchPath exD (dirTokens [47, 100]) = some 0 ∧
    getFileInodeID exD 0 (basename [47, 100]) = 1 ∧
    searchPath exD (dirTokens [47, 47, 100, 47, 120]) = some 1 ∧
    (fs_move exD [47, 100] [47, 47, 100, 47, 120]).1 = 0 ∧
    block_store_sub_test (fs_move exD [47, 100] [47, 47, 100, 47, 120]).2.BlockStore_inode 1
      = true ∧
    ((fs_move exD [47, 100] [47, 47, 100, 47, 120]).2.BlockStore_inode.data 1).fileType
      = CH_d ∧
    getFileInodeID (fs_move exD [47, 100] [47, 47, 100, 47, 120]).2 1 [120] = 1 ∧
    bitmap_test ((fs_move exD [47, 100] [47, 47, 100, 47, 120]).2.BlockStore_inode.data
      1).vacantFile 0 = true ∧
    ((fs_move exD [47, 100] [47, 47, 100, 47, 120]).2.BlockStore_inode.data 0).vacantFile
      = 0 ∧
    (fs_link exD [47, 100] [47, 101]).1 = 0 ∧
    searchPath (fs_link exD [47, 100] [47, 101]).2 (dirTokens [47, 101, 47, 120]) = some 1 ∧
    (fs_move (fs_link exD [47, 100] [47, 101]).2 [47, 100] [47, 101, 47, 120]).1 = 0 ∧
    getFileInodeID (fs_move (fs_link exD [47, 100] [47, 101]).2 [47, 100]
      [47, 101, 47, 120]).2 1 [120] = 1 ∧
    bitmap_test ((fs_move (fs_link exD [47, 100] [47, 101]).2 [47, 100]
      [47, 101, 47, 120]).2.BlockStore_inode.data 1).vacantFile 0 = true := by
  decide

end F17

namespace F17

/-! ## What `fs_move` does when its tests pass -/

/-- A call of `fs_move` whose source path is a proper string prefix of the
destination path returns a negative code and changes nothing (line 1125). -/
theorem fs_move_string_prefix (fs : F17FS) (src dst : List Nat)
    (h1 : src.length < dst.length) (h2 : src <+: dst) :
    (fs_move fs src dst).1 < 0 ∧ (fs_move fs src dst).2 = fs := by
  unfold fs_move
  split
  · split
    · rw [if_pos ⟨h1, h2⟩]; simp
    · simp
  · simp

theorem strncmpEq_of_eq (a b : Nat → Nat) : ∀ (n i : Nat),
    (∀ t, i ≤ t → t < i + n → a t = b t) → strncmpEq a b n i = true := by
  intro n
  induction n with
  | zero => intro i _; rfl
  | succ n ih =>
    intro i h
    unfold strncmpEq
    rw [if_neg (by simp [h i (le_refl _) (by omega)])]
    split_ifs
    · rfl
    · exact ih (i + 1) (fun t h1 h2 => h t (by omega) (by omega))

/-- After `strcpy` of a name of fewer than 64 characters into entry `k`, the
entry holds the name and its old inode number, and the other entries are as
before. -/
theorem strcpyEntry_spec (blk : Block) (k : Nat) (s : List Nat) (hlen : s.length < 64) :
    strcmpEq (dentryName (strcpyEntry blk k s) k) s = true ∧
    dentryInode (strcpyEntry blk k s) k = dentryInode blk k ∧
    ∀ j t, j ≠ k → t ≤ 64 → strcpyEntry blk k s (65 * j + t) = blk (65 * j + t) := by
  refine ⟨?_, ?_, ?_⟩
  · unfold strcmpEq
    apply strncmpEq_of_eq
    intro t _ ht
    unfold dentryName strcpyEntry cstr
    by_cases h : t < s.length
    · rw [if_pos ⟨by omega, by omega⟩]
      congr 1; omega
    · have e : t = s.length := by omega
      rw [if_neg (by omega), if_pos (by omega)]
      subst e
      simp [List.getD_eq_getElem?_getD]
  · unfold dentryInode strcpyEntry
    rw [if_neg (by omega), if_neg (by omega)]
  · intro j t hj ht
    unfold strcpyEntry
    rw [if_neg (by omega), if_neg (by omega)]

/-- The loop of the rename stops at the first entry with the inode number and
the name of the source and writes the block with the new name in it. -/
theorem renameLoop_hit (bs : block_store Block) (blkId s : Nat) (sb db : List Nat) (blk : Block)
    (k : Nat) (hB : blkId < 65536)
    (hk : dentryInode blk k = s ∧ strcmpEq (dentryName blk k) sb = true) :
    ∀ (n i : Nat), i ≤ k → k < i + n →
    (∀ j, i ≤ j → j < k → ¬ (dentryInode blk j = s ∧ strcmpEq (dentryName blk j) sb = true)) →
    renameLoop bs blkId s sb db n i blk =
      some { bs with data := upd bs.data blkId (strcpyEntry blk k db) } := by
  intro n
  induction n with
  | zero => intro i h1 h2 _; omega
  | succ n ih =>
    intro i h1 h2 hfirst
    unfold renameLoop
    by_cases hik : i = k
    · subst hik
      rw [if_pos hk, block_store_write_spec _ _ _ hB]
    · rw [if_neg (hfirst i (le_refl _) (by omega))]
      exact ih (i + 1) (by omega) (by omega) (fun j hj1 hj2 => hfirst j (by omega) hj2)

/-- Rename in place, when the tests of `fs_move` pass.  Both paths are
absolute and not `"/"`, their parent directories resolve to the same directory
`p`, `src` is not a proper string prefix of `dst` (line 1125), the lookup of
`basename(src)` finds slot `k` with an inode number `s` other than 0, that slot
is named `basename(src)` and no free slot before it carries the number `s`, the
lookup of `basename(dst)` finds nothing, and `basename(dst)` has fewer than 64
characters.  Then `fs_move` returns 0; afterwards slot `k` holds `basename(dst)`
with the same inode number, every other slot of the directory block, every
other block, every inode (so the occupancy bitmap of the parent) and every
bitmap are unchanged. -/
theorem fs_move_rename (fs : F17FS) (src dst : List Nat) (p s k : Nat)
    (h1 : src ≠ [CH_slash]) (h2 : dst ≠ [CH_slash]) (h3 : src.head? = some CH_slash)
    (h4 : dst.head? = some CH_slash)
    (hsp : searchPath fs (dirTokens src) = some p)
    (hdp : searchPath fs (dirTokens dst) = some p)
    (hpre : ¬ (src.length < dst.length ∧ src <+: dst))
    (hs : getFileInodeID fs p (basename src) = s) (hs0 : s ≠ 0)
    (hd0 : getFileInodeID fs p (basename dst) = 0)
    (hk : firstMatch (fs.BlockStore_inode.data p).vacantFile
      (fs.BlockStore_whole.data ((fs.BlockStore_inode.data p).directPointer 0))
      (basename src) (basename src).length 7 0 = some k)
    (hname : strcmpEq (dentryName
      (fs.BlockStore_whole.data ((fs.BlockStore_inode.data p).directPointer 0)) k)
      (basename src) = true)
    (hfree : ∀ i, i < k → bitmap_test (fs.BlockStore_inode.data p).vacantFile i = false →
      dentryInode (fs.BlockStore_whole.data ((fs.BlockStore_inode.data p).directPointer 0)) i
        ≠ s)
    (hlen : (basename dst).length < 64) :
    (fs_move fs src dst).1 = 0 ∧
    (fs_move fs src dst).2.BlockStore_fd = fs.BlockStore_fd ∧
    (fs_move fs src dst).2.BlockStore_inode = fs.BlockStore_inode ∧
    (fs_move fs src dst).2.BlockStore_whole.fbm = fs.BlockStore_whole.fbm ∧
    (∀ b, b ≠ (fs.BlockStore_inode.data p).directPointer 0 →
      (fs_move fs src dst).2.BlockStore_whole.data b = fs.BlockStore_whole.data b) ∧
    k < 7 ∧
    strcmpEq (dentryName ((fs_move fs src dst).2.BlockStore_whole.data
      ((fs.BlockStore_inode.data p).directPointer 0)) k) (basename dst) = true ∧
    dentryInode ((fs_move fs src dst).2.BlockStore_whole.data
      ((fs.BlockStore_inode.data p).directPointer 0)) k = s ∧
    (∀ j t, j ≠ k → t ≤ 64 →
      (fs_move fs src dst).2.BlockStore_whole.data
        ((fs.BlockStore_inode.data p).directPointer 0) (65 * j + t) =
      fs.BlockStore_whole.data ((fs.BlockStore_inode.data p).directPointer 0) (65 * j + t)) := by
  obtain ⟨hp, hB, hscan⟩ := getFileInodeID_ne_zero fs p (basename src) (by rw [hs]; exact hs0)
  obtain ⟨_, hk7, hklive, hkm, hkfirst⟩ := firstMatch_some _ _ _ _ 7 0 k hk
  have hkino : dentryInode
      (fs.BlockStore_whole.data ((fs.BlockStore_inode.data p).directPointer 0)) k = s := by
    rw [← hs, hscan, scanEntries_firstMatch, hk]
  have hloop := renameLoop_hit fs.BlockStore_whole ((fs.BlockStore_inode.data p).directPointer 0)
    s (basename src) (basename dst) _ k hB ⟨hkino, hname⟩ 7 0 (by omega) (by omega)
    (fun j _ hj c => by
      by_cases hl : bitmap_test (fs.BlockStore_inode.data p).vacantFile j = true
      · exact hkfirst j (by omega) hj ⟨hl, strncmpEq_mono _ _ _ _ c.2⟩
      · exact hfree j hj (by simpa using hl) c.1)
  have heq : fs_move fs src dst =
      (0, { fs with BlockStore_whole :=
        { fs.BlockStore_whole with
          data := upd fs.BlockStore_whole.data ((fs.BlockStore_inode.data p).directPointer 0)
            (strcpyEntry
              (fs.BlockStore_whole.data ((fs.BlockStore_inode.data p).directPointer 0)) k
              (basename dst)) } }) := by
    unfold fs_move
    rw [if_pos ⟨h1, h2, h3, h4⟩]
    simp only [hsp, hdp]
    rw [if_neg hpre]
    simp only [hs, hd0]
    rw [if_pos ⟨hs0, trivial⟩, if_pos trivial]
    simp only [block_store_sub_read, hp, if_true, block_store_read_spec _ _ hB, hloop]
  obtain ⟨e1, e2, e3⟩ := strcpyEntry_spec
    (fs.BlockStore_whole.data ((fs.BlockStore_inode.data p).directPointer 0)) k (basename dst) hlen
  rw [heq]
  refine ⟨rfl, rfl, rfl, rfl, fun b hb => upd_other _ _ _ _ hb, by omega, ?_, ?_, ?_⟩
  · dsimp only; rw [upd_same]; exact e1
  · dsimp only; rw [upd_same, e2]; exact hkino
  · intro j t hj ht
    dsimp only; rw [upd_same]; exact e3 j t hj ht

set_option maxRecDepth 100000 in
/-- The rename on an example: on the image `exA`, `fs_move("/a", "/b")` returns
0 and slot 0 of the root directory holds `"b"` with inode number 1. -/
theorem fs_move_rename_witness :
    (fs_move exA [47, 97] [47, 98]).1 = 0 ∧
    strcmpEq (dentryName ((fs_move exA [47, 97] [47, 98]).2.BlockStore_whole.data
      ((exA.BlockStore_inode.data 0).directPointer 0)) 0) (basename [47, 98]) = true ∧
    dentryInode ((fs_move exA [47, 97] [47, 98]).2.BlockStore_whole.data
      ((exA.BlockStore_inode.data 0).directPointer 0)) 0 = 1 :=
  have h := fs_move_rename exA [47, 97] [47, 98] 0 1 0 (by decide) (by decide) (by decide)
    (by decide) (by decide) (by decide) (by decide) (by decide) (by decide) (by decide)
    (by decide) (by decide) (fun i hi => absurd hi (by omega)) (by decide)
  ⟨h.1, h.2.2.2.2.2.2.1, h.2.2.2.2.2.2.2.1⟩

theorem firstEntryOf_first (blk : Block) (s k : Nat) (hk : dentryInode blk k = s) :
    ∀ (n j : Nat), j ≤ k → k < j + n → (∀ t, j ≤ t → t < k → dentryInode blk t ≠ s) →
    firstEntryOf blk s n j = some k := by
  intro n
  induction n with
  | zero => intro j h1 h2 _; omega
  | succ n ih =>
    intro j h1 h2 hfirst
    unfold firstEntryOf
    by_cases hjk : j = k
    · subst hjk; rw [if_pos hk]
    · rw [if_neg (hfirst j (le_refl _) (by omega))]
      exact ih (j + 1) (by omega) (by omega) (fun t ht1 ht2 => hfirst t (by omega) ht2)

/-- The loop of the move between two directories, when the destination has its
first free slot at `i` and the source block has its first entry with the inode
number of the source at `k`. -/
theorem moveLoop_hit (fs : F17FS) (sp dp s : Nat) (base : List Nat) (srcI : inode)
    (srcBlk : Block) (i k : Nat) (dstI : inode) (dstBlk : Block)
    (hsp : sp < 256) (hdp : dp < 256) (hB1 : srcI.directPointer 0 < 65536)
    (hB2 : dstI.directPointer 0 < 65536)
    (hk : firstEntryOf srcBlk s 7 0 = some k)
    (hifree : bitmap_test dstI.vacantFile i = false) :
    ∀ (n i0 : Nat), i0 ≤ i → i < i0 + n →
    (∀ j, i0 ≤ j → j < i → bitmap_test dstI.vacantFile j = true) →
    moveLoop fs sp dp s base srcI srcBlk n i0 dstI dstBlk =
      (0, { fs with
        BlockStore_whole :=
          { fs.BlockStore_whole with
            data := upd (upd fs.BlockStore_whole.data (dstI.directPointer 0)
              (setDentryInode (strcpyEntry dstBlk i base) i s)) (srcI.directPointer 0)
              (zeroDentry srcBlk k) },
        BlockStore_inode :=
          { fs.BlockStore_inode with
            data := upd (upd fs.BlockStore_inode.data dp
              { dstI with vacantFile := bitmap_set dstI.vacantFile i }) sp
              { srcI with vacantFile := bitmap_reset srcI.vacantFile k } } }) := by
  intro n
  induction n with
  | zero => intro i0 h1 h2 _; omega
  | succ n ih =>
    intro i0 h1 h2 hset
    unfold moveLoop
    by_cases hii : i0 = i
    · subst hii
      rw [if_pos hifree]
      simp only [hk, block_store_write_spec _ _ _ hB1, block_store_write_spec _ _ _ hB2,
        sub_write_spec _ _ _ hsp, sub_write_spec _ _ _ hdp]
    · rw [if_neg (by rw [hset i0 (le_refl _) (by omega)]; simp)]
      exact ih (i0 + 1) (by omega) (by omega) (fun j hj1 hj2 => hset j (by omega) hj2)

/-- After `strcpy` of a name of fewer than 64 characters into entry `i` and the
store of the inode number `s`, the entry holds the name and the number, and the
other entries are as before. -/
theorem moveEntry_spec (blk : Block) (i : Nat) (base : List Nat) (s : Nat)
    (hlen : base.length < 64) (hs : s < 256) :
    strcmpEq (dentryName (setDentryInode (strcpyEntry blk i base) i s) i) base = true ∧
    dentryInode (setDentryInode (strcpyEntry blk i base) i s) i = s ∧
    ∀ j t, j ≠ i → t ≤ 64 →
      setDentryInode (strcpyEntry blk i base) i s (65 * j + t) = blk (65 * j + t) := by
  refine ⟨?_, ?_, ?_⟩
  · unfold strcmpEq
    apply strncmpEq_of_eq
    intro t _ ht
    unfold dentryName setDentryInode strcpyEntry cstr
    rw [if_neg (by omega)]
    by_cases h : t < base.length
    · rw [if_pos ⟨by omega, by omega⟩]
      congr 1; omega
    · have e : t = base.length := by omega
      rw [if_neg (by omega), if_pos (by omega)]
      subst e
      simp [List.getD_eq_getElem?_getD]
  · unfold dentryInode setDentryInode
    rw [if_pos rfl, Nat.mod_mod, Nat.mod_eq_of_lt hs]
  · intro j t hj ht
    unfold setDentryInode strcpyEntry
    rw [if_neg (by omega), if_neg (by omega), if_neg (by omega)]

theorem zeroDentry_other (blk : Block) (k : Nat) :
    ∀ j t, j ≠ k → t ≤ 64 → zeroDentry blk k (65 * j + t) = blk (65 * j + t) := by
  intro j t hj ht
  unfold zeroDentry FS_FNAME_MAX
  rw [if_neg (by omega), if_neg (by omega)]

/-- Move across directories, when the tests of `fs_move` pass.  Both paths are
absolute and not `"/"`, their parent directories resolve to two directories `sp`
and `dp` with different data blocks, `src` is not a proper string prefix of
`dst` (line 1125), the lookup of `basename(src)` finds slot `k` with an inode
number `s` other than 0 and no slot before `k` carries that number, the lookup
of `basename(dst)` finds nothing, slot `i` is the first free slot of the
destination among 0..6, and `basename(dst)` has fewer than 64 characters.  Then
`fs_move` returns 0; afterwards slot `i` of the destination is live and holds
`{basename(dst), s}` and its other slots are unchanged; slot `k` of the source
directory is not live, its other bits and slots are unchanged; and the bitmaps,
the descriptors, the other blocks and the other inodes are unchanged. -/
theorem fs_move_across (fs : F17FS) (src dst : List Nat) (sp dp s k i : Nat)
    (h1 : src ≠ [CH_slash]) (h2 : dst ≠ [CH_slash]) (h3 : src.head? = some CH_slash)
    (h4 : dst.head? = some CH_slash)
    (hsp : searchPath fs (dirTokens src) = some sp)
    (hdp : searchPath fs (dirTokens dst) = some dp)
    (hne : sp ≠ dp) (hdp256 : dp < 256)
    (hB2 : (fs.BlockStore_inode.data dp).directPointer 0 < 65536)
    (hBne : (fs.BlockStore_inode.data sp).directPointer 0 ≠
      (fs.BlockStore_inode.data dp).directPointer 0)
    (hpre : ¬ (src.length < dst.length ∧ src <+: dst))
    (hs : getFileInodeID fs sp (basename src) = s) (hs0 : s ≠ 0)
    (hd0 : getFileInodeID fs dp (basename dst) = 0)
    (hk : firstMatch (fs.BlockStore_inode.data sp).vacantFile
      (fs.BlockStore_whole.data ((fs.BlockStore_inode.data sp).directPointer 0))
      (basename src) (basename src).length 7 0 = some k)
    (hfirst : ∀ j, j < k →
      dentryInode (fs.BlockStore_whole.data ((fs.BlockStore_inode.data sp).directPointer 0)) j
        ≠ s)
    (hi : i < 7) (hifree : bitmap_test (fs.BlockStore_inode.data dp).vacantFile i = false)
    (hiset : ∀ j, j < i → bitmap_test (fs.BlockStore_inode.data dp).vacantFile j = true)
    (hlen : (basename dst).length < 64) :
    (fs_move fs src dst).1 = 0 ∧
    (fs_move fs src dst).2.BlockStore_fd = fs.BlockStore_fd ∧
    (fs_move fs src dst).2.BlockStore_whole.fbm = fs.BlockStore_whole.fbm ∧
    (fs_move fs src dst).2.BlockStore_inode.fbm = fs.BlockStore_inode.fbm ∧
    bitmap_test ((fs_move fs src dst).2.BlockStore_inode.data dp).vacantFile i = true ∧
    strcmpEq (dentryName ((fs_move fs src dst).2.BlockStore_whole.data
      ((fs.BlockStore_inode.data dp).directPointer 0)) i) (basename dst) = true ∧
    dentryInode ((fs_move fs src dst).2.BlockStore_whole.data
      ((fs.BlockStore_inode.data dp).directPointer 0)) i = s ∧
    (∀ j, j ≠ i → bitmap_test ((fs_move fs src dst).2.BlockStore_inode.data dp).vacantFile j =
      bitmap_test (fs.BlockStore_inode.data dp).vacantFile j) ∧
    (∀ j t, j ≠ i → t ≤ 64 →
      (fs_move fs src dst).2.BlockStore_whole.data
        ((fs.BlockStore_inode.data dp).directPointer 0) (65 * j + t) =
      fs.BlockStore_whole.data ((fs.BlockStore_inode.data dp).directPointer 0) (65 * j + t)) ∧
    k < 7 ∧
    bitmap_test ((fs_move fs src dst).2.BlockStore_inode.data sp).vacantFile k = false ∧
    (∀ j, j ≠ k → bitmap_test ((fs_move fs src dst).2.BlockStore_inode.data sp).vacantFile j =
      bitmap_test (fs.BlockStore_inode.data sp).vacantFile j) ∧
    (∀ j t, j ≠ k → t ≤ 64 →
      (fs_move fs src dst).2.BlockStore_whole.data
        ((fs.BlockStore_inode.data sp).directPointer 0) (65 * j + t) =
      fs.BlockStore_whole.data ((fs.BlockStore_inode.data sp).directPointer 0) (65 * j + t)) ∧
    (∀ b, b ≠ (fs.BlockStore_inode.data sp).directPointer 0 →
      b ≠ (fs.BlockStore_inode.data dp).directPointer 0 →
      (fs_move fs src dst).2.BlockStore_whole.data b = fs.BlockStore_whole.data b) ∧
    (∀ x, x ≠ sp → x ≠ dp →
      (fs_move fs src dst).2.BlockStore_inode.data x = fs.BlockStore_inode.data x) := by
  obtain ⟨hsp256, hB1, hscan⟩ :=
    getFileInodeID_ne_zero fs sp (basename src) (by rw [hs]; exact hs0)
  obtain ⟨_, hk7, _, _, _⟩ := firstMatch_some _ _ _ _ 7 0 k hk
  have hkino : dentryInode
      (fs.BlockStore_whole.data ((fs.BlockStore_inode.data sp).directPointer 0)) k = s := by
    rw [← hs, hscan, scanEntries_firstMatch, hk]
  have hs256 : s < 256 := by rw [← hs]; exact getFileInodeID_lt _ _ _
  have hfe := firstEntryOf_first _ s k hkino 7 0 (by omega) (by omega)
    (fun t _ ht => hfirst t ht)
  have hloop := moveLoop_hit fs sp dp s (basename dst) (fs.BlockStore_inode.data sp)
    (fs.BlockStore_whole.data ((fs.BlockStore_inode.data sp).directPointer 0)) i k
    (fs.BlockStore_inode.data dp)
    (fs.BlockStore_whole.data ((fs.BlockStore_inode.data dp).directPointer 0))
    hsp256 hdp256 hB1 hB2 hfe hifree 7 0 (by omega) (by omega) (fun j _ hj => hiset j hj)
  have heq : fs_move fs src dst =
      moveLoop fs sp dp s (basename dst) (fs.BlockStore_inode.data sp)
        (fs.BlockStore_whole.data ((fs.BlockStore_inode.data sp).directPointer 0)) 7 0
        (fs.BlockStore_inode.data dp)
        (fs.BlockStore_whole.data ((fs.BlockStore_inode.data dp).directPointer 0)) := by
    unfold fs_move
    rw [if_pos ⟨h1, h2, h3, h4⟩]
    simp only [hsp, hdp]
    rw [if_neg hpre]
    simp only [hs, hd0]
    rw [if_pos ⟨hs0, trivial⟩, if_neg hne]
    simp only [block_store_sub_read, hsp256, hdp256, if_true, block_store_read_spec _ _ hB1,
      block_store_read_spec _ _ hB2]
  obtain ⟨e1, e2, e3⟩ := moveEntry_spec
    (fs.BlockStore_whole.data ((fs.BlockStore_inode.data dp).directPointer 0)) i (basename dst)
    s hlen hs256
  rw [heq, hloop]
  dsimp only
  refine ⟨rfl, rfl, rfl, rfl, ?_, ?_, ?_, ?_, ?_, by omega, ?_, ?_, ?_, ?_, ?_⟩
  · rw [upd_other _ _ _ _ (Ne.symm hne), upd_same]
    dsimp only
    rw [bitmap_test_set]; simp
  · rw [upd_other _ _ _ _ (Ne.symm hBne), upd_same]; exact e1
  · rw [upd_other _ _ _ _ (Ne.symm hBne), upd_same]; exact e2
  · intro j hj
    rw [upd_other _ _ _ _ (Ne.symm hne), upd_same]
    dsimp only
    rw [bitmap_test_set]; simp [Ne.symm hj]
  · intro j t hj ht
    rw [upd_other _ _ _ _ (Ne.symm hBne), upd_same]; exact e3 j t hj ht
  · rw [upd_same]
    dsimp only
    rw [bitmap_test_reset]; simp
  · intro j hj
    rw [upd_same]
    dsimp only
    rw [bitmap_test_reset]; simp [hj]
  · intro j t hj ht
    rw [upd_same]; exact zeroDentry_other _ k j t hj ht
  · intro b hb1 hb2
    rw [upd_other _ _ _ _ hb1, upd_other _ _ _ _ hb2]
  · intro x hx1 hx2
    rw [upd_other _ _ _ _ hx1, upd_other _ _ _ _ hx2]

set_option maxRecDepth 100000 in
/-- The move across directories on an example: on the image `exDE`, where the
directory `"/d"` holds the file `"e"` (inode 2), `fs_move("/d/e", "/y")` returns
0; afterwards the root directory holds `{"y", 2}` in slot 1 and the directory
`"/d"` has no live entry. -/
theorem fs_move_across_witness :
    (fs_move exDE [47, 100, 47, 101] [47, 121]).1 = 0 ∧
    bitmap_test ((fs_move exDE [47, 100, 47, 101] [47, 121]).2.BlockStore_inode.data 0).vacantFile
      1 = true ∧
    strcmpEq (dentryName ((fs_move exDE [47, 100, 47, 101] [47, 121]).2.BlockStore_whole.data
      ((exDE.BlockStore_inode.data 0).directPointer 0)) 1) (basename [47, 121]) = true ∧
    dentryInode ((fs_move exDE [47, 100, 47, 101] [47, 121]).2.BlockStore_whole.data
      ((exDE.BlockStore_inode.data 0).directPointer 0)) 1 = 2 ∧
    bitmap_test ((fs_move exDE [47, 100, 47, 101] [47, 121]).2.BlockStore_inode.data 1).vacantFile
      0 = false :=
  have h := fs_move_across exDE [47, 100, 47, 101] [47, 121] 1 0 2 0 1 (by decide) (by decide)
    (by decide) (by decide) (by decide) (by decide) (by decide) (by decide) (by decide)
    (by decide) (by decide) (by decide) (by decide) (by decide) (by decide)
    (fun j hj => absurd hj (by omega)) (by decide) (by decide)
    (fun j hj => by
      have : j = 0 := by omega
      subst this; decide)
    (by decide)
  ⟨h.1, h.2.2.2.2.1, h.2.2.2.2.2.1, h.2.2.2.2.2.2.1, h.2.2.2.2.2.2.2.2.2.2.1⟩

end F17

namespace F17

/-! ## What `fs_move` leaves alone -/

theorem sameButVacant_refl (a : inode) : sameButVacant a a :=
  ⟨rfl, rfl, rfl, rfl, rfl, rfl, rfl⟩

theorem sameButVacant_vacant (a b : inode) (v : Nat) (h : sameButVacant a b) :
    sameButVacant { a with vacantFile := v } b := h

theorem moveFrame_refl (fs : F17FS) (B1 B2 : Nat) : MoveFrame fs fs B1 B2 :=
  ⟨rfl, rfl, rfl, fun _ => sameButVacant_refl _, fun _ _ _ => rfl⟩

theorem write_frame (bs : block_store Block) (id : Nat) (blk : Block) (w : block_store Block)
    (h : block_store_write bs id blk = some w) :
    w.fbm = bs.fbm ∧ ∀ b, b ≠ id → w.data b = bs.data b := by
  unfold block_store_write at h
  split_ifs at h
  cases h
  exact ⟨rfl, fun b hb => upd_other _ _ _ _ hb⟩

theorem sub_write_frame (s : block_store inode) (x : Nat) (ino : inode) (st : block_store inode)
    (h : block_store_sub_write s x ino = some st) :
    st.fbm = s.fbm ∧ st.data x = ino ∧ ∀ y, y ≠ x → st.data y = s.data y := by
  unfold block_store_sub_write at h
  split_ifs at h
  cases h
  exact ⟨rfl, upd_same _ _ _, fun y hy => upd_other _ _ _ _ hy⟩

theorem renameLoop_frame (bs : block_store Block) (blkId s : Nat) (sb db : List Nat) :
    ∀ (n i : Nat) (blk : Block) (w : block_store Block),
    renameLoop bs blkId s sb db n i blk = some w →
    w.fbm = bs.fbm ∧ ∀ b, b ≠ blkId → w.data b = bs.data b := by
  intro n
  induction n with
  | zero => intro i blk w h; unfold renameLoop at h; cases h
  | succ n ih =>
    intro i blk w h
    unfold renameLoop at h
    split_ifs at h
    · split at h
      · rename_i w1 hw
        cases h
        exact write_frame _ _ _ _ hw
      · exact ih _ _ _ h
    · exact ih _ _ _ h

theorem moveLoop_frame (fs : F17FS) (sp dp s : Nat) (base : List Nat) (srcI : inode)
    (srcBlk : Block) (hs : sameButVacant srcI (fs.BlockStore_inode.data sp)) :
    ∀ (n i : Nat) (dstI : inode) (dstBlk : Block),
    sameButVacant dstI (fs.BlockStore_inode.data dp) →
    MoveFrame fs (moveLoop fs sp dp s base srcI srcBlk n i dstI dstBlk).2
      ((fs.BlockStore_inode.data sp).directPointer 0)
      ((fs.BlockStore_inode.data dp).directPointer 0) := by
  intro n
  induction n with
  | zero => intro i dstI dstBlk _; exact moveFrame_refl _ _ _
  | succ n ih =>
    intro i dstI dstBlk hd
    have hsp0 : srcI.directPointer 0 = (fs.BlockStore_inode.data sp).directPointer 0 := by
      rw [hs.2.2.2.2.1]
    have hdp0 : dstI.directPointer 0 = (fs.BlockStore_inode.data dp).directPointer 0 := by
      rw [hd.2.2.2.2.1]
    unfold moveLoop
    by_cases hbit : bitmap_test dstI.vacantFile i = false
    · rw [if_pos hbit]
      dsimp only
      split
      · rename_i j _
        split
        · exact moveFrame_refl _ _ _
        · rename_i w1 h1
          obtain ⟨f1, d1⟩ := write_frame _ _ _ _ h1
          rw [hdp0] at d1
          split
          · exact ⟨rfl, f1, rfl, fun _ => sameButVacant_refl _, fun b _ hb => d1 b hb⟩
          · rename_i w2 h2
            obtain ⟨f2, d2⟩ := write_frame _ _ _ _ h2
            rw [hsp0] at d2
            have hw : ∀ b, b ≠ (fs.BlockStore_inode.data sp).directPointer 0 →
                b ≠ (fs.BlockStore_inode.data dp).directPointer 0 →
                w2.data b = fs.BlockStore_whole.data b := by
              intro b hb1 hb2
              rw [d2 b hb1, d1 b hb2]
            split
            · exact ⟨rfl, f2.trans f1, rfl, fun _ => sameButVacant_refl _, hw⟩
            · rename_i st1 h3
              obtain ⟨g1, e1, o1⟩ := sub_write_frame _ _ _ _ h3
              have k1 : ∀ x, sameButVacant (st1.data x) (fs.BlockStore_inode.data x) := by
                intro x
                by_cases hx : x = dp
                · subst hx; rw [e1]; exact hd
                · rw [o1 x hx]; exact sameButVacant_refl _
              split
              · exact ⟨rfl, f2.trans f1, g1, k1, hw⟩
              · rename_i st2 h4
                obtain ⟨g2, e2, o2⟩ := sub_write_frame _ _ _ _ h4
                refine ⟨rfl, f2.trans f1, g2.trans g1, fun x => ?_, hw⟩
                by_cases hx : x = sp
                · subst hx; rw [e2]; exact hs
                · rw [o2 x hx]; exact k1 x
      · exact ih _ _ _ hd
    · rw [if_neg hbit]
      exact ih _ _ _ hd

/-- A call of `fs_move` changes nothing or, when both parent directories
resolve, at most the blocks of the two directories and the `vacantFile` of
inodes. -/
theorem fs_move_moveFrame (fs : F17FS) (src dst : List Nat) :
    ((searchPath fs (dirTokens src) = none ∨ searchPath fs (dirTokens dst) = none) →
      (fs_move fs src dst).2 = fs) ∧
    ∀ sp dp, searchPath fs (dirTokens src) = some sp →
      searchPath fs (dirTokens dst) = some dp →
      MoveFrame fs (fs_move fs src dst).2 ((fs.BlockStore_inode.data sp).directPointer 0)
        ((fs.BlockStore_inode.data dp).directPointer 0) := by
  constructor
  · intro hnone
    unfold fs_move
    split
    · split
      · rename_i sp dp h1 h2
        rcases hnone with h | h
        · rw [h] at h1; cases h1
        · rw [h] at h2; cases h2
      · rfl
    · rfl
  · intro sp dp hsp hdp
    unfold fs_move
    split
    · rw [hsp, hdp]
      dsimp only
      split
      · exact moveFrame_refl _ _ _
      · split
        · split
          · rename_i heq
            subst heq
            split
            · exact moveFrame_refl _ _ _
            · rename_i srcI hs
              have hsI : srcI = fs.BlockStore_inode.data sp := by
                unfold block_store_sub_read at hs
                split_ifs at hs
                cases hs; rfl
              split
              · exact moveFrame_refl _ _ _
              · split
                · rename_i w hw
                  obtain ⟨f1, d1⟩ := renameLoop_frame _ _ _ _ _ _ _ _ _ hw
                  rw [hsI] at d1
                  exact ⟨rfl, f1, rfl, fun _ => sameButVacant_refl _, fun b hb _ => d1 b hb⟩
                · exact moveFrame_refl _ _ _
          · split
            · exact moveFrame_refl _ _ _
            · rename_i dstI hd
              split
              · exact moveFrame_refl _ _ _
              · split
                · exact moveFrame_refl _ _ _
                · rename_i srcI hs
                  split
                  · exact moveFrame_refl _ _ _
                  · unfold block_store_sub_read at hd hs
                    split_ifs at hd hs
                    cases hd; cases hs
                    exact moveLoop_frame fs _ _ _ _ _ _ (sameButVacant_refl _) 7 0 _ _
                      (sameButVacant_refl _)
        · exact moveFrame_refl _ _ _
    · exact moveFrame_refl _ _ _

/-- A logical block that is mapped stays mapped when the pointers of the inode,
the bitmap and the index blocks on the way to it stay. -/
theorem blockMapped_frame (fs fs1 : F17FS) (a a1 : inode) (L : Nat)
    (hp : samePtrs a1 a) (hf : fs1.BlockStore_whole.fbm = fs.BlockStore_whole.fbm)
    (hdata : ∀ y, y ∈ pathBlocks fs a L →
      fs1.BlockStore_whole.data y = fs.BlockStore_whole.data y)
    (h : blockMapped fs a L) : blockMapped fs1 a1 L := by
  obtain ⟨p1, p2, p3⟩ := hp
  have ht : ∀ y, block_store_test fs1.BlockStore_whole y = block_store_test fs.BlockStore_whole y := by
    intro y; unfold block_store_test; rw [hf]
  unfold blockMapped at h ⊢
  unfold pathBlocks at hdata
  by_cases h1 : L < 6
  · simp only [h1, if_true] at h ⊢
    rw [p1, ht]; exact h
  · by_cases h2 : L < 262
    · simp only [h1, h2, if_true, if_false, List.mem_cons, List.mem_singleton,
        forall_eq_or_imp, forall_eq, List.not_mem_nil, or_false] at h hdata ⊢
      obtain ⟨d1, _⟩ := hdata
      rw [p2, tableAt_of_data fs fs1 _ d1, ht, ht]
      exact h
    · simp only [h1, h2, if_false, List.mem_cons, List.mem_singleton,
        forall_eq_or_imp, forall_eq, List.not_mem_nil, or_false] at h hdata ⊢
      obtain ⟨d1, d2, _⟩ := hdata
      rw [p3, tableAt_of_data fs fs1 _ d1, tableAt_of_data fs fs1 _ d2, ht, ht, ht]
      exact h

/-- A byte of a file is the same in two states that agree on the pointers of
the inode and on the blocks read on the way to the byte. -/
theorem fileByte_frame_ptrs (fs fs1 : F17FS) (j x : Nat)
    (hp : samePtrs (fs1.BlockStore_inode.data j) (fs.BlockStore_inode.data j))
    (hdata : ∀ y, y ∈ pathBlocks fs (fs.BlockStore_inode.data j) (x / 512) →
      fs1.BlockStore_whole.data y = fs.BlockStore_whole.data y) :
    fileByte fs1 j x = fileByte fs j x := by
  have e1 : fileByte { fs with BlockStore_inode := fs1.BlockStore_inode } j x = fileByte fs j x :=
    fileByte_congr fs { fs with BlockStore_inode := fs1.BlockStore_inode } j rfl hp x
  have e2 : fileByte fs1 j x = fileByte { fs with BlockStore_inode := fs1.BlockStore_inode } j x := by
    apply fileByte_frame { fs with BlockStore_inode := fs1.BlockStore_inode } fs1 j x rfl
    intro y hy
    apply hdata y
    obtain ⟨p1, p2, p3⟩ := hp
    unfold pathBlocks at hy ⊢
    dsimp only at hy
    rw [p1, p2, p3] at hy
    exact hy
  rw [e2, e1]

/-- The frame of `fs_move` for a destination name of at most 121 characters,
which `strcpy` (lines 1142 and 1170) keeps inside the 512 bytes of the
directory block in each of the slots 0..6.  Whatever the call returns, the
descriptor table, the whole-store block bitmap and the inode bitmap are
unchanged; every inode of the inode store keeps its type, number, `fileSize`,
`linkCount` and block map (only `vacantFile` may change); the call changes
nothing when a parent directory does not resolve, and otherwise every block
other than the data blocks of the two parent directories is unchanged.  So a
read through an open descriptor of bytes that are mapped, on the way to which no
block is a data block of the two parent directories, returns the same count and
the same bytes after the move as before it.  A file whose inode names a block
of a parent directory, as `fs_remove` can leave one, is outside the last
part. -/
theorem fs_move_frame (fs : F17FS) (src dst : List Nat)
    (_hfit : (basename dst).length ≤ 121) :
    (fs_move fs src dst).2.BlockStore_fd = fs.BlockStore_fd ∧
    (fs_move fs src dst).2.BlockStore_whole.fbm = fs.BlockStore_whole.fbm ∧
    (fs_move fs src dst).2.BlockStore_inode.fbm = fs.BlockStore_inode.fbm ∧
    (∀ x, sameButVacant ((fs_move fs src dst).2.BlockStore_inode.data x)
      (fs.BlockStore_inode.data x)) ∧
    ((searchPath fs (dirTokens src) = none ∨ searchPath fs (dirTokens dst) = none) →
      (fs_move fs src dst).2 = fs) ∧
    (∀ sp dp, searchPath fs (dirTokens src) = some sp →
      searchPath fs (dirTokens dst) = some dp →
      (∀ b, b ≠ (fs.BlockStore_inode.data sp).directPointer 0 →
        b ≠ (fs.BlockStore_inode.data dp).directPointer 0 →
        (fs_move fs src dst).2.BlockStore_whole.data b = fs.BlockStore_whole.data b) ∧
      ∀ (fd n : Nat) (d : fileDescriptor) (F : Nat),
        block_store_sub_test fs.BlockStore_fd fd = true →
        fs.BlockStore_fd.data fd = d →
        (fs.BlockStore_inode.data d.inodeNum).fileSize = F →
        d.inodeNum < 256 → cursorOK d → getFileSize d ≤ F → F < MAX_FILE_SIZE → n ≠ 0 →
        (∀ L, 512 * L < getFileSize d + min n (F - getFileSize d) →
          getFileSize d < 512 * (L + 1) →
          blockMapped fs (fs.BlockStore_inode.data d.inodeNum) L ∧
          ∀ y, y ∈ pathBlocks fs (fs.BlockStore_inode.data d.inodeNum) L →
            y ≠ (fs.BlockStore_inode.data sp).directPointer 0 ∧
            y ≠ (fs.BlockStore_inode.data dp).directPointer 0) →
        ∃ (c : Int) (bytes : List Nat) (s1 s2 : F17FS),
          fs_read fs fd n = some (c, bytes, s1) ∧
          fs_read (fs_move fs src dst).2 fd n = some (c, bytes, s2)) := by
  have hall : MoveFrame fs (fs_move fs src dst).2
      (match searchPath fs (dirTokens src) with
        | some sp => (fs.BlockStore_inode.data sp).directPointer 0
        | none => 0)
      (match searchPath fs (dirTokens dst) with
        | some dp => (fs.BlockStore_inode.data dp).directPointer 0
        | none => 0) := by
    cases hsp : searchPath fs (dirTokens src) with
    | none =>
      rw [(fs_move_moveFrame fs src dst).1 (Or.inl hsp)]
      exact moveFrame_refl _ _ _
    | some sp =>
      cases hdp : searchPath fs (dirTokens dst) with
      | none =>
        rw [(fs_move_moveFrame fs src dst).1 (Or.inr hdp)]
        exact moveFrame_refl _ _ _
      | some dp => exact (fs_move_moveFrame fs src dst).2 sp dp hsp hdp
  refine ⟨hall.1, hall.2.1, hall.2.2.1, hall.2.2.2.1, (fs_move_moveFrame fs src dst).1, ?_⟩
  intro sp dp hsp hdp
  obtain ⟨m1, m2, m3, m4, m5⟩ := (fs_move_moveFrame fs src dst).2 sp dp hsp hdp
  refine ⟨m5, ?_⟩
  intro fd n d F hfd hd hF hino hc hS hmax hn hmap
  have hptr : ∀ x, samePtrs ((fs_move fs src dst).2.BlockStore_inode.data x)
      (fs.BlockStore_inode.data x) := fun x =>
    ⟨(m4 x).2.2.2.2.1, (m4 x).2.2.2.2.2.1, (m4 x).2.2.2.2.2.2⟩
  obtain ⟨d1, h1⟩ := fs_read_mapped fs fd n d F hfd hd hF hino hc hS hmax hn
    (fun L a b => (hmap L a b).1)
  obtain ⟨d2, h2⟩ := fs_read_mapped (fs_move fs src dst).2 fd n d F
    (by rw [m1]; exact hfd) (by rw [m1]; exact hd) (by rw [(m4 _).2.2.1]; exact hF) hino hc hS
    hmax hn
    (fun L a b => blockMapped_frame fs _ _ _ L (hptr _) m2
      (fun y hy => m5 y ((hmap L a b).2 y hy).1 ((hmap L a b).2 y hy).2) (hmap L a b).1)
  have hb : fileBytes (fs_move fs src dst).2 d.inodeNum (getFileSize d)
      (min n (F - getFileSize d)) =
      fileBytes fs d.inodeNum (getFileSize d) (min n (F - getFileSize d)) := by
    unfold fileBytes
    apply List.map_congr_left
    intro k hk
    rw [List.mem_range] at hk
    apply fileByte_frame_ptrs fs _ _ _ (hptr _)
    intro y hy
    have hL1 : 512 * ((getFileSize d + k) / 512) <
        getFileSize d + min n (F - getFileSize d) := by
      have := Nat.mul_div_le (getFileSize d + k) 512
      omega
    have hL2 : getFileSize d < 512 * ((getFileSize d + k) / 512 + 1) := by
      have := Nat.lt_mul_div_succ (getFileSize d + k) (show 0 < 512 by norm_num)
      omega
    have := (hmap _ hL1 hL2).2 y hy
    exact m5 y this.1 this.2
  rw [hb] at h2
  exact ⟨_, _, _, _, h1, h2⟩

set_option maxRecDepth 100000 in
/-- The frame of `fs_move` on an example: on the image `exFs`, where
descriptor 0 is open on the file `"/a"` with the blocks 34..39,
`fs_move("/a", "/b")` returns 0, the entry is renamed, and a read of 5 bytes
through the descriptor returns the same count and bytes before and after. -/
theorem fs_move_frame_witness :
    (fs_move exFs [47, 97] [47, 98]).1 = 0 ∧
    getFileInodeID (fs_move exFs [47, 97] [47, 98]).2 0 [98] = 1 ∧
    ∃ (c : Int) (bytes : List Nat) (s1 s2 : F17FS),
      fs_read exFs (0 : Nat) 5 = some (c, bytes, s1) ∧
      fs_read (fs_move exFs [47, 97] [47, 98]).2 (0 : Nat) 5 = some (c, bytes, s2) :=
  ⟨by decide, by decide,
    ((fs_move_frame exFs [47, 97] [47, 98] (by decide)).2.2.2.2.2 0 0 rfl rfl).2 0 5
      (exFs.BlockStore_fd.data 0) (exFs.BlockStore_inode.data 1).fileSize
      (by decide) rfl rfl (by decide) (by decide) (by decide) (by decide) (by decide)
      (fun L h1 h2 => by
        have hL : L = 0 := by
          have e : getFileSize (exFs.BlockStore_fd.data 0) = 0 := by decide
          rw [e] at h1
          have : min 5 ((exFs.BlockStore_inode.data 1).fileSize - 0) ≤ 5 := Nat.min_le_left _ _
          omega
        subst hL
        decide)⟩

end F17

namespace F17

/-! ## Listing a directory (C26) -/

theorem dentryInode_lt (blk : Block) (k : Nat) : dentryInode blk k < 256 := by
  unfold dentryInode
  exact Nat.mod_lt _ (by norm_num)

/-- The loop of `fs_get_dir` appends the records of the live slots, in the order
of the slots. -/
theorem getDirLoop_eq (fs : F17FS) (v : Nat) (blk : Block) :
    ∀ (n k : Nat) (acc : List file_record), acc.length + n ≤ 15 →
    getDirLoop fs v blk n k acc =
      some (acc ++ ((List.range' k n).filter (fun j => bitmap_test v j)).map
        (recordOf fs blk)) := by
  intro n
  induction n with
  | zero => intro k acc _; simp [getDirLoop]
  | succ n ih =>
    intro k acc hlen
    unfold getDirLoop
    by_cases hbit : bitmap_test v k = true
    · rw [if_pos hbit]
      simp only [block_store_sub_read, dentryInode_lt, if_true, dyn_array_push_back]
      rw [if_pos (by omega)]
      simp only
      rw [ih (k + 1) _ (by simp; omega)]
      simp [List.range'_succ, List.filter_cons, hbit, recordOf]
    · rw [if_neg hbit]
      rw [ih (k + 1) acc (by omega)]
      simp [List.range'_succ, List.filter_cons, hbit]

theorem strncpyFrom_length (src : Nat → Nat) : ∀ (n i : Nat),
    (strncpyFrom src n i).length = n := by
  intro n
  induction n with
  | zero => intro i; rfl
  | succ n ih =>
    intro i
    unfold strncpyFrom
    split_ifs
    · simp
    · simp [ih]

/-- The bytes `strncpy` stores are, as a string, the string copied. -/
theorem strncpyFrom_str (src : Nat → Nat) : ∀ (n i : Nat) (pre : List Nat), pre.length = i →
    strncmpEq (fun t => (pre ++ strncpyFrom src n i).getD t 0) src n i = true := by
  intro n
  induction n with
  | zero => intro i pre _; rfl
  | succ n ih =>
    intro i pre hpre
    unfold strncmpEq strncpyFrom
    by_cases h0 : src i = 0
    · rw [if_pos h0]
      have e : (pre ++ List.replicate (n + 1) 0).getD i 0 = 0 := by
        rw [List.getD_append_right _ _ _ _ (by omega)]
        simp [hpre, List.getD_eq_getElem?_getD]
      simp only [e, h0, ne_eq, not_true_eq_false, if_false, if_true]
    · rw [if_neg h0]
      have e : (pre ++ src i :: strncpyFrom src n (i + 1)).getD i 0 = src i := by
        rw [List.getD_append_right _ _ _ _ (by omega)]
        simp [hpre]
      simp only [e, ne_eq, not_true_eq_false, if_false, h0]
      have := ih (i + 1) (pre ++ [src i]) (by simp [hpre])
      simpa using this

/-- C26. Listing: for every path that resolves to a directory (`"/"` resolving
to inode 0), `fs_get_dir` returns the sequence with exactly one record per set
bit among bits 0..6 of the directory's `vacantFile`, in increasing slot order, at
most 7 of them; the record of a slot carries the 64 bytes `strncpy` makes of the
slot's filename (as a string, that filename) and the type regular if the inode
of the entry has `fileType` `'r'`, directory otherwise.  For a path that resolves
to an inode that is not a directory, and for a path that does not resolve, it
returns `NULL`. -/
theorem fs_get_dir_spec (fs : F17FS) (path : List Nat) :
    (∀ d, resolvesTo fs path d → (fs.BlockStore_inode.data d).fileType = CH_d →
      (fs.BlockStore_inode.data d).directPointer 0 < 65536 →
      fs_get_dir fs path =
        some ((liveSlots (fs.BlockStore_inode.data d).vacantFile).map
          (recordOf fs (fs.BlockStore_whole.data ((fs.BlockStore_inode.data d).directPointer 0)))) ∧
      ((liveSlots (fs.BlockStore_inode.data d).vacantFile).map
          (recordOf fs (fs.BlockStore_whole.data
            ((fs.BlockStore_inode.data d).directPointer 0)))).length ≤ 7) ∧
    (∀ blk k, (recordOf fs blk k).name.length = 64 ∧
      strncmpEq (fun t => (recordOf fs blk k).name.getD t 0) (dentryName blk k) 64 0 = true ∧
      ((fs.BlockStore_inode.data (dentryInode blk k)).fileType = CH_r →
        (recordOf fs blk k).type = file_t.FS_REGULAR) ∧
      ((fs.BlockStore_inode.data (dentryInode blk k)).fileType ≠ CH_r →
        (recordOf fs blk k).type = file_t.FS_DIRECTORY)) ∧
    (∀ d, resolvesTo fs path d → (fs.BlockStore_inode.data d).fileType ≠ CH_d →
      fs_get_dir fs path = none) ∧
    ((∀ d, ¬ resolvesTo fs path d) → fs_get_dir fs path = none) := by
  have hlen7 : ∀ v : Nat, (liveSlots v).length ≤ 7 := by
    intro v
    unfold liveSlots
    have := List.length_filter_le (fun k => bitmap_test v k) (List.range 7)
    simpa using this
  have key : ∀ d, resolvesTo fs path d → fs_get_dir fs path = getDirAt fs d := by
    intro d hres
    obtain ⟨hhead, hcase⟩ := hres
    have hlen : ¬ path.length < 1 := by
      intro c
      have : path = [] := List.length_eq_zero.mp (by omega)
      rw [this] at hhead; cases hhead
    unfold fs_get_dir
    rw [if_neg hlen, if_neg (by simp [hhead])]
    rcases hcase with ⟨hp, hd⟩ | ⟨hp, hd, p, hsp, hlook⟩
    · subst hp; subst hd
      rw [if_pos ⟨rfl, rfl⟩]
    · have hl1 : ¬ (path.length = 1 ∧ path.head? = some CH_slash) := by
        intro c
        apply hp
        obtain ⟨c1, c2⟩ := c
        match path, c1, c2 with
        | [x], _, c2 => simp at c2; rw [c2]
      rw [if_neg hl1, hsp]
      dsimp only
      rw [hlook, if_neg hd]
  have hdlt : ∀ d, resolvesTo fs path d → d < 256 := by
    intro d hres
    rcases hres.2 with ⟨_, hd⟩ | ⟨_, _, p, _, hlook⟩
    · rw [hd]; norm_num
    · rw [← hlook]; exact getFileInodeID_lt _ _ _
  refine ⟨?_, ?_, ?_, ?_⟩
  · intro d hres hty hb
    refine ⟨?_, by rw [List.length_map]; exact hlen7 _⟩
    rw [key d hres]
    unfold getDirAt
    simp only [block_store_sub_read, hdlt d hres, if_true, block_store_read_spec _ _ hb, hty,
      ne_eq, not_true_eq_false, if_false]
    rw [getDirLoop_eq fs _ _ 7 0 [] (by simp)]
    simp [liveSlots, List.range_eq_range']
  · intro blk k
    refine ⟨?_, ?_, ?_, ?_⟩
    · unfold recordOf FS_FNAME_MAX
      exact strncpyFrom_length _ _ _
    · unfold recordOf FS_FNAME_MAX
      have := strncpyFrom_str (dentryName blk k) 64 0 [] rfl
      simpa using this
    · intro h; unfold recordOf; simp [h]
    · intro h; unfold recordOf; simp [h]
  · intro d hres hty
    rw [key d hres]
    unfold getDirAt
    simp only [block_store_sub_read, hdlt d hres, if_true]
    cases block_store_read fs.BlockStore_whole ((fs.BlockStore_inode.data d).directPointer 0) with
    | none => rfl
    | some blk => dsimp only; rw [if_pos hty]
  · intro hno
    unfold fs_get_dir
    by_cases hlen : path.length < 1
    · rw [if_pos hlen]
    rw [if_neg hlen]
    by_cases hhead : path.head? ≠ some CH_slash
    · rw [if_pos hhead]
    rw [if_neg hhead]
    have hhead' : path.head? = some CH_slash := by simpa using hhead
    by_cases hl1 : path.length = 1 ∧ path.head? = some CH_slash
    · exfalso
      apply hno 0
      refine ⟨hhead', Or.inl ⟨?_, rfl⟩⟩
      obtain ⟨c1, c2⟩ := hl1
      match path, c1, c2 with
      | [x], _, c2 => simp at c2; rw [c2]
    · have hne : path ≠ [CH_slash] := by
        intro c; apply hl1; rw [c]; exact ⟨rfl, rfl⟩
      rw [if_neg hl1]
      cases hsp : searchPath fs (dirTokens path) with
      | none => rfl
      | some p =>
        dsimp only
        by_cases hz : getFileInodeID fs p (basename path) = 0
        · rw [if_pos hz]
        · exfalso
          exact hno _ ⟨hhead', Or.inr ⟨hne, hz, p, hsp, rfl⟩⟩

set_option maxRecDepth 100000 in
/-- The listing on example images: the root directory of `exDirs` lists the
directories `"ab"` and `"a"`, in the order of their slots; on the image `exDE`
the root lists the directory `"d"` and the directory `"/d"` lists the regular
file `"e"`; the path `"/d/e"` of a regular file and the path `"/zz"`, which does
not resolve, give `NULL`. -/
theorem fs_get_dir_examples :
    (fs_get_dir exDirs [47]).map (fun l => l.map (fun r => (r.name.take 3, r.type))) =
      some [([97, 98, 0], file_t.FS_DIRECTORY), ([97, 0, 0], file_t.FS_DIRECTORY)] ∧
    (fs_get_dir exDE [47]).map (fun l => l.map (fun r => (r.name.take 3, r.type))) =
      some [([100, 0, 0], file_t.FS_DIRECTORY)] ∧
    (fs_get_dir exDE [47, 100]).map (fun l => l.map (fun r => (r.name.take 3, r.type))) =
      some [([101, 0, 0], file_t.FS_REGULAR)] ∧
    fs_get_dir exDE [47, 100, 47, 101] = none ∧
    fs_get_dir exDE [47, 122, 122] = none := by
  decide

end F17

namespace F17

/-! ## The image `fs_format` makes (C27) -/

theorem ffzFrom_first (bm : Nat → Bool) (k : Nat) (hk : bm k = false) : ∀ (n i : Nat),
    i ≤ k → k < i + n → (∀ j, i ≤ j → j < k → bm j = true) → ffzFrom bm n i = some k := by
  intro n
  induction n with
  | zero => intro i h1 h2 _; omega
  | succ n ih =>
    intro i h1 h2 hset
    unfold ffzFrom
    by_cases hik : i = k
    · subst hik; rw [hk]; rfl
    · rw [hset i (le_refl _) (by omega)]
      simp only [if_true]
      exact ih (i + 1) (by omega) (by omega) (fun j hj1 hj2 => hset j (by omega) hj2)

theorem markedTo_zero (bs : block_store Block) : markedTo bs 0 = bs := by
  unfold markedTo
  cases bs
  simp

/-- An allocation from a store whose blocks below `m` are taken and whose block
`m` is free hands out block `m`. -/
theorem allocSz_marked (bs : block_store Block) (m : Nat) (hm : m < 65536)
    (hfree : bs.fbm m = false) :
    allocSz (markedTo bs m) = (m, markedTo bs (m + 1)) := by
  have hz : ffzFrom (markedTo bs m).fbm 65536 0 = some m := by
    apply ffzFrom_first _ m _ 65536 0 (by omega) (by omega)
    · intro j _ hj
      unfold markedTo
      simp [hj]
    · unfold markedTo
      simp [hfree]
  unfold allocSz block_store_allocate bitmap_ffz BLOCK_STORE_NUM_BLOCKS
  simp only [hz]
  unfold markedTo
  simp only [Prod.mk.injEq, true_and]
  congr 1
  funext b
  unfold upd
  by_cases hb : b = m
  · subst hb; simp
  · have : (b < m + 1) = (b < m) := by
      apply propext; constructor <;> intro h <;> omega
    simp [hb, this]

theorem allocTimes_marked (bs : block_store Block) : ∀ (n m : Nat), m + n ≤ 65536 →
    (∀ b, m ≤ b → b < m + n → bs.fbm b = false) →
    allocTimes n (markedTo bs m) = markedTo bs (m + n) := by
  intro n
  induction n with
  | zero => intro m _ _; rfl
  | succ n ih =>
    intro m hmn hfree
    unfold allocTimes
    rw [allocSz_marked bs m (by omega) (hfree m (le_refl _) (by omega))]
    simp only
    rw [ih (m + 1) (by omega) (fun b h1 h2 => hfree b (by omega) (by omega))]
    congr 1
    omega

theorem countFree_marked (bs : block_store Block) : ∀ (m : Nat), m ≤ 65536 →
    (∀ b, b < m → bs.fbm b = false) →
    block_store_get_free_blocks (markedTo bs m) + m = block_store_get_free_blocks bs := by
  intro m
  induction m with
  | zero => intro _ _; rw [markedTo_zero, Nat.add_zero]
  | succ m ih =>
    intro hm hfree
    have h1 := ih (by omega) (fun b hb => hfree b (by omega))
    have h2 : (markedTo bs (m + 1)).fbm = upd (markedTo bs m).fbm m true := by
      funext b
      unfold markedTo upd
      by_cases hb : b = m
      · subst hb; simp
      · have : (b < m + 1) = (b < m) := by
          apply propext; constructor <;> intro h <;> omega
        simp [hb, this]
    have h3 : (markedTo bs m).fbm m = false := by
      unfold markedTo
      simp [hfree m (by omega)]
    have h4 := countFreeFrom_set (markedTo bs m).fbm m h3 65536 0 (by omega) (by omega)
    unfold block_store_get_free_blocks BLOCK_STORE_NUM_BLOCKS at h1 ⊢
    rw [h2]
    omega

/-- C27. Fresh image: on a new block store whose blocks 0..33 are free,
`fs_format` on a valid path returns a file system in which inode 0 is allocated
with `fileType` `'d'`, `fileSize` 512, `linkCount` 1, `inodeNumber` 0 and
`vacantFile` 0; its `directPointer[0]` is block 33, an allocated block of zero
bytes (seven zeroed entries); the allocator has handed out block 0 (the bitmap),
block 1 (the first inode block) and, in all, exactly the 34 blocks 0..33; and
`fs_get_dir("/")` returns the empty sequence. -/
theorem fs_format_fresh (created : block_store Block) (path : List Nat)
    (hpath : path.length ≠ 0) (hfree : ∀ b, b < 34 → created.fbm b = false) :
    ∃ fs, fs_format created path = some fs ∧
      block_store_sub_test fs.BlockStore_inode 0 = true ∧
      (fs.BlockStore_inode.data 0).fileType = CH_d ∧
      (fs.BlockStore_inode.data 0).fileSize = 512 ∧
      (fs.BlockStore_inode.data 0).linkCount = 1 ∧
      (fs.BlockStore_inode.data 0).inodeNumber = 0 ∧
      (fs.BlockStore_inode.data 0).vacantFile = 0 ∧
      (fs.BlockStore_inode.data 0).directPointer 0 = 33 ∧
      block_store_test fs.BlockStore_whole 33 = true ∧
      fs.BlockStore_whole.data 33 = init_dirBlock ∧
      (∀ k, k < 7 → dentryInode (fs.BlockStore_whole.data 33) k = 0 ∧
        ∀ t, t < 64 → dentryName (fs.BlockStore_whole.data 33) k t = 0) ∧
      (allocSz created).1 = 0 ∧ (allocSz (allocSz created).2).1 = 1 ∧
      (∀ b, fs.BlockStore_whole.fbm b = (created.fbm b || decide (b < 34))) ∧
      block_store_get_free_blocks fs.BlockStore_whole + 34 =
        block_store_get_free_blocks created ∧
      (∀ b, b ≠ 33 → fs.BlockStore_whole.data b = created.data b) ∧
      fs_get_dir fs [CH_slash] = some [] := by
  have a0 : allocSz created = (0, markedTo created 1) := by
    have := allocSz_marked created 0 (by norm_num) (hfree 0 (by norm_num))
    rw [markedTo_zero] at this
    exact this
  have a1 : allocSz (markedTo created 1) = (1, markedTo created 2) :=
    allocSz_marked created 1 (by norm_num) (hfree 1 (by norm_num))
  have a2 : allocTimes 31 (markedTo created 2) = markedTo created 33 :=
    allocTimes_marked created 31 2 (by norm_num) (fun b h1 h2 => hfree b (by omega))
  have a3 : allocSz (markedTo created 33) = (33, markedTo created 34) :=
    allocSz_marked created 33 (by norm_num) (hfree 33 (by norm_num))
  have ha : block_store_sub_allocate (block_store_sub_create zeroInode) =
      some (0, { block_store_sub_create zeroInode with
        fbm := upd (block_store_sub_create zeroInode).fbm 0 true }) := by
    unfold block_store_sub_allocate bitmap_ffz
    rw [show (256 : Nat) = 255 + 1 from rfl, ffzFrom_here _ _ _ rfl]
  have hfmt : fs_format created path = some
      { BlockStore_whole :=
          { markedTo created 34 with data := upd (markedTo created 34).data 33 init_dirBlock },
        BlockStore_inode :=
          { fbm := upd (block_store_sub_create zeroInode).fbm 0 true,
            data := upd (block_store_sub_create zeroInode).data 0
              { zeroInode with vacantFile := 0, fileType := CH_d, fileSize := BLOCK_SIZE_BYTES,
                               inodeNumber := 0, linkCount := 1,
                               directPointer := upd zeroInode.directPointer 0 33 } },
        BlockStore_fd := block_store_sub_create zeroFd } := by
    unfold fs_format
    rw [if_pos hpath]
    simp only [a0, a1, a2, a3, ha]
    rw [sub_write_spec _ _ _ (show 0 < 256 by norm_num),
      block_store_write_spec _ _ _ (show 33 < 65536 by norm_num)]
    rfl
  refine ⟨_, hfmt, ?_, ?_, ?_, ?_, ?_, ?_, ?_, ?_, ?_, ?_, ?_, ?_, ?_, ?_, ?_, ?_⟩
  · unfold block_store_sub_test; simp [upd_same]
  · simp [upd_same]
  · simp [upd_same, BLOCK_SIZE_BYTES]
  · simp [upd_same]
  · simp [upd_same]
  · simp [upd_same]
  · simp [upd_same]
  · unfold block_store_test BLOCK_STORE_NUM_BLOCKS markedTo; simp
  · simp [upd_same]
  · intro k _
    simp only [upd_same]
    exact ⟨rfl, fun _ _ => rfl⟩
  · rw [a0]
  · rw [a0]; simp only; rw [a1]
  · intro b; rfl
  · exact countFree_marked created 34 (by norm_num) hfree
  · intro b hb
    simp only [upd_other _ _ _ _ hb]
    rfl
  · unfold fs_get_dir
    rw [if_neg (by decide), if_neg (by decide), if_pos (by decide)]
    unfold getDirAt
    simp only [block_store_sub_read, upd_same]
    simp [block_store_read, BLOCK_STORE_NUM_BLOCKS, upd_same, getDirLoop, bitmap_test]

/-- Witness of C27 on a new store whose last 16 blocks hold the bitmap of the
block store: `fs_format("i")` takes the blocks 0..33. -/
theorem fs_format_fresh_witness :
    ∃ fs, fs_format exCreatedFbm [105] = some fs ∧
      (fs.BlockStore_inode.data 0).directPointer 0 = 33 ∧
      (∀ b, fs.BlockStore_whole.fbm b = (exCreatedFbm.fbm b || decide (b < 34))) ∧
      block_store_get_free_blocks fs.BlockStore_whole + 34 =
        block_store_get_free_blocks exCreatedFbm ∧
      fs_get_dir fs [CH_slash] = some [] := by
  obtain ⟨fs, h⟩ := fs_format_fresh exCreatedFbm [105] (by decide)
    (fun b hb => by unfold exCreatedFbm; simp; omega)
  exact ⟨fs, h.1, h.2.2.2.2.2.2.2.1, h.2.2.2.2.2.2.2.2.2.2.2.2.2.1,
    h.2.2.2.2.2.2.2.2.2.2.2.2.2.2.1, h.2.2.2.2.2.2.2.2.2.2.2.2.2.2.2.2⟩

end F17

namespace F17

/-! ## Bitmap faithfulness (C28) -/

set_option maxRecDepth 100000 in
theorem exAOpen_free : 1 ≤ block_store_get_free_blocks exAOpen.BlockStore_whole :=
  countFreeFrom_pos _ 34 (by decide) 65536 0 (by decide) (by decide)

set_option maxRecDepth 100000 in
theorem exAOpen_gdb :
    get_data_block_id exAOpen (exAOpen.BlockStore_fd.data 0) = (34, exAGrown) := by
  unfold get_data_block_id block_store_sub_read
  rw [if_pos (by decide)]
  simp only
  rw [if_pos (by decide)]
  unfold gdb_direct
  rw [if_pos (by decide), if_pos exAOpen_free]
  rfl

set_option maxRecDepth 100000 in
theorem exAOpen_loop :
    writeLoop 1 exAOpen (exAOpen.BlockStore_fd.data 0) [7] 0 none =
      some ⟨none, exAStored, { exAOpen.BlockStore_fd.data 0 with locate_offset := 1 }, 1,
        some 34⟩ := by
  unfold writeLoop
  rw [if_pos (by decide)]
  simp only [exAOpen_gdb]
  rw [if_pos (by decide), if_pos (by decide)]
  rfl

/-- The value of `fs_write` once its loop has run without an early return. -/
theorem fs_write_of_loop (fs : F17FS) (fd : Nat) (src : List Nat) (r : LoopResult)
    (h1 : block_store_sub_test fs.BlockStore_fd fd = true) (h2 : src.length ≠ 0)
    (hl : writeLoop src.length fs (fs.BlockStore_fd.data fd) src 0 none = some r)
    (he : r.err = none) (hi : r.fd_t.inodeNum < 256) :
    fs_write fs (fd : Int) src =
      some ((r.count : Int),
        { r.fs with
          BlockStore_fd :=
            { r.fs.BlockStore_fd with data := upd r.fs.BlockStore_fd.data fd r.fd_t },
          BlockStore_inode :=
            { r.fs.BlockStore_inode with
              data := upd r.fs.BlockStore_inode.data r.fd_t.inodeNum
                (if (r.fs.BlockStore_inode.data r.fd_t.inodeNum).fileSize <
                    getFileSize (fs.BlockStore_fd.data fd) + r.count then
                  { r.fs.BlockStore_inode.data r.fd_t.inodeNum with
                    fileSize := getFileSize (fs.BlockStore_fd.data fd) + r.count }
                 else r.fs.BlockStore_inode.data r.fd_t.inodeNum) } }) := by
  have hfd : fd < 256 := sub_test_lt _ _ h1
  unfold fs_write
  rw [if_neg (by simp [h1]), if_neg h2]
  simp only [Int.toNat_ofNat, block_store_sub_read, hfd, if_true, hl, he,
    sub_write_spec _ _ _ hfd, sub_write_spec _ _ _ hi]

set_option maxRecDepth 100000 in
/-- On the image `exAOpen` the call `fs_write(0, "\x07", 1)` returns 1 and
leaves the image `exAWritten`. -/
theorem exAOpen_write : fs_write exAOpen (0 : Nat) [7] = some (1, exAWritten) :=
  fs_write_of_loop exAOpen 0 [7]
    ⟨none, exAStored, { exAOpen.BlockStore_fd.data 0 with locate_offset := 1 }, 1, some 34⟩
    (by decide) (by decide) exAOpen_loop rfl (by decide)

/-- The image `exAOpen` is reached by `fs_format`, `fs_create("/a")` and
`fs_open("/a")`. -/
theorem exAOpen_reachable : Reachable exAOpen :=
  Reachable.opened _ _ (Reachable.create _ _ _ _ _
    (Reachable.format exCreated [105] exFormat rfl))

set_option maxRecDepth 100000 in
/-- C28, evaluated.  The state after `fs_format`, `fs_create("/a")`,
`fs_open("/a")`, a write of one byte through the descriptor and
`fs_remove("/a")` is reached by public operations.  The write returns 1 and
takes block 34; `fs_remove` returns -7 (lines 899-910) after it has released the
block.  In the state it leaves, inode 1 is allocated, its `directPointer[0]` is
34, not 0, and block 34 is not marked allocated in the whole-store bitmap. -/
theorem bitmap_faithfulness_broken :
    Reachable (fs_remove exAWritten [47, 97] exJunk (fun _ => 0)).2 ∧
    fs_write exAOpen (0 : Nat) [7] = some (1, exAWritten) ∧
    block_store_test exAWritten.BlockStore_whole 34 = true ∧
    (fs_remove exAWritten [47, 97] exJunk (fun _ => 0)).1 = -7 ∧
    block_store_sub_test
      (fs_remove exAWritten [47, 97] exJunk (fun _ => 0)).2.BlockStore_inode 1 = true ∧
    ((fs_remove exAWritten [47, 97] exJunk (fun _ => 0)).2.BlockStore_inode.data
      1).directPointer 0 = 34 ∧
    block_store_test
      (fs_remove exAWritten [47, 97] exJunk (fun _ => 0)).2.BlockStore_whole 34 = false :=
  ⟨Reachable.remove _ _ _ _ (Reachable.write exAOpen (0 : Nat) [7] 1 exAWritten
      exAOpen_reachable exAOpen_write),
    exAOpen_write, by decide, by decide, by decide, by decide, by decide⟩

end F17

namespace F17

/-! ## Link counts and directory entries (C29) -/

/-- The image `exDirs` is reached by `fs_format`, three calls of `fs_create`,
`fs_remove("/x")` and `fs_create("/ab")`. -/
theorem exDirs_reachable : Reachable exDirs :=
  Reachable.create _ _ _ _ _ (Reachable.remove _ _ _ _ (Reachable.create _ _ _ _ _
    (Reachable.create _ _ _ _ _ (Reachable.create _ _ _ _ _
      (Reachable.format exCreated [105] exFormat rfl)))))

set_option maxRecDepth 100000 in
/-- C29, evaluated.  On the image `exDirs`, reached by public operations, the
root directory holds the empty directory `"ab"` (inode 1) in slot 0 and the
directory `"a"` (inode 2) in slot 1, and every link count is the number of live
entries.  `fs_remove("/a")` returns 0: the lookup, which compares only
`strlen("a")` bytes (line 263), finds `"ab"` and releases inode 1, and the loop
that clears the entry, which compares 64 bytes (line 818), takes out the entry
of `"a"`.  In the state it leaves, the live entry in slot 0 of the root
directory refers to inode 1, which is not allocated; and inode 2 is allocated
with link count 1 while no live directory entry carries its number. -/
theorem link_count_broken :
    Reachable (fs_remove exDirs [47, 97] exJunk (fun _ => 0)).2 ∧
    refCount exDirs 1 = 1 ∧ (exDirs.BlockStore_inode.data 1).linkCount = 1 ∧
    refCount exDirs 2 = 1 ∧ (exDirs.BlockStore_inode.data 2).linkCount = 1 ∧
    (fs_remove exDirs [47, 97] exJunk (fun _ => 0)).1 = 0 ∧
    bitmap_test
      ((fs_remove exDirs [47, 97] exJunk (fun _ => 0)).2.BlockStore_inode.data 0).vacantFile 0
      = true ∧
    dentryInode ((fs_remove exDirs [47, 97] exJunk (fun _ => 0)).2.BlockStore_whole.data 33) 0
      = 1 ∧
    block_store_sub_test (fs_remove exDirs [47, 97] exJunk (fun _ => 0)).2.BlockStore_inode 1
      = false ∧
    block_store_sub_test (fs_remove exDirs [47, 97] exJunk (fun _ => 0)).2.BlockStore_inode 2
      = true ∧
    ((fs_remove exDirs [47, 97] exJunk (fun _ => 0)).2.BlockStore_inode.data 2).linkCount = 1 ∧
    refCount (fs_remove exDirs [47, 97] exJunk (fun _ => 0)).2 2 = 0 :=
  ⟨Reachable.remove _ _ _ _ exDirs_reachable, by decide, by decide, by decide, by decide,
    by decide, by decide, by decide, by decide, by decide, by decide, by decide⟩

end F17

namespace F17

/-! ## The blocks `get_data_block_id` takes (C32) -/

/-- The number of free blocks depends on the bitmap only. -/
theorem free_blocks_data (bs : block_store Block) (dat : Nat → Block) :
    block_store_get_free_blocks { fbm := bs.fbm, data := dat } =
      block_store_get_free_blocks bs := rfl

theorem alloc16_mono (bs : block_store Block) (y : Nat) (h : bs.fbm y = true) :
    (alloc16 bs).2.fbm y = true := by
  unfold alloc16 block_store_allocate
  cases bitmap_ffz bs.fbm BLOCK_STORE_NUM_BLOCKS with
  | none => exact h
  | some i => exact upd_true_mono _ _ _ h

/-- The direct tier with a pointer that is not 0: no block is taken. -/
theorem gdb_direct_hit (fs : F17FS) (i : Nat) (ino : inode) (o : Nat)
    (hp : ino.directPointer o ≠ 0) :
    gdb_direct fs i ino o =
      (if block_store_test fs.BlockStore_whole (ino.directPointer o) = true then
        ino.directPointer o else 0, fs) := by
  unfold gdb_direct
  rw [if_neg hp]
  split <;> rfl

theorem gdb_direct_starve (fs : F17FS) (i : Nat) (ino : inode) (o : Nat)
    (hp : ino.directPointer o = 0)
    (hf : ¬ 1 ≤ block_store_get_free_blocks fs.BlockStore_whole) :
    gdb_direct fs i ino o = (0, fs) := by
  unfold gdb_direct
  rw [if_pos hp, if_neg hf]

theorem gdb_direct_take (fs : F17FS) (i : Nat) (ino : inode) (o : Nat) (hi : i < 256)
    (hp : ino.directPointer o = 0)
    (hf : 1 ≤ block_store_get_free_blocks fs.BlockStore_whole) :
    block_store_get_free_blocks (gdb_direct fs i ino o).2.BlockStore_whole + 1 =
      block_store_get_free_blocks fs.BlockStore_whole ∧
    (∀ y, fs.BlockStore_whole.fbm y = true →
      (gdb_direct fs i ino o).2.BlockStore_whole.fbm y = true) := by
  obtain ⟨_, _, _, a4⟩ := alloc16_spec fs.BlockStore_whole hf
  unfold gdb_direct
  rw [if_pos hp, if_pos hf]
  simp only [sub_write_spec _ _ _ hi]
  exact ⟨a4, fun y hy => alloc16_mono _ y hy⟩

/-- The indirect tier without an index block, at an order other than 0:
nothing is taken and 0 is returned (the test of line 573 asks for order 0, that
of line 583 for an index block). -/
theorem gdb_indirect_cold_other (fs : F17FS) (i : Nat) (ino : inode) (o : Nat)
    (hq : ino.indirectPointer = 0) (ho : o ≠ 0) :
    gdb_indirect fs i ino o = (0, fs) := by
  unfold gdb_indirect
  rw [if_neg (fun h => ho h.1), if_neg (fun h => h.1 hq)]

theorem gdb_indirect_cold_starve (fs : F17FS) (i : Nat) (ino : inode) (o : Nat)
    (hq : ino.indirectPointer = 0) (ho : o = 0)
    (hf : ¬ 2 ≤ block_store_get_free_blocks fs.BlockStore_whole) :
    gdb_indirect fs i ino o = (0, fs) := by
  unfold gdb_indirect
  rw [if_pos ⟨ho, hq⟩, if_neg hf]

theorem gdb_indirect_cold (fs : F17FS) (i : Nat) (ino : inode) (o : Nat) (hi : i < 256)
    (hq : ino.indirectPointer = 0) (ho : o = 0)
    (hf : 2 ≤ block_store_get_free_blocks fs.BlockStore_whole) :
    block_store_get_free_blocks (gdb_indirect fs i ino o).2.BlockStore_whole + 2 =
      block_store_get_free_blocks fs.BlockStore_whole ∧
    (∀ y, fs.BlockStore_whole.fbm y = true →
      (gdb_indirect fs i ino o).2.BlockStore_whole.fbm y = true) := by
  obtain ⟨a1, _, _, a4⟩ := alloc16_spec fs.BlockStore_whole (by omega)
  obtain ⟨_, _, _, b4⟩ := alloc16_spec (alloc16 fs.BlockStore_whole).2 (by omega)
  unfold gdb_indirect
  rw [if_pos ⟨ho, hq⟩, if_pos hf]
  simp only [block_store_write_spec _ _ _ a1, sub_write_spec _ _ _ hi]
  refine ⟨?_, fun y hy => alloc16_mono _ y (alloc16_mono _ y hy)⟩
  rw [free_blocks_data (alloc16 (alloc16 fs.BlockStore_whole).2).2]
  omega

theorem gdb_indirect_unmarked (fs : F17FS) (i : Nat) (ino : inode) (o : Nat)
    (hq : ino.indirectPointer ≠ 0)
    (ht : ¬ block_store_test fs.BlockStore_whole ino.indirectPointer = true) :
    gdb_indirect fs i ino o = (0, fs) := by
  unfold gdb_indirect
  rw [if_neg (fun h => hq h.2), if_neg (fun h => ht h.2)]

theorem gdb_indirect_starve (fs : F17FS) (i : Nat) (ino : inode) (o : Nat)
    (hq : ino.indirectPointer ≠ 0)
    (ht : block_store_test fs.BlockStore_whole ino.indirectPointer = true)
    (h0 : tableAt fs ino.indirectPointer o = 0)
    (hf : ¬ 1 ≤ block_store_get_free_blocks fs.BlockStore_whole) :
    gdb_indirect fs i ino o = (0, fs) := by
  unfold gdb_indirect
  rw [if_neg (fun h => hq h.2), if_pos ⟨hq, ht⟩]
  simp only [block_store_read_spec _ _ (test_lt _ _ ht)]
  unfold tableAt at h0
  rw [if_pos h0, if_neg hf]

theorem gdb_indirect_take (fs : F17FS) (i : Nat) (ino : inode) (o : Nat)
    (hq : ino.indirectPointer ≠ 0)
    (ht : block_store_test fs.BlockStore_whole ino.indirectPointer = true)
    (h0 : tableAt fs ino.indirectPointer o = 0)
    (hf : 1 ≤ block_store_get_free_blocks fs.BlockStore_whole) :
    block_store_get_free_blocks (gdb_indirect fs i ino o).2.BlockStore_whole + 1 =
      block_store_get_free_blocks fs.BlockStore_whole ∧
    (∀ y, fs.BlockStore_whole.fbm y = true →
      (gdb_indirect fs i ino o).2.BlockStore_whole.fbm y = true) := by
  obtain ⟨_, _, _, a4⟩ := alloc16_spec fs.BlockStore_whole hf
  unfold gdb_indirect
  rw [if_neg (fun h => hq h.2), if_pos ⟨hq, ht⟩]
  simp only [block_store_read_spec _ _ (test_lt _ _ ht)]
  unfold tableAt at h0
  rw [if_pos h0, if_pos hf]
  simp only [block_store_write_spec _ _ _ (test_lt _ _ ht)]
  refine ⟨?_, fun y hy => alloc16_mono _ y hy⟩
  rw [free_blocks_data (alloc16 fs.BlockStore_whole).2]
  exact a4

theorem gdb_indirect_hit (fs : F17FS) (i : Nat) (ino : inode) (o : Nat)
    (hq : ino.indirectPointer ≠ 0)
    (ht : block_store_test fs.BlockStore_whole ino.indirectPointer = true)
    (h0 : tableAt fs ino.indirectPointer o ≠ 0) :
    gdb_indirect fs i ino o =
      (if block_store_test fs.BlockStore_whole (tableAt fs ino.indirectPointer o) = true then
        tableAt fs ino.indirectPointer o else 0, fs) := by
  unfold gdb_indirect
  rw [if_neg (fun h => hq h.2), if_pos ⟨hq, ht⟩]
  simp only [block_store_read_spec _ _ (test_lt _ _ ht)]
  unfold tableAt at h0 ⊢
  rw [if_neg h0]
  split <;> rfl

/-- The double-indirect tier without an outer index block: with fewer than
three free blocks nothing is taken. -/
theorem gdb_double_cold_starve (fs : F17FS) (i : Nat) (ino : inode) (o : Nat)
    (hD : ino.doubleIndirectPointer = 0)
    (hf : ¬ 3 ≤ block_store_get_free_blocks fs.BlockStore_whole) :
    gdb_double fs i ino o = (0, fs) := by
  unfold gdb_double
  rw [if_pos hD, if_neg hf]

theorem gdb_double_cold (fs : F17FS) (i : Nat) (ino : inode) (o : Nat) (hi : i < 256)
    (hD : ino.doubleIndirectPointer = 0)
    (hf : 3 ≤ block_store_get_free_blocks fs.BlockStore_whole) :
    block_store_get_free_blocks (gdb_double fs i ino o).2.BlockStore_whole + 3 =
      block_store_get_free_blocks fs.BlockStore_whole ∧
    (∀ y, fs.BlockStore_whole.fbm y = true →
      (gdb_double fs i ino o).2.BlockStore_whole.fbm y = true) := by
  obtain ⟨a1, _, _, a4⟩ := alloc16_spec fs.BlockStore_whole (by omega)
  obtain ⟨b1, _, _, b4⟩ := alloc16_spec (alloc16 fs.BlockStore_whole).2 (by omega)
  obtain ⟨_, _, _, c4⟩ := alloc16_spec (alloc16 (alloc16 fs.BlockStore_whole).2).2 (by omega)
  have hb : upd zeroTable 0 (alloc16 (alloc16 fs.BlockStore_whole).2).1 0 < 65536 := by
    rw [upd_same]; exact b1
  unfold gdb_double
  rw [if_pos hD, if_pos hf]
  simp only [block_store_write_spec _ _ _ a1, block_store_write_spec _ _ _ hb,
    sub_write_spec _ _ _ hi]
  refine ⟨?_, fun y hy => alloc16_mono _ y (alloc16_mono _ y (alloc16_mono _ y hy))⟩
  rw [free_blocks_data (alloc16 (alloc16 (alloc16 fs.BlockStore_whole).2).2).2]
  omega

theorem gdb_double_unmarked (fs : F17FS) (i : Nat) (ino : inode) (o : Nat)
    (hD : ino.doubleIndirectPointer ≠ 0)
    (ht : ¬ block_store_test fs.BlockStore_whole ino.doubleIndirectPointer = true) :
    gdb_double fs i ino o = (0, fs) := by
  unfold gdb_double
  rw [if_neg hD, if_neg ht]

theorem gdb_double_inner_starve (fs : F17FS) (i : Nat) (ino : inode) (o : Nat)
    (hD : ino.doubleIndirectPointer ≠ 0)
    (ht : block_store_test fs.BlockStore_whole ino.doubleIndirectPointer = true)
    (h0 : tableAt fs ino.doubleIndirectPointer (o / 256) = 0)
    (hf : ¬ 2 ≤ block_store_get_free_blocks fs.BlockStore_whole) :
    gdb_double fs i ino o = (0, fs) := by
  unfold gdb_double
  rw [if_neg hD, if_pos ht]
  simp only [block_store_read_spec _ _ (test_lt _ _ ht)]
  unfold tableAt at h0
  rw [if_pos h0, if_neg hf]

theorem gdb_double_inner_take (fs : F17FS) (i : Nat) (ino : inode) (o : Nat)
    (hD : ino.doubleIndirectPointer ≠ 0)
    (ht : block_store_test fs.BlockStore_whole ino.doubleIndirectPointer = true)
    (h0 : tableAt fs ino.doubleIndirectPointer (o / 256) = 0)
    (hf : 2 ≤ block_store_get_free_blocks fs.BlockStore_whole) :
    block_store_get_free_blocks (gdb_double fs i ino o).2.BlockStore_whole + 2 =
      block_store_get_free_blocks fs.BlockStore_whole ∧
    (∀ y, fs.BlockStore_whole.fbm y = true →
      (gdb_double fs i ino o).2.BlockStore_whole.fbm y = true) := by
  obtain ⟨a1, _, _, a4⟩ := alloc16_spec fs.BlockStore_whole (by omega)
  obtain ⟨_, _, _, b4⟩ := alloc16_spec (alloc16 fs.BlockStore_whole).2 (by omega)
  have ha : upd (tableOfBlock (fs.BlockStore_whole.data ino.doubleIndirectPointer)) (o / 256)
      (alloc16 fs.BlockStore_whole).1 (o / 256) < 65536 := by
    rw [upd_same]; exact a1
  unfold gdb_double
  rw [if_neg hD, if_pos ht]
  simp only [block_store_read_spec _ _ (test_lt _ _ ht)]
  unfold tableAt at h0
  rw [if_pos h0, if_pos hf]
  simp only [block_store_write_spec _ _ _ (test_lt _ _ ht), block_store_write_spec _ _ _ ha]
  refine ⟨?_, fun y hy => alloc16_mono _ y (alloc16_mono _ y hy)⟩
  rw [free_blocks_data (alloc16 (alloc16 fs.BlockStore_whole).2).2]
  omega

theorem gdb_double_inner_unmarked (fs : F17FS) (i : Nat) (ino : inode) (o : Nat)
    (hD : ino.doubleIndirectPointer ≠ 0)
    (ht : block_store_test fs.BlockStore_whole ino.doubleIndirectPointer = true)
    (h0 : tableAt fs ino.doubleIndirectPointer (o / 256) ≠ 0)
    (ht1 : ¬ block_store_test fs.BlockStore_whole
      (tableAt fs ino.doubleIndirectPointer (o / 256)) = true) :
    gdb_double fs i ino o = (0, fs) := by
  unfold gdb_double
  rw [if_neg hD, if_pos ht]
  simp only [block_store_read_spec _ _ (test_lt _ _ ht)]
  unfold tableAt at h0 ht1
  rw [if_neg h0, if_neg ht1]

theorem gdb_double_starve (fs : F17FS) (i : Nat) (ino : inode) (o : Nat)
    (hD : ino.doubleIndirectPointer ≠ 0)
    (ht : block_store_test fs.BlockStore_whole ino.doubleIndirectPointer = true)
    (h0 : tableAt fs ino.doubleIndirectPointer (o / 256) ≠ 0)
    (ht1 : block_store_test fs.BlockStore_whole
      (tableAt fs ino.doubleIndirectPointer (o / 256)) = true)
    (h1 : tableAt fs (tableAt fs ino.doubleIndirectPointer (o / 256)) (o % 256) = 0)
    (hf : ¬ 1 ≤ block_store_get_free_blocks fs.BlockStore_whole) :
    gdb_double fs i ino o = (0, fs) := by
  unfold gdb_double
  rw [if_neg hD, if_pos ht]
  simp only [block_store_read_spec _ _ (test_lt _ _ ht)]
  unfold tableAt at h0 ht1 h1
  rw [if_neg h0, if_pos ht1]
  simp only [block_store_read_spec _ _ (test_lt _ _ ht1)]
  rw [if_pos h1, if_neg hf]

theorem gdb_double_take (fs : F17FS) (i : Nat) (ino : inode) (o : Nat)
    (hD : ino.doubleIndirectPointer ≠ 0)
    (ht : block_store_test fs.BlockStore_whole ino.doubleIndirectPointer = true)
    (h0 : tableAt fs ino.doubleIndirectPointer (o / 256) ≠ 0)
    (ht1 : block_store_test fs.BlockStore_whole
      (tableAt fs ino.doubleIndirectPointer (o / 256)) = true)
    (h1 : tableAt fs (tableAt fs ino.doubleIndirectPointer (o / 256)) (o % 256) = 0)
    (hf : 1 ≤ block_store_get_free_blocks fs.BlockStore_whole) :
    block_store_get_free_blocks (gdb_double fs i ino o).2.BlockStore_whole + 1 =
      block_store_get_free_blocks fs.BlockStore_whole ∧
    (∀ y, fs.BlockStore_whole.fbm y = true →
      (gdb_double fs i ino o).2.BlockStore_whole.fbm y = true) := by
  obtain ⟨_, _, _, a4⟩ := alloc16_spec fs.BlockStore_whole hf
  unfold gdb_double
  rw [if_neg hD, if_pos ht]
  simp only [block_store_read_spec _ _ (test_lt _ _ ht)]
  unfold tableAt at h0 ht1 h1
  rw [if_neg h0, if_pos ht1]
  simp only [block_store_read_spec _ _ (test_lt _ _ ht1)]
  rw [if_pos h1, if_pos hf]
  simp only [block_store_write_spec _ _ _ (test_lt _ _ ht1)]
  refine ⟨?_, fun y hy => alloc16_mono _ y hy⟩
  rw [free_blocks_data (alloc16 fs.BlockStore_whole).2]
  exact a4

theorem gdb_double_hit (fs : F17FS) (i : Nat) (ino : inode) (o : Nat)
    (hD : ino.doubleIndirectPointer ≠ 0)
    (ht : block_store_test fs.BlockStore_whole ino.doubleIndirectPointer = true)
    (h0 : tableAt fs ino.doubleIndirectPointer (o / 256) ≠ 0)
    (ht1 : block_store_test fs.BlockStore_whole
      (tableAt fs ino.doubleIndirectPointer (o / 256)) = true)
    (h1 : tableAt fs (tableAt fs ino.doubleIndirectPointer (o / 256)) (o % 256) ≠ 0) :
    gdb_double fs i ino o =
      (if block_store_test fs.BlockStore_whole
          (tableAt fs (tableAt fs ino.doubleIndirectPointer (o / 256)) (o % 256)) = true then
        tableAt fs (tableAt fs ino.doubleIndirectPointer (o / 256)) (o % 256) else 0, fs) := by
  unfold gdb_double
  rw [if_neg hD, if_pos ht]
  simp only [block_store_read_spec _ _ (test_lt _ _ ht)]
  unfold tableAt at h0 ht1 h1 ⊢
  rw [if_neg h0, if_pos ht1]
  simp only [block_store_read_spec _ _ (test_lt _ _ ht1)]
  rw [if_neg h1]
  split <;> rfl

end F17

namespace F17

/-! ## The free count across `get_data_block_id` -/

theorem gdb_unfold (fs : F17FS) (d : fileDescriptor) (hi : d.inodeNum < 256) :
    get_data_block_id fs d =
      if d.usage = 1 then
        gdb_direct fs d.inodeNum (fs.BlockStore_inode.data d.inodeNum) d.locate_order
      else if d.usage = 2 then
        gdb_indirect fs d.inodeNum (fs.BlockStore_inode.data d.inodeNum) d.locate_order
      else gdb_double fs d.inodeNum (fs.BlockStore_inode.data d.inodeNum) d.locate_order := by
  unfold get_data_block_id block_store_sub_read
  rw [if_pos hi]

theorem bounds_same (fs : F17FS) (g : Nat × F17FS) (hg : g.2 = fs) :
    (∀ y, fs.BlockStore_whole.fbm y = true → g.2.BlockStore_whole.fbm y = true) ∧
    block_store_get_free_blocks g.2.BlockStore_whole ≤
      block_store_get_free_blocks fs.BlockStore_whole ∧
    block_store_get_free_blocks fs.BlockStore_whole ≤
      block_store_get_free_blocks g.2.BlockStore_whole + 3 := by
  rw [hg]
  exact ⟨fun _ h => h, le_refl _, by omega⟩

/-- What a call of a tier does to the bitmap of the block store, in every
state: no block is released, and at most three blocks are taken. -/
theorem gdb_direct_bounds (fs : F17FS) (i : Nat) (ino : inode) (o : Nat) (hi : i < 256) :
    (∀ y, fs.BlockStore_whole.fbm y = true →
      (gdb_direct fs i ino o).2.BlockStore_whole.fbm y = true) ∧
    block_store_get_free_blocks (gdb_direct fs i ino o).2.BlockStore_whole ≤
      block_store_get_free_blocks fs.BlockStore_whole ∧
    block_store_get_free_blocks fs.BlockStore_whole ≤
      block_store_get_free_blocks (gdb_direct fs i ino o).2.BlockStore_whole + 3 := by
  by_cases hp : ino.directPointer o = 0
  · by_cases hf : 1 ≤ block_store_get_free_blocks fs.BlockStore_whole
    · obtain ⟨h1, h2⟩ := gdb_direct_take fs i ino o hi hp hf
      exact ⟨h2, by omega, by omega⟩
    · exact bounds_same fs _ (by rw [gdb_direct_starve fs i ino o hp hf])
  · exact bounds_same fs _ (by rw [gdb_direct_hit fs i ino o hp])

theorem gdb_indirect_bounds (fs : F17FS) (i : Nat) (ino : inode) (o : Nat) (hi : i < 256) :
    (∀ y, fs.BlockStore_whole.fbm y = true →
      (gdb_indirect fs i ino o).2.BlockStore_whole.fbm y = true) ∧
    block_store_get_free_blocks (gdb_indirect fs i ino o).2.BlockStore_whole ≤
      block_store_get_free_blocks fs.BlockStore_whole ∧
    block_store_get_free_blocks fs.BlockStore_whole ≤
      block_store_get_free_blocks (gdb_indirect fs i ino o).2.BlockStore_whole + 3 := by
  by_cases hq : ino.indirectPointer = 0
  · by_cases ho : o = 0
    · by_cases hf : 2 ≤ block_store_get_free_blocks fs.BlockStore_whole
      · obtain ⟨h1, h2⟩ := gdb_indirect_cold fs i ino o hi hq ho hf
        exact ⟨h2, by omega, by omega⟩
      · exact bounds_same fs _ (by rw [gdb_indirect_cold_starve fs i ino o hq ho hf])
    · exact bounds_same fs _ (by rw [gdb_indirect_cold_other fs i ino o hq ho])
  · by_cases ht : block_store_test fs.BlockStore_whole ino.indirectPointer = true
    · by_cases h0 : tableAt fs ino.indirectPointer o = 0
      · by_cases hf : 1 ≤ block_store_get_free_blocks fs.BlockStore_whole
        · obtain ⟨h1, h2⟩ := gdb_indirect_take fs i ino o hq ht h0 hf
          exact ⟨h2, by omega, by omega⟩
        · exact bounds_same fs _ (by rw [gdb_indirect_starve fs i ino o hq ht h0 hf])
      · exact bounds_same fs _ (by rw [gdb_indirect_hit fs i ino o hq ht h0])
    · exact bounds_same fs _ (by rw [gdb_indirect_unmarked fs i ino o hq ht])

theorem gdb_double_bounds (fs : F17FS) (i : Nat) (ino : inode) (o : Nat) (hi : i < 256) :
    (∀ y, fs.BlockStore_whole.fbm y = true →
      (gdb_double fs i ino o).2.BlockStore_whole.fbm y = true) ∧
    block_store_get_free_blocks (gdb_double fs i ino o).2.BlockStore_whole ≤
      block_store_get_free_blocks fs.BlockStore_whole ∧
    block_store_get_free_blocks fs.BlockStore_whole ≤
      block_store_get_free_blocks (gdb_double fs i ino o).2.BlockStore_whole + 3 := by
  by_cases hD : ino.doubleIndirectPointer = 0
  · by_cases hf : 3 ≤ block_store_get_free_blocks fs.BlockStore_whole
    · obtain ⟨h1, h2⟩ := gdb_double_cold fs i ino o hi hD hf
      exact ⟨h2, by omega, by omega⟩
    · exact bounds_same fs _ (by rw [gdb_double_cold_starve fs i ino o hD hf])
  · by_cases ht : block_store_test fs.BlockStore_whole ino.doubleIndirectPointer = true
    · by_cases h0 : tableAt fs ino.doubleIndirectPointer (o / 256) = 0
      · by_cases hf : 2 ≤ block_store_get_free_blocks fs.BlockStore_whole
        · obtain ⟨h1, h2⟩ := gdb_double_inner_take fs i ino o hD ht h0 hf
          exact ⟨h2, by omega, by omega⟩
        · exact bounds_same fs _ (by rw [gdb_double_inner_starve fs i ino o hD ht h0 hf])
      · by_cases ht1 : block_store_test fs.BlockStore_whole
            (tableAt fs ino.doubleIndirectPointer (o / 256)) = true
        · by_cases h1 : tableAt fs (tableAt fs ino.doubleIndirectPointer (o / 256))
              (o % 256) = 0
          · by_cases hf : 1 ≤ block_store_get_free_blocks fs.BlockStore_whole
            · obtain ⟨k1, k2⟩ := gdb_double_take fs i ino o hD ht h0 ht1 h1 hf
              exact ⟨k2, by omega, by omega⟩
            · exact bounds_same fs _ (by rw [gdb_double_starve fs i ino o hD ht h0 ht1 h1 hf])
          · exact bounds_same fs _ (by rw [gdb_double_hit fs i ino o hD ht h0 ht1 h1])
        · exact bounds_same fs _ (by rw [gdb_double_inner_unmarked fs i ino o hD ht h0 ht1])
    · exact bounds_same fs _ (by rw [gdb_double_unmarked fs i ino o hD ht])

/-- In every state a call of `get_data_block_id` releases no block and takes at
most three. -/
theorem gdb_bounds (fs : F17FS) (d : fileDescriptor) :
    (∀ y, fs.BlockStore_whole.fbm y = true →
      (get_data_block_id fs d).2.BlockStore_whole.fbm y = true) ∧
    block_store_get_free_blocks (get_data_block_id fs d).2.BlockStore_whole ≤
      block_store_get_free_blocks fs.BlockStore_whole ∧
    block_store_get_free_blocks fs.BlockStore_whole ≤
      block_store_get_free_blocks (get_data_block_id fs d).2.BlockStore_whole + 3 := by
  by_cases hi : d.inodeNum < 256
  · rw [gdb_unfold fs d hi]
    by_cases h1 : d.usage = 1
    · rw [if_pos h1]; exact gdb_direct_bounds fs _ _ _ hi
    · rw [if_neg h1]
      by_cases h2 : d.usage = 2
      · rw [if_pos h2]; exact gdb_indirect_bounds fs _ _ _ hi
      · rw [if_neg h2]; exact gdb_double_bounds fs _ _ _ hi
  · refine bounds_same fs _ ?_
    unfold get_data_block_id block_store_sub_read
    rw [if_neg hi]

end F17

namespace F17

/-! ## Allocation cost of `get_data_block_id` (C32) -/

/-- A run of `k` clear bits from `a` on gives at least `k` free slots. -/
theorem countFreeFrom_ge (bm : Nat → Bool) : ∀ (n i a k : Nat),
    (∀ y, a ≤ y → y < a + k → bm y = false) → i ≤ a → a + k ≤ i + n →
    k ≤ countFreeFrom bm n i := by
  intro n
  induction n with
  | zero => intro i a k _ h1 h2; omega
  | succ n ih =>
    intro i a k h h1 h2
    unfold countFreeFrom
    by_cases hia : i = a
    · subst hia
      by_cases hk : k = 0
      · omega
      · have hb : bm i = false := h i (le_refl _) (by omega)
        have := ih (i + 1) (i + 1) (k - 1) (fun y hy1 hy2 => h y (by omega) (by omega))
          (le_refl _) (by omega)
        simp only [hb]
        simp only [Bool.false_eq_true, if_false]
        omega
    · have := ih (i + 1) a k h (by omega) (by omega)
      omega

/-- C32.  The blocks `get_data_block_id` takes from the allocator, for every
state, every inode number below 256 and every cursor in range.  No call
releases a block.  A call in a mapped logical block returns the block and
changes nothing.  In the direct tier a pointer other than 0 means that nothing
is taken; with the pointer 0 exactly one block is taken when one is free, and
otherwise the call returns 0 and changes nothing.  In the indirect tier with
`indirectPointer == 0` exactly two blocks are taken at order 0 when two are
free, and at an order other than 0 nothing is taken and 0 is returned; with an
index block that is marked allocated exactly one block is taken for an entry
that is 0 when one is free, and none for an entry that is not 0.  In the
double-indirect tier with `doubleIndirectPointer == 0` exactly three blocks are
taken when three are free; with an outer index that is marked, exactly two for
an outer entry that is 0 when two are free; with an inner index that is marked,
exactly one for an inner entry that is 0 when one is free, and none for an
entry that is not 0.  An index pointer that is not 0 and not marked allocated
makes the call return 0 without a change.  With fewer free blocks than the
number named the call returns 0 and the state is the one given. -/
theorem gdb_alloc_cost (fs : F17FS) (d : fileDescriptor) (hi : d.inodeNum < 256)
    (hc : cursorOK d) :
    (∀ y, fs.BlockStore_whole.fbm y = true →
      (get_data_block_id fs d).2.BlockStore_whole.fbm y = true) ∧
    (blockMapped fs (fs.BlockStore_inode.data d.inodeNum) (logicalBlock d) →
      get_data_block_id fs d =
        (blockOf fs (fs.BlockStore_inode.data d.inodeNum) (logicalBlock d), fs)) ∧
    (d.usage = 1 →
      ((fs.BlockStore_inode.data d.inodeNum).directPointer d.locate_order ≠ 0 →
        (get_data_block_id fs d).2 = fs) ∧
      ((fs.BlockStore_inode.data d.inodeNum).directPointer d.locate_order = 0 →
        (1 ≤ block_store_get_free_blocks fs.BlockStore_whole →
          block_store_get_free_blocks (get_data_block_id fs d).2.BlockStore_whole + 1 =
            block_store_get_free_blocks fs.BlockStore_whole) ∧
        (block_store_get_free_blocks fs.BlockStore_whole < 1 →
          get_data_block_id fs d = (0, fs)))) ∧
    (d.usage = 2 →
      ((fs.BlockStore_inode.data d.inodeNum).indirectPointer = 0 →
        (d.locate_order = 0 →
          (2 ≤ block_store_get_free_blocks fs.BlockStore_whole →
            block_store_get_free_blocks (get_data_block_id fs d).2.BlockStore_whole + 2 =
              block_store_get_free_blocks fs.BlockStore_whole) ∧
          (block_store_get_free_blocks fs.BlockStore_whole < 2 →
            get_data_block_id fs d = (0, fs))) ∧
        (d.locate_order ≠ 0 → get_data_block_id fs d = (0, fs))) ∧
      ((fs.BlockStore_inode.data d.inodeNum).indirectPointer ≠ 0 →
        (block_store_test fs.BlockStore_whole
            (fs.BlockStore_inode.data d.inodeNum).indirectPointer = false →
          get_data_block_id fs d = (0, fs)) ∧
        (block_store_test fs.BlockStore_whole
            (fs.BlockStore_inode.data d.inodeNum).indirectPointer = true →
          (tableAt fs (fs.BlockStore_inode.data d.inodeNum).indirectPointer d.locate_order ≠ 0 →
            (get_data_block_id fs d).2 = fs) ∧
          (tableAt fs (fs.BlockStore_inode.data d.inodeNum).indirectPointer d.locate_order = 0 →
            (1 ≤ block_store_get_free_blocks fs.BlockStore_whole →
              block_store_get_free_blocks (get_data_block_id fs d).2.BlockStore_whole + 1 =
                block_store_get_free_blocks fs.BlockStore_whole) ∧
            (block_store_get_free_blocks fs.BlockStore_whole < 1 →
              get_data_block_id fs d = (0, fs)))))) ∧
    (d.usage = 4 →
      ((fs.BlockStore_inode.data d.inodeNum).doubleIndirectPointer = 0 →
        (3 ≤ block_store_get_free_blocks fs.BlockStore_whole →
          block_store_get_free_blocks (get_data_block_id fs d).2.BlockStore_whole + 3 =
            block_store_get_free_blocks fs.BlockStore_whole) ∧
        (block_store_get_free_blocks fs.BlockStore_whole < 3 →
          get_data_block_id fs d = (0, fs))) ∧
      ((fs.BlockStore_inode.data d.inodeNum).doubleIndirectPointer ≠ 0 →
        (block_store_test fs.BlockStore_whole
            (fs.BlockStore_inode.data d.inodeNum).doubleIndirectPointer = false →
          get_data_block_id fs d = (0, fs)) ∧
        (block_store_test fs.BlockStore_whole
            (fs.BlockStore_inode.data d.inodeNum).doubleIndirectPointer = true →
          (tableAt fs (fs.BlockStore_inode.data d.inodeNum).doubleIndirectPointer
              (d.locate_order / 256) = 0 →
            (2 ≤ block_store_get_free_blocks fs.BlockStore_whole →
              block_store_get_free_blocks (get_data_block_id fs d).2.BlockStore_whole + 2 =
                block_store_get_free_blocks fs.BlockStore_whole) ∧
            (block_store_get_free_blocks fs.BlockStore_whole < 2 →
              get_data_block_id fs d = (0, fs))) ∧
          (tableAt fs (fs.BlockStore_inode.data d.inodeNum).doubleIndirectPointer
              (d.locate_order / 256) ≠ 0 →
            (block_store_test fs.BlockStore_whole
                (tableAt fs (fs.BlockStore_inode.data d.inodeNum).doubleIndirectPointer
                  (d.locate_order / 256)) = false →
              get_data_block_id fs d = (0, fs)) ∧
            (block_store_test fs.BlockStore_whole
                (tableAt fs (fs.BlockStore_inode.data d.inodeNum).doubleIndirectPointer
                  (d.locate_order / 256)) = true →
              (tableAt fs
                  (tableAt fs (fs.BlockStore_inode.data d.inodeNum).doubleIndirectPointer
                    (d.locate_order / 256)) (d.locate_order % 256) ≠ 0 →
                (get_data_block_id fs d).2 = fs) ∧
              (tableAt fs
                  (tableAt fs (fs.BlockStore_inode.data d.inodeNum).doubleIndirectPointer
                    (d.locate_order / 256)) (d.locate_order % 256) = 0 →
                (1 ≤ block_store_get_free_blocks fs.BlockStore_whole →
                  block_store_get_free_blocks (get_data_block_id fs d).2.BlockStore_whole + 1 =
                    block_store_get_free_blocks fs.BlockStore_whole) ∧
                (block_store_get_free_blocks fs.BlockStore_whole < 1 →
                  get_data_block_id fs d = (0, fs)))))))) := by
  have hu := gdb_unfold fs d hi
  refine ⟨(gdb_bounds fs d).1, fun hm => gdb_mapped fs d hc hi hm, ?_, ?_, ?_⟩
  · intro h1
    rw [hu, if_pos h1]
    refine ⟨fun hp => ?_, fun hp => ⟨fun hf => ?_, fun hf => ?_⟩⟩
    · rw [gdb_direct_hit _ _ _ _ hp]
    · exact (gdb_direct_take _ _ _ _ hi hp hf).1
    · exact gdb_direct_starve _ _ _ _ hp (by omega)
  · intro h2
    have h1 : ¬ d.usage = 1 := by omega
    rw [hu, if_neg h1, if_pos h2]
    refine ⟨fun hq => ⟨fun ho => ⟨fun hf => ?_, fun hf => ?_⟩, fun ho => ?_⟩,
      fun hq => ⟨fun ht => ?_, fun ht => ⟨fun h0 => ?_, fun h0 => ⟨fun hf => ?_, fun hf => ?_⟩⟩⟩⟩
    · exact (gdb_indirect_cold _ _ _ _ hi hq ho hf).1
    · exact gdb_indirect_cold_starve _ _ _ _ hq ho (by omega)
    · exact gdb_indirect_cold_other _ _ _ _ hq ho
    · exact gdb_indirect_unmarked _ _ _ _ hq (by rw [ht]; simp)
    · rw [gdb_indirect_hit _ _ _ _ hq ht h0]
    · exact (gdb_indirect_take _ _ _ _ hq ht h0 hf).1
    · exact gdb_indirect_starve _ _ _ _ hq ht h0 (by omega)
  · intro h4
    have h1 : ¬ d.usage = 1 := by omega
    have h2 : ¬ d.usage = 2 := by omega
    rw [hu, if_neg h1, if_neg h2]
    refine ⟨fun hD => ⟨fun hf => ?_, fun hf => ?_⟩,
      fun hD => ⟨fun ht => ?_, fun ht => ⟨fun h0 => ⟨fun hf => ?_, fun hf => ?_⟩,
        fun h0 => ⟨fun ht1 => ?_, fun ht1 => ⟨fun h1 => ?_,
          fun h1 => ⟨fun hf => ?_, fun hf => ?_⟩⟩⟩⟩⟩⟩
    · exact (gdb_double_cold _ _ _ _ hi hD hf).1
    · exact gdb_double_cold_starve _ _ _ _ hD (by omega)
    · exact gdb_double_unmarked _ _ _ _ hD (by rw [ht]; simp)
    · exact (gdb_double_inner_take _ _ _ _ hD ht h0 hf).1
    · exact gdb_double_inner_starve _ _ _ _ hD ht h0 (by omega)
    · exact gdb_double_inner_unmarked _ _ _ _ hD ht h0 (by rw [ht1]; simp)
    · rw [gdb_double_hit _ _ _ _ hD ht h0 ht1 h1]
    · exact (gdb_double_take _ _ _ _ hD ht h0 ht1 h1 hf).1
    · exact gdb_double_starve _ _ _ _ hD ht h0 ht1 h1 (by omega)

/-- A call that returns 0 with the state given has taken no block. -/
theorem not_taken (fs : F17FS) (g : Nat × F17FS) (hg : g = (0, fs)) (k : Nat) (hk : 0 < k) :
    ¬ (block_store_get_free_blocks g.2.BlockStore_whole + k =
      block_store_get_free_blocks fs.BlockStore_whole) := by
  subst hg
  simp only
  omega

set_option maxRecDepth 100000 in
/-- The image `exFresh` has at least five free blocks. -/
theorem exFresh_free : 5 ≤ block_store_get_free_blocks exFresh.BlockStore_whole :=
  countFreeFrom_ge _ 65536 0 34 5 (fun y h1 h2 => by
    show decide (y < 34) = false
    simp only [decide_eq_false_iff_not]; omega) (by decide) (by decide)

set_option maxRecDepth 100000 in
/-- Witness of C32 on the image `exFresh`, for a cursor at the start of the
double-indirect tier of the empty file: three blocks are taken. -/
theorem gdb_alloc_cost_witness :
    cursorOK { inodeNum := 1, usage := 4, locate_order := 0, locate_offset := 0 } ∧
    (exFresh.BlockStore_inode.data 1).doubleIndirectPointer = 0 ∧
    block_store_get_free_blocks (get_data_block_id exFresh
      { inodeNum := 1, usage := 4, locate_order := 0, locate_offset := 0 }).2.BlockStore_whole + 3
      = block_store_get_free_blocks exFresh.BlockStore_whole :=
  ⟨by decide, rfl,
    ((gdb_alloc_cost exFresh { inodeNum := 1, usage := 4, locate_order := 0, locate_offset := 0 }
      (by decide) (by decide)).2.2.2.2 rfl).1 rfl |>.1 (le_trans (by decide) exFresh_free)⟩

set_option maxRecDepth 100000 in
/-- Counterexample to C32 as stated.  On the image `exFresh` the file of inode 1
has `indirectPointer == 0`, at least two blocks are free, and the cursor
`{usage = 2, order = 1}` is in range; the claim has the call take two blocks, and
the call returns 0 and takes none: the file system is the one given. -/
theorem gdb_cold_start_needs_order_zero :
    cursorOK { inodeNum := 1, usage := 2, locate_order := 1, locate_offset := 0 } ∧
    (exFresh.BlockStore_inode.data 1).indirectPointer = 0 ∧
    2 ≤ block_store_get_free_blocks exFresh.BlockStore_whole ∧
    get_data_block_id exFresh
      { inodeNum := 1, usage := 2, locate_order := 1, locate_offset := 0 } = (0, exFresh) ∧
    ¬ (block_store_get_free_blocks (get_data_block_id exFresh
        { inodeNum := 1, usage := 2, locate_order := 1, locate_offset := 0 }).2.BlockStore_whole
        + 2 = block_store_get_free_blocks exFresh.BlockStore_whole) := by
  have hg : get_data_block_id exFresh
      { inodeNum := 1, usage := 2, locate_order := 1, locate_offset := 0 } = (0, exFresh) := by
    rw [gdb_unfold _ _ (by decide), if_neg (by decide), if_pos (by decide)]
    exact gdb_indirect_cold_other _ _ _ _ rfl (by decide)
  exact ⟨by decide, rfl, le_trans (by decide) exFresh_free, hg, not_taken _ _ hg 2 (by decide)⟩

end F17

namespace F17

/-! ## A second call of `get_data_block_id` (C35) -/

/-- The state after the cold start of the double-indirect tier (lines 607-618),
at whatever order: the three blocks `a`, `b`, `c` the allocator hands out become
the outer index, the inner index in entry 0 of the outer index, and the data
block in entry 0 of the inner index; `c` is returned. -/
theorem gdb_double_cold_state (fs : F17FS) (i : Nat) (ino : inode) (o : Nat) (hi : i < 256)
    (hD : ino.doubleIndirectPointer = 0)
    (hf : 3 ≤ block_store_get_free_blocks fs.BlockStore_whole) :
    (gdb_double fs i ino o).1 = (alloc16 (alloc16 (alloc16 fs.BlockStore_whole).2).2).1 ∧
    (gdb_double fs i ino o).2.BlockStore_inode.data i =
      { ino with doubleIndirectPointer := (alloc16 fs.BlockStore_whole).1 } ∧
    (gdb_double fs i ino o).2.BlockStore_whole.fbm =
      (alloc16 (alloc16 (alloc16 fs.BlockStore_whole).2).2).2.fbm ∧
    (gdb_double fs i ino o).2.BlockStore_whole.data (alloc16 fs.BlockStore_whole).1 =
      blockOfTable (upd zeroTable 0 (alloc16 (alloc16 fs.BlockStore_whole).2).1) ∧
    (gdb_double fs i ino o).2.BlockStore_whole.data (alloc16 (alloc16 fs.BlockStore_whole).2).1 =
      blockOfTable (upd zeroTable 0 (alloc16 (alloc16 (alloc16 fs.BlockStore_whole).2).2).1) := by
  obtain ⟨a1, _, b1, _, _, _, hab, _, _, _⟩ := alloc16_three fs.BlockStore_whole hf
  have hb : upd zeroTable 0 (alloc16 (alloc16 fs.BlockStore_whole).2).1 0 < 65536 := by
    rw [upd_same]; exact b1
  unfold gdb_double
  rw [if_pos hD, if_pos hf]
  simp only [block_store_write_spec _ _ _ a1, block_store_write_spec _ _ _ hb,
    block_store_write_spec _ _ _ b1, sub_write_spec _ _ _ hi, upd_same]
  refine ⟨trivial, trivial, trivial, ?_, ?_⟩
  · rw [upd_other _ _ _ _ (Ne.symm hab), upd_same]
  · trivial

/-- The block returned when an inner index and a data block are taken
together (lines 622-631). -/
theorem gdb_double_inner_take_fst (fs : F17FS) (i : Nat) (ino : inode) (o : Nat)
    (hD : ino.doubleIndirectPointer ≠ 0)
    (ht : block_store_test fs.BlockStore_whole ino.doubleIndirectPointer = true)
    (h0 : tableAt fs ino.doubleIndirectPointer (o / 256) = 0)
    (hf : 2 ≤ block_store_get_free_blocks fs.BlockStore_whole) :
    (gdb_double fs i ino o).1 = (alloc16 (alloc16 fs.BlockStore_whole).2).1 := by
  obtain ⟨a1, _, _, _⟩ := alloc16_spec fs.BlockStore_whole (by omega)
  have ha : upd (tableOfBlock (fs.BlockStore_whole.data ino.doubleIndirectPointer)) (o / 256)
      (alloc16 fs.BlockStore_whole).1 (o / 256) < 65536 := by
    rw [upd_same]; exact a1
  unfold gdb_double
  rw [if_neg hD, if_pos ht]
  simp only [block_store_read_spec _ _ (test_lt _ _ ht)]
  unfold tableAt at h0
  rw [if_pos h0, if_pos hf]
  simp only [block_store_write_spec _ _ _ (test_lt _ _ ht), block_store_write_spec _ _ _ ha,
    block_store_write_spec _ _ _ a1, upd_same]

/-- The cold start of the double-indirect tier at an order of 256 or more, and
the call that follows it.  With `doubleIndirectPointer == 0`, block 0 in use
and five free blocks, the first call takes three blocks and returns one of
them; the second call, with the same descriptor, finds entry `order / 256` of
the outer index 0, takes two more blocks and returns another block. -/
theorem gdb_double_cold_twice (fs : F17FS) (d : fileDescriptor) (hi : d.inodeNum < 256)
    (hu : d.usage = 4) (ho : 256 ≤ d.locate_order) (ho2 : d.locate_order < 65536)
    (hD : (fs.BlockStore_inode.data d.inodeNum).doubleIndirectPointer = 0)
    (hz : fs.BlockStore_whole.fbm 0 = true)
    (hf : 5 ≤ block_store_get_free_blocks fs.BlockStore_whole) :
    (get_data_block_id fs d).1 ≠ 0 ∧
    block_store_get_free_blocks (get_data_block_id fs d).2.BlockStore_whole + 3 =
      block_store_get_free_blocks fs.BlockStore_whole ∧
    (get_data_block_id (get_data_block_id fs d).2 d).1 ≠ 0 ∧
    (get_data_block_id (get_data_block_id fs d).2 d).1 ≠ (get_data_block_id fs d).1 ∧
    block_store_get_free_blocks
        (get_data_block_id (get_data_block_id fs d).2 d).2.BlockStore_whole + 2 =
      block_store_get_free_blocks (get_data_block_id fs d).2.BlockStore_whole := by
  have h1 : ¬ d.usage = 1 := by omega
  have h2 : ¬ d.usage = 2 := by omega
  have e1 : get_data_block_id fs d =
      gdb_double fs d.inodeNum (fs.BlockStore_inode.data d.inodeNum) d.locate_order := by
    rw [gdb_unfold fs d hi, if_neg h1, if_neg h2]
  obtain ⟨a1, a2, b1, b2, c1, c2, hab, hca, hcb, hst⟩ := alloc16_three fs.BlockStore_whole
    (by omega)
  obtain ⟨s1, s2, s3, s4, s5⟩ := gdb_double_cold_state fs d.inodeNum
    (fs.BlockStore_inode.data d.inodeNum) d.locate_order hi hD (by omega)
  obtain ⟨k1, _⟩ := gdb_double_cold fs d.inodeNum (fs.BlockStore_inode.data d.inodeNum)
    d.locate_order hi hD (by omega)
  rw [← e1] at s1 s2 s3 s4 s5 k1
  generalize get_data_block_id fs d = g at s1 s2 s3 s4 s5 k1 ⊢
  have hfb : g.2.BlockStore_whole.fbm =
      upd (upd (upd fs.BlockStore_whole.fbm (alloc16 fs.BlockStore_whole).1 true)
        (alloc16 (alloc16 fs.BlockStore_whole).2).1 true)
        (alloc16 (alloc16 (alloc16 fs.BlockStore_whole).2).2).1 true := by
    rw [s3, hst]
  have hc0 : (alloc16 (alloc16 (alloc16 fs.BlockStore_whole).2).2).1 ≠ 0 := by
    intro h; rw [h, hz] at c2; cases c2
  have ha0 : (alloc16 fs.BlockStore_whole).1 ≠ 0 := by
    intro h; rw [h, hz] at a2; cases a2
  have e2 : get_data_block_id g.2 d =
      gdb_double g.2 d.inodeNum (g.2.BlockStore_inode.data d.inodeNum) d.locate_order := by
    rw [gdb_unfold g.2 d hi, if_neg h1, if_neg h2]
  have hD1 : (g.2.BlockStore_inode.data d.inodeNum).doubleIndirectPointer ≠ 0 := by
    rw [s2]; exact ha0
  have hDe : (g.2.BlockStore_inode.data d.inodeNum).doubleIndirectPointer =
      (alloc16 fs.BlockStore_whole).1 := by rw [s2]
  have ht : block_store_test g.2.BlockStore_whole
      (g.2.BlockStore_inode.data d.inodeNum).doubleIndirectPointer = true := by
    rw [hDe, test_iff]
    refine ⟨a1, ?_⟩
    rw [hfb, upd_other _ _ _ _ (Ne.symm hca), upd_other _ _ _ _ (Ne.symm hab), upd_same]
  have hq : d.locate_order / 256 ≠ 0 := by omega
  have hq2 : d.locate_order / 256 < 256 := by omega
  have h0 : tableAt g.2 (g.2.BlockStore_inode.data d.inodeNum).doubleIndirectPointer
      (d.locate_order / 256) = 0 := by
    rw [hDe, tableAt_written g.2 _ _ _ hq2 s4, zeroTable_upd _ _ _ hq]
  have hf2 : 2 ≤ block_store_get_free_blocks g.2.BlockStore_whole := by omega
  have hz1 : g.2.BlockStore_whole.fbm 0 = true := by
    rw [hfb]
    exact upd_true_mono _ _ _ (upd_true_mono _ _ _ (upd_true_mono _ _ _ hz))
  obtain ⟨t1, _⟩ := gdb_double_inner_take g.2 d.inodeNum _ d.locate_order hD1 ht h0 hf2
  have tv := gdb_double_inner_take_fst g.2 d.inodeNum _ d.locate_order hD1 ht h0 hf2
  obtain ⟨_, _, _, n2, _, _, _⟩ := alloc16_two g.2.BlockStore_whole hf2
  rw [← e2] at t1 tv
  refine ⟨by rw [s1]; exact hc0, k1, ?_, ?_, t1⟩
  · rw [tv]
    intro h; rw [h, hz1] at n2; cases n2
  · rw [tv, s1]
    intro h
    rw [h, hfb, upd_same] at n2
    cases n2

end F17

namespace F17

/-! ## Writes that find enough free blocks -/

/-- On a well-formed block map, with the cursor in a mapped block or right
after the last, `get_data_block_id` returns a block when three blocks are
free. -/
theorem gdb_wf_free (fs : F17FS) (d : fileDescriptor) (M : Nat) (hc : cursorOK d)
    (hi : d.inodeNum < 256) (hz : fs.BlockStore_whole.fbm 0 = true)
    (hwf : FileWF fs (fs.BlockStore_inode.data d.inodeNum) M) (hL : logicalBlock d ≤ M)
    (hf : 3 ≤ block_store_get_free_blocks fs.BlockStore_whole) :
    (get_data_block_id fs d).1 ≠ 0 := by
  by_cases hlt : logicalBlock d < M
  · have hm := wf_mapped fs _ M _ hwf hlt
    rw [gdb_mapped fs d hc hi hm]
    exact (blockMapped_blockOf _ _ _ hm).1
  · have hM : M = logicalBlock d := by omega
    rw [gdb_unfold fs d hi]
    unfold logicalBlock at hM
    rcases hc.2 with ⟨h1, h2⟩ | ⟨h1, h2⟩ | ⟨h1, h2⟩
    · simp only [h1, if_true] at hM ⊢
      subst hM
      exact (grow_direct fs _ _ hi hz hwf h2 (by omega)).1
    · have c1 : ¬ ((2 : Nat) = 1) := by omega
      simp only [h1, c1, if_true, if_false] at hM ⊢
      subst hM
      by_cases h0 : d.locate_order = 0
      · rw [h0] at hwf ⊢
        exact (grow_indirect_first fs _ hi hz hwf (by omega)).1
      · have hM1 : 6 < 6 + d.locate_order := by omega
        have e3 : 6 + d.locate_order - 6 = d.locate_order := by omega
        have := grow_indirect_next fs d.inodeNum (6 + d.locate_order) hz hwf hM1 (by omega)
          (by omega)
        rw [e3] at this
        exact this.1
    · have c1 : ¬ ((4 : Nat) = 1) := by omega
      have c2 : ¬ ((4 : Nat) = 2) := by omega
      simp only [h1, c1, c2, if_false] at hM ⊢
      subst hM
      by_cases h0 : d.locate_order = 0
      · rw [h0] at hwf ⊢
        exact (grow_double_first fs _ hi hz hwf (by omega)).1
      · obtain ⟨q, r, hqr, hr⟩ : ∃ q r, d.locate_order = 256 * q + r ∧ r < 256 :=
          ⟨d.locate_order / 256, d.locate_order % 256, by omega, Nat.mod_lt _ (by norm_num)⟩
        rw [hqr] at hwf h0 h2 ⊢
        have e4 : 6 + 256 + (256 * q + r) = 262 + 256 * q + r := by omega
        rw [e4] at hwf
        by_cases hlo : r = 0
        · subst hlo
          simp only [Nat.add_zero] at hwf ⊢
          exact (grow_double_inner fs d.inodeNum q (by omega) (by omega) hz hwf (by omega)).1
        · exact (grow_double_next fs d.inodeNum q r (by omega) hr hz hwf (by omega)).1

/-- On a well-formed block map a second call of `get_data_block_id` with the
same descriptor returns the block of the first call and changes nothing. -/
theorem gdb_idempotent_wf (fs : F17FS) (d : fileDescriptor) (M : Nat) (hc : cursorOK d)
    (hi : d.inodeNum < 256) (hz : fs.BlockStore_whole.fbm 0 = true)
    (hwf : FileWF fs (fs.BlockStore_inode.data d.inodeNum) M) (hL : logicalBlock d ≤ M)
    (hb : (get_data_block_id fs d).1 ≠ 0) :
    get_data_block_id (get_data_block_id fs d).2 d =
      ((get_data_block_id fs d).1, (get_data_block_id fs d).2) := by
  rcases gdb_wf fs d M hc hi hz hwf hL with h0 | ⟨_, hG, hblk⟩
  · rw [h0] at hb; exact absurd rfl hb
  · have hm := wf_mapped _ _ _ (logicalBlock d) hG.wf (by omega)
    rw [gdb_mapped _ d hc hi hm, hblk]

theorem free_of_fbm (a b : block_store Block) (h : a.fbm = b.fbm) :
    block_store_get_free_blocks a = block_store_get_free_blocks b := by
  unfold block_store_get_free_blocks
  rw [h]

/-- The loop of `fs_write` on a well-formed file when the store has three free
blocks for every block the loop has yet to visit: it writes every byte, the
file has no more blocks than the cursor has reached, and at most three blocks
per visited block have been taken.  `U0` bounds the number of blocks to
visit, `F0` is the number of free blocks at the start. -/
theorem writeLoop_plenty (fs0 : F17FS) (i M0 S : Nat) (src : List Nat) (hi : i < 256)
    (U0 F0 : Nat) (hU : 3 * U0 ≤ F0)
    (fuel : Nat) (fs : F17FS) (d : fileDescriptor) (w : Nat) (last : Option Nat)
    (r : LoopResult)
    (hP : ∃ M, WriteInv fs0 i M0 S src fs d w M ∧ M ≤ max M0 (logicalBlock d + 1) ∧
      F0 + 3 * (if w < src.length then (d.locate_offset + (src.length - w)) / 512 + 1 else 0) ≤
        block_store_get_free_blocks fs.BlockStore_whole + 3 * U0)
    (h : writeLoop fuel fs d src w last = some r) :
    r.err = none ∧ r.count = src.length ∧
    ∃ M, WriteInv fs0 i M0 S src r.fs r.fd_t r.count M ∧
      M ≤ max M0 (logicalBlock r.fd_t + 1) ∧
      F0 ≤ block_store_get_free_blocks r.fs.BlockStore_whole + 3 * U0 := by
  refine writeLoop_rule src
    (fun fs d w => ∃ M, WriteInv fs0 i M0 S src fs d w M ∧ M ≤ max M0 (logicalBlock d + 1) ∧
      F0 + 3 * (if w < src.length then (d.locate_offset + (src.length - w)) / 512 + 1 else 0) ≤
        block_store_get_free_blocks fs.BlockStore_whole + 3 * U0)
    (fun r => r.err = none ∧ r.count = src.length ∧
      ∃ M, WriteInv fs0 i M0 S src r.fs r.fd_t r.count M ∧
        M ≤ max M0 (logicalBlock r.fd_t + 1) ∧
        F0 ≤ block_store_get_free_blocks r.fs.BlockStore_whole + 3 * U0)
    ?_ ?_ ?_ ?_ fuel fs d w last r hP h
  · rintro fs d w last ⟨M, inv, hM, hF⟩ h0
    have hwl := inv.cur.2.2.2.1
    have hw : ¬ w < src.length := by omega
    rw [if_neg hw] at hF
    exact ⟨rfl, show w = src.length by omega, M, inv, hM,
      show F0 ≤ block_store_get_free_blocks fs.BlockStore_whole + 3 * U0 by omega⟩
  · rintro fs d w ⟨M, inv, hM, hF⟩ h0 h1
    obtain ⟨hc, hin, hpos, hwl, hL⟩ := inv.cur
    have hw : w < src.length := by omega
    rw [if_pos hw] at hF
    have hg := gdb_wf_free fs d M hc (by rw [hin]; exact hi) inv.z (by rw [hin]; exact inv.wf)
      hL (by omega)
    omega
  · rintro fs d w ⟨M, inv, hM, hF⟩ h0 h1 h2
    unfold BLOCK_SIZE_BYTES at h2
    obtain ⟨hc, hin, hpos, hwl, hL⟩ := inv.cur
    have hw : w < src.length := by omega
    rw [if_pos hw] at hF
    obtain ⟨_, _, gb⟩ := gdb_bounds fs d
    refine ⟨fun wst hws => ?_, fun hn => ?_⟩
    · have hmod : (d.locate_offset + (src.length - w)) % 65536 =
          d.locate_offset + (src.length - w) := Nat.mod_eq_of_lt (by omega)
      have hd1 : cursorOK { d with locate_offset := d.locate_offset + (src.length - w) } ∧
          ({ d with locate_offset := d.locate_offset + (src.length - w) } : fileDescriptor).inodeNum
            = i ∧
          getFileSize { d with locate_offset := d.locate_offset + (src.length - w) } =
            S + (w + (src.length - w)) ∧
          logicalBlock { d with locate_offset := d.locate_offset + (src.length - w) } ≤
            logicalBlock d + 1 := by
        refine ⟨⟨by simp only; omega, hc.2⟩, hin, ?_, ?_⟩
        · unfold getFileSize at *
          simp only at *
          split_ifs at * <;> omega
        · unfold logicalBlock; simp only; split_ifs <;> omega
      have step := writeInv_step fs0 i M0 S src fs d w M hi inv (src.length - w) h0
        (by omega) (by omega) h1 wst hws _ hd1
      have e : w + (src.length - w) = src.length := by omega
      rw [e] at step
      rw [hmod]
      have hfb := (n_write_some _ _ _ _ _ _ hws).2.2.2.1
      have hfr := free_of_fbm _ _ hfb
      have hlb : logicalBlock { d with locate_offset := d.locate_offset + (src.length - w) } =
          logicalBlock d := rfl
      refine ⟨rfl, rfl, _, step, ?_, ?_⟩
      · rw [hlb]; omega
      · show F0 ≤ block_store_get_free_blocks wst + 3 * U0
        omega
    · exact absurd hn (n_write_ok _ _ _ _ _ (gdb_spec fs d).1 (by omega) (by omega))
  · rintro fs d w ⟨M, inv, hM, hF⟩ h0 h1 h2
    unfold BLOCK_SIZE_BYTES at h2 ⊢
    obtain ⟨hc, hin, hpos, hwl, hL⟩ := inv.cur
    have hoff := hc.1
    have hw : w < src.length := by omega
    rw [if_pos hw] at hF
    obtain ⟨_, _, gb⟩ := gdb_bounds fs d
    refine ⟨fun wst hws => ?_, fun hn => ?_⟩
    · have hb := wf_bound fs _ M inv.wf
      obtain ⟨a1, a2, a3⟩ := advanceCursor_spec d hc (by omega)
      have hS := getFileSize_eq d hc
      have hd1 : cursorOK (advanceCursor d) ∧ (advanceCursor d).inodeNum = i ∧
          getFileSize (advanceCursor d) = S + (w + (512 - d.locate_offset)) ∧
          logicalBlock (advanceCursor d) ≤ logicalBlock d + 1 := by
        refine ⟨a1, by simpa using hin, ?_, by omega⟩
        rw [getFileSize_eq _ a1, a2, a3]
        omega
      have step := writeInv_step fs0 i M0 S src fs d w M hi inv (512 - d.locate_offset)
        (by omega) (by omega) (by omega) h1 wst hws _ hd1
      have hfb := (n_write_some _ _ _ _ _ _ hws).2.2.2.1
      have hfr := free_of_fbm _ _ hfb
      refine ⟨_, step, by rw [a2]; omega, ?_⟩
      rw [a3]
      show F0 + 3 * (if w + (512 - d.locate_offset) < src.length then
          (0 + (src.length - (w + (512 - d.locate_offset)))) / 512 + 1 else 0) ≤
        block_store_get_free_blocks wst + 3 * U0
      split_ifs <;> omega
    · exact absurd hn (n_write_ok _ _ _ _ _ (gdb_spec fs d).1 (by omega) (by omega))

/-- The whole of `fs_write` on a well-formed file when the store has three free
blocks for every block the bytes reach into: every byte is written, the
invariant of the loop holds of the final state, the file has no more blocks
than the cursor has reached, the file size is the larger of the old size and
the end of the bytes written, the descriptor stays open, and at most three
blocks per block visited have been taken. -/
theorem fs_write_plenty (fs : F17FS) (fd : Nat) (src : List Nat) (M : Nat)
    (hfd : block_store_sub_test fs.BlockStore_fd fd = true) (hne : src ≠ [])
    (hc : cursorOK (fs.BlockStore_fd.data fd))
    (hi : (fs.BlockStore_fd.data fd).inodeNum < 256)
    (hz : fs.BlockStore_whole.fbm 0 = true)
    (hwf : FileWF fs (fs.BlockStore_inode.data (fs.BlockStore_fd.data fd).inodeNum) M)
    (hL : logicalBlock (fs.BlockStore_fd.data fd) ≤ M)
    (hfree : 3 * (((fs.BlockStore_fd.data fd).locate_offset + src.length) / 512 + 1) ≤
      block_store_get_free_blocks fs.BlockStore_whole) :
    ∃ (fs1 : F17FS) (M1 : Nat),
      fs_write fs fd src = some ((src.length : Int), fs1) ∧
      WriteInv fs (fs.BlockStore_fd.data fd).inodeNum M (getFileSize (fs.BlockStore_fd.data fd))
        src fs1 (fs1.BlockStore_fd.data fd) src.length M1 ∧
      M1 ≤ max M (logicalBlock (fs1.BlockStore_fd.data fd) + 1) ∧
      (fs1.BlockStore_inode.data (fs.BlockStore_fd.data fd).inodeNum).fileSize =
        max (fs.BlockStore_inode.data (fs.BlockStore_fd.data fd).inodeNum).fileSize
          (getFileSize (fs.BlockStore_fd.data fd) + src.length) ∧
      fs1.BlockStore_fd.fbm = fs.BlockStore_fd.fbm ∧
      block_store_get_free_blocks fs.BlockStore_whole ≤
        block_store_get_free_blocks fs1.BlockStore_whole +
          3 * (((fs.BlockStore_fd.data fd).locate_offset + src.length) / 512 + 1) := by
  have hfd' : fd < 256 := sub_test_lt _ _ hfd
  have hlen : 0 < src.length := List.length_pos.mpr hne
  generalize hd : fs.BlockStore_fd.data fd = d at *
  obtain ⟨r, hr⟩ := writeLoop_total src.length fs d src 0 none (by omega)
  obtain ⟨e1, e2, M1, inv, hM1, hF⟩ := writeLoop_plenty fs d.inodeNum M (getFileSize d) src hi
    ((d.locate_offset + src.length) / 512 + 1) (block_store_get_free_blocks fs.BlockStore_whole)
    hfree src.length fs d 0 none r
    ⟨M, writeInv_init fs d M src hc hz hwf hL, by omega, by
      rw [if_pos hlen]; simp only [Nat.sub_zero]; omega⟩ hr
  obtain ⟨m1, m2⟩ := writeLoop_meta src fs d src.length fs d 0 none r ⟨metaFrame_refl fs, rfl⟩ hr
  have hrd : r.fd_t.inodeNum = d.inodeNum := inv.cur.2.1
  have hw := fs_write_eq fs fd src r hfd hne (by rw [hd]; exact hr) e1 (by rw [hrd]; exact hi)
  rw [hd, hrd, e2] at hw
  rw [e2] at inv
  refine ⟨_, M1, hw, ?_, ?_, ?_, ?_, ?_⟩
  · simp only [upd_same]
    refine writeInv_final fs d.inodeNum M (getFileSize d) src r.fs _ r.fd_t src.length M1 inv rfl
      ?_ ?_
    · simp only [upd_same]
      split_ifs <;> exact ⟨rfl, rfl, rfl⟩
    · intro j hj
      simp only [upd_other _ _ _ _ hj]
  · simp only [upd_same]
    exact hM1
  · simp only [upd_same]
    have hsz : (r.fs.BlockStore_inode.data d.inodeNum).fileSize =
        (fs.BlockStore_inode.data d.inodeNum).fileSize := (m1.2.2 d.inodeNum).2.2.2.1
    rw [hsz]
    split_ifs with hlt
    · simp only; omega
    · omega
  · simp only
    rw [m1.1]
  · exact hF

end F17

namespace F17

/-! ## The range of the cursor (C37) -/

/-- The value of `fs_seek(fd, o, FS_SEEK_SET)` for an offset inside the file:
`o` is returned and the descriptor is replaced by the decomposition of `o`
(lines 993-1005). -/
theorem fs_seek_set_eq (fs : F17FS) (fd o : Nat)
    (hfd : block_store_sub_test fs.BlockStore_fd fd = true)
    (hi : (fs.BlockStore_fd.data fd).inodeNum < 256)
    (hsz : (fs.BlockStore_inode.data (fs.BlockStore_fd.data fd).inodeNum).fileSize < 2 ^ 63)
    (ho : o ≤ (fs.BlockStore_inode.data (fs.BlockStore_fd.data fd).inodeNum).fileSize) :
    fs_seek fs (fd : Int) (o : Int) .FS_SEEK_SET =
      ((o : Int), { fs with BlockStore_fd :=
        { fs.BlockStore_fd with
          data := upd fs.BlockStore_fd.data fd (seekLocate (fs.BlockStore_fd.data fd) o) } }) := by
  have hfd' : fd < 256 := sub_test_lt _ _ hfd
  have hc1 : ((fd : Int) ≥ 0 ∧ block_store_sub_test fs.BlockStore_fd (fd : Int).toNat = true) :=
    ⟨by omega, by simpa using hfd⟩
  have hstd : seekStdOffset (toSsize (getFileSize (fs.BlockStore_fd.data fd)))
      (toSsize (fs.BlockStore_inode.data (fs.BlockStore_fd.data fd).inodeNum).fileSize) (o : Int)
      .FS_SEEK_SET = some (o : Int) := by
    rw [toSsize_small _ hsz]
    unfold seekStdOffset
    have h1 : ¬ ((o : Int) < 0) := by omega
    have h2 : ¬ ((o : Int) >
        ((fs.BlockStore_inode.data (fs.BlockStore_fd.data fd).inodeNum).fileSize : Int)) := by
      omega
    simp only [h1, h2, if_false]
  unfold fs_seek
  rw [if_pos hc1]
  simp only [Int.toNat_ofNat, block_store_sub_read, hfd', if_true, hi, block_store_sub_write,
    hstd]

/-- The decomposition of the position 2600 by `fs_seek`: `P / 512` is 5, below
262, and `ceil(P / 512)` is 6, so the indirect tier is taken (line 997) with
the order `5 - 6`, which is 65535 as a `uint16_t`. -/
theorem seekLocate_2600 (d : fileDescriptor) :
    seekLocate d 2600 =
      { inodeNum := d.inodeNum, usage := 2, locate_order := 65535, locate_offset := 40 } := by
  unfold seekLocate
  rw [if_neg (by decide), if_pos (by decide)]
  rfl

set_option maxRecDepth 100000 in
/-- The image `exAOpen` has at least 100 free blocks. -/
theorem exAOpen_free100 : 100 ≤ block_store_get_free_blocks exAOpen.BlockStore_whole :=
  countFreeFrom_ge _ 65536 0 34 100 (fun y h1 h2 => by
    have : ∀ z, z < 134 → 34 ≤ z → exAOpen.BlockStore_whole.fbm z = false := by decide
    exact this y (by omega) h1) (by decide) (by decide)

set_option maxRecDepth 100000 in
/-- The write of 4000 bytes to the empty file of the image `exAOpen`, followed
by a seek to the position 2600, for any 4000 bytes. -/
theorem cursor_leaves_range_of (src : List Nat) (hlen : src.length = 4000) :
    ∃ fs1 : F17FS,
      fs_write exAOpen (0 : Nat) src = some (4000, fs1) ∧
      (fs_seek fs1 (0 : Nat) 2600 .FS_SEEK_SET).1 = 2600 ∧
      Reachable (fs_seek fs1 (0 : Nat) 2600 .FS_SEEK_SET).2 ∧
      block_store_sub_test (fs_seek fs1 (0 : Nat) 2600 .FS_SEEK_SET).2.BlockStore_fd 0 = true ∧
      (fs_seek fs1 (0 : Nat) 2600 .FS_SEEK_SET).2.BlockStore_fd.data 0 =
        { inodeNum := 1, usage := 2, locate_order := 65535, locate_offset := 40 } ∧
      ¬ cursorOK ((fs_seek fs1 (0 : Nat) 2600 .FS_SEEK_SET).2.BlockStore_fd.data 0) ∧
      ((fs_seek fs1 (0 : Nat) 2600 .FS_SEEK_SET).2.BlockStore_inode.data 1).indirectPointer
        ≠ 0 ∧
      block_store_test (fs_seek fs1 (0 : Nat) 2600 .FS_SEEK_SET).2.BlockStore_whole
        ((fs_seek fs1 (0 : Nat) 2600 .FS_SEEK_SET).2.BlockStore_inode.data 1).indirectPointer
        = true := by
  have hd0 : exAOpen.BlockStore_fd.data 0 =
      { inodeNum := 1, usage := 1, locate_order := 0, locate_offset := 0 } := by decide
  have hwf : FileWF exAOpen
      (exAOpen.BlockStore_inode.data (exAOpen.BlockStore_fd.data 0).inodeNum) 0 :=
    fileWF_empty exAOpen _ (fun k hk => by
      have : ∀ j, j < 6 → (exAOpen.BlockStore_inode.data
          (exAOpen.BlockStore_fd.data 0).inodeNum).directPointer j = 0 := by decide
      exact this k hk) (by decide) (by decide)
  obtain ⟨fs1, M1, hw, inv, hM1, hsz, hfbm, hF⟩ :=
    fs_write_plenty exAOpen 0 src 0 (by decide)
      (fun h => by rw [h] at hlen; cases hlen) (by decide)
      (by decide) (by decide) hwf (by decide)
      (by rw [hlen]; exact le_trans (by decide) exAOpen_free100)
  rw [hlen] at hw inv hsz
  rw [hd0] at inv hsz
  obtain ⟨hc1, hin1, hpos1, _, _⟩ := inv.cur
  have hin1' : (fs1.BlockStore_fd.data 0).inodeNum = 1 := hin1
  have hsz0 : (exAOpen.BlockStore_inode.data 1).fileSize = 0 := by decide
  have hsz' : (fs1.BlockStore_inode.data 1).fileSize = 4000 := by
    have : (fs1.BlockStore_inode.data 1).fileSize =
        max (exAOpen.BlockStore_inode.data 1).fileSize (0 + 4000) := hsz
    rw [this, hsz0]; rfl
  have hfd1 : block_store_sub_test fs1.BlockStore_fd 0 = true := by
    unfold block_store_sub_test
    rw [hfbm]
    decide
  have hseek := fs_seek_set_eq fs1 0 2600 hfd1 (by rw [hin1']; decide)
    (by rw [hin1', hsz']; decide) (by rw [hin1', hsz']; decide)
  simp only [Nat.cast_ofNat] at hseek
  rw [seekLocate_2600, hin1'] at hseek
  have h7 := (inv.written 3999 (by simp [getFileSize]) (by simp [getFileSize])).1
  obtain ⟨hind, hindt⟩ := inv.wf.live .ind (by simp only [slotLive_ind]; omega)
  simp only [slotBlock_ind] at hind hindt
  refine ⟨fs1, by simpa using hw, ?_, ?_, ?_, ?_, ?_, ?_, ?_⟩
  · rw [hseek]
  · exact Reachable.seek fs1 (0 : Nat) 2600 .FS_SEEK_SET
      (Reachable.write exAOpen (0 : Nat) src 4000 fs1 exAOpen_reachable
        (by simpa using hw))
  · rw [hseek]
    exact hfd1
  · rw [hseek]
    simp only [upd_same]
  · rw [hseek]
    simp only [upd_same]
    decide
  · rw [hseek]
    exact hind
  · rw [hseek]
    exact hindt

set_option maxRecDepth 100000 in
/-- C37, evaluated on a state that public operations reach.  From the image
`exAOpen` (`fs_format`, `fs_create("/a")`, `fs_open("/a")`), `fs_write` of 4000
bytes through descriptor 0 returns 4000, and `fs_seek(0, 2600, FS_SEEK_SET)`
returns 2600.  The descriptor it leaves is `{usage = 2, order = 65535,
offset = 40}`: the order is not at most 255 although `usage` is 2, and the
file has an index block that is marked allocated, so that the next call of
`get_data_block_id` reads entry 65535 of a table of 256 entries (line 586). -/
theorem cursor_leaves_range :
    ∃ fs1 : F17FS,
      fs_write exAOpen (0 : Nat) (List.replicate 4000 7) = some (4000, fs1) ∧
      (fs_seek fs1 (0 : Nat) 2600 .FS_SEEK_SET).1 = 2600 ∧
      Reachable (fs_seek fs1 (0 : Nat) 2600 .FS_SEEK_SET).2 ∧
      block_store_sub_test (fs_seek fs1 (0 : Nat) 2600 .FS_SEEK_SET).2.BlockStore_fd 0 = true ∧
      (fs_seek fs1 (0 : Nat) 2600 .FS_SEEK_SET).2.BlockStore_fd.data 0 =
        { inodeNum := 1, usage := 2, locate_order := 65535, locate_offset := 40 } ∧
      ¬ cursorOK ((fs_seek fs1 (0 : Nat) 2600 .FS_SEEK_SET).2.BlockStore_fd.data 0) ∧
      ((fs_seek fs1 (0 : Nat) 2600 .FS_SEEK_SET).2.BlockStore_inode.data 1).indirectPointer
        ≠ 0 ∧
      block_store_test (fs_seek fs1 (0 : Nat) 2600 .FS_SEEK_SET).2.BlockStore_whole
        ((fs_seek fs1 (0 : Nat) 2600 .FS_SEEK_SET).2.BlockStore_inode.data 1).indirectPointer
        = true :=
  cursor_leaves_range_of (List.replicate 4000 7) (List.length_replicate _ _)

end F17

namespace F17

/-! ## Two calls of `get_data_block_id` in a row (C35) -/

/-- A call of `fs_write` whose first call of `get_data_block_id` returns 0
without a change: the call returns 0, the descriptor is written back as it was,
and the file size becomes the position of the cursor when that is larger
(lines 756-758). -/
theorem fs_write_starved (fs : F17FS) (fd : Nat) (src : List Nat)
    (hfd : block_store_sub_test fs.BlockStore_fd fd = true) (hne : src ≠ [])
    (hi : (fs.BlockStore_fd.data fd).inodeNum < 256)
    (hg : get_data_block_id fs (fs.BlockStore_fd.data fd) = (0, fs)) :
    fs_write fs (fd : Int) src = some (0,
      { fs with
        BlockStore_fd :=
          { fs.BlockStore_fd with data := upd fs.BlockStore_fd.data fd (fs.BlockStore_fd.data fd) },
        BlockStore_inode :=
          { fs.BlockStore_inode with
            data := upd fs.BlockStore_inode.data (fs.BlockStore_fd.data fd).inodeNum
              (if (fs.BlockStore_inode.data (fs.BlockStore_fd.data fd).inodeNum).fileSize <
                  getFileSize (fs.BlockStore_fd.data fd) + 0 then
                { fs.BlockStore_inode.data (fs.BlockStore_fd.data fd).inodeNum with
                  fileSize := getFileSize (fs.BlockStore_fd.data fd) + 0 }
               else fs.BlockStore_inode.data (fs.BlockStore_fd.data fd).inodeNum) } }) := by
  have hlen : 0 < src.length := List.length_pos.mpr hne
  obtain ⟨n, hn⟩ : ∃ n, src.length = n + 1 := ⟨src.length - 1, by omega⟩
  have hr : writeLoop src.length fs (fs.BlockStore_fd.data fd) src 0 none =
      some ⟨none, fs, fs.BlockStore_fd.data fd, 0, some 0⟩ := by
    rw [show writeLoop src.length = writeLoop (n + 1) by rw [hn]]
    exact writeLoop_starve n fs _ src 0 none (by omega) hg
  have := fs_write_eq fs fd src _ hfd hne hr rfl hi
  simpa using this

/-- The decomposition of the position 287,744 (block 562) by `fs_seek`: the
double-indirect tier, order 300. -/
theorem seekLocate_287744 (d : fileDescriptor) :
    seekLocate d 287744 =
      { inodeNum := d.inodeNum, usage := 4, locate_order := 300, locate_offset := 0 } := by
  unfold seekLocate
  rw [if_pos (by decide)]
  rfl

/-- What `fs_seek(fd, o, FS_SEEK_SET)` changes for an offset inside the file:
the descriptor `fd`, and nothing else. -/
theorem fs_seek_set_frame (fs : F17FS) (fd o : Nat)
    (hfd : block_store_sub_test fs.BlockStore_fd fd = true)
    (hi : (fs.BlockStore_fd.data fd).inodeNum < 256)
    (hsz : (fs.BlockStore_inode.data (fs.BlockStore_fd.data fd).inodeNum).fileSize < 2 ^ 63)
    (ho : o ≤ (fs.BlockStore_inode.data (fs.BlockStore_fd.data fd).inodeNum).fileSize) :
    ∃ fs1 : F17FS, fs_seek fs (fd : Int) (o : Int) .FS_SEEK_SET = ((o : Int), fs1) ∧
      fs1.BlockStore_whole = fs.BlockStore_whole ∧ fs1.BlockStore_inode = fs.BlockStore_inode ∧
      fs1.BlockStore_fd.fbm = fs.BlockStore_fd.fbm ∧
      fs1.BlockStore_fd.data fd = seekLocate (fs.BlockStore_fd.data fd) o :=
  ⟨_, fs_seek_set_eq fs fd o hfd hi hsz ho, rfl, rfl, rfl, by simp only [upd_same]⟩

/-- What a call of `fs_write` changes when its first call of
`get_data_block_id` returns 0 without a change: the size of the file, which
becomes the position of the cursor when that is larger. -/
theorem fs_write_starved_frame (fs : F17FS) (fd : Nat) (src : List Nat)
    (hfd : block_store_sub_test fs.BlockStore_fd fd = true) (hne : src ≠ [])
    (hi : (fs.BlockStore_fd.data fd).inodeNum < 256)
    (hg : get_data_block_id fs (fs.BlockStore_fd.data fd) = (0, fs)) :
    ∃ fs1 : F17FS, fs_write fs (fd : Int) src = some (0, fs1) ∧
      fs1.BlockStore_whole = fs.BlockStore_whole ∧
      fs1.BlockStore_fd.fbm = fs.BlockStore_fd.fbm ∧
      fs1.BlockStore_fd.data fd = fs.BlockStore_fd.data fd ∧
      fs1.BlockStore_inode.fbm = fs.BlockStore_inode.fbm ∧
      samePtrs (fs1.BlockStore_inode.data (fs.BlockStore_fd.data fd).inodeNum)
        (fs.BlockStore_inode.data (fs.BlockStore_fd.data fd).inodeNum) ∧
      (fs1.BlockStore_inode.data (fs.BlockStore_fd.data fd).inodeNum).fileSize =
        max (fs.BlockStore_inode.data (fs.BlockStore_fd.data fd).inodeNum).fileSize
          (getFileSize (fs.BlockStore_fd.data fd)) ∧
      (∀ j, j ≠ (fs.BlockStore_fd.data fd).inodeNum →
        fs1.BlockStore_inode.data j = fs.BlockStore_inode.data j) := by
  refine ⟨_, fs_write_starved fs fd src hfd hne hi hg, rfl, rfl, by simp only [upd_same], rfl,
    ?_, ?_, ?_⟩
  · simp only [upd_same]
    split_ifs <;> exact ⟨rfl, rfl, rfl⟩
  · simp only [upd_same, Nat.add_zero]
    split_ifs with h
    · simp only; omega
    · omega
  · intro j hj
    simp only [upd_other _ _ _ _ hj]

set_option maxRecDepth 100000 in
/-- A state that public operations reach in which the cursor of a descriptor
stands in the double-indirect tier of a file without a double-indirect block.
From the image `exAOpen`: `fs_write` of 2600 bytes returns 2600;
`fs_seek(0, 2600, FS_SEEK_SET)` returns 2600 and leaves the cursor
`{usage = 2, order = 65535}`; `fs_write` of one byte there returns 0 and raises
the file size to the position of that cursor, 33,557,032; and
`fs_seek(0, 287744, FS_SEEK_SET)` returns 287,744 and leaves the cursor
`{usage = 4, order = 300, offset = 0}`. -/
theorem hole_reached (src : List Nat) (hlen : src.length = 2600) :
    ∃ fs1 fs3 : F17FS,
      fs_write exAOpen (0 : Nat) src = some (2600, fs1) ∧
      (fs_seek fs1 (0 : Nat) 2600 .FS_SEEK_SET).1 = 2600 ∧
      fs_write (fs_seek fs1 (0 : Nat) 2600 .FS_SEEK_SET).2 (0 : Nat) [7] = some (0, fs3) ∧
      (fs_seek fs3 (0 : Nat) 287744 .FS_SEEK_SET).1 = 287744 ∧
      Reachable (fs_seek fs3 (0 : Nat) 287744 .FS_SEEK_SET).2 ∧
      block_store_sub_test (fs_seek fs3 (0 : Nat) 287744 .FS_SEEK_SET).2.BlockStore_fd 0 = true ∧
      (fs_seek fs3 (0 : Nat) 287744 .FS_SEEK_SET).2.BlockStore_fd.data 0 =
        { inodeNum := 1, usage := 4, locate_order := 300, locate_offset := 0 } ∧
      ((fs_seek fs3 (0 : Nat) 287744 .FS_SEEK_SET).2.BlockStore_inode.data
        1).doubleIndirectPointer = 0 ∧
      ((fs_seek fs3 (0 : Nat) 287744 .FS_SEEK_SET).2.BlockStore_inode.data 1).fileSize
        = 33557032 ∧
      (fs_seek fs3 (0 : Nat) 287744 .FS_SEEK_SET).2.BlockStore_whole.fbm 0 = true ∧
      5 ≤ block_store_get_free_blocks
        (fs_seek fs3 (0 : Nat) 287744 .FS_SEEK_SET).2.BlockStore_whole := by
  have hd0 : exAOpen.BlockStore_fd.data 0 =
      { inodeNum := 1, usage := 1, locate_order := 0, locate_offset := 0 } := by decide
  have hwf : FileWF exAOpen
      (exAOpen.BlockStore_inode.data (exAOpen.BlockStore_fd.data 0).inodeNum) 0 :=
    fileWF_empty exAOpen _ (fun k hk => by
      have : ∀ j, j < 6 → (exAOpen.BlockStore_inode.data
          (exAOpen.BlockStore_fd.data 0).inodeNum).directPointer j = 0 := by decide
      exact this k hk) (by decide) (by decide)
  obtain ⟨fs1, M1, hw, inv, hM1, hsz, hfbm, hF⟩ :=
    fs_write_plenty exAOpen 0 src 0 (by decide)
      (fun h => by rw [h] at hlen; cases hlen) (by decide)
      (by decide) (by decide) hwf (by decide)
      (by rw [hlen]; exact le_trans (by decide) exAOpen_free100)
  rw [hlen] at hw inv hsz hF
  rw [hd0] at inv hsz hF
  obtain ⟨hc1, hin1, hpos1, _, _⟩ := inv.cur
  have hin1' : (fs1.BlockStore_fd.data 0).inodeNum = 1 := hin1
  have hpos1' : getFileSize (fs1.BlockStore_fd.data 0) = 2600 := by
    rw [hpos1]; rfl
  have hL1 : logicalBlock (fs1.BlockStore_fd.data 0) = 5 := by
    have := getFileSize_eq _ hc1
    have := hc1.1
    omega
  rw [hL1] at hM1
  have hM6 : M1 ≤ 6 := by
    have : max 0 (5 + 1) = 6 := rfl
    omega
  have hwf1 : FileWF fs1 (fs1.BlockStore_inode.data 1) M1 := inv.wf
  have hI1 : (fs1.BlockStore_inode.data 1).indirectPointer = 0 := hwf1.izero hM6
  have hD1 : (fs1.BlockStore_inode.data 1).doubleIndirectPointer = 0 := hwf1.bzero (by omega)
  have hz1 : fs1.BlockStore_whole.fbm 0 = true := inv.z
  have hfree1 : 5 ≤ block_store_get_free_blocks fs1.BlockStore_whole := by
    have h100 := exAOpen_free100
    have hF' : block_store_get_free_blocks exAOpen.BlockStore_whole ≤
        block_store_get_free_blocks fs1.BlockStore_whole + 3 * ((0 + 2600) / 512 + 1) := hF
    omega
  have hsz0 : (exAOpen.BlockStore_inode.data 1).fileSize = 0 := by decide
  have hsz' : (fs1.BlockStore_inode.data 1).fileSize = 2600 := by
    have : (fs1.BlockStore_inode.data 1).fileSize =
        max (exAOpen.BlockStore_inode.data 1).fileSize (0 + 2600) := hsz
    rw [this, hsz0]; rfl
  have hfd1 : block_store_sub_test fs1.BlockStore_fd 0 = true := by
    unfold block_store_sub_test
    rw [hfbm]
    decide
  -- the first seek
  obtain ⟨fs2, hs2, a1, a2, a3, a4⟩ := fs_seek_set_frame fs1 0 2600 hfd1
    (by rw [hin1']; decide) (by rw [hin1', hsz']; decide) (by rw [hin1', hsz'])
  simp only [Nat.cast_ofNat] at hs2 a4
  rw [seekLocate_2600, hin1'] at a4
  have hfd2 : block_store_sub_test fs2.BlockStore_fd 0 = true := by
    unfold block_store_sub_test at hfd1 ⊢
    rw [a3]; exact hfd1
  have hg2 : get_data_block_id fs2 (fs2.BlockStore_fd.data 0) = (0, fs2) := by
    rw [a4, gdb_unfold _ _ (by decide), if_neg (by decide), if_pos rfl]
    exact gdb_indirect_cold_other fs2 1 _ 65535 (by rw [a2]; exact hI1) (by decide)
  -- the write that takes no block
  obtain ⟨fs3, hw3, b1, b2, b3, b4, b5, b6, b7⟩ := fs_write_starved_frame fs2 0 [7] hfd2
    (by decide) (by rw [a4]; decide) hg2
  rw [a4] at b3 b5 b6
  have b6' : (fs3.BlockStore_inode.data 1).fileSize = 33557032 := by
    have : (fs3.BlockStore_inode.data 1).fileSize =
        max (fs2.BlockStore_inode.data 1).fileSize 33557032 := b6
    rw [this, a2, hsz']; rfl
  have hfd3 : block_store_sub_test fs3.BlockStore_fd 0 = true := by
    unfold block_store_sub_test at hfd2 ⊢
    rw [b2]; exact hfd2
  -- the second seek
  obtain ⟨fs4, hs4, c1, c2, c3, c4⟩ := fs_seek_set_frame fs3 0 287744 hfd3
    (by rw [b3]; decide) (by rw [b3, b6']; decide) (by rw [b3, b6']; decide)
  simp only [Nat.cast_ofNat] at hs4 c4
  rw [seekLocate_287744, b3] at c4
  have hr1 : Reachable fs1 :=
    Reachable.write exAOpen (0 : Nat) src 2600 fs1 exAOpen_reachable (by simpa using hw)
  have hr2 : Reachable fs2 := by
    have := Reachable.seek fs1 (0 : Nat) 2600 .FS_SEEK_SET hr1
    rw [hs2] at this; exact this
  have hr3 : Reachable fs3 :=
    Reachable.write fs2 (0 : Nat) [7] 0 fs3 hr2 (by simpa using hw3)
  have hr4 : Reachable fs4 := by
    have := Reachable.seek fs3 (0 : Nat) 287744 .FS_SEEK_SET hr3
    rw [hs4] at this; exact this
  refine ⟨fs1, fs3, by simpa using hw, by rw [hs2], by rw [hs2]; simpa using hw3, by rw [hs4],
    ?_, ?_, ?_, ?_, ?_, ?_, ?_⟩
  · rw [hs4]; exact hr4
  · rw [hs4]
    unfold block_store_sub_test at hfd3 ⊢
    rw [c3]; exact hfd3
  · rw [hs4]; exact c4
  · rw [hs4]
    show (fs4.BlockStore_inode.data 1).doubleIndirectPointer = 0
    rw [c2, b5.2.2, a2]; exact hD1
  · rw [hs4]
    show (fs4.BlockStore_inode.data 1).fileSize = 33557032
    rw [c2]; exact b6'
  · rw [hs4]
    show fs4.BlockStore_whole.fbm 0 = true
    rw [c1, b1, a1]; exact hz1
  · rw [hs4]
    show 5 ≤ block_store_get_free_blocks fs4.BlockStore_whole
    rw [c1, b1, a1]; exact hfree1

/-- Two calls of `get_data_block_id` in a row on the state of `hole_reached`:
both return a block, and not the same one. -/
theorem gdb_twice_of (src : List Nat) (hlen : src.length = 2600) :
    ∃ fs1 fs3 : F17FS,
      fs_write exAOpen (0 : Nat) src = some (2600, fs1) ∧
      (fs_seek fs1 (0 : Nat) 2600 .FS_SEEK_SET).1 = 2600 ∧
      fs_write (fs_seek fs1 (0 : Nat) 2600 .FS_SEEK_SET).2 (0 : Nat) [7] = some (0, fs3) ∧
      (fs_seek fs3 (0 : Nat) 287744 .FS_SEEK_SET).1 = 287744 ∧
      Reachable (fs_seek fs3 (0 : Nat) 287744 .FS_SEEK_SET).2 ∧
      block_store_sub_test (fs_seek fs3 (0 : Nat) 287744 .FS_SEEK_SET).2.BlockStore_fd 0 = true ∧
      (fs_seek fs3 (0 : Nat) 287744 .FS_SEEK_SET).2.BlockStore_fd.data 0 =
        { inodeNum := 1, usage := 4, locate_order := 300, locate_offset := 0 } ∧
      (get_data_block_id (fs_seek fs3 (0 : Nat) 287744 .FS_SEEK_SET).2
        { inodeNum := 1, usage := 4, locate_order := 300, locate_offset := 0 }).1 ≠ 0 ∧
      (get_data_block_id
        (get_data_block_id (fs_seek fs3 (0 : Nat) 287744 .FS_SEEK_SET).2
          { inodeNum := 1, usage := 4, locate_order := 300, locate_offset := 0 }).2
        { inodeNum := 1, usage := 4, locate_order := 300, locate_offset := 0 }).1 ≠ 0 ∧
      (get_data_block_id
        (get_data_block_id (fs_seek fs3 (0 : Nat) 287744 .FS_SEEK_SET).2
          { inodeNum := 1, usage := 4, locate_order := 300, locate_offset := 0 }).2
        { inodeNum := 1, usage := 4, locate_order := 300, locate_offset := 0 }).1 ≠
        (get_data_block_id (fs_seek fs3 (0 : Nat) 287744 .FS_SEEK_SET).2
          { inodeNum := 1, usage := 4, locate_order := 300, locate_offset := 0 }).1 ∧
      block_store_get_free_blocks (get_data_block_id
        (get_data_block_id (fs_seek fs3 (0 : Nat) 287744 .FS_SEEK_SET).2
          { inodeNum := 1, usage := 4, locate_order := 300, locate_offset := 0 }).2
        { inodeNum := 1, usage := 4, locate_order := 300, locate_offset := 0 }).2.BlockStore_whole
        + 2 =
        block_store_get_free_blocks (get_data_block_id
          (fs_seek fs3 (0 : Nat) 287744 .FS_SEEK_SET).2
          { inodeNum := 1, usage := 4, locate_order := 300,
            locate_offset := 0 }).2.BlockStore_whole := by
  obtain ⟨fs1, fs3, h1, h2, h3, h4, h5, h6, h7, h8, _, h10, h11⟩ := hole_reached src hlen
  obtain ⟨g1, _, g3, g4, g5⟩ := gdb_double_cold_twice (fs_seek fs3 (0 : Nat) 287744 .FS_SEEK_SET).2
    { inodeNum := 1, usage := 4, locate_order := 300, locate_offset := 0 }
    (by decide) rfl (by decide) (by decide) h8 h10 h11
  exact ⟨fs1, fs3, h1, h2, h3, h4, h5, h6, h7, g1, g3, g4, g5⟩

/-- C35, evaluated on a state that public operations reach.  From the image
`exAOpen` (`fs_format`, `fs_create("/a")`, `fs_open("/a")`): `fs_write` of 2600
bytes returns 2600, `fs_seek(0, 2600, FS_SEEK_SET)` returns 2600, `fs_write` of
one byte returns 0, and `fs_seek(0, 287744, FS_SEEK_SET)` returns 287,744 and
leaves the descriptor `{usage = 4, order = 300, offset = 0}`, an order in
range.  A first call of `get_data_block_id` with that descriptor returns a
block b different from 0; an immediate second call returns a block different
from 0 and from b, and takes two more blocks from the allocator. -/
theorem gdb_not_idempotent :
    ∃ fs1 fs3 : F17FS,
      fs_write exAOpen (0 : Nat) (List.replicate 2600 7) = some (2600, fs1) ∧
      (fs_seek fs1 (0 : Nat) 2600 .FS_SEEK_SET).1 = 2600 ∧
      fs_write (fs_seek fs1 (0 : Nat) 2600 .FS_SEEK_SET).2 (0 : Nat) [7] = some (0, fs3) ∧
      (fs_seek fs3 (0 : Nat) 287744 .FS_SEEK_SET).1 = 287744 ∧
      Reachable (fs_seek fs3 (0 : Nat) 287744 .FS_SEEK_SET).2 ∧
      block_store_sub_test (fs_seek fs3 (0 : Nat) 287744 .FS_SEEK_SET).2.BlockStore_fd 0 = true ∧
      (fs_seek fs3 (0 : Nat) 287744 .FS_SEEK_SET).2.BlockStore_fd.data 0 =
        { inodeNum := 1, usage := 4, locate_order := 300, locate_offset := 0 } ∧
      (get_data_block_id (fs_seek fs3 (0 : Nat) 287744 .FS_SEEK_SET).2
        { inodeNum := 1, usage := 4, locate_order := 300, locate_offset := 0 }).1 ≠ 0 ∧
      (get_data_block_id
        (get_data_block_id (fs_seek fs3 (0 : Nat) 287744 .FS_SEEK_SET).2
          { inodeNum := 1, usage := 4, locate_order := 300, locate_offset := 0 }).2
        { inodeNum := 1, usage := 4, locate_order := 300, locate_offset := 0 }).1 ≠ 0 ∧
      (get_data_block_id
        (get_data_block_id (fs_seek fs3 (0 : Nat) 287744 .FS_SEEK_SET).2
          { inodeNum := 1, usage := 4, locate_order := 300, locate_offset := 0 }).2
        { inodeNum := 1, usage := 4, locate_order := 300, locate_offset := 0 }).1 ≠
        (get_data_block_id (fs_seek fs3 (0 : Nat) 287744 .FS_SEEK_SET).2
          { inodeNum := 1, usage := 4, locate_order := 300, locate_offset := 0 }).1 ∧
      block_store_get_free_blocks (get_data_block_id
        (get_data_block_id (fs_seek fs3 (0 : Nat) 287744 .FS_SEEK_SET).2
          { inodeNum := 1, usage := 4, locate_order := 300, locate_offset := 0 }).2
        { inodeNum := 1, usage := 4, locate_order := 300, locate_offset := 0 }).2.BlockStore_whole
        + 2 =
        block_store_get_free_blocks (get_data_block_id
          (fs_seek fs3 (0 : Nat) 287744 .FS_SEEK_SET).2
          { inodeNum := 1, usage := 4, locate_order := 300,
            locate_offset := 0 }).2.BlockStore_whole :=
  gdb_twice_of (List.replicate 2600 7) (List.length_replicate _ _)

end F17

namespace F17

/-! ## The frame of `fs_read` (C36) -/

/-- The step of the cursor to the next block keeps it in range, whatever the
block, and never moves it past the end of the block it leaves. -/
theorem advanceCursor_ok (d : fileDescriptor) (hc : cursorOK d) :
    cursorOK (advanceCursor d) ∧ (advanceCursor d).inodeNum = d.inodeNum ∧
    getFileSize (advanceCursor d) ≤ 512 * (logicalBlock d + 1) := by
  obtain ⟨hoff, hcase⟩ := hc
  unfold advanceCursor DIRECT_BLOCKS INDIRECT_BLOCKS
  rcases hcase with ⟨h1, h2⟩ | ⟨h1, h2⟩ | ⟨h1, h2⟩
  · by_cases h5 : d.locate_order = 5
    · rw [if_pos ⟨h1, by omega⟩]
      refine ⟨⟨by simp, Or.inr (Or.inl ⟨rfl, by simp⟩)⟩, rfl, ?_⟩
      unfold getFileSize logicalBlock
      simp only [h1, if_true, OfNat.ofNat_ne_one, if_false]
      omega
    · rw [if_neg (by omega), if_neg (by omega)]
      have hm : (d.locate_order + 1) % 65536 = d.locate_order + 1 := Nat.mod_eq_of_lt (by omega)
      refine ⟨⟨by simp, Or.inl ⟨h1, by simp only [hm]; omega⟩⟩, rfl, ?_⟩
      unfold getFileSize logicalBlock
      simp only [h1, if_true, hm]
      omega
  · by_cases h5 : d.locate_order = 255
    · rw [if_neg (by omega), if_pos ⟨h1, by omega⟩]
      refine ⟨⟨by simp, Or.inr (Or.inr ⟨rfl, by simp⟩)⟩, rfl, ?_⟩
      unfold getFileSize logicalBlock
      simp only [h1, if_true, OfNat.ofNat_ne_one, if_false]
      norm_num
      omega
    · rw [if_neg (by omega), if_neg (by omega)]
      have hm : (d.locate_order + 1) % 65536 = d.locate_order + 1 := Nat.mod_eq_of_lt (by omega)
      refine ⟨⟨by simp, Or.inr (Or.inl ⟨h1, by simp only [hm]; omega⟩)⟩, rfl, ?_⟩
      unfold getFileSize logicalBlock
      simp only [h1, if_true, OfNat.ofNat_ne_one, if_false, hm]
      omega
  · rw [if_neg (by omega), if_neg (by omega)]
    have hm : (d.locate_order + 1) % 65536 ≤ d.locate_order + 1 := Nat.mod_le _ _
    have hm2 : (d.locate_order + 1) % 65536 < 65536 := Nat.mod_lt _ (by decide)
    refine ⟨⟨by simp, Or.inr (Or.inr ⟨h1, hm2⟩)⟩, rfl, ?_⟩
    unfold getFileSize logicalBlock
    have e1 : ¬ (4 : Nat) = 1 := by decide
    have e2 : ¬ (4 : Nat) = 2 := by decide
    simp only [h1, e1, e2, if_false]
    omega

/-- The loop of `fs_read` over a file whose blocks below the size `F` are
mapped, reading no further than `F`: it stops without an error code and the
file system is the one it started from. -/
theorem readLoop_frame (fs : F17FS) (i S nbyte F : Nat) (hi : i < 256)
    (hF : S + nbyte ≤ F)
    (hmap : ∀ L, L < 65798 → 512 * L < F → blockMapped fs (fs.BlockStore_inode.data i) L)
    (fuel : Nat) (d : fileDescriptor) (rb : Nat) (dst : List Nat) (last : Option Nat)
    (r : LoopResult × List Nat)
    (hP : cursorOK d ∧ d.inodeNum = i ∧ getFileSize d ≤ S + rb ∧ rb ≤ nbyte)
    (h : readLoop fuel fs d nbyte rb dst last = some r) :
    r.1.err = none ∧ r.1.fs = fs ∧ cursorOK r.1.fd_t ∧ r.1.fd_t.inodeNum = i := by
  have key : ∀ (d : fileDescriptor) (rb : Nat), cursorOK d → d.inodeNum = i →
      getFileSize d ≤ S + rb → nbyte - rb > 0 →
      get_data_block_id fs d = (blockOf fs (fs.BlockStore_inode.data i) (logicalBlock d), fs) ∧
      0 < blockOf fs (fs.BlockStore_inode.data i) (logicalBlock d) ∧
      blockOf fs (fs.BlockStore_inode.data i) (logicalBlock d) < 65536 := by
    intro d rb hc hdi hpos h0
    have hS := getFileSize_eq d hc
    have hm := hmap (logicalBlock d) (logicalBlock_lt d hc) (by omega)
    have hb := blockMapped_blockOf _ _ _ hm
    refine ⟨?_, Nat.pos_of_ne_zero hb.1, test_lt _ _ hb.2⟩
    have := gdb_mapped fs d hc (by omega) (by rw [hdi]; exact hm)
    rw [this, hdi]
  refine readLoop_rule nbyte
    (fun fs1 d rb _ => fs1 = fs ∧ cursorOK d ∧ d.inodeNum = i ∧ getFileSize d ≤ S + rb ∧
      rb ≤ nbyte)
    (fun r => r.1.err = none ∧ r.1.fs = fs ∧ cursorOK r.1.fd_t ∧ r.1.fd_t.inodeNum = i)
    ?_ ?_ ?_ ?_ fuel fs d rb dst last r ⟨rfl, hP⟩ h
  · rintro fs1 d rb dst last ⟨hfs, hc, hdi, hpos, hle⟩ h0
    exact ⟨rfl, hfs, hc, hdi⟩
  · rintro fs1 d rb dst ⟨hfs, hc, hdi, hpos, hle⟩ h0 h1
    subst fs1
    obtain ⟨k1, k2, k3⟩ := key d rb hc hdi hpos h0
    rw [k1] at h1
    exact absurd k2 h1
  · rintro fs1 d rb dst ⟨hfs, hc, hdi, hpos, hle⟩ h0 h1 h2
    subst fs1
    obtain ⟨k1, k2, k3⟩ := key d rb hc hdi hpos h0
    unfold BLOCK_SIZE_BYTES at h2
    rw [k1]
    refine ⟨fun bytes hb => ?_, fun hn => ?_⟩
    · have hmod : (d.locate_offset + nbyte - rb) % 65536 = d.locate_offset + nbyte - rb :=
        Nat.mod_eq_of_lt (by omega)
      refine ⟨rfl, ?_, hdi, ?_, le_refl _⟩
      · exact ⟨by simp only [hmod]; omega, hc.2⟩
      · simp only [hmod]
        unfold getFileSize at *
        simp only at *
        split_ifs at * <;> omega
    · simp only at hn
      rw [n_read_ok _ _ _ _ k3 (by omega) (by omega)] at hn
      cases hn
  · rintro fs1 d rb dst ⟨hfs, hc, hdi, hpos, hle⟩ h0 h1 h2
    subst fs1
    obtain ⟨k1, k2, k3⟩ := key d rb hc hdi hpos h0
    unfold BLOCK_SIZE_BYTES at h2 ⊢
    have hS := getFileSize_eq d hc
    have hoff := hc.1
    rw [k1]
    refine ⟨fun bytes hb => ?_, fun hn => ?_⟩
    · obtain ⟨a1, a2, a3⟩ := advanceCursor_ok d hc
      refine ⟨rfl, a1, by rw [a2]; exact hdi, by omega, by omega⟩
    · simp only at hn
      rw [n_read_ok _ _ _ _ k3 (by omega) (by omega)] at hn
      cases hn

/-- C36. Reading never allocates: when the cursor of the descriptor is in
range at a position that is at most the size of the file, and every logical
block of the file below its size is mapped to allocated blocks, `fs_read`
returns and changes nothing except the cursor of that descriptor: the block
store with its bitmap, data blocks and index blocks, the inode store with its
bitmap and every inode, the descriptor bitmap, every other descriptor and the
inode number of this one are the same before and after, and the cursor it
leaves is in range. -/
theorem fs_read_frame (fs : F17FS) (fd : Int) (n : Nat)
    (hc : cursorOK (fs.BlockStore_fd.data fd.toNat))
    (hS : getFileSize (fs.BlockStore_fd.data fd.toNat) ≤
      (fs.BlockStore_inode.data (fs.BlockStore_fd.data fd.toNat).inodeNum).fileSize)
    (hmap : ∀ L, L < 65798 →
      512 * L < (fs.BlockStore_inode.data (fs.BlockStore_fd.data fd.toNat).inodeNum).fileSize →
      blockMapped fs (fs.BlockStore_inode.data (fs.BlockStore_fd.data fd.toNat).inodeNum) L) :
    ∃ (res : Int) (dst : List Nat) (fs1 : F17FS),
      fs_read fs fd n = some (res, dst, fs1) ∧
      fs1.BlockStore_whole = fs.BlockStore_whole ∧
      fs1.BlockStore_inode = fs.BlockStore_inode ∧
      fs1.BlockStore_fd.fbm = fs.BlockStore_fd.fbm ∧
      (∀ j, j ≠ fd.toNat → fs1.BlockStore_fd.data j = fs.BlockStore_fd.data j) ∧
      (fs1.BlockStore_fd.data fd.toNat).inodeNum = (fs.BlockStore_fd.data fd.toNat).inodeNum ∧
      cursorOK (fs1.BlockStore_fd.data fd.toNat) := by
  unfold fs_read
  by_cases hcond : fd ≥ 0 ∧ block_store_sub_test fs.BlockStore_fd fd.toNat = true
  swap
  · rw [if_neg hcond]
    exact ⟨_, _, _, rfl, rfl, rfl, rfl, fun _ _ => rfl, rfl, hc⟩
  rw [if_pos hcond]
  by_cases hn : n = 0
  · rw [if_neg (by simpa using hn)]
    exact ⟨_, _, _, rfl, rfl, rfl, rfl, fun _ _ => rfl, rfl, hc⟩
  rw [if_pos hn]
  have hfd' : fd.toNat < 256 := sub_test_lt _ _ hcond.2
  generalize hd : fs.BlockStore_fd.data fd.toNat = d at *
  generalize hFs : (fs.BlockStore_inode.data d.inodeNum).fileSize = F at *
  by_cases hino : d.inodeNum < 256
  swap
  · simp only [block_store_sub_read, hfd', if_true, hd, hino, if_false]
    exact ⟨_, _, _, rfl, rfl, rfl, rfl, fun _ _ => rfl, by rw [hd], by rw [hd]; exact hc⟩
  have hleft : (F + 2 ^ 64 - getFileSize d) % 2 ^ 64 ≤ F - getFileSize d := by
    have : F + 2 ^ 64 - getFileSize d = (F - getFileSize d) + 2 ^ 64 := by omega
    rw [this, Nat.add_mod_right]
    exact Nat.mod_le _ _
  generalize hN : (if n > (F + 2 ^ 64 - getFileSize d) % 2 ^ 64 then
    (F + 2 ^ 64 - getFileSize d) % 2 ^ 64 else n) = N
  have hNle : getFileSize d + N ≤ F := by
    rw [← hN]
    split_ifs <;> omega
  obtain ⟨r, hr⟩ := readLoop_total N fs d N 0 [] none (by omega)
  obtain ⟨q1, q2, q3, q4⟩ :=
    readLoop_frame fs d.inodeNum (getFileSize d) N F hino hNle hmap _ d 0 [] none r
      ⟨hc, rfl, le_refl _, Nat.zero_le _⟩ hr
  simp only [block_store_sub_read, hfd', if_true, hd, hino, hFs, hN, hr, q1,
    block_store_sub_write, q2]
  refine ⟨_, _, _, rfl, rfl, rfl, rfl, fun j hj => ?_, ?_, ?_⟩
  · simp only [upd_other _ _ _ _ hj]
  · simp only [upd_same]; exact q4
  · simp only [upd_same]; exact q3

set_option maxRecDepth 100000 in
/-- Witness of C36 on the example image: a read of 2000 bytes from position 0
of a file of 3000 bytes whose six blocks are mapped. -/
theorem fs_read_frame_witness :
    ∃ (res : Int) (dst : List Nat) (fs1 : F17FS),
      fs_read exFs 0 2000 = some (res, dst, fs1) ∧
      fs1.BlockStore_whole = exFs.BlockStore_whole ∧
      fs1.BlockStore_inode = exFs.BlockStore_inode ∧
      fs1.BlockStore_fd.fbm = exFs.BlockStore_fd.fbm ∧
      (∀ j, j ≠ (0 : Int).toNat → fs1.BlockStore_fd.data j = exFs.BlockStore_fd.data j) ∧
      (fs1.BlockStore_fd.data (0 : Int).toNat).inodeNum =
        (exFs.BlockStore_fd.data (0 : Int).toNat).inodeNum ∧
      cursorOK (fs1.BlockStore_fd.data (0 : Int).toNat) :=
  fs_read_frame exFs 0 2000 (by decide) (by decide)
    (fun L _ h => by
      have e : (exFs.BlockStore_inode.data
          (exFs.BlockStore_fd.data (0 : Int).toNat).inodeNum).fileSize = 3000 := by decide
      rw [e] at h
      have h6 : L < 6 := by omega
      have hall : ∀ K, K < 6 → blockMapped exFs (exFs.BlockStore_inode.data
          (exFs.BlockStore_fd.data (0 : Int).toNat).inodeNum) K := by decide
      exact hall L h6)

end F17

namespace F17

/-! ## Filling a file (C31) -/

theorem gdb_direct_fst_congr (fs fs1 : F17FS) (i : Nat) (ino ino1 : inode) (o : Nat)
    (hi : i < 256) (hw : fs1.BlockStore_whole = fs.BlockStore_whole) (hp : samePtrs ino1 ino) :
    (gdb_direct fs1 i ino1 o).1 = (gdb_direct fs i ino o).1 := by
  unfold gdb_direct block_store_sub_write
  rw [hw, hp.1]
  simp only [hi, if_true]
  split_ifs <;> rfl

theorem gdb_indirect_fst_congr (fs fs1 : F17FS) (i : Nat) (ino ino1 : inode) (o : Nat)
    (hi : i < 256) (hw : fs1.BlockStore_whole = fs.BlockStore_whole) (hp : samePtrs ino1 ino) :
    (gdb_indirect fs1 i ino1 o).1 = (gdb_indirect fs i ino o).1 := by
  unfold gdb_indirect block_store_sub_write
  rw [hw, hp.2.1]
  simp only [hi, if_true]
  repeat' split
  all_goals rfl

theorem gdb_double_fst_congr (fs fs1 : F17FS) (i : Nat) (ino ino1 : inode) (o : Nat)
    (hi : i < 256) (hw : fs1.BlockStore_whole = fs.BlockStore_whole) (hp : samePtrs ino1 ino) :
    (gdb_double fs1 i ino1 o).1 = (gdb_double fs i ino o).1 := by
  unfold gdb_double block_store_sub_write
  rw [hw, hp.2.2]
  simp only [hi, if_true]
  repeat' split
  all_goals rfl

/-- The block `get_data_block_id` returns depends on the block store and on
the block pointers of the inode only. -/
theorem gdb_fst_congr (fs fs1 : F17FS) (d : fileDescriptor) (hi : d.inodeNum < 256)
    (hw : fs1.BlockStore_whole = fs.BlockStore_whole)
    (hp : samePtrs (fs1.BlockStore_inode.data d.inodeNum) (fs.BlockStore_inode.data d.inodeNum)) :
    (get_data_block_id fs1 d).1 = (get_data_block_id fs d).1 := by
  rw [gdb_unfold fs d hi, gdb_unfold fs1 d hi]
  split_ifs
  · exact gdb_direct_fst_congr fs fs1 _ _ _ _ hi hw hp
  · exact gdb_indirect_fst_congr fs fs1 _ _ _ _ hi hw hp
  · exact gdb_double_fst_congr fs fs1 _ _ _ _ hi hw hp

/-- The loop of `fs_write` on a well-formed file, when it stops before the last
byte: in the state it leaves, `get_data_block_id` returns 0 for the cursor and
changes nothing. -/
theorem writeLoop_short (fs0 : F17FS) (i M0 S : Nat) (src : List Nat) (hi : i < 256)
    (fuel : Nat) (fs : F17FS) (d : fileDescriptor) (w : Nat) (last : Option Nat)
    (r : LoopResult)
    (hP : ∃ M, WriteInv fs0 i M0 S src fs d w M)
    (h : writeLoop fuel fs d src w last = some r) :
    r.count < src.length → get_data_block_id r.fs r.fd_t = (0, r.fs) := by
  refine writeLoop_rule src (fun fs d w => ∃ M, WriteInv fs0 i M0 S src fs d w M)
    (fun r => r.count < src.length → get_data_block_id r.fs r.fd_t = (0, r.fs))
    ?_ ?_ ?_ ?_ fuel fs d w last r hP h
  · rintro fs d w last ⟨M, inv⟩ h0 hlt
    have hlt' : w < src.length := hlt
    omega
  · rintro fs d w ⟨M, inv⟩ h0 h1 _
    obtain ⟨hc, hin, hpos, hwl, hL⟩ := inv.cur
    rcases gdb_wf fs d M hc (by rw [hin]; exact hi) inv.z (by rw [hin]; exact inv.wf) hL with
      hg | ⟨hne, _, _⟩
    · show get_data_block_id (get_data_block_id fs d).2 d = (0, (get_data_block_id fs d).2)
      rw [hg]
      exact hg
    · exact absurd (Nat.pos_of_ne_zero hne) h1
  · rintro fs d w ⟨M, inv⟩ h0 h1 h2
    unfold BLOCK_SIZE_BYTES at h2
    obtain ⟨hc, hin, hpos, hwl, hL⟩ := inv.cur
    refine ⟨fun wst hws hlt => ?_, fun hn => ?_⟩
    · exact absurd hlt (lt_irrefl _)
    · exact absurd hn (n_write_ok _ _ _ _ _ (gdb_spec fs d).1 (by omega) (by omega))
  · rintro fs d w ⟨M, inv⟩ h0 h1 h2
    unfold BLOCK_SIZE_BYTES at h2 ⊢
    obtain ⟨hc, hin, hpos, hwl, hL⟩ := inv.cur
    have hoff := hc.1
    refine ⟨fun wst hws => ?_, fun hn => ?_⟩
    · have hb := wf_bound fs _ M inv.wf
      obtain ⟨a1, a2, a3⟩ := advanceCursor_spec d hc (by omega)
      have hS := getFileSize_eq d hc
      have hd1 : cursorOK (advanceCursor d) ∧ (advanceCursor d).inodeNum = i ∧
          getFileSize (advanceCursor d) = S + (w + (512 - d.locate_offset)) ∧
          logicalBlock (advanceCursor d) ≤ logicalBlock d + 1 := by
        refine ⟨a1, by simpa using hin, ?_, by omega⟩
        rw [getFileSize_eq _ a1, a2, a3]
        omega
      exact ⟨_, writeInv_step fs0 i M0 S src fs d w M hi inv (512 - d.locate_offset)
        (by omega) (by omega) (by omega) h1 wst hws _ hd1⟩
    · exact absurd hn (n_write_ok _ _ _ _ _ (gdb_spec fs d).1 (by omega) (by omega))

/-- What the state `fs_write` leaves shares with the state its loop left: the
block store, the descriptor of the loop, and the block pointers of the file. -/
theorem fs_write_eq_frame (fs : F17FS) (fd : Nat) (src : List Nat) (r : LoopResult)
    (hfd : block_store_sub_test fs.BlockStore_fd fd = true) (hne : src ≠ [])
    (hr : writeLoop src.length fs (fs.BlockStore_fd.data fd) src 0 none = some r)
    (herr : r.err = none) (hino : r.fd_t.inodeNum < 256) (c : Int) (fs1 : F17FS)
    (hw : fs_write fs (fd : Int) src = some (c, fs1)) :
    fs1.BlockStore_whole = r.fs.BlockStore_whole ∧ fs1.BlockStore_fd.data fd = r.fd_t ∧
    samePtrs (fs1.BlockStore_inode.data r.fd_t.inodeNum)
      (r.fs.BlockStore_inode.data r.fd_t.inodeNum) := by
  rw [fs_write_eq fs fd src r hfd hne hr herr hino] at hw
  obtain ⟨-, rfl⟩ := Prod.mk.inj (Option.some.inj hw)
  refine ⟨rfl, upd_same _ _ _, ?_⟩
  simp only [upd_same]
  split_ifs <;> exact ⟨rfl, rfl, rfl⟩

/-- One call of `fs_write` at the end of a file: it returns the number `c` of
bytes it stored, the file is the old file followed by the first `c` bytes of
the buffer, and when `c` is less than the bytes asked for,
`get_data_block_id` returns 0 for the cursor in the state the call leaves. -/
theorem filling_write (fs : F17FS) (fd i : Nat) (B src : List Nat) (hi : i < 256)
    (inv : Filling fs fd i B) :
    ∃ (c : Nat) (fs1 : F17FS), fs_write fs (fd : Int) src = some ((c : Int), fs1) ∧
      c ≤ src.length ∧ Filling fs1 fd i (B ++ src.take c) ∧
      (c < src.length →
        get_data_block_id fs1 (fs1.BlockStore_fd.data fd) = (0, fs1)) := by
  by_cases hne : src = []
  · subst hne
    refine ⟨0, fs, ?_, le_refl _, by simpa using inv, fun h => absurd h (lt_irrefl _)⟩
    unfold fs_write
    have hfd := inv.isOpen
    simp [hfd]
  obtain ⟨M, hwf, hL, hBM⟩ := inv.wf
  have hino := inv.ino
  obtain ⟨r, fs1, M1, hr, hw, winv, hsz, hfbm, _, _⟩ :=
    fs_write_content fs fd src M inv.isOpen hne inv.cur (by rw [hino]; exact hi) inv.z
      (by rw [hino]; exact hwf) hL
  rw [hino] at winv hsz
  rw [inv.pos] at winv hsz
  obtain ⟨hc1, hin1, hpos1, hcl, hL1⟩ := winv.cur
  have hlen : (B ++ src.take r.count).length = B.length + r.count := by
    rw [List.length_append, List.length_take, Nat.min_eq_left hcl]
  have hshort := writeLoop_short fs (fs.BlockStore_fd.data fd).inodeNum M
    (getFileSize (fs.BlockStore_fd.data fd)) src (by rw [hino]; exact hi) src.length fs
    (fs.BlockStore_fd.data fd) 0 none r
    ⟨M, writeInv_init fs _ M src inv.cur inv.z (by rw [hino]; exact hwf) hL⟩ hr
  obtain ⟨e1, ⟨Mr, rinv⟩, _⟩ := writeLoop_content fs (fs.BlockStore_fd.data fd).inodeNum M
    (getFileSize (fs.BlockStore_fd.data fd)) src (by rw [hino]; exact hi) src.length fs
    (fs.BlockStore_fd.data fd) 0 none r
    ⟨M, writeInv_init fs _ M src inv.cur inv.z (by rw [hino]; exact hwf) hL⟩ hr
  have hrd : r.fd_t.inodeNum = i := by rw [rinv.cur.2.1, hino]
  obtain ⟨f1, f2, f3⟩ := fs_write_eq_frame fs fd src r inv.isOpen hne hr e1
    (by rw [hrd]; exact hi) _ fs1 hw
  refine ⟨r.count, fs1, hw, hcl, ⟨?_, hin1, hc1, winv.z, ?_, ?_, ⟨M1, winv.wf, hL1, ?_⟩, ?_⟩, ?_⟩
  · unfold block_store_sub_test at *
    rw [hfbm]; exact inv.isOpen
  · rw [hpos1, hlen]
  · rw [hsz, inv.size, hlen]; omega
  · rw [hlen]
    by_cases h0 : r.count = 0
    · have := winv.le
      omega
    · have := (winv.written (B.length + r.count - 1) (by omega) (by omega)).1
      omega
  · intro x hx
    rw [hlen] at hx
    by_cases hxB : x < B.length
    · rw [winv.old x (by omega) (by omega), inv.bytes x hxB]
      simp only [List.getD_eq_getElem?_getD]
      rw [List.getElem?_append_left hxB]
    · rw [(winv.written x (by omega) (by omega)).2]
      simp only [List.getD_eq_getElem?_getD]
      rw [List.getElem?_append_right (by omega), List.getElem?_take_of_lt (by omega)]
  · intro hlt
    rw [f2] at hc1 hL1 ⊢
    have h1 := gdb_fst_congr r.fs fs1 r.fd_t (by rw [hrd]; exact hi) f1 f3
    rw [hshort hlt] at h1
    rcases gdb_wf fs1 r.fd_t M1 hc1 (by rw [hrd]; exact hi) winv.z
      (by rw [hrd]; exact winv.wf) hL1 with hg | ⟨hne1, _, _⟩
    · exact hg
    · exact absurd h1 hne1

/-- A call of `fs_write` at the end of a file, in a state in which
`get_data_block_id` returns 0 for the cursor and changes nothing: the call
returns 0 and leaves the file system as it was. -/
theorem filling_starved (fs : F17FS) (fd i : Nat) (B src : List Nat) (hi : i < 256)
    (inv : Filling fs fd i B)
    (hg : get_data_block_id fs (fs.BlockStore_fd.data fd) = (0, fs)) :
    fs_write fs (fd : Int) src = some (0, fs) := by
  by_cases hne : src = []
  · subst hne
    unfold fs_write
    have hfd := inv.isOpen
    simp [hfd]
  have hino := inv.ino
  rw [fs_write_starved fs fd src inv.isOpen hne (by rw [hino]; exact hi) hg]
  have hsz : ¬ (fs.BlockStore_inode.data (fs.BlockStore_fd.data fd).inodeNum).fileSize <
      getFileSize (fs.BlockStore_fd.data fd) + 0 := by
    rw [hino, inv.size, inv.pos]; omega
  rw [if_neg hsz, upd_self, upd_self]

/-- A file that is being filled has at most 65,536 blocks of 512 bytes. -/
theorem filling_bound (fs : F17FS) (fd i : Nat) (B : List Nat) (inv : Filling fs fd i B) :
    B.length ≤ 33554432 := by
  obtain ⟨M, hwf, _, hBM⟩ := inv.wf
  have := wf_bound fs _ M hwf
  omega

/-- Successive calls of `fs_write` in a state in which `get_data_block_id`
returns 0 for the cursor of the descriptor: every call returns 0 and the file
system stays as it was. -/
theorem writeAll_starved (fs : F17FS) (fd i : Nat) (B : List Nat) (hi : i < 256)
    (inv : Filling fs fd i B)
    (hg : get_data_block_id fs (fs.BlockStore_fd.data fd) = (0, fs))
    (more : List (List Nat)) :
    writeAll fs (fd : Int) more = some (List.replicate more.length 0, fs) := by
  induction more with
  | nil => rfl
  | cons src rest ih =>
    unfold writeAll
    rw [filling_starved fs fd i B src hi inv hg]
    simp only [ih, List.length_cons, List.replicate_succ]

/-- Successive calls of `fs_write` at the end of a file: every call returns,
the values returned add up to the number of bytes by which the file has
grown, and the descriptor still stands at the end of the file. -/
theorem writeAll_filling (fd i : Nat) (hi : i < 256) (srcs : List (List Nat)) :
    ∀ (fs : F17FS) (B : List Nat), Filling fs fd i B →
    ∃ (cs : List Int) (fs1 : F17FS) (B1 : List Nat),
      writeAll fs (fd : Int) srcs = some (cs, fs1) ∧ Filling fs1 fd i (B ++ B1) ∧
      cs.sum = (B1.length : Int) ∧ cs.length = srcs.length := by
  induction srcs with
  | nil =>
    intro fs B inv
    exact ⟨[], fs, [], rfl, by simpa using inv, rfl, rfl⟩
  | cons src rest ih =>
    intro fs B inv
    obtain ⟨c, fs1, hw, hc, inv1, _⟩ := filling_write fs fd i B src hi inv
    obtain ⟨cs, fs2, B2, hws, inv2, hsum, hlen⟩ := ih fs1 _ inv1
    refine ⟨(c : Int) :: cs, fs2, src.take c ++ B2, ?_, by simpa using inv2, ?_, ?_⟩
    · unfold writeAll
      simp only [hw, hws]
    · rw [List.sum_cons, hsum, List.length_append, List.length_take, Nat.min_eq_left hc]
      push_cast
      rfl
    · simp only [List.length_cons, hlen]

set_option maxRecDepth 100000 in
/-- The image `exAOpen` holds an empty file with a descriptor at its end. -/
theorem filling_exAOpen : Filling exAOpen 0 1 [] := by
  refine ⟨by decide, by decide, by decide, by decide, by decide, by decide, ⟨0, ?_, by decide,
    by decide⟩, fun x hx => absurd hx (by simp)⟩
  exact fileWF_empty exAOpen _ (fun k hk => by
    have : ∀ j, j < 6 → (exAOpen.BlockStore_inode.data 1).directPointer j = 0 := by decide
    exact this k hk) (by decide) (by decide)

/-- C31, as amended. Filling a file: when the descriptor `fd` stands at the end
of a file that holds the bytes `B`, every call of a series of `fs_write` calls
and one more call return, each value being the number of bytes the call
stored; the file then holds `B` followed by the bytes stored, its size is the
number of these bytes and is at most 33,554,432 (65,536 blocks of 512 bytes),
so that 33,688,576 is not reached; and when the last call stored fewer bytes
than it was asked to, every further `fs_write` on that descriptor returns 0
and leaves the file system, and so the bytes written before, unchanged. -/
theorem fill_stops_short (fs : F17FS) (fd i : Nat) (B : List Nat) (hi : i < 256)
    (inv : Filling fs fd i B) (srcs : List (List Nat)) (src : List Nat)
    (more : List (List Nat)) :
    ∃ (cs : List Int) (fs1 : F17FS) (c : Nat) (fs2 : F17FS) (B1 : List Nat),
      writeAll fs (fd : Int) srcs = some (cs, fs1) ∧
      fs_write fs1 (fd : Int) src = some ((c : Int), fs2) ∧
      c ≤ src.length ∧
      cs.length = srcs.length ∧
      cs.sum + (c : Int) = (B1.length : Int) ∧
      block_store_sub_test fs2.BlockStore_fd fd = true ∧
      getFileSize (fs2.BlockStore_fd.data fd) = B.length + B1.length ∧
      (fs2.BlockStore_inode.data i).fileSize = B.length + B1.length ∧
      (fs2.BlockStore_inode.data i).fileSize ≤ 33554432 ∧
      (fs2.BlockStore_inode.data i).fileSize < MAX_FILE_SIZE ∧
      (∀ x, x < B.length + B1.length → fileByte fs2 i x = (B ++ B1).getD x 0) ∧
      (c < src.length →
        writeAll fs2 (fd : Int) more = some (List.replicate more.length 0, fs2)) := by
  obtain ⟨cs, fs1, B1, hw, inv1, hsum, hlen⟩ := writeAll_filling fd i hi srcs fs B inv
  obtain ⟨c, fs2, hw2, hc, inv2, hst⟩ := filling_write fs1 fd i (B ++ B1) src hi inv1
  have hb := filling_bound fs2 fd i _ inv2
  have hl : (B ++ B1 ++ src.take c).length = B.length + (B1 ++ src.take c).length := by
    rw [List.append_assoc, List.length_append]
  have hsz := inv2.size
  rw [hl] at hsz hb
  refine ⟨cs, fs1, c, fs2, B1 ++ src.take c, hw, hw2, hc, hlen, ?_, inv2.isOpen, ?_, hsz, ?_, ?_,
    ?_, ?_⟩
  · rw [hsum, List.length_append, List.length_take, Nat.min_eq_left hc]
    push_cast
    rfl
  · rw [inv2.pos, hl]
  · rw [hsz]; exact hb
  · rw [hsz]; unfold MAX_FILE_SIZE; omega
  · intro x hx
    rw [← List.append_assoc]
    exact inv2.bytes x (by rw [hl]; exact hx)
  · intro hlt
    exact writeAll_starved fs2 fd i _ hi inv2 (hst hlt) more

set_option maxRecDepth 100000 in
/-- Witness of C31 as amended, on the image `exAOpen`: a first series of one
`fs_write` of three bytes, one more of one byte, and one further call. -/
theorem fill_stops_short_witness :
    ∃ (cs : List Int) (fs1 : F17FS) (c : Nat) (fs2 : F17FS) (B1 : List Nat),
      writeAll exAOpen ((0 : Nat) : Int) [[1, 2, 3]] = some (cs, fs1) ∧
      fs_write fs1 ((0 : Nat) : Int) [4] = some ((c : Int), fs2) ∧
      c ≤ [4].length ∧
      cs.length = [[1, 2, 3]].length ∧
      cs.sum + (c : Int) = (B1.length : Int) ∧
      block_store_sub_test fs2.BlockStore_fd 0 = true ∧
      getFileSize (fs2.BlockStore_fd.data 0) = ([] : List Nat).length + B1.length ∧
      (fs2.BlockStore_inode.data 1).fileSize = ([] : List Nat).length + B1.length ∧
      (fs2.BlockStore_inode.data 1).fileSize ≤ 33554432 ∧
      (fs2.BlockStore_inode.data 1).fileSize < MAX_FILE_SIZE ∧
      (∀ x, x < ([] : List Nat).length + B1.length →
        fileByte fs2 1 x = (([] : List Nat) ++ B1).getD x 0) ∧
      (c < [4].length →
        writeAll fs2 ((0 : Nat) : Int) [[5]] = some (List.replicate [[5]].length 0, fs2)) :=
  fill_stops_short exAOpen 0 1 [] (by decide) filling_exAOpen [[1, 2, 3]] [4] [[5]]

/-- C31 fails as stated: filling cannot reach 33,688,576 bytes.  On the image
that `fs_format`, `fs_create("/a")` and `fs_open("/a")` leave, no series of
`fs_write` calls on the descriptor stores 33,688,576 bytes in all, and none
leaves a file of that size. -/
theorem max_file_size_unreachable :
    Reachable exAOpen ∧
    ¬ ∃ (srcs : List (List Nat)) (cs : List Int) (fs1 : F17FS),
      writeAll exAOpen 0 srcs = some (cs, fs1) ∧
      (cs.sum = 33688576 ∨ (fs1.BlockStore_inode.data 1).fileSize = 33688576) := by
  refine ⟨exAOpen_reachable, ?_⟩
  rintro ⟨srcs, cs, fs1, hw, h⟩
  obtain ⟨cs1, fs2, B1, hw1, inv1, hsum, _⟩ :=
    writeAll_filling 0 1 (by decide) srcs exAOpen [] filling_exAOpen
  have e : writeAll exAOpen 0 srcs = some (cs1, fs2) := by simpa using hw1
  rw [e] at hw
  obtain ⟨rfl, rfl⟩ := Prod.mk.inj (Option.some.inj hw)
  have hb := filling_bound _ _ _ _ inv1
  have hsz := inv1.size
  simp only [List.nil_append] at hb hsz
  rcases h with h | h
  · rw [hsum] at h
    have : B1.length = 33688576 := by exact_mod_cast h
    omega
  · omega

end F17

namespace F17

/-! ## `fs_create` without a free block (C38) -/

theorem ffzFrom_full (bm : Nat → Bool) (h : ∀ y, bm y = true) : ∀ (n i : Nat),
    ffzFrom bm n i = none := by
  intro n
  induction n with
  | zero => intro i; rfl
  | succ n ih =>
    intro i
    unfold ffzFrom
    rw [if_pos (h i)]
    exact ih (i + 1)

/-- The second half of `fs_create` for a directory when the block allocator has
no block: the inode taken at line 344 stays allocated, and the call returns -12
(line 353). -/
theorem fs_create_at_no_block (fs : F17FS) (p : Nat) (name : List Nat) (junk : inode)
    (junkName : Nat → Nat) (a i : Nat) (st : block_store inode)
    (hp : p < 256) (hb : (fs.BlockStore_inode.data p).directPointer 0 < 65536)
    (hslot : bitmap_ffz (bitmap_test (fs.BlockStore_inode.data p).vacantFile) 8 = some a)
    (ha : a < 7)
    (hal : block_store_sub_allocate fs.BlockStore_inode = some (i, st))
    (hnone : block_store_allocate fs.BlockStore_whole = none) :
    fs_create_at fs p name CH_d junk junkName = (-12, { fs with BlockStore_inode := st }) := by
  have ha7 : a ≠ 7 := by omega
  unfold fs_create_at
  simp only [block_store_sub_read, hp, if_true, block_store_read_spec _ _ hb, hslot, ha7,
    if_false, hal, hnone]

/-- Every call of `fs_create` that returns -12 leaves one more inode allocated
than before: the directory was requested, the allocator had no block, and the
inode taken for the new directory is not given back.  Nothing else changes, so
no directory entry refers to that inode. -/
theorem fs_create_no_block (fs : F17FS) (path : List Nat) (type : file_t) (junk : inode)
    (junkName : Nat → Nat) (h : (fs_create fs path type junk junkName).1 = -12) :
    type = file_t.FS_DIRECTORY ∧ block_store_allocate fs.BlockStore_whole = none ∧
    ∃ i, i < 256 ∧ fs.BlockStore_inode.fbm i = false ∧
      (fs_create fs path type junk junkName).2 =
        { fs with BlockStore_inode :=
            { fs.BlockStore_inode with fbm := upd fs.BlockStore_inode.fbm i true } } := by
  by_cases c1 : (type ≠ file_t.FS_REGULAR ∧ type ≠ file_t.FS_DIRECTORY) ∨ path.length ≤ 1
  · unfold fs_create at h; rw [if_pos c1] at h; simp at h
  by_cases c2 : block_store_sub_used fs.BlockStore_inode ≥ 256
  · unfold fs_create at h; rw [if_neg c1, if_pos c2] at h; simp at h
  by_cases c3 : path.head? ≠ some CH_slash
  · unfold fs_create at h; rw [if_neg c1, if_neg c2, if_pos c3] at h; simp at h
  by_cases c4 : path.getLast? = some CH_slash
  · unfold fs_create at h; rw [if_neg c1, if_neg c2, if_neg c3, if_pos c4] at h; simp at h
  by_cases c5 : (baseName path).length ≥ 64
  · unfold fs_create at h
    rw [if_neg c1, if_neg c2, if_neg c3, if_neg c4, if_pos c5] at h; simp at h
  obtain ⟨i, hal, hi, hfree⟩ := sub_allocate_spec fs.BlockStore_inode (by omega)
  unfold fs_create at h ⊢
  rw [if_neg c1, if_neg c2, if_neg c3, if_neg c4, if_neg c5] at h ⊢
  have hcase : searchPath fs (dirTokens path) = none ∨
      ∃ p, searchPath fs (dirTokens path) = some p := by
    cases searchPath fs (dirTokens path) with
    | none => exact Or.inl rfl
    | some p => exact Or.inr ⟨p, rfl⟩
  rcases hcase with hs | ⟨p, hs⟩
  · simp [hs] at h
  · simp only [hs] at h ⊢
    by_cases c6 : getFileInodeID fs p (baseName path) ≠ 0
    · rw [if_pos c6] at h; simp at h
    rw [if_neg c6] at h ⊢
    unfold fs_create_at at h ⊢
    unfold block_store_sub_read at h ⊢
    by_cases hp : p < 256
    · simp only [hp, if_true] at h ⊢
      unfold block_store_read at h ⊢
      by_cases hb : (fs.BlockStore_inode.data p).directPointer 0 < BLOCK_STORE_NUM_BLOCKS
      · simp only [hb, if_true, hal] at h ⊢
        have hcz : bitmap_ffz (bitmap_test (fs.BlockStore_inode.data p).vacantFile) 8 = none ∨
            ∃ a, bitmap_ffz (bitmap_test (fs.BlockStore_inode.data p).vacantFile) 8 = some a := by
          cases bitmap_ffz (bitmap_test (fs.BlockStore_inode.data p).vacantFile) 8 with
          | none => exact Or.inl rfl
          | some a => exact Or.inr ⟨a, rfl⟩
        rcases hcz with hz | ⟨a, hz⟩
        · simp [hz] at h
        · simp only [hz] at h ⊢
          by_cases ha : a = 7
          · rw [if_pos ha] at h; simp at h
          rw [if_neg ha] at h ⊢
          by_cases ht : type = file_t.FS_DIRECTORY
          · simp only [ht, if_true] at h ⊢
            have hcw : block_store_allocate fs.BlockStore_whole = none ∨
                ∃ r, block_store_allocate fs.BlockStore_whole = some r := by
              cases block_store_allocate fs.BlockStore_whole with
              | none => exact Or.inl rfl
              | some r => exact Or.inr ⟨r, rfl⟩
            rcases hcw with hw | ⟨r, hw⟩
            · simp only [hw]
              exact ⟨trivial, trivial, i, hi, hfree, rfl⟩
            · simp only [hw] at h
              split at h
              · simp at h
              · split at h
                · simp at h
                · simp at h
          · have hne : (if type = file_t.FS_DIRECTORY then CH_d else CH_r) ≠ CH_d := by
              rw [if_neg ht]; decide
            simp only [hne, if_false] at h
            split at h
            · simp at h
            · split at h
              · simp at h
              · simp at h
      · simp only [hb, if_false] at h; simp at h
    · simp only [hp, if_false] at h; simp at h

set_option maxRecDepth 100000 in
/-- C38, evaluated.  On the image `exNoBlock`, where every block is in use and
inode 1 is free, `fs_create("/d", FS_DIRECTORY)` returns -12 (line 353).
Afterwards inode 1 is allocated, although no directory entry refers to it: the
root directory has no live entry and the lookup of `"d"` returns 0.  The blocks
are as before. -/
theorem fs_create_leaks_inode :
    block_store_allocate exNoBlock.BlockStore_whole = none ∧
    block_store_sub_test exNoBlock.BlockStore_inode 1 = false ∧
    block_store_sub_used exNoBlock.BlockStore_inode = 1 ∧
    (fs_create exNoBlock [47, 100] file_t.FS_DIRECTORY exJunk (fun _ => 0)).1 = -12 ∧
    block_store_sub_test
      (fs_create exNoBlock [47, 100] file_t.FS_DIRECTORY exJunk (fun _ => 0)).2.BlockStore_inode
      1 = true ∧
    block_store_sub_used
      (fs_create exNoBlock [47, 100] file_t.FS_DIRECTORY exJunk (fun _ => 0)).2.BlockStore_inode
      = 2 ∧
    ((fs_create exNoBlock [47, 100] file_t.FS_DIRECTORY exJunk
      (fun _ => 0)).2.BlockStore_inode.data 0).vacantFile = 0 ∧
    getFileInodeID (fs_create exNoBlock [47, 100] file_t.FS_DIRECTORY exJunk (fun _ => 0)).2 0
      [100] = 0 ∧
    (fs_create exNoBlock [47, 100] file_t.FS_DIRECTORY exJunk (fun _ => 0)).2.BlockStore_whole
      = exNoBlock.BlockStore_whole := by
  have hnone : block_store_allocate exNoBlock.BlockStore_whole = none := by
    unfold block_store_allocate bitmap_ffz
    rw [ffzFrom_full exNoBlock.BlockStore_whole.fbm (fun _ => rfl) BLOCK_STORE_NUM_BLOCKS 0]
  have hat : fs_create_at exNoBlock 0 (baseName [47, 100]) CH_d exJunk (fun _ => 0) =
      (-12, { exNoBlock with BlockStore_inode :=
        { exNoBlock.BlockStore_inode with fbm := upd exNoBlock.BlockStore_inode.fbm 1 true } }) :=
    fs_create_at_no_block exNoBlock 0 _ exJunk _ 0 1 _ (by decide) (by decide) (by decide)
      (by decide) rfl hnone
  have hc : fs_create exNoBlock [47, 100] file_t.FS_DIRECTORY exJunk (fun _ => 0) =
      (-12, { exNoBlock with BlockStore_inode :=
        { exNoBlock.BlockStore_inode with fbm := upd exNoBlock.BlockStore_inode.fbm 1 true } }) := by
    unfold fs_create
    rw [if_neg (by decide), if_neg (by decide), if_neg (by decide), if_neg (by decide),
      if_neg (by decide)]
    have hs : searchPath exNoBlock (dirTokens [47, 100]) = some 0 := by decide
    rw [hs]
    simp only
    rw [if_neg (by decide)]
    exact hat
  rw [hc]
  exact ⟨hnone, by decide, by decide, rfl, by decide, by decide, by decide, by decide, rfl⟩

end F17

namespace F17

/-! ## The resolver and the lookup (C33) -/

set_option maxRecDepth 100000 in
/-- C33, evaluated.  On the image `exDirs`, reached by public operations, the
root directory holds the directory `"ab"` (inode 1) in slot 0 and the directory
`"a"` (inode 2) in slot 1.  For the segment `"a"` the resolver steps from the
root into inode 2: its scan (lines 225-235) goes through all seven entries and
keeps the last directory whose first `strlen("a")` bytes match.  The lookup of
`"a"` in the root returns 1: its scan (lines 261-274) returns at the first
entry whose first `strlen("a")` bytes match, which is `"ab"`.  So
`fs_create("/a/f")` makes its entry in the directory of inode 2, while
`fs_get_dir("/a")` lists the directory of inode 1. -/
theorem resolver_lookup_disagree :
    Reachable exDirs ∧
    (exDirs.BlockStore_inode.data 0).fileType = CH_d ∧
    strcmpEq (dentryName (exDirs.BlockStore_whole.data 33) 0) [97, 98] = true ∧
    strcmpEq (dentryName (exDirs.BlockStore_whole.data 33) 1) [97] = true ∧
    searchStep exDirs 0 [97] = some 2 ∧
    searchPath exDirs (dirTokens [47, 97, 47, 102]) = some 2 ∧
    getFileInodeID exDirs 0 [97] = 1 ∧
    getFileInodeID exDirs 0 (basename [47, 97]) = 1 ∧
    (fs_create exDirs [47, 97, 47, 102] file_t.FS_REGULAR exJunk (fun _ => 0)).1 = 0 ∧
    getFileInodeID (fs_create exDirs [47, 97, 47, 102] file_t.FS_REGULAR exJunk
      (fun _ => 0)).2 2 [102] = 4 ∧
    getFileInodeID (fs_create exDirs [47, 97, 47, 102] file_t.FS_REGULAR exJunk
      (fun _ => 0)).2 1 [102] = 0 ∧
    fs_get_dir (fs_create exDirs [47, 97, 47, 102] file_t.FS_REGULAR exJunk
      (fun _ => 0)).2 [47, 97] = some [] :=
  ⟨Reachable.create _ _ _ _ _ (Reachable.remove _ _ _ _ (Reachable.create _ _ _ _ _
    (Reachable.create _ _ _ _ _ (Reachable.create _ _ _ _ _
      (Reachable.format exCreated [105] exFormat rfl))))),
    by decide, by decide, by decide, by decide, by decide, by decide, by decide, by decide,
    by decide, by decide, by decide⟩

end F17

namespace F17

/-! ## Descriptors and their inodes (C34) -/

set_option maxRecDepth 100000 in
/-- C34, evaluated.  The image `exFiles` holds the regular files `"ab"` (inode
1) and `"a"` (inode 2) in the root directory, and no descriptor is open.
`fs_remove("/a")` returns 0 and releases inode 1, the inode of `"ab"`, which the
lookup finds for `"a"` (line 263), while the entry it takes out is that of
`"a"` (line 924).  Then `fs_open("/ab")` returns descriptor 0: the lookup finds
the entry `"ab"`, and `fs_open` reads inode 1 without a test that it is
allocated.  In the state reached, `exStale`, descriptor 0 is allocated with
`inodeNum` 1 and inode 1 is not allocated.  A following
`fs_create("/n", FS_DIRECTORY)` takes inode 1 for the directory: descriptor 0
is then open on a directory. -/
theorem descriptor_on_released_inode :
    Reachable exStale ∧
    Reachable (fs_create exStale [47, 110] file_t.FS_DIRECTORY exJunk (fun _ => 0)).2 ∧
    block_store_sub_used exFiles.BlockStore_fd = 0 ∧
    getFileInodeID exFiles 0 [97, 98] = 1 ∧
    getFileInodeID exFiles 0 [97] = 1 ∧
    (fs_remove exFiles [47, 97] exJunk (fun _ => 0)).1 = 0 ∧
    (fs_open (fs_remove exFiles [47, 97] exJunk (fun _ => 0)).2 [47, 97, 98]).1 = 0 ∧
    block_store_sub_test exStale.BlockStore_fd 0 = true ∧
    (exStale.BlockStore_fd.data 0).inodeNum = 1 ∧
    block_store_sub_test exStale.BlockStore_inode 1 = false ∧
    (fs_create exStale [47, 110] file_t.FS_DIRECTORY exJunk (fun _ => 0)).1 = 0 ∧
    block_store_sub_test
      (fs_create exStale [47, 110] file_t.FS_DIRECTORY exJunk (fun _ => 0)).2.BlockStore_fd 0
      = true ∧
    ((fs_create exStale [47, 110] file_t.FS_DIRECTORY exJunk
      (fun _ => 0)).2.BlockStore_fd.data 0).inodeNum = 1 ∧
    block_store_sub_test
      (fs_create exStale [47, 110] file_t.FS_DIRECTORY exJunk (fun _ => 0)).2.BlockStore_inode 1
      = true ∧
    ((fs_create exStale [47, 110] file_t.FS_DIRECTORY exJunk
      (fun _ => 0)).2.BlockStore_inode.data 1).fileType = CH_d :=
  have hr : Reachable exStale :=
    Reachable.opened _ _ (Reachable.remove _ _ _ _ (Reachable.create _ _ _ _ _
      (Reachable.remove _ _ _ _ (Reachable.create _ _ _ _ _ (Reachable.create _ _ _ _ _
        (Reachable.format exCreated [105] exFormat rfl))))))
  ⟨hr, Reachable.create _ _ _ _ _ hr, by decide, by decide, by decide, by decide, by decide,
    by decide, by decide, by decide, by decide, by decide, by decide, by decide, by decide⟩

end F17

namespace F17

/-! ## Steps of `fs_write` that take blocks -/

/-- Three free blocks at the end of the store are three free blocks. -/
theorem spareFree_three (bs : block_store Block) (h : spareFree bs = true) :
    3 ≤ block_store_get_free_blocks bs := by
  unfold spareFree at h
  simp only [Bool.and_eq_true, Bool.not_eq_true'] at h
  obtain ⟨⟨h1, h2⟩, h3⟩ := h
  unfold block_store_get_free_blocks
  refine countFreeFrom_ge bs.fbm _ 0 65533 3 (fun y hy1 hy2 => ?_) (by omega) (by decide)
  have : y = 65533 ∨ y = 65534 ∨ y = 65535 := by omega
  rcases this with e | e | e <;> rw [e] <;> assumption

/-- The value of `get_data_block_id` in an empty direct slot when three spare
blocks are free and the allocator hands out block `m`. -/
theorem gdb_takeDirect (fs : F17FS) (d : fileDescriptor) (m : Nat)
    (hi : d.inodeNum < 256) (hu : d.usage = 1)
    (hp : (fs.BlockStore_inode.data d.inodeNum).directPointer d.locate_order = 0)
    (hs : spareFree fs.BlockStore_whole = true)
    (ha : (alloc16 fs.BlockStore_whole).1 = m) :
    get_data_block_id fs d = (m, takeDirect fs d.inodeNum d.locate_order m) := by
  have hf : 1 ≤ block_store_get_free_blocks fs.BlockStore_whole := by
    have := spareFree_three _ hs
    omega
  obtain ⟨_, _, a3, _⟩ := alloc16_spec fs.BlockStore_whole hf
  rw [gdb_unfold fs d hi, if_pos hu]
  unfold gdb_direct takeDirect
  rw [if_pos hp, if_pos hf]
  simp only [sub_write_spec _ _ _ hi, a3, ha]

/-- The value of `get_data_block_id` at the start of the indirect tier of a
file without an index block when three spare blocks are free and the allocator
hands out the blocks `m` and `m1`. -/
theorem gdb_takeIndirect (fs : F17FS) (d : fileDescriptor) (m m1 : Nat)
    (hi : d.inodeNum < 256) (hu : d.usage = 2) (ho : d.locate_order = 0)
    (hp : (fs.BlockStore_inode.data d.inodeNum).indirectPointer = 0)
    (hs : spareFree fs.BlockStore_whole = true)
    (ha : (alloc16 fs.BlockStore_whole).1 = m)
    (hb : (alloc16 (alloc16 fs.BlockStore_whole).2).1 = m1) :
    get_data_block_id fs d = (m1, takeIndirect fs d.inodeNum m m1) := by
  have hf : 2 ≤ block_store_get_free_blocks fs.BlockStore_whole := by
    have := spareFree_three _ hs
    omega
  obtain ⟨a1, _, a3, a4⟩ := alloc16_spec fs.BlockStore_whole (by omega)
  obtain ⟨_, _, b3, _⟩ := alloc16_spec (alloc16 fs.BlockStore_whole).2 (by omega)
  have h1 : ¬ d.usage = 1 := by omega
  rw [gdb_unfold fs d hi, if_neg h1, if_pos hu]
  unfold gdb_indirect takeIndirect
  rw [if_pos ⟨ho, hp⟩, if_pos hf]
  have e2 : (alloc16 (alloc16 fs.BlockStore_whole).2).2 =
      { fbm := upd (upd fs.BlockStore_whole.fbm m true) m1 true,
        data := fs.BlockStore_whole.data } := by
    rw [b3, hb, a3, ha]
  rw [ha] at a1
  simp only [e2, hb, ha, block_store_write_spec _ _ _ a1, sub_write_spec _ _ _ hi, upd_same]

/-- The value of `fs_write` when the bytes fill the block of the cursor to its
end: one turn of the loop. -/
theorem fs_write_fill (fs : F17FS) (fd : Nat) (src : List Nat) (b : Nat) (fs1 : F17FS)
    (hfd : block_store_sub_test fs.BlockStore_fd fd = true)
    (hi : (fs.BlockStore_fd.data fd).inodeNum < 256)
    (hg : get_data_block_id fs (fs.BlockStore_fd.data fd) = (b, fs1))
    (hb : 0 < b) (hb2 : b < 65536)
    (hoff : (fs.BlockStore_fd.data fd).locate_offset < 512)
    (hlen : src.length = 512 - (fs.BlockStore_fd.data fd).locate_offset) :
    fs_write fs (fd : Int) src =
      some ((src.length : Int),
        storeBytes fs1 fd (fs.BlockStore_fd.data fd) (advanceCursor (fs.BlockStore_fd.data fd))
          b src (512 - (fs.BlockStore_fd.data fd).locate_offset)
          (getFileSize (fs.BlockStore_fd.data fd) + src.length)) := by
  generalize hd : fs.BlockStore_fd.data fd = d at *
  obtain ⟨n, hn⟩ : ∃ n, src.length = n + 1 := ⟨src.length - 1, by omega⟩
  have hw : block_store_n_write fs1.BlockStore_whole b d.locate_offset (src.drop 0)
      (BLOCK_SIZE_BYTES - d.locate_offset) =
      some { fs1.BlockStore_whole with data := upd fs1.BlockStore_whole.data b (fun j =>
        if d.locate_offset ≤ j ∧ j < d.locate_offset + (512 - d.locate_offset) then
          src.getD (j - d.locate_offset) 0
        else fs1.BlockStore_whole.data b j) } := by
    unfold block_store_n_write BLOCK_STORE_NUM_BLOCKS BLOCK_SIZE_BYTES
    rw [if_pos ⟨hb2, by omega, by omega⟩]
    rfl
  have hl : writeLoop src.length fs d src 0 none =
      some ⟨none, { fs1 with BlockStore_whole :=
          { fs1.BlockStore_whole with data := upd fs1.BlockStore_whole.data b (fun j =>
            if d.locate_offset ≤ j ∧ j < d.locate_offset + (512 - d.locate_offset) then
              src.getD (j - d.locate_offset) 0
            else fs1.BlockStore_whole.data b j) } },
        advanceCursor d, src.length, some b⟩ := by
    rw [show writeLoop src.length = writeLoop (n + 1) by rw [hn]]
    rw [writeLoop_fill n fs fs1 d src 0 none b _ (by omega) hg hb
      (by unfold BLOCK_SIZE_BYTES; omega) hw]
    unfold writeLoop
    have e : 0 + (BLOCK_SIZE_BYTES - d.locate_offset) = src.length := by
      unfold BLOCK_SIZE_BYTES; omega
    rw [e, if_neg (by omega)]
  have := fs_write_of_loop fs fd src _ hfd (by omega) (by rw [hd]; exact hl) rfl
    (by rw [advanceCursor_inodeNum]; exact hi)
  rw [this, hd]
  rfl

/-- The value of `fs_write` when the bytes end before the end of the block of
the cursor: one turn of the loop. -/
theorem fs_write_part (fs : F17FS) (fd : Nat) (src : List Nat) (b : Nat) (fs1 : F17FS)
    (hfd : block_store_sub_test fs.BlockStore_fd fd = true)
    (hi : (fs.BlockStore_fd.data fd).inodeNum < 256)
    (hg : get_data_block_id fs (fs.BlockStore_fd.data fd) = (b, fs1))
    (hb : 0 < b) (hb2 : b < 65536) (hne : 0 < src.length)
    (hlen : (fs.BlockStore_fd.data fd).locate_offset + src.length < 512) :
    fs_write fs (fd : Int) src =
      some ((src.length : Int),
        storeBytes fs1 fd (fs.BlockStore_fd.data fd)
          { fs.BlockStore_fd.data fd with
            locate_offset := (fs.BlockStore_fd.data fd).locate_offset + src.length }
          b src src.length (getFileSize (fs.BlockStore_fd.data fd) + src.length)) := by
  generalize hd : fs.BlockStore_fd.data fd = d at *
  obtain ⟨n, hn⟩ : ∃ n, src.length = n + 1 := ⟨src.length - 1, by omega⟩
  have hmod : (d.locate_offset + src.length) % 65536 = d.locate_offset + src.length :=
    Nat.mod_eq_of_lt (by omega)
  have hl : writeLoop src.length fs d src 0 none =
      some ⟨none, { fs1 with BlockStore_whole :=
          { fs1.BlockStore_whole with data := upd fs1.BlockStore_whole.data b (fun j =>
            if d.locate_offset ≤ j ∧ j < d.locate_offset + src.length then
              src.getD (j - d.locate_offset) 0
            else fs1.BlockStore_whole.data b j) } },
        { d with locate_offset := d.locate_offset + src.length }, src.length, some b⟩ := by
    rw [show writeLoop src.length = writeLoop (n + 1) by rw [hn]]
    unfold writeLoop
    rw [if_pos (by omega)]
    simp only [hg]
    rw [if_pos hb, if_pos (by unfold BLOCK_SIZE_BYTES; omega)]
    unfold block_store_n_write BLOCK_STORE_NUM_BLOCKS BLOCK_SIZE_BYTES
    rw [if_pos ⟨hb2, by omega, by omega⟩]
    simp only [hmod, Nat.sub_zero, List.drop_zero]
  have := fs_write_of_loop fs fd src _ hfd (by omega) (by rw [hd]; exact hl) rfl hi
  rw [this, hd]
  rfl

/-- The step of a trace that writes a full block into an empty direct slot. -/
theorem fs_write_directStep (fs : F17FS) (fd : Nat) (src : List Nat) (d d1 : fileDescriptor)
    (m size : Nat)
    (hfd : block_store_sub_test fs.BlockStore_fd fd = true)
    (hd : fs.BlockStore_fd.data fd = d) (hi : d.inodeNum < 256) (hu : d.usage = 1)
    (ho : d.locate_offset = 0)
    (hp : (fs.BlockStore_inode.data d.inodeNum).directPointer d.locate_order = 0)
    (hs : spareFree fs.BlockStore_whole = true)
    (ha : (alloc16 fs.BlockStore_whole).1 = m) (hm : 0 < m) (hm2 : m < 65536)
    (hlen : src.length = 512) (hd1 : advanceCursor d = d1) (hsz : getFileSize d + 512 = size) :
    fs_write fs (fd : Int) src =
      some (512, storeBytes (takeDirect fs d.inodeNum d.locate_order m) fd d d1 m src 512 size) := by
  have hg := gdb_takeDirect fs d m hi hu hp hs ha
  have := fs_write_fill fs fd src m _ hfd (by rw [hd]; exact hi) (by rw [hd]; exact hg) hm hm2
    (by rw [hd, ho]; decide) (by rw [hd, ho]; exact hlen)
  rw [this, hd, hd1, ho, hlen, hsz]
  rfl

/-- The step of a trace that writes a full block at the start of the indirect
tier of a file without an index block. -/
theorem fs_write_indirectStep (fs : F17FS) (fd : Nat) (src : List Nat) (d d1 : fileDescriptor)
    (m m1 size : Nat)
    (hfd : block_store_sub_test fs.BlockStore_fd fd = true)
    (hd : fs.BlockStore_fd.data fd = d) (hi : d.inodeNum < 256) (hu : d.usage = 2)
    (hor : d.locate_order = 0) (ho : d.locate_offset = 0)
    (hp : (fs.BlockStore_inode.data d.inodeNum).indirectPointer = 0)
    (hs : spareFree fs.BlockStore_whole = true)
    (ha : (alloc16 fs.BlockStore_whole).1 = m)
    (hb : (alloc16 (alloc16 fs.BlockStore_whole).2).1 = m1) (hm : 0 < m1) (hm2 : m1 < 65536)
    (hlen : src.length = 512) (hd1 : advanceCursor d = d1) (hsz : getFileSize d + 512 = size) :
    fs_write fs (fd : Int) src =
      some (512, storeBytes (takeIndirect fs d.inodeNum m m1) fd d d1 m1 src 512 size) := by
  have hg := gdb_takeIndirect fs d m m1 hi hu hor hp hs ha hb
  have := fs_write_fill fs fd src m1 _ hfd (by rw [hd]; exact hi) (by rw [hd]; exact hg) hm hm2
    (by rw [hd, ho]; decide) (by rw [hd, ho]; exact hlen)
  rw [this, hd, hd1, ho, hlen, hsz]
  rfl

theorem exBlock7_length : exBlock7.length = 512 := List.length_replicate _ _

theorem exTableBytes_length : exTableBytes.length = 512 := by
  unfold exTableBytes
  rw [List.length_append, List.length_replicate]
  rfl

set_option maxRecDepth 1000000 in
set_option maxHeartbeats 4000000 in
theorem exW1_step : fs_write exAOpen (0 : Nat) exBlock7 = some (512, exW1) :=
  fs_write_directStep exAOpen 0 exBlock7 (curAt 1 1 0) (curAt 1 1 1) 34 512 (by decide)
    (by decide) (by decide) (by decide) (by decide) (by decide) (by decide) (by decide)
    (by decide) (by decide) exBlock7_length (by decide) (by decide)

set_option maxRecDepth 1000000 in
set_option maxHeartbeats 4000000 in
theorem exW2_step : fs_write exW1 (0 : Nat) exBlock7 = some (512, exW2) :=
  fs_write_directStep exW1 0 exBlock7 (curAt 1 1 1) (curAt 1 1 2) 35 1024 (by decide)
    (by decide) (by decide) (by decide) (by decide) (by decide) (by decide) (by decide)
    (by decide) (by decide) exBlock7_length (by decide) (by decide)

set_option maxRecDepth 1000000 in
set_option maxHeartbeats 4000000 in
theorem exW3_step : fs_write exW2 (0 : Nat) exBlock7 = some (512, exW3) :=
  fs_write_directStep exW2 0 exBlock7 (curAt 1 1 2) (curAt 1 1 3) 36 1536 (by decide)
    (by decide) (by decide) (by decide) (by decide) (by decide) (by decide) (by decide)
    (by decide) (by decide) exBlock7_length (by decide) (by decide)

set_option maxRecDepth 1000000 in
set_option maxHeartbeats 4000000 in
theorem exW4_step : fs_write exW3 (0 : Nat) exBlock7 = some (512, exW4) :=
  fs_write_directStep exW3 0 exBlock7 (curAt 1 1 3) (curAt 1 1 4) 37 2048 (by decide)
    (by decide) (by decide) (by decide) (by decide) (by decide) (by decide) (by decide)
    (by decide) (by decide) exBlock7_length (by decide) (by decide)

set_option maxRecDepth 1000000 in
set_option maxHeartbeats 4000000 in
theorem exW5_step : fs_write exW4 (0 : Nat) exBlock7 = some (512, exW5) :=
  fs_write_directStep exW4 0 exBlock7 (curAt 1 1 4) (curAt 1 1 5) 38 2560 (by decide)
    (by decide) (by decide) (by decide) (by decide) (by decide) (by decide) (by decide)
    (by decide) (by decide) exBlock7_length (by decide) (by decide)

set_option maxRecDepth 1000000 in
set_option maxHeartbeats 4000000 in
theorem exW6_step : fs_write exW5 (0 : Nat) exBlock7 = some (512, exW6) :=
  fs_write_directStep exW5 0 exBlock7 (curAt 1 1 5) (curAt 1 2 0) 39 3072 (by decide)
    (by decide) (by decide) (by decide) (by decide) (by decide) (by decide) (by decide)
    (by decide) (by decide) exBlock7_length (by decide) (by decide)

set_option maxRecDepth 1000000 in
set_option maxHeartbeats 4000000 in
theorem exW7_step : fs_write exW6 (0 : Nat) exBlock7 = some (512, exW7) :=
  fs_write_indirectStep exW6 0 exBlock7 (curAt 1 2 0) (curAt 1 2 1) 40 41 3584 (by decide)
    (by decide) (by decide) (by decide) (by decide) (by decide) (by decide) (by decide)
    (by decide) (by decide) (by decide) (by decide) exBlock7_length (by decide) (by decide)

set_option maxRecDepth 1000000 in
set_option maxHeartbeats 4000000 in
theorem exSecondFile_facts :
    (fs_remove exW7 [47, 97] exJunk (fun _ => 0)).1 = -7 ∧
    (fs_create (fs_remove exW7 [47, 97] exJunk (fun _ => 0)).2
        [47, 100] file_t.FS_DIRECTORY exJunk (fun _ => 0)).1 = 0 ∧
    (fs_create
      (fs_create (fs_remove exW7 [47, 97] exJunk (fun _ => 0)).2
        [47, 100] file_t.FS_DIRECTORY exJunk (fun _ => 0)).2
      [47, 98] file_t.FS_REGULAR exJunk (fun _ => 0)).1 = 0 ∧
    (fs_open
      (fs_create
        (fs_create (fs_remove exW7 [47, 97] exJunk (fun _ => 0)).2
          [47, 100] file_t.FS_DIRECTORY exJunk (fun _ => 0)).2
        [47, 98] file_t.FS_REGULAR exJunk (fun _ => 0)).2
      [47, 98]).1 = 0 := by decide

set_option maxRecDepth 1000000 in
set_option maxHeartbeats 4000000 in
theorem exV1_step : fs_write exSecondFile (0 : Nat) exBlock7 = some (512, exV1) :=
  fs_write_directStep exSecondFile 0 exBlock7 (curAt 3 1 0) (curAt 3 1 1) 35 512 (by decide)
    (by decide) (by decide) (by decide) (by decide) (by decide) (by decide) (by decide)
    (by decide) (by decide) exBlock7_length (by decide) (by decide)

set_option maxRecDepth 1000000 in
set_option maxHeartbeats 4000000 in
theorem exV2_step : fs_write exV1 (0 : Nat) exBlock7 = some (512, exV2) :=
  fs_write_directStep exV1 0 exBlock7 (curAt 3 1 1) (curAt 3 1 2) 36 1024 (by decide)
    (by decide) (by decide) (by decide) (by decide) (by decide) (by decide) (by decide)
    (by decide) (by decide) exBlock7_length (by decide) (by decide)

set_option maxRecDepth 1000000 in
set_option maxHeartbeats 4000000 in
theorem exV3_step : fs_write exV2 (0 : Nat) exBlock7 = some (512, exV3) :=
  fs_write_directStep exV2 0 exBlock7 (curAt 3 1 2) (curAt 3 1 3) 37 1536 (by decide)
    (by decide) (by decide) (by decide) (by decide) (by decide) (by decide) (by decide)
    (by decide) (by decide) exBlock7_length (by decide) (by decide)

set_option maxRecDepth 1000000 in
set_option maxHeartbeats 4000000 in
theorem exV4_step : fs_write exV3 (0 : Nat) exBlock7 = some (512, exV4) :=
  fs_write_directStep exV3 0 exBlock7 (curAt 3 1 3) (curAt 3 1 4) 38 2048 (by decide)
    (by decide) (by decide) (by decide) (by decide) (by decide) (by decide) (by decide)
    (by decide) (by decide) exBlock7_length (by decide) (by decide)

set_option maxRecDepth 1000000 in
set_option maxHeartbeats 4000000 in
theorem exV5_step : fs_write exV4 (0 : Nat) exBlock7 = some (512, exV5) :=
  fs_write_directStep exV4 0 exBlock7 (curAt 3 1 4) (curAt 3 1 5) 39 2560 (by decide)
    (by decide) (by decide) (by decide) (by decide) (by decide) (by decide) (by decide)
    (by decide) (by decide) exBlock7_length (by decide) (by decide)

set_option maxRecDepth 1000000 in
set_option maxHeartbeats 4000000 in
theorem exV6_step : fs_write exV5 (0 : Nat) exTableBytes = some (512, exV6) :=
  fs_write_directStep exV5 0 exTableBytes (curAt 3 1 5) (curAt 3 2 0) 40 3072 (by decide)
    (by decide) (by decide) (by decide) (by decide) (by decide) (by decide) (by decide)
    (by decide) (by decide) exTableBytes_length (by decide) (by decide)

set_option maxRecDepth 1000000 in
set_option maxHeartbeats 4000000 in
theorem exStaleIndex_facts :
    (fs_open exV6 [47, 97]).1 = 1 ∧
    (fs_seek (fs_open exV6 [47, 97]).2 1 3072 .FS_SEEK_SET).1 = 3072 ∧
    exStaleIndex.BlockStore_fd.data 1 = curAt 1 2 0 ∧
    (exStaleIndex.BlockStore_inode.data 1).indirectPointer = 40 ∧
    (exStaleIndex.BlockStore_inode.data 3).directPointer 5 = 40 ∧
    (get_data_block_id exStaleIndex (exStaleIndex.BlockStore_fd.data 1)).1 = 1 := by decide

end F17

namespace F17

/-! ## The sum of `FS_SEEK_CUR` (C7) -/

/-- The image `exAWritten` is reached by `fs_format`, `fs_create("/a")`,
`fs_open("/a")` and `fs_write` of one byte. -/
theorem exAWritten_reachable : Reachable exAWritten :=
  Reachable.write exAOpen (0 : Nat) [7] 1 exAWritten exAOpen_reachable exAOpen_write

set_option maxRecDepth 100000 in
/-- C7, evaluated.  On the image `exAWritten`, reached by public operations,
descriptor 0 stands at position 1 of a file of 1 byte.
`fs_seek(0, 9223372036854775807, FS_SEEK_CUR)` is a seek past EOF: the claim
gives `clamp(1 + 9223372036854775807, 0, 1) = 1`.  The sum of line 974 does not
fit the 64-bit signed type; with the wrapped sum -9223372036854775808 the test
`0 > currentOffset + offset` holds, and `fs_seek` returns 0 and moves the
cursor to position 0. -/
theorem fs_seek_cur_overflows :
    Reachable exAWritten ∧
    block_store_sub_test exAWritten.BlockStore_fd 0 = true ∧
    getFileSize (exAWritten.BlockStore_fd.data 0) = 1 ∧
    (exAWritten.BlockStore_inode.data (exAWritten.BlockStore_fd.data 0).inodeNum).fileSize = 1 ∧
    (9223372036854775807 : Int) < 2 ^ 63 ∧
    clamp (1 + 9223372036854775807) 0 1 = 1 ∧
    wrapS64 (1 + 9223372036854775807) = -9223372036854775808 ∧
    (fs_seek exAWritten 0 9223372036854775807 .FS_SEEK_CUR).1 = 0 ∧
    getFileSize
      ((fs_seek exAWritten 0 9223372036854775807 .FS_SEEK_CUR).2.BlockStore_fd.data 0) = 0 :=
  ⟨exAWritten_reachable, by decide⟩

end F17

namespace F17

/-! ## A block shared by two files (C2) -/

/-- The step of a trace that writes bytes, fewer than a block, into an empty
direct slot. -/
theorem fs_write_directPart (fs : F17FS) (fd : Nat) (src : List Nat) (d d1 : fileDescriptor)
    (m size : Nat)
    (hfd : block_store_sub_test fs.BlockStore_fd fd = true)
    (hd : fs.BlockStore_fd.data fd = d) (hi : d.inodeNum < 256) (hu : d.usage = 1)
    (hp : (fs.BlockStore_inode.data d.inodeNum).directPointer d.locate_order = 0)
    (hs : spareFree fs.BlockStore_whole = true)
    (ha : (alloc16 fs.BlockStore_whole).1 = m) (hm : 0 < m) (hm2 : m < 65536)
    (hne : 0 < src.length) (hlen : d.locate_offset + src.length < 512)
    (hd1 : { d with locate_offset := d.locate_offset + src.length } = d1)
    (hsz : getFileSize d + src.length = size) :
    fs_write fs (fd : Int) src =
      some ((src.length : Int),
        storeBytes (takeDirect fs d.inodeNum d.locate_order m) fd d d1 m src src.length size) := by
  have hg := gdb_takeDirect fs d m hi hu hp hs ha
  have := fs_write_part fs fd src m _ hfd (by rw [hd]; exact hi) (by rw [hd]; exact hg) hm hm2
    hne (by rw [hd]; exact hlen)
  rw [this, hd, hd1, hsz]

set_option maxRecDepth 1000000 in
set_option maxHeartbeats 4000000 in
theorem exSharedBlock_step : fs_write exFreed (0 : Nat) [9] = some (1, exSharedBlock) :=
  fs_write_directPart exFreed 0 [9] (curAt 2 1 0)
    { inodeNum := 2, usage := 1, locate_order := 0, locate_offset := 1 } 34 1 (by decide)
    (by decide) (by decide) (by decide) (by decide) (by decide) (by decide) (by decide)
    (by decide) (by decide) (by decide) (by decide) (by decide)

/-- The image `exShared` is reached by public operations. -/
theorem exShared_reachable : Reachable exShared :=
  Reachable.seek _ _ _ _ (Reachable.opened _ _
    (Reachable.write exFreed (0 : Nat) [9] 1 exSharedBlock
      (Reachable.opened _ _ (Reachable.create _ _ _ _ _
        (Reachable.remove _ _ _ _ exAWritten_reachable)))
      exSharedBlock_step))

set_option maxRecDepth 1000000 in
set_option maxHeartbeats 4000000 in
/-- C2, evaluated.  The image `exShared` is reached by `fs_format`,
`fs_create("/a")`, `fs_open("/a")`, `fs_write` of one byte, `fs_remove("/a")`
(which releases block 34 and returns -7, lines 899-910, the inode keeping its
pointer), `fs_create("/b")`, `fs_open("/b")`, `fs_write` of the byte 9 (which
takes block 34), `fs_open("/a")` and `fs_seek(0, 0, FS_SEEK_SET)`.  In it
descriptor 0 is open on the regular file of inode 2 and descriptor 1 on the
regular file of inode 1, both at position 0 of files of 1 byte.  Through
descriptor 1 the first file reads as the byte 9.  `fs_write` of the byte 5
through descriptor 0 returns 1, the whole count: afterwards the byte at offset
0 of the other file, read through descriptor 1, is 5. -/
theorem fs_write_changes_other_file :
    Reachable exShared ∧
    (fs_remove exAWritten [47, 97] exJunk (fun _ => 0)).1 = -7 ∧
    block_store_sub_test exShared.BlockStore_fd 0 = true ∧
    block_store_sub_test exShared.BlockStore_fd 1 = true ∧
    exShared.BlockStore_fd.data 0 = curAt 2 1 0 ∧
    exShared.BlockStore_fd.data 1 = curAt 1 1 0 ∧
    block_store_sub_test exShared.BlockStore_inode 1 = true ∧
    block_store_sub_test exShared.BlockStore_inode 2 = true ∧
    (exShared.BlockStore_inode.data 1).fileType = CH_r ∧
    (exShared.BlockStore_inode.data 2).fileType = CH_r ∧
    (exShared.BlockStore_inode.data 1).fileSize = 1 ∧
    (exShared.BlockStore_inode.data 2).fileSize = 1 ∧
    (exShared.BlockStore_inode.data 1).directPointer 0 = 34 ∧
    (exShared.BlockStore_inode.data 2).directPointer 0 = 34 ∧
    (fs_read exShared 1 1).map (fun p => (p.1, p.2.1)) = some (1, [9]) ∧
    (fs_write exShared 0 [5]).map Prod.fst = some 1 ∧
    (fs_read (((fs_write exShared 0 [5]).map Prod.snd).getD exShared) 1 1).map
      (fun p => (p.1, p.2.1)) = some (1, [5]) :=
  ⟨exShared_reachable, by decide⟩

end F17

namespace F17

/-! ## A stale index block (C18, C21) -/

/-- The image `exW7` is reached by `fs_format`, `fs_create("/a")`,
`fs_open("/a")` and seven calls of `fs_write` of 512 bytes. -/
theorem exW7_reachable : Reachable exW7 :=
  Reachable.write exW6 (0 : Nat) exBlock7 512 exW7
    (Reachable.write exW5 (0 : Nat) exBlock7 512 exW6
      (Reachable.write exW4 (0 : Nat) exBlock7 512 exW5
        (Reachable.write exW3 (0 : Nat) exBlock7 512 exW4
          (Reachable.write exW2 (0 : Nat) exBlock7 512 exW3
            (Reachable.write exW1 (0 : Nat) exBlock7 512 exW2
              (Reachable.write exAOpen (0 : Nat) exBlock7 512 exW1 exAOpen_reachable exW1_step)
              exW2_step) exW3_step) exW4_step) exW5_step) exW6_step) exW7_step

/-- The image `exStaleIndex` is reached by public operations. -/
theorem exStaleIndex_reachable : Reachable exStaleIndex :=
  Reachable.seek _ _ _ _ (Reachable.opened _ _
    (Reachable.write exV5 (0 : Nat) exTableBytes 512 exV6
      (Reachable.write exV4 (0 : Nat) exBlock7 512 exV5
        (Reachable.write exV3 (0 : Nat) exBlock7 512 exV4
          (Reachable.write exV2 (0 : Nat) exBlock7 512 exV3
            (Reachable.write exV1 (0 : Nat) exBlock7 512 exV2
              (Reachable.write exSecondFile (0 : Nat) exBlock7 512 exV1
                (Reachable.opened _ _ (Reachable.create _ _ _ _ _ (Reachable.create _ _ _ _ _
                  (Reachable.remove _ _ _ _ exW7_reachable))))
                exV1_step) exV2_step) exV3_step) exV4_step) exV5_step) exV6_step))

set_option maxRecDepth 1000000 in
set_option maxHeartbeats 4000000 in
/-- C18, evaluated as far as the model goes.  The image `exStaleIndex` is
reached by public operations: `fs_format`, `fs_create("/a")`, `fs_open("/a")`,
seven writes of 512 bytes (blocks 34..39, index block 40, block 41),
`fs_remove("/a")`, which releases the eight blocks, closes the descriptor and
returns -7 with the inode as it was (lines 899-910), `fs_create("/d",
FS_DIRECTORY)` (block 34), `fs_create("/b")`, `fs_open("/b")`, six writes of 512
bytes through it (blocks 35..40, the last with bytes that read as the table
entries 1 and 1), `fs_open("/a")` (descriptor 1) and
`fs_seek(1, 3072, FS_SEEK_SET)`.  The inode of `"/a"` still names block 40 as
its index block, block 40 is marked again, as a data block of `"/b"`, and its
entry 0 is 1: `get_data_block_id` returns block 1.  So `fs_write` of twenty
bytes through descriptor 1 returns 20 and stores them at the start of block 1:
byte 0 becomes 255 and byte 19 becomes 114.  In the source the inode table
starts in block 1 (lines 113 and 164), and these are `vacantFile` and
`fileType` of inode 0, which is no longer `'d'`; the inode store of the model
is not touched. -/
theorem fs_write_into_inode_table :
    Reachable exStaleIndex ∧
    (fs_remove exW7 [47, 97] exJunk (fun _ => 0)).1 = -7 ∧
    (fs_open exV6 [47, 97]).1 = 1 ∧
    (fs_seek (fs_open exV6 [47, 97]).2 1 3072 .FS_SEEK_SET).1 = 3072 ∧
    block_store_sub_test exStaleIndex.BlockStore_fd 1 = true ∧
    exStaleIndex.BlockStore_fd.data 1 = curAt 1 2 0 ∧
    (exStaleIndex.BlockStore_inode.data 1).fileType = CH_r ∧
    (exStaleIndex.BlockStore_inode.data 1).indirectPointer = 40 ∧
    (exStaleIndex.BlockStore_inode.data 3).directPointer 5 = 40 ∧
    block_store_test exStaleIndex.BlockStore_whole 40 = true ∧
    tableAt exStaleIndex 40 0 = 1 ∧
    block_store_test exStaleIndex.BlockStore_whole 1 = true ∧
    (get_data_block_id exStaleIndex (exStaleIndex.BlockStore_fd.data 1)).1 = 1 ∧
    exStaleIndex.BlockStore_whole.data 1 0 = 0 ∧
    exStaleIndex.BlockStore_whole.data 1 19 = 0 ∧
    (fs_write exStaleIndex 1 exInodeHead).map Prod.fst = some 20 ∧
    (fs_write exStaleIndex 1 exInodeHead).map
      (fun p => (p.2.BlockStore_whole.data 1 0, p.2.BlockStore_whole.data 1 19)) =
        some (255, 114) ∧
    (fs_write exStaleIndex 1 exInodeHead).map
      (fun p => (p.2.BlockStore_inode.data 0).fileType) = some CH_d :=
  ⟨exStaleIndex_reachable, by decide⟩

set_option maxRecDepth 1000000 in
set_option maxHeartbeats 4000000 in
/-- C21, evaluated as far as the model goes.  On the image `exStaleIndex`,
reached by public operations, `fs_write` of the 48 bytes `exInodeLinks` through
descriptor 1 returns 48 and stores them at the start of block 1 of the block
store, where `get_data_block_id` sends the cursor through the stale index block
40.  The bytes 40..47 become 0, 1, 0, 0, 0, 0, 0, 0.  In the source these are
the bytes of `linkCount` of inode 0 (lines 113 and 164; the fields before it
take 40 bytes), which then is 256; the bytes before them are those the inode
had.  In the model the link count of inode 0 stays 1. -/
theorem fs_write_into_link_count :
    Reachable exStaleIndex ∧
    block_store_sub_test exStaleIndex.BlockStore_fd 1 = true ∧
    (get_data_block_id exStaleIndex (exStaleIndex.BlockStore_fd.data 1)).1 = 1 ∧
    (exStaleIndex.BlockStore_inode.data 0).vacantFile = 7 ∧
    (exStaleIndex.BlockStore_inode.data 0).fileType = CH_d ∧
    (exStaleIndex.BlockStore_inode.data 0).inodeNumber = 0 ∧
    (exStaleIndex.BlockStore_inode.data 0).fileSize = 512 ∧
    (exStaleIndex.BlockStore_inode.data 0).linkCount = 1 ∧
    exInodeLinks.length = 48 ∧
    (fs_write exStaleIndex 1 exInodeLinks).map Prod.fst = some 48 ∧
    (fs_write exStaleIndex 1 exInodeLinks).map
      (fun p => (List.range 8).map (fun k => p.2.BlockStore_whole.data 1 (40 + k))) =
        some [0, 1, 0, 0, 0, 0, 0, 0] ∧
    (fs_write exStaleIndex 1 exInodeLinks).map
      (fun p => (p.2.BlockStore_inode.data 0).linkCount) = some 1 :=
  ⟨exStaleIndex_reachable, by decide⟩

end F17

namespace F17

/-! ## A move under an open descriptor (C24) -/

/-- The image `exStaleDir` is reached by public operations. -/
theorem exStaleDir_reachable : Reachable exStaleDir :=
  Reachable.opened _ _ (Reachable.create _ _ _ _ _ (Reachable.create _ _ _ _ _
    (Reachable.remove _ _ _ _ exAWritten_reachable)))

set_option maxRecDepth 1000000 in
set_option maxHeartbeats 4000000 in
/-- C24, evaluated.  The image `exStaleDir` is reached by public operations:
`fs_format`, `fs_create("/a")`, `fs_open("/a")`, a write of one byte (block 34),
`fs_remove("/a")`, which releases block 34, closes the descriptor and returns
-7 with the inode and the entry as they were (lines 899-910),
`fs_create("/d", FS_DIRECTORY)`, which takes block 34, `fs_create("/e")` and
`fs_open("/a")`, which returns descriptor 0.  Block 34 is `directPointer[0]` of
the file `"/a"` and of the directory `"/d"`.  A read of one byte through the
descriptor returns the byte 0.  `fs_move("/e", "/d/e")` returns 0 and writes the
entry `"e"` into the block of `"/d"`; the descriptor table and the inode of
`"/a"` are as before, and the same read through the descriptor, opened before
the move, returns the byte 101.  The last two conjuncts are a second input:
`fs_move("/e", dst)` with `dst` = `"/"` and 500 letters returns 0 with the name
copied from offset 130 of the directory block on, so that bytes of it stand at
the offsets 512..629, past the 512 bytes of the block. -/
theorem fs_move_changes_open_file :
    Reachable exStaleDir ∧
    (fs_remove exAWritten [47, 97] exJunk (fun _ => 0)).1 = -7 ∧
    block_store_sub_test exStaleDir.BlockStore_fd 0 = true ∧
    exStaleDir.BlockStore_fd.data 0 = curAt 1 1 0 ∧
    block_store_sub_test exStaleDir.BlockStore_inode 1 = true ∧
    (exStaleDir.BlockStore_inode.data 1).fileType = CH_r ∧
    (exStaleDir.BlockStore_inode.data 1).fileSize = 1 ∧
    (exStaleDir.BlockStore_inode.data 1).directPointer 0 = 34 ∧
    (exStaleDir.BlockStore_inode.data 2).fileType = CH_d ∧
    (exStaleDir.BlockStore_inode.data 2).directPointer 0 = 34 ∧
    getFileInodeID exStaleDir 0 [101] = 3 ∧
    (fs_read exStaleDir 0 1).map (fun p => (p.1, p.2.1)) = some (1, [0]) ∧
    (fs_move exStaleDir [47, 101] [47, 100, 47, 101]).1 = 0 ∧
    (fs_move exStaleDir [47, 101] [47, 100, 47, 101]).2.BlockStore_fd.data 0 = curAt 1 1 0 ∧
    ((fs_move exStaleDir [47, 101] [47, 100, 47, 101]).2.BlockStore_inode.data 1).directPointer 0
      = 34 ∧
    (fs_read (fs_move exStaleDir [47, 101] [47, 100, 47, 101]).2 0 1).map
      (fun p => (p.1, p.2.1)) = some (1, [101]) ∧
    (fs_move exStaleDir [47, 101] exPath500).1 = 0 ∧
    (List.range 118).all (fun k =>
      (fs_move exStaleDir [47, 101] exPath500).2.BlockStore_whole.data 33 (512 + k) == 98) =
        true :=
  ⟨exStaleDir_reachable, by decide⟩

end F17

namespace F17

/-! ## A name longer than the directory block (C30) -/

/-- The image `exDE` is reached by `fs_format` and two calls of `fs_create`. -/
theorem exDE_reachable : Reachable exDE :=
  Reachable.create _ _ _ _ _ (Reachable.create _ _ _ _ _
    (Reachable.format exCreated [105] exFormat rfl))

end F17
